import Mathlib

/-!
# A shallow embedding of the on-disk file system engine (`LocalFileSystem.cpp`)

The engine works on a block device holding a superblock, two allocation
bitmaps, an inode table and data blocks.  The development below renders the
C++ member functions `stat`, `read`, `lookup`, `write`, `create` and `unlink`
as pure functions over an explicit disk state, loop by loop, and proves
properties of them.  It then renders the handlers `get`, `put` and `del` of the
HTTP service (`DistributedFileSystemService.cpp`), which run the engine inside
transactions of the block device, and the function `printDirectoryContents` of
the listing utility (`ds3ls.cpp`).

Conventions of the embedding.

* A block is a function from byte offsets to byte values; a disk is a function
  from block numbers to blocks.  `readBlock` and `writeBlock` are the two
  operations of the block device.
* A C `int` is an element of `ℤ`; an `unsigned int` is a natural number.
  Integers are stored in four bytes, least significant byte first.
* Local arrays are functions from indices to bytes.  A byte of a local array
  that the C code never initialises and that is nevertheless copied to the disk
  is taken from an arbitrary function `junk`, an explicit argument of the
  operation; every theorem quantifies over it.
* Accesses that are undefined behaviour in C (an index outside an array, a
  negative length) are given a fixed harmless meaning: such a read yields `0`
  (the empty string for a vector of strings) and such a write is dropped.
  Arithmetic on `int` is done in `ℤ`.
* A `std::string` is the list of its bytes.  A thrown `ClientError` is the
  `.error` of an `Except`, carrying the HTTP status.  One function `junk`
  stands for the uninitialised memory of all the calls a handler makes.
-/

namespace LocalFileSystem

/-! ## Constants and record layouts of `ufs.h` -/

/-- Modelled from the spec: `ufs.h` is not among the sources.  The block size
is the `BLOCK_SIZE=4096` of the spec's scenarios. -/
abbrev UFS_BLOCK_SIZE : Nat := 4096

/-- Modelled from the spec: `ufs.h` is not among the sources.  The number of
direct pointers is the `DIRECT_PTRS=30` of the spec's scenarios. -/
abbrev DIRECT_PTRS : Nat := 30

/-- Modelled from the spec: `MAX_FILE_SIZE` is `DIRECT_PTRS * BLOCK_SIZE`. -/
abbrev MAX_FILE_SIZE : Nat := DIRECT_PTRS * UFS_BLOCK_SIZE

/-- Modelled from the spec: `ufs.h` is not among the sources.  The name field
of a directory entry (the spec's `NAME_MAX`) has 28 bytes, which together with
the 4-byte inode number gives the 32-byte `dir_ent_t`. -/
abbrev DIR_ENT_NAME_SIZE : Nat := 28

/-- Size in bytes of `dir_ent_t`: a 28-byte name followed by an `int`. -/
abbrev SIZEOF_DIR_ENT : Nat := DIR_ENT_NAME_SIZE + 4

/-- Size in bytes of `inode_t`: two `int`s followed by `DIRECT_PTRS` unsigned
integers. -/
abbrev SIZEOF_INODE : Nat := 8 + 4 * DIRECT_PTRS

/-- Inode type tag of a directory. -/
abbrev UFS_DIRECTORY : Int := 0

/-- Inode type tag of a regular file. -/
abbrev UFS_REGULAR_FILE : Int := 1

/-! Error codes, as listed at the top of `LocalFileSystem.cpp`. -/

abbrev ENOTENOUGHSPACE : Int := 1
abbrev EDIRNOTEMPTY : Int := 2
abbrev EINVALIDINODE : Int := 3
abbrev ENOTALLOCATED : Int := 4
abbrev EINVALIDSIZE : Int := 5
abbrev EWRITETODIR : Int := 6
abbrev ENOTFOUND : Int := 7
abbrev EINVALIDNAME : Int := 8
abbrev EINVALIDTYPE : Int := 9
abbrev EUNLINKNOTALLOWED : Int := 10

/-! ## Bytes, integers and memory -/

/-- A run of memory: byte values indexed by offset. -/
abbrev Bytes := Nat → Nat

/-- Byte number `k` (least significant first) of the natural number `v`. -/
def byteAt (v k : Nat) : Nat := v / 256 ^ k % 256

/-- The `unsigned int` stored at offset `off`, least significant byte first. -/
def getU32 (m : Bytes) (off : Nat) : Nat :=
  m off % 256 + 256 * (m (off + 1) % 256) + 65536 * (m (off + 2) % 256)
    + 16777216 * (m (off + 3) % 256)

/-- Conversion of an `unsigned int` to `int` (two's complement). -/
def toS32 (u : Nat) : Int :=
  if u < 2147483648 then (u : Int) else (u : Int) - 4294967296

/-- Conversion of an `int` to `unsigned int`. -/
def toU32 (z : Int) : Nat := (z % 4294967296).toNat

/-- The `int` stored at offset `off`. -/
def getS32 (m : Bytes) (off : Nat) : Int := toS32 (getU32 m off)

/-- Stores the four bytes of the `unsigned int` `v` at offset `off`. -/
def putU32 (m : Bytes) (off v : Nat) : Bytes :=
  fun j => if off ≤ j ∧ j < off + 4 then byteAt v (j - off) else m j

/-- The C `memcpy(dst + dOff, src + sOff, n)`. -/
def memcpy (dst : Bytes) (dOff : Nat) (src : Bytes) (sOff n : Nat) : Bytes :=
  fun j => if dOff ≤ j ∧ j < dOff + n then src (sOff + (j - dOff)) else dst j

/-- The C `memset(dst + off, 0, n)`. -/
def memsetZero (dst : Bytes) (off n : Nat) : Bytes :=
  fun j => if off ≤ j ∧ j < off + n then 0 else dst j

/-- The loop `for (i = start; i < start + n; i++) s = body i s`.  A `break`
is rendered by a body that leaves the state alone once a flag is set. -/
def forLoop {σ : Type} (body : Nat → σ → σ) : Nat → Nat → σ → σ
  | 0, _, s => s
  | n + 1, i, s => forLoop body n (i + 1) (body i s)

/-- Bit `i % 8` of byte `i / 8` of a bitmap, tested as the C code does with
`(bitmap[i / 8] >> (i % 8)) & 1`. -/
def bitOf (bitmap : Bytes) (i : Nat) : Nat := (bitmap (i / 8) >>> (i % 8)) &&& 1

/-- The C update `bitmap[i / 8] |= 1 << (i % 8)`. -/
def setBit (bitmap : Bytes) (i : Nat) : Bytes :=
  Function.update bitmap (i / 8) (bitmap (i / 8) ||| (1 <<< (i % 8)))

/-- The C update `bitmap[i / 8] &= ~(1 << (i % 8))` on an `unsigned char`. -/
def clearBit (bitmap : Bytes) (i : Nat) : Bytes :=
  Function.update bitmap (i / 8) (bitmap (i / 8) &&& (255 ^^^ (1 <<< (i % 8))))

/-! ## The block device -/

/-- A block: `UFS_BLOCK_SIZE` bytes (offsets past the block size are never
used). -/
abbrev Block := Bytes

/-- Modelled from the spec: the class `Disk` is not among the sources.  The
block device is a random-access store of blocks indexed by block number. -/
abbrev Disk := Int → Block

/-- Modelled from the spec: `read_block(addr)` yields the block last written at
`addr`. -/
def readBlock (d : Disk) (addr : Int) : Block := d addr

/-- Modelled from the spec: `write_block(addr, buf)` replaces the
`UFS_BLOCK_SIZE` bytes of block `addr` by those of `buf`. -/
def writeBlock (d : Disk) (addr : Int) (buf : Bytes) : Disk :=
  Function.update d addr (fun o => if o < UFS_BLOCK_SIZE then buf o else d addr o)

/-! ## Superblock, bitmaps and inode table -/

/-- The superblock record `super_t` of `ufs.h`: ten `int`s. -/
structure super_t where
  inode_bitmap_addr : Int
  inode_bitmap_len : Int
  data_bitmap_addr : Int
  data_bitmap_len : Int
  inode_region_addr : Int
  inode_region_len : Int
  data_region_addr : Int
  data_region_len : Int
  num_inodes : Int
  num_data : Int

/-- The inode record `inode_t` of `ufs.h`. -/
@[ext]
structure inode_t where
  type : Int
  size : Int
  direct : Nat → Nat

/-- `LocalFileSystem::readSuperBlock`: block 0 reinterpreted as a `super_t`. -/
def readSuperBlock (d : Disk) : super_t :=
  let buffer := readBlock d 0
  { inode_bitmap_addr := getS32 buffer 0
    inode_bitmap_len := getS32 buffer 4
    data_bitmap_addr := getS32 buffer 8
    data_bitmap_len := getS32 buffer 12
    inode_region_addr := getS32 buffer 16
    inode_region_len := getS32 buffer 20
    data_region_addr := getS32 buffer 24
    data_region_len := getS32 buffer 28
    num_inodes := getS32 buffer 32
    num_data := getS32 buffer 36 }

/-- The loop shared by `readInodeBitmap` and `readDataBitmap`: block `addr + i`
is copied to offset `i * UFS_BLOCK_SIZE` of the local array, for `i < len`. -/
def readBitmap (d : Disk) (addr len : Int) : Bytes :=
  forLoop (fun i bitmap =>
      memcpy bitmap (i * UFS_BLOCK_SIZE) (readBlock d (addr + i)) 0 UFS_BLOCK_SIZE)
    len.toNat 0 (fun _ => 0)

/-- The loop shared by `writeInodeBitmap` and `writeDataBitmap`. -/
def writeBitmap (d : Disk) (addr len : Int) (bitmap : Bytes) : Disk :=
  forLoop (fun i dk =>
      writeBlock dk (addr + i) (memcpy (fun _ => 0) 0 bitmap (i * UFS_BLOCK_SIZE) UFS_BLOCK_SIZE))
    len.toNat 0 d

/-- `LocalFileSystem::readInodeBitmap`. -/
def readInodeBitmap (d : Disk) (super : super_t) : Bytes :=
  readBitmap d super.inode_bitmap_addr super.inode_bitmap_len

/-- `LocalFileSystem::writeInodeBitmap`. -/
def writeInodeBitmap (d : Disk) (super : super_t) (inodeBitmap : Bytes) : Disk :=
  writeBitmap d super.inode_bitmap_addr super.inode_bitmap_len inodeBitmap

/-- `LocalFileSystem::readDataBitmap`. -/
def readDataBitmap (d : Disk) (super : super_t) : Bytes :=
  readBitmap d super.data_bitmap_addr super.data_bitmap_len

/-- `LocalFileSystem::writeDataBitmap`. -/
def writeDataBitmap (d : Disk) (super : super_t) (dataBitmap : Bytes) : Disk :=
  writeBitmap d super.data_bitmap_addr super.data_bitmap_len dataBitmap

/-- `LocalFileSystem::readInodeRegion`: the loop reads block `i` of the region
to offset `readSize` of a buffer of `num_inodes * sizeof(inode_t)` bytes and
advances `readSize` by `min(UFS_BLOCK_SIZE, inodeRegionSize - readSize)`; the
first `inodeRegionSize` bytes of the buffer are the result.  The state of the
loop is the pair of the buffer and `readSize`. -/
def readInodeRegion (d : Disk) (super : super_t) : Bytes :=
  let inodeRegionSize : Int := super.num_inodes * SIZEOF_INODE
  let st := forLoop (fun i (st : Bytes × Int) =>
      let blockSize := min (UFS_BLOCK_SIZE : Int) (inodeRegionSize - st.2)
      (memcpy st.1 st.2.toNat (readBlock d (super.inode_region_addr + i)) 0 UFS_BLOCK_SIZE,
        st.2 + blockSize))
    super.inode_region_len.toNat 0 ((fun _ => 0), 0)
  fun j => if (j : Int) < inodeRegionSize then st.1 j else 0

/-- `LocalFileSystem::writeInodeRegion`: block `i` of the region receives the
`UFS_BLOCK_SIZE` bytes found at offset `writtenSize` of a buffer holding the
inode array; bytes past the end of that buffer are indeterminate (`junk`). -/
def writeInodeRegion (d : Disk) (junk : Bytes) (super : super_t) (inodes : Bytes) : Disk :=
  let inodeRegionSize : Int := super.num_inodes * SIZEOF_INODE
  let buffer : Bytes := fun j => if (j : Int) < inodeRegionSize then inodes j else junk j
  let st := forLoop (fun i (st : Disk × Int) =>
      let blockSize := min (UFS_BLOCK_SIZE : Int) (inodeRegionSize - st.2)
      (writeBlock st.1 (super.inode_region_addr + i)
          (memcpy (fun _ => 0) 0 buffer st.2.toNat UFS_BLOCK_SIZE),
        st.2 + blockSize))
    super.inode_region_len.toNat 0 (d, 0)
  st.1

/-- The inode record held in slot `i` of an inode array (a `memcpy` out of
`inodes[i]`). -/
def inodeAt (inodes : Bytes) (i : Nat) : inode_t :=
  { type := getS32 inodes (SIZEOF_INODE * i)
    size := getS32 inodes (SIZEOF_INODE * i + 4)
    direct := fun k =>
      if k < DIRECT_PTRS then getU32 inodes (SIZEOF_INODE * i + 8 + 4 * k) else 0 }

/-- The bytes of an inode record, as laid out in memory. -/
def inodeBytes (inode : inode_t) : Bytes :=
  fun r =>
    if r < 4 then byteAt (toU32 inode.type) r
    else if r < 8 then byteAt (toU32 inode.size) (r - 4)
    else byteAt (inode.direct ((r - 8) / 4)) ((r - 8) % 4)

/-- Stores an inode record into slot `i` of an inode array (a `memcpy` into
`inodes[i]`). -/
def putInode (inodes : Bytes) (i : Nat) (inode : inode_t) : Bytes :=
  memcpy inodes (SIZEOF_INODE * i) (inodeBytes inode) 0 SIZEOF_INODE

/-! ## Read-side operations -/

/-- `LocalFileSystem::stat`.  The result is the error code, or the inode record
copied to the caller (return value 0). -/
def stat (d : Disk) (inodeNumber : Int) : Except Int inode_t :=
  let super := readSuperBlock d
  if inodeNumber < 0 ∨ inodeNumber ≥ super.num_inodes then .error (-EINVALIDINODE)
  else
    let inodeBitmap := readInodeBitmap d super
    if bitOf inodeBitmap inodeNumber.toNat = 0 then .error (-EINVALIDINODE)
    else
      let inodes := readInodeRegion d super
      .ok (inodeAt inodes inodeNumber.toNat)

/-- State of the copy loop of `read`: the caller's buffer, `bytesToRead` and
`bytesRead`. -/
structure ReadState where
  buffer : Bytes
  bytesToRead : Int
  bytesRead : Int

/-- One iteration of the copy loop of `read`; the loop condition
`bytesToRead > 0` is tested first. -/
def readStep (d : Disk) (inode : inode_t) (i : Nat) (st : ReadState) : ReadState :=
  if st.bytesToRead > 0 then
    let readBytes := min st.bytesToRead (UFS_BLOCK_SIZE : Int)
    let readBuffer := readBlock d (toS32 (inode.direct i))
    { buffer := memcpy st.buffer st.bytesRead.toNat readBuffer 0 readBytes.toNat
      bytesToRead := st.bytesToRead - readBytes
      bytesRead := st.bytesRead + readBytes }
  else st

/-- The copy loop of `read`, run from `i = 0`.  The C loop has no bound other
than `bytesToRead > 0`; `DIRECT_PTRS` iterations are allowed here, and
`readLoop_done` shows that the loop condition is false after them. -/
def readLoop (d : Disk) (inode : inode_t) (buffer : Bytes) (size : Int) : ReadState :=
  forLoop (readStep d inode) DIRECT_PTRS 0
    { buffer := buffer, bytesToRead := size, bytesRead := 0 }

/-- `LocalFileSystem::read`.  The result is the return value and the contents
of the caller's buffer after the call. -/
def read (d : Disk) (inodeNumber : Int) (buffer : Bytes) (size : Int) : Int × Bytes :=
  if size < 0 ∨ size > MAX_FILE_SIZE then (-EINVALIDSIZE, buffer)
  else
    match stat d inodeNumber with
    | .error e => (e, buffer)
    | .ok inode =>
      let size := min size inode.size
      (size, (readLoop d inode buffer size).buffer)

/-- The C string held by a `std::string`: its bytes up to the first NUL
(`name.c_str()` read as a C string). -/
def cstr (name : List Nat) : List Nat := name.takeWhile (fun c => c ≠ 0)

/-- The comparison `strcmp(m + off, s) == 0` for a NUL-free `s`: the bytes at
`off` are those of `s` followed by a NUL. -/
def strcmpEq (m : Bytes) (off : Nat) : List Nat → Bool
  | [] => m off == 0
  | c :: cs => m off == c && strcmpEq m (off + 1) cs

/-- Conversion of an `int` to `unsigned long` (64 bits). -/
def toU64 (z : Int) : Nat := (z % 18446744073709551616).toNat

/-- One iteration of the search loop of `lookup`: entry `i` of the buffer is
compared with the name; `some r` records the `return r` already taken. -/
def lookupStep (buffer : Bytes) (name : List Nat) (i : Nat) (found : Option Int) : Option Int :=
  match found with
  | some r => some r
  | none =>
    if strcmpEq buffer (i * SIZEOF_DIR_ENT) (cstr name) then
      some (getS32 buffer (i * SIZEOF_DIR_ENT + DIR_ENT_NAME_SIZE))
    else none

/-- `LocalFileSystem::lookup`.  The local `buffer` is uninitialised (`junk`)
before `read` fills it. -/
def lookup (d : Disk) (junk : Bytes) (parentInodeNumber : Int) (name : List Nat) : Int :=
  match stat d parentInodeNumber with
  | .error e => e
  | .ok parent =>
    if parent.type ≠ UFS_DIRECTORY then -EINVALIDINODE
    else if name.length ≤ 0 ∨ name.length ≥ DIR_ENT_NAME_SIZE then -EINVALIDNAME
    else
      let buffer := (read d parentInodeNumber junk parent.size).2
      match forLoop (lookupStep buffer name) (toU64 parent.size / SIZEOF_DIR_ENT) 0 none with
      | some r => r
      | none => -ENOTFOUND

/-! ## Write-side operations -/

/-- The C update `bitmap[n / 8] &= ~(1 << (n % 8))` for an `int` index `n`;
a negative index is outside the array and the store is dropped. -/
def clearBitAt (bitmap : Bytes) (n : Int) : Bytes :=
  if 0 ≤ n then clearBit bitmap n.toNat else bitmap

/-- One iteration of the loop of `write` and `unlink` that releases the blocks
of an inode: a non-zero `direct[i]` has its data-bitmap bit cleared and is set
to 0.  The state is the data bitmap and the inode. -/
def releaseStep (super : super_t) (i : Nat) (st : Bytes × inode_t) : Bytes × inode_t :=
  if st.2.direct i ≠ 0 then
    let dataBlockNumber : Int := toS32 (toU32 ((st.2.direct i : Int) - super.data_region_addr))
    (clearBitAt st.1 dataBlockNumber,
      { st.2 with direct := Function.update st.2.direct i 0 })
  else st

/-- One iteration of the loop of `write` that collects free data blocks; the
state is `availableBlocks` and `blocksNeeded`, and the loop condition
`blocksNeeded > 0` is tested first. -/
def writeScanStep (dataBitmap : Bytes) (i : Nat) (st : List Nat × Int) : List Nat × Int :=
  if st.2 > 0 then
    if bitOf dataBitmap i = 0 then (st.1 ++ [i], st.2 - 1) else st
  else st

/-- State of the loop of `write` that stores the data. -/
structure WriteState where
  disk : Disk
  inode : inode_t
  dataBitmap : Bytes
  blockBuffer : Bytes
  bytesToWrite : Int
  bytesWritten : Int

/-- One iteration of the loop of `write` that stores the data. -/
def writeStep (super : super_t) (buffer : Bytes) (availableBlocks : List Nat) (i : Nat)
    (st : WriteState) : WriteState :=
  let writeBytes := min st.bytesToWrite (UFS_BLOCK_SIZE : Int)
  let blockBuffer := memcpy st.blockBuffer 0 buffer (i * UFS_BLOCK_SIZE) writeBytes.toNat
  let block := availableBlocks.getD i 0
  let inode : inode_t :=
    { st.inode with
      direct := Function.update st.inode.direct i (toU32 ((block : Int) + super.data_region_addr)) }
  { disk := writeBlock st.disk (toS32 (inode.direct i)) blockBuffer
    inode := inode
    dataBitmap := setBit st.dataBitmap block
    blockBuffer := blockBuffer
    bytesToWrite := st.bytesToWrite - writeBytes
    bytesWritten := st.bytesWritten + writeBytes }

/-- The number of blocks `write` computes for `size` bytes,
`(size / UFS_BLOCK_SIZE) + (size % UFS_BLOCK_SIZE ? 1 : 0)`.  It is evaluated
after the size check, for a `size` that is not negative, where `/` and `%` are
those of C. -/
def blocksNeededFor (size : Int) : Int :=
  size / UFS_BLOCK_SIZE + (if size % UFS_BLOCK_SIZE ≠ 0 then 1 else 0)

/-- The part of `write` that follows the last error return: the blocks of the
inode are released in the loaded bitmap, the data is stored in the blocks
found by the scan, the data bitmap is written back and the block of the inode
table holding the inode is read, updated and written back. -/
def writeCommit (d : Disk) (junk : Bytes) (super : super_t) (inode : inode_t)
    (inodeNumber : Int) (buffer : Bytes) (size : Int) (dataBitmap : Bytes)
    (availableBlocks : List Nat) : Int × Disk :=
  let rel := forLoop (releaseStep super) DIRECT_PTRS 0 (dataBitmap, inode)
  let st := forLoop (writeStep super buffer availableBlocks) availableBlocks.length 0
    { disk := d, inode := rel.2, dataBitmap := rel.1, blockBuffer := junk,
      bytesToWrite := size, bytesWritten := 0 }
  let inode : inode_t := { st.inode with size := size }
  let d1 := writeDataBitmap st.disk super st.dataBitmap
  -- `numInodes = UFS_BLOCK_SIZE / sizeof(inode_t)`; `inodeNumber` is not negative here
  let numInodes : Int := (UFS_BLOCK_SIZE / SIZEOF_INODE : Nat)
  let inodeBlockNumber := inodeNumber / numInodes
  let inodeBlockOffset := inodeNumber % numInodes
  let blockBuffer := readBlock d1 (super.inode_region_addr + inodeBlockNumber)
  let blockBuffer :=
    memcpy blockBuffer (inodeBlockOffset.toNat * SIZEOF_INODE) (inodeBytes inode) 0 SIZEOF_INODE
  (st.bytesWritten, writeBlock d1 (super.inode_region_addr + inodeBlockNumber) blockBuffer)

/-- `LocalFileSystem::write`.  The local `blockBuffer` is uninitialised
(`junk`).  The result is the return value and the disk after the call. -/
def write (d : Disk) (junk : Bytes) (inodeNumber : Int) (buffer : Bytes) (size : Int) :
    Int × Disk :=
  let super := readSuperBlock d
  match stat d inodeNumber with
  | .error e => (e, d)
  | .ok inode =>
    if size < 0 ∨ size > MAX_FILE_SIZE then (-EINVALIDSIZE, d)
    else if inode.type ≠ UFS_REGULAR_FILE then (-EWRITETODIR, d)
    else
      let dataBitmap := readDataBitmap d super
      let scan := forLoop (writeScanStep dataBitmap) super.num_data.toNat 0
        ([], blocksNeededFor size)
      if scan.2 > 0 then (-ENOTENOUGHSPACE, d)
      else writeCommit d junk super inode inodeNumber buffer size dataBitmap scan.1

/-- The test `(bitmap[i / 8] & (1 << (i % 8)))` of the data-block scan of
`create`. -/
def maskOf (bitmap : Bytes) (i : Nat) : Nat := bitmap (i / 8) &&& (1 <<< (i % 8))

/-- One iteration of the loop of `create` that looks for a free inode; the
state is `inodeNumber`, which is `-1` until the `break`. -/
def inodeScanStep (inodeBitmap : Bytes) (i : Nat) (inodeNumber : Int) : Int :=
  if inodeNumber ≠ -1 then inodeNumber
  else if bitOf inodeBitmap i = 0 then (i : Int) else inodeNumber

/-- One iteration of the loop of `create` that collects free data blocks; the
loop condition `availableBlocks.size() < blocksNeeded` is tested first. -/
def createScanStep (dataBitmap : Bytes) (blocksNeeded : Int) (i : Nat)
    (availableBlocks : List Nat) : List Nat :=
  if (availableBlocks.length : Int) < blocksNeeded then
    if maskOf dataBitmap i = 0 then availableBlocks ++ [i] else availableBlocks
  else availableBlocks

/-- The C `strcpy(dst + off, s)` for a NUL-free `s`: the bytes of `s` and a
terminating NUL. -/
def strcpy (dst : Bytes) (off : Nat) (s : List Nat) : Bytes :=
  fun j =>
    if off ≤ j ∧ j < off + s.length then s.getD (j - off) 0
    else if j = off + s.length then 0
    else dst j

/-- The bytes of a `dir_ent_t` whose name field holds the C string `s`, padded
with NULs (an aggregate initialiser), and whose `inum` is `inum`. -/
def dirEntBytes (s : List Nat) (inum : Int) : Bytes :=
  putU32 (strcpy (fun _ => 0) 0 s) DIR_ENT_NAME_SIZE (toU32 inum)

/-- The element `direct[k]` for an `int` index `k`; an index outside the array
reads as 0. -/
def directAt (inode : inode_t) (k : Int) : Nat :=
  if 0 ≤ k ∧ k < DIRECT_PTRS then inode.direct k.toNat else 0

/-- The store `direct[k] = v` for an `int` index `k`; a store outside the array
is dropped. -/
def setDirectAt (inode : inode_t) (k : Int) (v : Nat) : inode_t :=
  if 0 ≤ k ∧ k < DIRECT_PTRS then
    { inode with direct := Function.update inode.direct k.toNat v }
  else inode

/-- The parent inode after the step of `create` that gives it a new block:
when the offset of the new entry in its block is 0, the first block found by
the scan is recorded in `direct[parentBlockNumber]`. -/
def createParent (super : super_t) (parent : inode_t) (availableBlocks : List Nat) : inode_t :=
  let parentBlockNumber := Int.tdiv parent.size UFS_BLOCK_SIZE
  let parentBlockOffset := Int.tmod parent.size UFS_BLOCK_SIZE
  if parentBlockOffset = 0 then
    setDirectAt parent parentBlockNumber
      (toU32 ((availableBlocks.getD 0 0 : Int) + super.data_region_addr))
  else parent

/-- The new inode that `create` sets up: the requested type, the size of two
entries for a directory and 0 otherwise, all direct pointers 0 except
`direct[0]` of a directory, which is the last block found by the scan. -/
def createInode (super : super_t) (type : Int) (availableBlocks : List Nat) : inode_t :=
  let inode : inode_t :=
    { type := type
      size := if type = UFS_DIRECTORY then 2 * SIZEOF_DIR_ENT else 0
      direct := fun _ => 0 }
  if type = UFS_DIRECTORY then
    { inode with
      direct := Function.update inode.direct 0
        (toU32 ((availableBlocks.getLastD 0 : Int) + super.data_region_addr)) }
  else inode

/-- The entry `newEntry` of `create`: the inode number is stored first, then
`strcpy` stores the name and its terminating NUL; the other bytes of the name
field are uninitialised. -/
def createEntry (junk : Bytes) (inodeNumber : Int) (name : List Nat) : Bytes :=
  strcpy (putU32 junk DIR_ENT_NAME_SIZE (toU32 inodeNumber)) 0 (cstr name)

/-- The part of `create` that follows the last error return: the new inode
and, for a directory, its block are set up, the entry is appended to the block
of the parent, and the bitmaps and the inode region are written back. -/
def createCommit (d : Disk) (junk : Bytes) (super : super_t) (parentInodeNumber : Int)
    (type : Int) (name : List Nat) (parent : inode_t) (inodeBitmap : Bytes) (inodeNumber : Int)
    (dataBitmap : Bytes) (availableBlocks : List Nat) : Int × Disk :=
  let parentBlockNumber := Int.tdiv parent.size UFS_BLOCK_SIZE
  let parentBlockOffset := Int.tmod parent.size UFS_BLOCK_SIZE
  let parent := createParent super parent availableBlocks
  let inode := createInode super type availableBlocks
  let d1 :=
    if type = UFS_DIRECTORY then
      let entries :=
        memcpy (dirEntBytes [46] inodeNumber) SIZEOF_DIR_ENT
          (dirEntBytes [46, 46] parentInodeNumber) 0 SIZEOF_DIR_ENT
      let blockBuffer :=
        memcpy (memsetZero junk 0 UFS_BLOCK_SIZE) 0 entries 0 inode.size.toNat
      writeBlock d (toS32 (inode.direct 0)) blockBuffer
    else d
  let dataBitmap := availableBlocks.foldl setBit dataBitmap
  let inodeBitmap := setBit inodeBitmap inodeNumber.toNat
  let newEntry := createEntry junk inodeNumber name
  let parentBlock := toS32 (directAt parent parentBlockNumber)
  let blockBuffer := readBlock d1 parentBlock
  let blockBuffer := memcpy blockBuffer parentBlockOffset.toNat newEntry 0 SIZEOF_DIR_ENT
  let d2 := writeBlock d1 parentBlock blockBuffer
  let d3 := writeInodeBitmap d2 super inodeBitmap
  let d4 := writeDataBitmap d3 super dataBitmap
  let parent : inode_t := { parent with size := parent.size + SIZEOF_DIR_ENT }
  let inodes := readInodeRegion d4 super
  let inodes := putInode inodes parentInodeNumber.toNat parent
  let inodes := putInode inodes inodeNumber.toNat inode
  (inodeNumber, writeInodeRegion d4 junk super inodes)

/-- The part of `create` that allocates: it is reached when `lookup` has
answered `ENOTFOUND`. -/
def createFresh (d : Disk) (junk : Bytes) (super : super_t) (parentInodeNumber : Int)
    (type : Int) (name : List Nat) (parent : inode_t) : Int × Disk :=
  let inodeBitmap := readInodeBitmap d super
  let inodeNumber := forLoop (inodeScanStep inodeBitmap) super.num_inodes.toNat 0 (-1)
  if inodeNumber = -1 then (-ENOTENOUGHSPACE, d)
  else
    let blocksNeeded : Int := if type = UFS_DIRECTORY then 1 else 0
    let parentBlockOffset := Int.tmod parent.size UFS_BLOCK_SIZE
    let blocksNeeded := blocksNeeded + (if parentBlockOffset = 0 then 1 else 0)
    if parentBlockOffset = 0 ∧ parent.size + UFS_BLOCK_SIZE > MAX_FILE_SIZE then
      (-ENOTENOUGHSPACE, d)
    else
      let dataBitmap := readDataBitmap d super
      let availableBlocks :=
        forLoop (createScanStep dataBitmap blocksNeeded) super.num_data.toNat 0 []
      if (availableBlocks.length : Int) < blocksNeeded then (-ENOTENOUGHSPACE, d)
      else
        createCommit d junk super parentInodeNumber type name parent inodeBitmap inodeNumber
          dataBitmap availableBlocks

/-- `LocalFileSystem::create`.  Uninitialised bytes (the tail of the name field
of `newEntry`, the bytes past the inode array) come from `junk`.  The result
is the return value and the disk after the call. -/
def create (d : Disk) (junk : Bytes) (parentInodeNumber : Int) (type : Int)
    (name : List Nat) : Int × Disk :=
  let super := readSuperBlock d
  if name.length > DIR_ENT_NAME_SIZE ∨ name.length = 0 then (-EINVALIDNAME, d)
  else
    match stat d parentInodeNumber with
    | .error _ => (-EINVALIDINODE, d)
    | .ok parent =>
      if parent.type ≠ UFS_DIRECTORY then (-EINVALIDINODE, d)
      else
        let found := lookup d junk parentInodeNumber name
        if found ≠ -ENOTFOUND then
          match stat d found with
          | .error _ => (-EINVALIDINODE, d)
          | .ok inode => (if inode.type = type then found else -EINVALIDTYPE, d)
        else createFresh d junk super parentInodeNumber type name parent

/-- The comparison `entries[j].name == name` of `unlink` between a character
array and a `std::string`: the C string at `off` has the length of `name` and
the same bytes, which a `name` holding a NUL byte never satisfies. -/
def stringEq (m : Bytes) (off : Nat) (name : List Nat) : Bool :=
  name.all (fun c => c ≠ 0) && strcmpEq m off name

/-- One iteration of the inner loop of `unlink` that looks for the entry in a
block of the parent; the state is `position` (`-1` until the `break`) and the
block buffer.  `i` is the index of the block, `j` the index of the entry. -/
def unlinkFindStep (name : List Nat) (i j : Nat) (st : Int × Bytes) : Int × Bytes :=
  if st.1 ≠ -1 then st
  else if getS32 st.2 (j * SIZEOF_DIR_ENT + DIR_ENT_NAME_SIZE) ≥ 0
      ∧ stringEq st.2 (j * SIZEOF_DIR_ENT) name = true then
    let numEntries : Nat := UFS_BLOCK_SIZE / SIZEOF_DIR_ENT
    (((i * numEntries + j : Nat) : Int),
      memsetZero (putU32 st.2 (j * SIZEOF_DIR_ENT + DIR_ENT_NAME_SIZE) (toU32 (-1)))
        (j * SIZEOF_DIR_ENT) DIR_ENT_NAME_SIZE)
  else st

/-- One iteration of the outer loop of `unlink` over the direct pointers of the
parent; the state is `position` and the disk. -/
def unlinkBlockStep (parent : inode_t) (name : List Nat) (i : Nat) (st : Int × Disk) :
    Int × Disk :=
  if st.1 ≠ -1 then st
  else if parent.direct i ≠ 0 then
    let blockBuffer := readBlock st.2 (toS32 (parent.direct i))
    let r := forLoop (unlinkFindStep name i) (UFS_BLOCK_SIZE / SIZEOF_DIR_ENT) 0
      (st.1, blockBuffer)
    if r.1 ≠ -1 then (r.1, writeBlock st.2 (toS32 (parent.direct i)) r.2) else (r.1, st.2)
  else st

/-- One iteration of the loop of `unlink` that shifts the entries after the
removed one.  The block of the next entry is read first when it differs from
the current block, but the buffer is then overwritten by the current block, so
both entries are taken from the current block. -/
def unlinkShiftStep (parent : inode_t) (i : Nat) (d : Disk) : Disk :=
  let numEntries : Nat := UFS_BLOCK_SIZE / SIZEOF_DIR_ENT
  let currBlockNumber := i / numEntries
  let currBlockOffset := i % numEntries
  let nextBlockNumber := (i + 1) / numEntries
  let nextBlockOffset := (i + 1) % numEntries
  let blockBuffer : Bytes :=
    if currBlockNumber ≠ nextBlockNumber then readBlock d (toS32 (parent.direct nextBlockNumber))
    else fun _ => 0
  let blockBuffer := memcpy blockBuffer 0 (readBlock d (toS32 (parent.direct currBlockNumber))) 0
    UFS_BLOCK_SIZE
  let blockBuffer :=
    memcpy blockBuffer (currBlockOffset * SIZEOF_DIR_ENT) blockBuffer
      (nextBlockOffset * SIZEOF_DIR_ENT) SIZEOF_DIR_ENT
  writeBlock d (toS32 (parent.direct currBlockNumber)) blockBuffer

/-- The part of `unlink` that follows the check for a non-empty directory. -/
def unlinkCommit (d : Disk) (junk : Bytes) (super : super_t) (parentInodeNumber : Int)
    (name : List Nat) (parent : inode_t) (inodeNumber : Int) (inode : inode_t) : Int × Disk :=
  let inodeBitmap := readInodeBitmap d super
  let dataBitmap := readDataBitmap d super
  let rel := forLoop (releaseStep super) DIRECT_PTRS 0 (dataBitmap, inode)
  let dataBitmap := rel.1
  let inodeBitmap := clearBitAt inodeBitmap inodeNumber
  let fnd := forLoop (unlinkBlockStep parent name) DIRECT_PTRS 0 (-1, d)
  let position := fnd.1
  if position = -1 then (-ENOTFOUND, fnd.2)
  else
    -- the bound `(parent.size / sizeof(dir_ent_t)) - 1` in `unsigned long`
    let bound : Nat :=
      (toU64 parent.size / SIZEOF_DIR_ENT + 18446744073709551615) % 18446744073709551616
    let d1 := forLoop (unlinkShiftStep parent) (bound - position.toNat) position.toNat fnd.2
    let parent : inode_t := { parent with size := parent.size - SIZEOF_DIR_ENT }
    let inodes := readInodeRegion d1 super
    let inodes := memsetZero inodes (SIZEOF_INODE * inodeNumber.toNat) SIZEOF_INODE
    let d2 := writeInodeRegion d1 junk super inodes
    let d3 := writeInodeBitmap d2 super inodeBitmap
    let d4 := writeDataBitmap d3 super dataBitmap
    let inodes := putInode inodes parentInodeNumber.toNat parent
    (0, writeInodeRegion d4 junk super inodes)

/-- `LocalFileSystem::unlink`.  The result is the return value and the disk
after the call. -/
def unlink (d : Disk) (junk : Bytes) (parentInodeNumber : Int) (name : List Nat) :
    Int × Disk :=
  if name.length ≤ 0 ∨ name.length ≥ DIR_ENT_NAME_SIZE - 1 then (-EINVALIDNAME, d)
  else if name = [46] ∨ name = [46, 46] then (-EUNLINKNOTALLOWED, d)
  else
    let super := readSuperBlock d
    match stat d parentInodeNumber with
    | .error _ => (-EINVALIDINODE, d)
    | .ok parent =>
      if parent.type ≠ UFS_DIRECTORY then (-EINVALIDTYPE, d)
      else
        let inodeNumber := lookup d junk parentInodeNumber name
        if inodeNumber = -ENOTFOUND then (0, d)
        else
          match stat d inodeNumber with
          | .error _ => (-EINVALIDINODE, d)
          | .ok inode =>
            if inode.type = UFS_DIRECTORY ∧ toU64 inode.size > 2 * SIZEOF_DIR_ENT then
              (-EDIRNOTEMPTY, d)
            else unlinkCommit d junk super parentInodeNumber name parent inodeNumber inode

/-! ## Well-formed images and the notions the specification speaks of -/

/-- The layout the superblock must describe: block 0 is the superblock, followed
by the inode bitmap, the data bitmap, the inode region and the data region in
this order; the bitmaps hold a bit for every inode and every data block, the
inode region holds `num_inodes` records, and block numbers fit in an `int`. -/
structure LayoutOk (s : super_t) : Prop where
  inode_bitmap_pos : 0 < s.inode_bitmap_addr
  inode_bitmap_len_nonneg : 0 ≤ s.inode_bitmap_len
  data_bitmap_after : s.inode_bitmap_addr + s.inode_bitmap_len ≤ s.data_bitmap_addr
  data_bitmap_len_nonneg : 0 ≤ s.data_bitmap_len
  inode_region_after : s.data_bitmap_addr + s.data_bitmap_len ≤ s.inode_region_addr
  inode_region_len_nonneg : 0 ≤ s.inode_region_len
  data_region_after : s.inode_region_addr + s.inode_region_len ≤ s.data_region_addr
  num_inodes_nonneg : 0 ≤ s.num_inodes
  num_data_nonneg : 0 ≤ s.num_data
  inode_bits : s.num_inodes ≤ 8 * UFS_BLOCK_SIZE * s.inode_bitmap_len
  data_bits : s.num_data ≤ 8 * UFS_BLOCK_SIZE * s.data_bitmap_len
  inode_slots : s.num_inodes * SIZEOF_INODE ≤ UFS_BLOCK_SIZE * s.inode_region_len
  data_region_end : s.data_region_addr + s.num_data ≤ 2147483648

/-- Bit `i` of the bitmap stored in the run of blocks that starts at block
`addr`: byte `i / 8` of the run, bit `i % 8` of that byte, least significant
bit first. -/
def bitmapBit (d : Disk) (addr : Int) (i : Nat) : Bool :=
  Nat.testBit (d (addr + ((i / 8 / UFS_BLOCK_SIZE : Nat) : Int)) (i / 8 % UFS_BLOCK_SIZE)) (i % 8)

/-- Bit `i` of the inode bitmap of the image. -/
def inodeBit (d : Disk) (i : Nat) : Bool :=
  bitmapBit d (readSuperBlock d).inode_bitmap_addr i

/-- Bit `i` of the data bitmap of the image. -/
def dataBit (d : Disk) (i : Nat) : Bool :=
  bitmapBit d (readSuperBlock d).data_bitmap_addr i

/-- The inode record stored at slot `i` of the inode region: the records are
packed `UFS_BLOCK_SIZE / sizeof(inode_t)` per block, so slot `i` is record
`i % 32` of block `i / 32` of the region. -/
def inodeSlot (d : Disk) (i : Nat) : inode_t :=
  inodeAt (d ((readSuperBlock d).inode_region_addr
      + ((i / (UFS_BLOCK_SIZE / SIZEOF_INODE) : Nat) : Int)))
    (i % (UFS_BLOCK_SIZE / SIZEOF_INODE))

/-! ## A concrete image

The image below is the one a format with 64 inodes and 64 data blocks produces
(the setting of the scenarios of the specification): block 0 is the superblock,
block 1 the inode bitmap, block 2 the data bitmap, blocks 3 and 4 the inode
region and blocks 5 to 68 the data region.  Only the root directory exists. -/

/-- The memory holding the bytes of a list, followed by zeros. -/
def bytesOfList (l : List Nat) : Bytes := fun j => l.getD j 0

/-- A superblock whose ten fields, in the order of `super_t`, are the given
numbers, all below 256: field `k` is the byte at offset `4 * k`. -/
def superOf (v0 v1 v2 v3 v4 v5 v6 v7 v8 v9 : Nat) : Bytes := fun o =>
  if o = 0 then v0 else if o = 4 then v1 else if o = 8 then v2 else if o = 12 then v3
  else if o = 16 then v4 else if o = 20 then v5 else if o = 24 then v6 else if o = 28 then v7
  else if o = 32 then v8 else if o = 36 then v9 else 0

/-- The superblock of the concrete images: the inode bitmap is block 1, the
data bitmap block 2, the inode region the 2 blocks from 3 and the data region
the 64 blocks from 5, for 64 inodes and 64 data blocks. -/
def superBytes : Bytes := superOf 1 1 2 1 3 2 5 64 64 64

/-- A directory block with the entries `.` and `..`, both naming inode 0: the
name of entry `i` starts at offset `32 * i`, its inode number at `32 * i + 28`. -/
def dotsBlock : Bytes := fun o =>
  if o = 0 then 46 else if o = 32 then 46 else if o = 33 then 46 else 0

/-- A directory block with the entries `.` and `..`, both naming inode 0, and
the entry `a`, naming inode 1. -/
def rootBlock : Bytes := fun o =>
  if o = 0 then 46 else if o = 32 then 46 else if o = 33 then 46
  else if o = 64 then 97 else if o = 92 then 1 else 0

/-- A freshly formatted image: only the root directory, inode 0, whose block
is the first data block and holds the entries `.` and `..`. -/
def mkfsImage : Disk := fun a =>
  if a = 0 then superBytes
  else if a = 1 then bytesOfList [1]
  else if a = 2 then bytesOfList [1]
  else if a = 3 then fun o => if o = 4 then 64 else if o = 8 then 5 else 0
  else if a = 5 then dotsBlock
  else fun _ => 0

/-! ## Reference definitions -/

/-- Byte `j` of the concatenation of the blocks `direct[0]`, `direct[1]`, ...
of an inode. -/
def fileBytes (d : Disk) (inode : inode_t) (j : Nat) : Nat :=
  d (toS32 (inode.direct (j / UFS_BLOCK_SIZE))) (j % UFS_BLOCK_SIZE)

/-- The reference definition of `read`, in the words of the specification:
`EINVALIDSIZE` for a size outside `[0, MAX_FILE_SIZE]`; otherwise the error of
`stat`; otherwise the result is `min(size, inode.size)` and that many bytes of
the buffer are the first bytes of the concatenated blocks of the inode (the
rest of the buffer is left alone). -/
def readRef (d : Disk) (inodeNumber : Int) (buffer : Bytes) (size : Int) : Int × Bytes :=
  if size < 0 ∨ size > MAX_FILE_SIZE then (-EINVALIDSIZE, buffer)
  else
    match stat d inodeNumber with
    | .error _ => (-EINVALIDINODE, buffer)
    | .ok inode =>
      (min size inode.size,
        fun j => if (j : Int) < min size inode.size then fileBytes d inode j else buffer j)

/-- The C string stored in a character array of `n` bytes at offset `off`: its
bytes up to the first NUL. -/
def cstrAt (m : Bytes) (off : Nat) : Nat → List Nat
  | 0 => []
  | n + 1 => if m off = 0 then [] else m off :: cstrAt m (off + 1) n

/-- The name of entry `i` of a directory whose contents are `content`. -/
def entryName (content : Bytes) (i : Nat) : List Nat :=
  cstrAt content (i * SIZEOF_DIR_ENT) DIR_ENT_NAME_SIZE

/-- The inode number of entry `i` of a directory whose contents are `content`. -/
def entryInum (content : Bytes) (i : Nat) : Int :=
  getS32 content (i * SIZEOF_DIR_ENT + DIR_ENT_NAME_SIZE)

/-- The reference definition of `lookup`, in the words of the specification:
`EINVALIDINODE` if the parent is not an allocated directory; otherwise
`EINVALIDNAME` if the length of the name is not in `[1, NAME_MAX)`; otherwise
the inode number of the first of the first `size / sizeof(dir_ent_t)` entries
whose name is byte-for-byte equal to `name`; otherwise `ENOTFOUND`. -/
def lookupRef (d : Disk) (parentInodeNumber : Int) (name : List Nat) : Int :=
  match stat d parentInodeNumber with
  | .error _ => -EINVALIDINODE
  | .ok parent =>
    if parent.type ≠ UFS_DIRECTORY then -EINVALIDINODE
    else if name.length < 1 ∨ name.length ≥ DIR_ENT_NAME_SIZE then -EINVALIDNAME
    else
      match (List.range (parent.size.toNat / SIZEOF_DIR_ENT)).find?
          (fun i => entryName (fileBytes d parent) i = name) with
      | some i => entryInum (fileBytes d parent) i
      | none => -ENOTFOUND

/-- The reference definition of `lookup` with the comparison the code makes:
the name of the entry is compared with the C string held by `name`, that is
with the bytes of `name` before its first NUL byte. -/
def lookupRefC (d : Disk) (parentInodeNumber : Int) (name : List Nat) : Int :=
  match stat d parentInodeNumber with
  | .error _ => -EINVALIDINODE
  | .ok parent =>
    if parent.type ≠ UFS_DIRECTORY then -EINVALIDINODE
    else if name.length < 1 ∨ name.length ≥ DIR_ENT_NAME_SIZE then -EINVALIDNAME
    else
      match (List.range (parent.size.toNat / SIZEOF_DIR_ENT)).find?
          (fun i => entryName (fileBytes d parent) i = cstr name) with
      | some i => entryInum (fileBytes d parent) i
      | none => -ENOTFOUND

/-- The indices below `n` whose bit is clear in a loaded bitmap, in increasing
order. -/
def clearBits (bitmap : Bytes) (n : Nat) : List Nat :=
  (List.range n).filter (fun i => bitOf bitmap i = 0)

/-- The inode record `write` stores for a file of type `type` after writing
`size` bytes into the data blocks numbered `blocks` (indices into the data
region): the size is `size`, the first direct pointers are the addresses of
these blocks and the others are 0. -/
def writtenInode (super : super_t) (type size : Int) (blocks : List Nat) : inode_t :=
  { type := type
    size := size
    direct := fun k =>
      if k < blocks.length then toU32 ((blocks.getD k 0 : Int) + super.data_region_addr)
      else 0 }

/-! ## Consistent images -/

/-- What the invariants of the specification ask of one allocated inode: its
size lies in `[0, MAX_FILE_SIZE]`; every non-zero direct pointer is the address
of a block of the data region whose data-bitmap bit is set; the pointers that
cover the size of the inode are not zero; no block is named by two pointers;
and the size of a directory is a multiple of the size of an entry. -/
def InodeOk (d : Disk) (inode : inode_t) : Prop :=
  0 ≤ inode.size ∧ inode.size ≤ MAX_FILE_SIZE
    ∧ (∀ k, k < DIRECT_PTRS → inode.direct k ≠ 0 →
        (readSuperBlock d).data_region_addr ≤ inode.direct k
          ∧ (inode.direct k : Int) <
            (readSuperBlock d).data_region_addr + (readSuperBlock d).num_data
          ∧ dataBit d ((inode.direct k : Int) - (readSuperBlock d).data_region_addr).toNat
            = true)
    ∧ (∀ k, k < DIRECT_PTRS → (k : Int) * UFS_BLOCK_SIZE < inode.size → inode.direct k ≠ 0)
    ∧ (∀ k, k < DIRECT_PTRS → ∀ l, l < DIRECT_PTRS → k ≠ l → inode.direct k ≠ 0 →
        inode.direct k ≠ inode.direct l)
    ∧ (inode.type = UFS_DIRECTORY → inode.size % SIZEOF_DIR_ENT = 0)

instance decInodeOk (d : Disk) (inode : inode_t) : Decidable (InodeOk d inode) := by
  unfold InodeOk; infer_instance

/-- No non-zero direct pointer of the first inode is a direct pointer of the
second. -/
def SharesNoBlock (a b : inode_t) : Prop :=
  ∀ k, k < DIRECT_PTRS → ∀ l, l < DIRECT_PTRS → a.direct k ≠ 0 → a.direct k ≠ b.direct l

instance decSharesNoBlock (a b : inode_t) : Decidable (SharesNoBlock a b) := by
  unfold SharesNoBlock; infer_instance

/-- A consistent image: the superblock describes a well-formed layout, every
allocated inode satisfies `InodeOk`, and no two allocated inodes share a data
block. -/
def Consistent (d : Disk) : Prop :=
  LayoutOk (readSuperBlock d)
    ∧ (∀ i, i < (readSuperBlock d).num_inodes.toNat → inodeBit d i = true →
        InodeOk d (inodeSlot d i))
    ∧ (∀ i, i < (readSuperBlock d).num_inodes.toNat → inodeBit d i = true →
        ∀ j, j < (readSuperBlock d).num_inodes.toNat → inodeBit d j = true → i ≠ j →
          SharesNoBlock (inodeSlot d i) (inodeSlot d j))

/-- The number of clear bits of the data bitmap of the image, among the
`num_data` bits that stand for data blocks. -/
def freeDataBlocks (d : Disk) : Nat :=
  ((List.range (readSuperBlock d).num_data.toNat).filter (fun i => dataBit d i = false)).length

/-- The number of non-zero direct pointers of an inode. -/
def heldBlocks (inode : inode_t) : Nat :=
  ((List.range DIRECT_PTRS).filter (fun k => inode.direct k ≠ 0)).length

/-- The number `ceil(size / UFS_BLOCK_SIZE)` of blocks that `size` bytes
occupy. -/
def blocksFor (size : Int) : Int := (size + (UFS_BLOCK_SIZE - 1 : Nat)) / UFS_BLOCK_SIZE

/-- The freshly formatted image after a regular file `a` was created in the
root directory: inode 1, of size 0 and without blocks. -/
def fileImage : Disk := fun a =>
  if a = 0 then superBytes
  else if a = 1 then bytesOfList [3]
  else if a = 2 then bytesOfList [1]
  else if a = 3 then fun o => if o = 4 then 96 else if o = 8 then 5 else if o = 128 then 1 else 0
  else if a = 5 then rootBlock
  else fun _ => 0

/-- An image with 64 inodes and only two data blocks, both in use: the first
holds the root directory, the second the five bytes of the regular file `a`,
inode 1.  The data bitmap has no clear bit. -/
def fullImage : Disk := fun a =>
  if a = 0 then superOf 1 1 2 1 3 2 5 2 64 2
  else if a = 1 then bytesOfList [3]
  else if a = 2 then bytesOfList [3]
  else if a = 3 then fun o =>
    if o = 4 then 96 else if o = 8 then 5
    else if o = 128 then 1 else if o = 132 then 5 else if o = 136 then 6 else 0
  else if a = 5 then rootBlock
  else if a = 6 then bytesOfList [104, 101, 108, 108, 111]
  else fun _ => 0

/-- The freshly formatted image whose root directory holds a third entry, named
`a`, with the inode number `-7`, the value of `-ENOTFOUND`. -/
def ghostImage : Disk := fun a =>
  if a = 0 then superBytes
  else if a = 1 then bytesOfList [1]
  else if a = 2 then bytesOfList [1]
  else if a = 3 then fun o => if o = 4 then 96 else if o = 8 then 5 else 0
  else if a = 5 then fun o =>
    if o = 0 then 46 else if o = 32 then 46 else if o = 33 then 46 else if o = 64 then 97
    else if o = 92 then 249 else if o = 93 then 255 else if o = 94 then 255
    else if o = 95 then 255 else 0
  else fun _ => 0

/-- The entries of a directory: the pairs of name and inode number of the
`size / sizeof(dir_ent_t)` entries of its contents, in their order. -/
def dirEntries (d : Disk) (inode : inode_t) : List (List Nat × Int) :=
  (List.range (inode.size.toNat / SIZEOF_DIR_ENT)).map
    (fun i => (entryName (fileBytes d inode) i, entryInum (fileBytes d inode) i))

/-- The blocks `releaseStep` clears in the bitmap: those named by a non-zero
direct pointer below `n`. -/
def releasedBy (super : super_t) (inode : inode_t) (n b : Nat) : Prop :=
  ∃ k, k < n ∧ inode.direct k ≠ 0
    ∧ 0 ≤ toS32 (toU32 ((inode.direct k : Int) - super.data_region_addr))
    ∧ (toS32 (toU32 ((inode.direct k : Int) - super.data_region_addr))).toNat = b

/-- The entry list read from a directory: the entries of the inode `stat`
returns for `p`, and the empty list when `stat` fails. -/
def entriesOf (d : Disk) (p : Int) : List (List Nat × Int) :=
  match stat d p with
  | .ok inode => dirEntries d inode
  | .error _ => []

/-- The name of entry `j` of the root directory of `wideImage`. -/
def wideName (j : Nat) : List Nat :=
  if j = 0 then [46] else if j = 1 then [46, 46] else [97 + j / 16, 97 + j % 16]

/-- The first block of the root directory of `wideImage`: entry `j` has the
name `wideName j` and the inode number `j - 1`, or 0 for `.` and `..`. -/
def wideBlock : Bytes := fun o =>
  if o < 4096 then
    if o % 32 < 2 then (wideName (o / 32)).getD (o % 32) 0
    else if o % 32 = 28 then (if o / 32 < 2 then 0 else o / 32 - 1)
    else 0
  else 0

/-- An image with 128 inodes whose root directory holds 129 entries in two
blocks: `.`, `..` and 127 regular files of size 0, the entry of index `j >= 2`
being named by two letters and naming inode `j - 1`.  Entries 0 to 127 fill
the first data block, entry 128 is the first entry of the second. -/
def wideImage : Disk := fun a =>
  if a = 0 then superOf 1 1 2 1 3 4 7 64 128 64
  else if a = 1 then fun o => if o < 16 then 255 else 0
  else if a = 2 then bytesOfList [3]
  else if a = 3 then fun o =>
    if o < 128 then
      if o = 4 then 32 else if o = 5 then 16 else if o = 8 then 7 else if o = 12 then 8 else 0
    else if o < 4096 ∧ o % 128 = 0 then 1 else 0
  else if 4 ≤ a ∧ a < 7 then fun o => if o < 4096 ∧ o % 128 = 0 then 1 else 0
  else if a = 7 then wideBlock
  else if a = 8 then fun o => if o < 2 then (wideName 128).getD o 0 else if o = 28 then 127 else 0
  else fun _ => 0
/-- The invariant of the specification on the data bitmap, taken alone: every
non-zero direct pointer of every allocated inode is the address of a block of
the data region whose data-bitmap bit is set, and no two allocated inodes name
the same block. -/
def BitmapOk (d : Disk) : Prop :=
  (∀ i, i < (readSuperBlock d).num_inodes.toNat → inodeBit d i = true →
      ∀ k, k < DIRECT_PTRS → (inodeSlot d i).direct k ≠ 0 →
        (readSuperBlock d).data_region_addr ≤ (inodeSlot d i).direct k
          ∧ ((inodeSlot d i).direct k : Int) <
            (readSuperBlock d).data_region_addr + (readSuperBlock d).num_data
          ∧ dataBit d (((inodeSlot d i).direct k : Int)
              - (readSuperBlock d).data_region_addr).toNat = true)
    ∧ (∀ i, i < (readSuperBlock d).num_inodes.toNat → inodeBit d i = true →
        ∀ j, j < (readSuperBlock d).num_inodes.toNat → inodeBit d j = true → i ≠ j →
          SharesNoBlock (inodeSlot d i) (inodeSlot d j))

/-- An image whose root directory has the size 24 and names the first data
block by `direct[1]`, `direct[0]` being 0: the data-bitmap invariant holds, but
the size of the directory is not covered by its pointers. -/
def gapImage : Disk := fun a =>
  if a = 0 then superBytes
  else if a = 1 then bytesOfList [1]
  else if a = 2 then bytesOfList [1]
  else if a = 3 then fun o => if o = 4 then 24 else if o = 12 then 5 else 0
  else fun _ => 0
/-- The invariant of the specification on the names of a directory, for a list
of entries: every name has a length in `[1, DIR_ENT_NAME_SIZE)`, the names are
pairwise distinct, `.` occurs at index 0 only and `..` at index 1 only. -/
def NamesOk (es : List (List Nat × Int)) : Prop :=
  (∀ e ∈ es, 1 ≤ e.1.length ∧ e.1.length < DIR_ENT_NAME_SIZE)
    ∧ (es.map Prod.fst).Nodup
    ∧ (∀ i, i < es.length → (es.getD i ([], 0)).1 = [46] → i = 0)
    ∧ (∀ i, i < es.length → (es.getD i ([], 0)).1 = [46, 46] → i = 1)

/-! ## The block device with transactions -/

/-- Modelled from the spec: the class `Disk` is not among the sources.  The
state of the device is the image and, between `beginTransaction` and `commit`
or `rollback`, the view that the staged writes produce: inside a transaction
`writeBlock` stages its block and `readBlock` sees the staged blocks first. -/
structure DiskState where
  image : Disk
  staged : Option Disk

/-- Modelled from the spec: what `Disk::readBlock` sees, the staged view inside
a transaction and the image outside. -/
def DiskState.view (s : DiskState) : Disk := s.staged.getD s.image

/-- Modelled from the spec: the state after calls of `Disk::writeBlock` that
turn the view into `d`: inside a transaction the writes are staged, outside
they reach the image. -/
def DiskState.store (s : DiskState) (d : Disk) : DiskState :=
  match s.staged with
  | some _ => { s with staged := some d }
  | none => { s with image := d }

/-- Modelled from the spec: `Disk::beginTransaction`, which starts staging. -/
def beginTransaction (s : DiskState) : DiskState := { s with staged := some s.view }

/-- Modelled from the spec: `Disk::commit`, which makes the staged view the
image. -/
def commit (s : DiskState) : DiskState := { image := s.view, staged := none }

/-- Modelled from the spec: `Disk::rollback`, which drops the staged writes. -/
def rollback (s : DiskState) : DiskState := { image := s.image, staged := none }

/-- The three calls of the transaction interface, as recorded in the trace of
a handler. -/
inductive DiskCall where
  | beginTransaction
  | commit
  | rollback
  deriving DecidableEq

/-! ## The HTTP service (`DistributedFileSystemService.cpp`) -/

/-- Modelled from the spec: the class `HTTPRequest` is not among the sources.
A request is given by the list `getPathComponents()` returns and by the bytes
`getBody()` returns. -/
structure HTTPRequest where
  pathComponents : List (List Nat)
  body : List Nat

/-- Modelled from the spec: the class `HTTPResponse` is not among the sources.
A response is the status and the body the handler has set. -/
structure HTTPResponse where
  status : Nat
  body : List Nat
  deriving DecidableEq

/-- Modelled from the spec: the class `ClientError` is not among the sources;
a thrown `ClientError` is represented by its HTTP status, here the one of
`ClientError::badRequest()`. -/
abbrev ClientError.badRequest : Nat := 400

/-- Modelled from the spec: the status of `ClientError::notFound()`. -/
abbrev ClientError.notFound : Nat := 404

/-- Modelled from the spec: the status of `ClientError::conflict()`. -/
abbrev ClientError.conflict : Nat := 409

/-- Modelled from the spec: the status of `ClientError::insufficientStorage()`. -/
abbrev ClientError.insufficientStorage : Nat := 507

/-- Modelled from the spec: `ufs.h` is not among the sources; the root
directory is inode 0. -/
abbrev UFS_ROOT_DIRECTORY_INODE_NUMBER : Int := 0

/-- The bytes of the string `"ds3"`. -/
abbrev ds3 : List Nat := [100, 115, 51]

/-- What a handler that changes the disk leaves behind: the response it filled
in or the status of the `ClientError` it threw, the state of the disk, and the
calls of `beginTransaction`, `commit` and `rollback` it made, in order. -/
structure Handled where
  result : Except Nat HTTPResponse
  disk : DiskState
  calls : List DiskCall

/-- The status the client receives: the one the handler set, or the one of the
`ClientError` it threw. -/
def Handled.status (h : Handled) : Nat :=
  match h.result with
  | .ok r => r.status
  | .error e => e

/-- The helper `compareEntries`: `a.first < b.first` on `std::string`, the
lexicographic order on bytes. -/
def compareEntries (a b : List Nat × Bool) : Bool := decide (a.1 < b.1)

/-- The call `std::sort(first, last, comp)` of the C++ library.  The library
promises a permutation of the input that is sorted for `comp` and leaves the
order of elements that `comp` does not separate unspecified; this rendering
sorts by insertion. -/
def stdSort {α : Type} (comp : α → α → Bool) (l : List α) : List α :=
  l.insertionSort (fun a b => comp b a = false)

/-- The inode record a failed `stat` leaves in an uninitialised local
`inode_t`: bytes of `junk`. -/
def junkInode (junk : Bytes) : inode_t := inodeAt junk 0

/-- One iteration of the loop of `get` that walks the path; `.error` records
the `ClientError` already thrown. -/
def getWalkStep (d : Disk) (junk : Bytes) (components : List (List Nat)) (i : Nat)
    (st : Except Nat Int) : Except Nat Int :=
  match st with
  | .error e => .error e
  | .ok inode =>
    let inode := lookup d junk inode (components.getD i [])
    if inode < 0 then .error ClientError.notFound else .ok inode

/-- One iteration of the loop of `get` over the entries of a directory: the
entry is copied from the buffer, `stat` is called on its inode number (its
result is ignored, so a failed `stat` leaves the local record uninitialised),
and the pair of the name and of the test `type == UFS_DIRECTORY` is pushed
unless the name is `.` or `..`. -/
def getListStep (d : Disk) (junk : Bytes) (buffer : Bytes) (i : Nat)
    (entries : List (List Nat × Bool)) : List (List Nat × Bool) :=
  let name := cstrAt buffer (i * SIZEOF_DIR_ENT) DIR_ENT_NAME_SIZE
  let inum := getS32 buffer (i * SIZEOF_DIR_ENT + DIR_ENT_NAME_SIZE)
  let entryInode : inode_t :=
    match stat d inum with
    | .ok inode => inode
    | .error _ => junkInode junk
  if name ≠ [46] ∧ name ≠ [46, 46] then
    entries ++ [(name, decide (entryInode.type = UFS_DIRECTORY))]
  else entries

/-- `DistributedFileSystemService::get`.  The result is the response, or the
status of the `ClientError` thrown.  The buffer obtained with `new char[]` is
uninitialised (`junk`). -/
def get (d : Disk) (junk : Bytes) (request : HTTPRequest) : Except Nat HTTPResponse :=
  let components := request.pathComponents
  if components = [] ∨ components.head? ≠ some ds3 then .error ClientError.notFound
  else
    let components := components.tail
    match forLoop (getWalkStep d junk components) components.length 0
        (.ok UFS_ROOT_DIRECTORY_INODE_NUMBER) with
    | .error e => .error e
    | .ok inode =>
      let entryInode : inode_t :=
        match stat d inode with
        | .ok i => i
        | .error _ => junkInode junk
      let r := read d inode junk entryInode.size
      if r.1 < 0 then .error ClientError.notFound
      else if entryInode.type = UFS_REGULAR_FILE then
        .ok { status := 200, body := (List.range r.1.toNat).map r.2 }
      else if entryInode.type = UFS_DIRECTORY then
        let entries :=
          forLoop (getListStep d junk r.2) (toU64 entryInode.size / SIZEOF_DIR_ENT) 0 []
        let entries := stdSort compareEntries entries
        .ok { status := 200
              body := entries.flatMap (fun e => e.1 ++ (if e.2 then [47] else []) ++ [10]) }
      else .error ClientError.badRequest

/-- One iteration of the loop of `put` that walks and creates the intermediate
directories.  The state is the current inode number and the view of the disk;
`.error` records the `ClientError` already thrown and the view at that point.
An index outside `components` reads as the empty string. -/
def putWalkStep (junk : Bytes) (components : List (List Nat)) (i : Nat)
    (st : Except (Nat × Disk) (Int × Disk)) : Except (Nat × Disk) (Int × Disk) :=
  match st with
  | .error e => .error e
  | .ok (inodeNumber, d) =>
    let entryInodeNumber := lookup d junk inodeNumber (components.getD i [])
    if entryInodeNumber < 0 then
      let c := create d junk inodeNumber UFS_DIRECTORY (components.getD i [])
      if c.1 < 0 then .error (ClientError.badRequest, c.2) else .ok (c.1, c.2)
    else
      match stat d entryInodeNumber with
      | .error _ => .error (ClientError.conflict, d)
      | .ok entryInode =>
        if entryInode.type ≠ UFS_DIRECTORY then .error (ClientError.conflict, d)
        else .ok (entryInodeNumber, d)

/-- The bound `components.size() - 1` of the loops of `put` and `del` over the
intermediate components, computed in `size_t`: it wraps around to `2^64 - 1`
for an empty vector. -/
def walkBound (components : List (List Nat)) : Nat :=
  if components.length = 0 then 18446744073709551615 else components.length - 1

/-- The statements of the `try` block of `put` that follow the loop, given the
outcome of the loop: `create` of the file, `write` of the body. -/
def putFinish (junk : Bytes) (components : List (List Nat)) (body : List Nat)
    (walk : Except (Nat × Disk) (Int × Disk)) : Except (Nat × Disk) Disk :=
  match walk with
  | .error e => .error e
  | .ok (inodeNumber, d1) =>
    let c := create d1 junk inodeNumber UFS_REGULAR_FILE (components.getLastD [])
    if c.1 < 0 ∧ c.1 ≠ -EINVALIDTYPE then .error (ClientError.badRequest, c.2)
    else
      let w := write c.2 junk c.1 (bytesOfList body) (toS32 (body.length % 4294967296))
      if w.1 < 0 then .error (ClientError.insufficientStorage, w.2) else .ok w.2

/-- The `try` block of `put`, run on the view `d` of the disk: the result is
the view after the last call, or the status of the `ClientError` thrown and the
view at that point. -/
def putTry (d : Disk) (junk : Bytes) (components : List (List Nat)) (body : List Nat) :
    Except (Nat × Disk) Disk :=
  putFinish junk components body
    (forLoop (putWalkStep junk components) (walkBound components) 0
      (.ok (UFS_ROOT_DIRECTORY_INODE_NUMBER, d)))

/-- `DistributedFileSystemService::put`. -/
def put (s : DiskState) (junk : Bytes) (request : HTTPRequest) : Handled :=
  let components := request.pathComponents
  if components = [] ∨ components.head? ≠ some ds3 then
    { result := .error ClientError.notFound, disk := s, calls := [] }
  else
    let components := components.tail
    let s1 := beginTransaction s
    match putTry s1.view junk components request.body with
    | .ok d =>
      { result := .ok { status := 200, body := [] }
        disk := commit (s1.store d)
        calls := [DiskCall.beginTransaction, DiskCall.commit] }
    | .error e =>
      { result := .error e.1
        disk := rollback (s1.store e.2)
        calls := [DiskCall.beginTransaction, DiskCall.rollback] }

/-- One iteration of the loop of `del` that walks the intermediate
components; `.error` records the `ClientError` already thrown. -/
def delWalkStep (d : Disk) (junk : Bytes) (components : List (List Nat)) (i : Nat)
    (st : Except Nat Int) : Except Nat Int :=
  match st with
  | .error e => .error e
  | .ok inode =>
    let entryInodeNumber := lookup d junk inode (components.getD i [])
    if entryInodeNumber < 0 then .error ClientError.notFound else .ok entryInodeNumber

/-- The statements of the `try` block of `del` that follow the loop, given the
outcome of the loop: the call of `unlink`. -/
def delFinish (d : Disk) (junk : Bytes) (components : List (List Nat))
    (walk : Except Nat Int) : Except (Nat × Disk) Disk :=
  match walk with
  | .error e => .error (e, d)
  | .ok inode =>
    let r := unlink d junk inode (components.getLastD [])
    if r.1 < 0 then
      .error (if r.1 = -EDIRNOTEMPTY then ClientError.conflict else ClientError.badRequest, r.2)
    else .ok r.2

/-- The `try` block of `del`, run on the view `d` of the disk. -/
def delTry (d : Disk) (junk : Bytes) (components : List (List Nat)) :
    Except (Nat × Disk) Disk :=
  delFinish d junk components
    (forLoop (delWalkStep d junk components) (walkBound components) 0
      (.ok UFS_ROOT_DIRECTORY_INODE_NUMBER))

/-- `DistributedFileSystemService::del`. -/
def del (s : DiskState) (junk : Bytes) (request : HTTPRequest) : Handled :=
  let components := request.pathComponents
  if components = [] ∨ components.head? ≠ some ds3 then
    { result := .error ClientError.notFound, disk := s, calls := [] }
  else
    let components := components.tail
    let s1 := beginTransaction s
    match delTry s1.view junk components with
    | .ok d =>
      { result := .ok { status := 200, body := [] }
        disk := commit (s1.store d)
        calls := [DiskCall.beginTransaction, DiskCall.commit] }
    | .error e =>
      { result := .error e.1
        disk := rollback (s1.store e.2)
        calls := [DiskCall.beginTransaction, DiskCall.rollback] }

/-! ## The listing utility (`ds3ls.cpp`) -/

/-- The characters `cout << n` prints for an `int`. -/
def showInt (z : Int) : List Nat :=
  if z < 0 then 45 :: (Nat.toDigits 10 (-z).toNat).map Char.toNat
  else (Nat.toDigits 10 z.toNat).map Char.toNat

/-- The helper `compareEntryNames`: `strcmp(a.name, b.name) < 0`, the
lexicographic order on the bytes of the two C strings.  An entry is given by
its name, as a C string, and its inode number. -/
def compareEntryNames (a b : List Nat × Int) : Bool := decide (a.1 < b.1)

/-- One iteration of the loop of `printDirectoryContents` that copies the
entries out of the buffer. -/
def lsCollectStep (buffer : Bytes) (i : Nat) (entries : List (List Nat × Int)) :
    List (List Nat × Int) :=
  entries ++ [(cstrAt buffer (i * SIZEOF_DIR_ENT) DIR_ENT_NAME_SIZE,
    getS32 buffer (i * SIZEOF_DIR_ENT + DIR_ENT_NAME_SIZE))]

/-- The function `printDirectoryContents` of `ds3ls`; the result is what it
writes to `cout`.  The recursion of the C function has no bound; `fuel` bounds
its depth here, and a call without fuel prints nothing.  The local `inode` is
reused by the loop that visits the subdirectories: a failed `stat` leaves the
record of the previous iteration in it. -/
def printDirectoryContents : Nat → Disk → Bytes → Int → List Nat → List Nat
  | 0, _, _, _, _ => []
  | fuel + 1, d, junk, inodeNumber, path =>
    match stat d inodeNumber with
    | .error e =>
      -- "stat failed with " << ret << endl
      [115, 116, 97, 116, 32, 102, 97, 105, 108, 101, 100, 32, 119, 105, 116, 104, 32]
        ++ showInt e ++ [10]
    | .ok inode =>
      let buffer := (read d inodeNumber junk inode.size).2
      let entries := forLoop (lsCollectStep buffer) (toU64 inode.size / SIZEOF_DIR_ENT) 0 []
      let entries := stdSort compareEntryNames entries
      -- "Directory " << path << endl
      let out := [68, 105, 114, 101, 99, 116, 111, 114, 121, 32] ++ path ++ [10]
      let out := out ++ entries.flatMap (fun e => showInt e.2 ++ [9] ++ e.1 ++ [10])
      let out := out ++ [10]
      (entries.foldl
        (fun (st : inode_t × List Nat) e =>
          let inode : inode_t :=
            match stat d e.2 with
            | .ok i => i
            | .error _ => st.1
          if inode.type = UFS_DIRECTORY ∧ e.1 ≠ [46] ∧ e.1 ≠ [46, 46] then
            (inode, st.2 ++ printDirectoryContents fuel d junk e.2 (path ++ e.1 ++ [47]))
          else (inode, st.2))
        (inode, out)).2

/-- Resolution of a path from the inode `cur`: each component is looked up in
the directory reached so far; `none` when a lookup returns an error. -/
def resolve (d : Disk) (junk : Bytes) : Int → List (List Nat) → Option Int
  | cur, [] => some cur
  | cur, c :: cs =>
    if lookup d junk cur c < 0 then none else resolve d junk (lookup d junk cur c) cs
/-- The freshly formatted image after the directory `a` was created in the root
directory: inode 1, whose block is the second data block and holds the entries
`.` and `..`. -/
def dirImage : Disk := fun a =>
  if a = 0 then superBytes
  else if a = 1 then bytesOfList [3]
  else if a = 2 then bytesOfList [3]
  else if a = 3 then fun o =>
    if o = 4 then 96 else if o = 8 then 5 else if o = 132 then 64 else if o = 136 then 6 else 0
  else if a = 5 then rootBlock
  else if a = 6 then fun o =>
    if o = 0 then 46 else if o = 28 then 1 else if o = 32 then 46 else if o = 33 then 46 else 0
  else fun _ => 0

/-- What request-level atomicity asks of a handler run from the state `s`:
either no transaction was opened, the answer is 404 and the state is `s`; or
the transaction was opened and committed, and the answer is 200; or it was
opened and rolled back, the answer is an error and the image is the one of
`s`.  No transaction is left open. -/
def Atomic (s : DiskState) (h : Handled) : Prop :=
  (h.calls = [] ∧ h.status = 404 ∧ h.disk = s)
    ∨ (h.calls = [DiskCall.beginTransaction, DiskCall.commit] ∧ h.status = 200
        ∧ h.disk.staged = none)
    ∨ (h.calls = [DiskCall.beginTransaction, DiskCall.rollback] ∧ h.status ≠ 200
        ∧ h.disk = { image := s.image, staged := none })
/-- Whether `stat` succeeds on an inode number. -/
def isAllocated (d : Disk) (inum : Int) : Bool :=
  match stat d inum with
  | .ok _ => true
  | .error _ => false

/-- Whether an inode number is that of an allocated directory. -/
def isDirectory (d : Disk) (inum : Int) : Bool :=
  match stat d inum with
  | .ok inode => decide (inode.type = UFS_DIRECTORY)
  | .error _ => false

/-- The entries a listing of a directory shows, in the words of the
specification: the entries other than `.` and `..`, in their order, each with
its name and whether it is a subdirectory. -/
def listed (d : Disk) (inode : inode_t) : List (List Nat × Bool) :=
  ((dirEntries d inode).filter (fun e => decide (e.1 ≠ [46] ∧ e.1 ≠ [46, 46]))).map
    (fun e => (e.1, isDirectory d e.2))

/-- The line of a listing for one entry: the name, followed by `/` for a
subdirectory, and a newline. -/
def listingLine (e : List Nat × Bool) : List Nat :=
  e.1 ++ (if e.2 then [47] else []) ++ [10]

/-- The data blocks a first-fit allocation of `n` blocks takes: the `n`
lowest-numbered indices below `num_data` whose data-bitmap bit is clear, in
increasing order. -/
def lowestClear (d : Disk) (n : Nat) : List Nat :=
  ((List.range (readSuperBlock d).num_data.toNat).filter (fun b => dataBit d b = false)).take n

/-- The inode a first-fit allocation takes: the smallest index below
`num_inodes` whose inode-bitmap bit is clear, if there is one. -/
def firstFreeInode (d : Disk) : Option Nat :=
  (List.range (readSuperBlock d).num_inodes.toNat).find? (fun i => inodeBit d i = false)

/-- The number of data blocks a `create` that allocates needs: one for a new
directory, and one for the parent when its size is a multiple of the block
size. -/
def createBlocks (type : Int) (parent : inode_t) : Nat :=
  (if type = UFS_DIRECTORY then 1 else 0) + (if parent.size % UFS_BLOCK_SIZE = 0 then 1 else 0)

/-- The state of `write` when it reaches the update of the inode table: the
disk after the data blocks and the data bitmap were written, and the inode
record that is about to be stored. -/
def writeStaged (d : Disk) (junk : Bytes) (super : super_t) (inode : inode_t)
    (buffer : Bytes) (size : Int) (dataBitmap : Bytes) (availableBlocks : List Nat) :
    Disk × inode_t :=
  let rel := forLoop (releaseStep super) DIRECT_PTRS 0 (dataBitmap, inode)
  let st := forLoop (writeStep super buffer availableBlocks) availableBlocks.length 0
    { disk := d, inode := rel.2, dataBitmap := rel.1, blockBuffer := junk,
      bytesToWrite := size, bytesWritten := 0 }
  (writeDataBitmap st.disk super st.dataBitmap, { st.inode with size := size })

/-- The last step of `write`: the block of the inode table that holds inode
`inodeNumber` is read, the record is copied to its slot of the block and the
block is written back. -/
def writeInodeBlock (d : Disk) (super : super_t) (inodeNumber : Int) (inode : inode_t) : Disk :=
  let numInodes : Int := (UFS_BLOCK_SIZE / SIZEOF_INODE : Nat)
  let inodeBlockNumber := inodeNumber / numInodes
  let inodeBlockOffset := inodeNumber % numInodes
  let blockBuffer := readBlock d (super.inode_region_addr + inodeBlockNumber)
  let blockBuffer :=
    memcpy blockBuffer (inodeBlockOffset.toNat * SIZEOF_INODE) (inodeBytes inode) 0 SIZEOF_INODE
  writeBlock d (super.inode_region_addr + inodeBlockNumber) blockBuffer

/-- The indices `i` of the accesses `inode.direct[i]` made by the copy loop of
`read`, in order: the loop `for (i = 0; bytesToRead > 0; i++)`, entered at the
index `i` with `bytesToRead` bytes left.  `fuel` bounds the number of
iterations that are followed. -/
def readLoopIndices : Nat → Nat → Int → List Nat
  | 0, _, _ => []
  | fuel + 1, i, bytesToRead =>
    if bytesToRead > 0 then
      i :: readLoopIndices fuel (i + 1) (bytesToRead - min bytesToRead (UFS_BLOCK_SIZE : Int))
    else []

/-- The indices into `inode.direct[]` made by `read(inodeNumber, ., size)`, in
order; none is made when `read` returns an error. -/
def readIndices (fuel : Nat) (d : Disk) (inodeNumber : Int) (size : Int) : List Nat :=
  if size < 0 ∨ size > MAX_FILE_SIZE then []
  else
    match stat d inodeNumber with
    | .error _ => []
    | .ok inode => readLoopIndices fuel 0 (min size inode.size)

/-- The indices into `inode.direct[]` made by `write(inodeNumber, ., size)`, in
order: `direct[i]` for every `i < DIRECT_PTRS` in the loop that releases the
blocks, then `direct[i]` for every `i < availableBlocks.size()` in the loop
that stores the data; none is made when `write` returns an error. -/
def writeIndices (d : Disk) (inodeNumber : Int) (size : Int) : List Nat :=
  let super := readSuperBlock d
  match stat d inodeNumber with
  | .error _ => []
  | .ok inode =>
    if size < 0 ∨ size > MAX_FILE_SIZE then []
    else if inode.type ≠ UFS_REGULAR_FILE then []
    else
      let dataBitmap := readDataBitmap d super
      let scan := forLoop (writeScanStep dataBitmap) super.num_data.toNat 0
        ([], blocksNeededFor size)
      if scan.2 > 0 then []
      else List.range DIRECT_PTRS ++ List.range scan.1.length

/-- The indices into a `direct[]` array made by the part of `create` that
follows its last error return, in order: `parent.direct[parentBlockNumber]`
where the parent receives a new block, `inode.direct[i]` for every
`i < DIRECT_PTRS` in the loop that clears the new inode, `inode.direct[0]` of a
new directory where it is set and where its block is written, and
`parent.direct[parentBlockNumber]` where the block of the new entry is read and
written. -/
def createCommitIndices (type : Int) (parent : inode_t) : List Int :=
  let parentBlockNumber := Int.tdiv parent.size UFS_BLOCK_SIZE
  let parentBlockOffset := Int.tmod parent.size UFS_BLOCK_SIZE
  (if parentBlockOffset = 0 then [parentBlockNumber] else [])
    ++ (List.range DIRECT_PTRS).map (fun (i : Nat) => (i : Int))
    ++ (if type = UFS_DIRECTORY then [0, 0] else [])
    ++ [parentBlockNumber, parentBlockNumber]

/-- The indices into a `direct[]` array made by `create` itself, in order (the
accesses of the `lookup` it calls are those of `read`): none when `create`
returns an error or the inode number of an existing entry, and those of
`createCommitIndices` when it allocates. -/
def createIndices (d : Disk) (junk : Bytes) (parentInodeNumber type : Int)
    (name : List Nat) : List Int :=
  let super := readSuperBlock d
  if name.length > DIR_ENT_NAME_SIZE ∨ name.length = 0 then []
  else
    match stat d parentInodeNumber with
    | .error _ => []
    | .ok parent =>
      if parent.type ≠ UFS_DIRECTORY then []
      else if lookup d junk parentInodeNumber name ≠ -ENOTFOUND then []
      else
        let inodeBitmap := readInodeBitmap d super
        let inodeNumber := forLoop (inodeScanStep inodeBitmap) super.num_inodes.toNat 0 (-1)
        if inodeNumber = -1 then []
        else
          let blocksNeeded : Int := if type = UFS_DIRECTORY then 1 else 0
          let parentBlockOffset := Int.tmod parent.size UFS_BLOCK_SIZE
          let blocksNeeded := blocksNeeded + (if parentBlockOffset = 0 then 1 else 0)
          if parentBlockOffset = 0 ∧ parent.size + UFS_BLOCK_SIZE > MAX_FILE_SIZE then []
          else
            let dataBitmap := readDataBitmap d super
            let availableBlocks :=
              forLoop (createScanStep dataBitmap blocksNeeded) super.num_data.toNat 0 []
            if (availableBlocks.length : Int) < blocksNeeded then []
            else createCommitIndices type parent

/-- An image with 128 inodes whose root directory holds 128 entries that fill
its only block: `.`, `..` and 126 regular files of size 0, the entry of index
`j >= 2` being named by two letters and naming inode `j - 1`.  Inode 127 is
free, and so is every data block but the first. -/
def brimImage : Disk := fun a =>
  if a = 0 then superOf 1 1 2 1 3 4 7 64 128 64
  else if a = 1 then fun o => if o < 15 then 255 else if o = 15 then 127 else 0
  else if a = 2 then bytesOfList [1]
  else if a = 3 then fun o =>
    if o < 128 then (if o = 5 then 16 else if o = 8 then 7 else 0)
    else if o < 4096 ∧ o % 128 = 0 then 1 else 0
  else if 4 ≤ a ∧ a < 7 then fun o => if o < 4096 ∧ o % 128 = 0 then 1 else 0
  else if a = 7 then wideBlock
  else fun _ => 0

/-- The characters `cout << n` prints for an `unsigned int`. -/
def showUnsigned (n : Nat) : List Nat := (Nat.toDigits 10 n).map Char.toNat

/-- One iteration of the loop of `main` of `ds3cat` that prints the block
numbers: a non-zero `inode.direct[i]` is printed on a line of its own. -/
def catBlockStep (inode : inode_t) (i : Nat) (out : List Nat) : List Nat :=
  if inode.direct i ≠ 0 then out ++ showUnsigned (inode.direct i) ++ [10] else out

/-- The function `main` of `ds3cat.cpp`, called with an image and an inode
number; the result is the exit status and what is written to `cout`.  The
result of `stat` is not checked: when it fails, the local `inode` is
uninitialised (`junk`).  The buffer is an uninitialised array of
`inode.size + 1` bytes; after `read`, `buffer[inode.size]` is set to NUL and
`cout << buffer` prints the buffer as a C string, that is up to its first NUL
byte. -/
def ds3cat_main (d : Disk) (junk : Bytes) (inodeNumber : Int) : Int × List Nat :=
  let inode : inode_t :=
    match stat d inodeNumber with
    | .ok inode => inode
    | .error _ => junkInode junk
  -- "File blocks" << endl
  let out := [70, 105, 108, 101, 32, 98, 108, 111, 99, 107, 115, 10]
  let numBlocks := Int.tdiv inode.size UFS_BLOCK_SIZE
    + (if Int.tmod inode.size UFS_BLOCK_SIZE ≠ 0 then 1 else 0)
  let out := forLoop (catBlockStep inode) numBlocks.toNat 0 out
  let out := out ++ [10]
  let r := read d inodeNumber junk inode.size
  if r.1 < 0 then (r.1, out)
  else
    let buffer := Function.update r.2 inode.size.toNat 0
    -- "File data" << endl
    let out := out ++ [70, 105, 108, 101, 32, 100, 97, 116, 97, 10]
    if inode.size > 0 then (0, out ++ cstrAt buffer 0 (inode.size.toNat + 1)) else (0, out)

/-- What the specification asks `catdump` to print for an allocated inode:
`File blocks`, the non-zero `direct[k]` for `k < ceil(size / UFS_BLOCK_SIZE)`
each on a line of its own, an empty line, `File data`, and then the `size`
bytes that `read` returns for the inode. -/
def catdumpRef (d : Disk) (junk : Bytes) (inodeNumber : Int) (inode : inode_t) : List Nat :=
  [70, 105, 108, 101, 32, 98, 108, 111, 99, 107, 115, 10]
    ++ ((List.range (blocksFor inode.size).toNat).filter (fun k => inode.direct k ≠ 0)).flatMap
        (fun k => showUnsigned (inode.direct k) ++ [10])
    ++ [10]
    ++ [70, 105, 108, 101, 32, 100, 97, 116, 97, 10]
    ++ (List.range inode.size.toNat).map (read d inodeNumber junk inode.size).2

/-- An image with 64 inodes and 64 data blocks: the root directory, and the
regular file `a`, inode 1, whose three bytes are `h`, NUL and `i`. -/
def nulImage : Disk := fun a =>
  if a = 0 then superBytes
  else if a = 1 then bytesOfList [3]
  else if a = 2 then bytesOfList [3]
  else if a = 3 then fun o =>
    if o = 4 then 96 else if o = 8 then 5
    else if o = 128 then 1 else if o = 132 then 3 else if o = 136 then 6 else 0
  else if a = 5 then rootBlock
  else if a = 6 then bytesOfList [104, 0, 105]
  else fun _ => 0

/-! ## Loops, integers and the codecs of the metadata regions -/

theorem forLoop_succ {σ : Type} (body : Nat → σ → σ) (n i : Nat) (s : σ) :
    forLoop body (n + 1) i s = body (i + n) (forLoop body n i s) := by
  induction n generalizing i s with
  | zero => simp [forLoop]
  | succ n ih =>
    rw [forLoop, ih (i + 1) (body i s)]
    conv_rhs => rw [forLoop]
    congr 1
    omega

theorem forLoop_inv {σ : Type} (body : Nat → σ → σ) (P : Nat → σ → Prop) (n i : Nat) (s : σ)
    (h0 : P i s)
    (hstep : ∀ k t, i ≤ k → k < i + n → P k t → P (k + 1) (body k t)) :
    P (i + n) (forLoop body n i s) := by
  induction n with
  | zero => simpa [forLoop] using h0
  | succ n ih =>
    rw [forLoop_succ]
    have := ih (fun k t h1 h2 h3 => hstep k t h1 (by omega) h3)
    exact hstep (i + n) _ (by omega) (by omega) this

theorem getU32_lt (m : Bytes) (off : Nat) : getU32 m off < 4294967296 := by
  unfold getU32; omega

theorem toS32_toU32 (z : Int) (h1 : -2147483648 ≤ z) (h2 : z < 2147483648) :
    toS32 (toU32 z) = z := by
  unfold toS32 toU32; split <;> omega

theorem toU32_toS32 (u : Nat) (h : u < 4294967296) : toU32 (toS32 u) = u := by
  unfold toS32 toU32; split <;> omega

theorem toU32_lt (z : Int) : toU32 z < 4294967296 := by
  unfold toU32; omega

theorem toS32_bounds (u : Nat) (h : u < 4294967296) :
    -2147483648 ≤ toS32 u ∧ toS32 u < 2147483648 := by
  unfold toS32; split <;> omega

theorem getS32_bounds (m : Bytes) (off : Nat) :
    -2147483648 ≤ getS32 m off ∧ getS32 m off < 2147483648 :=
  toS32_bounds _ (getU32_lt m off)

theorem getU32_congr (m m2 : Bytes) (off : Nat)
    (h : ∀ j, off ≤ j → j < off + 4 → m j = m2 j) : getU32 m off = getU32 m2 off := by
  unfold getU32
  rw [h off (by omega) (by omega), h (off + 1) (by omega) (by omega),
    h (off + 2) (by omega) (by omega), h (off + 3) (by omega) (by omega)]

theorem byteAt_sum (v : Nat) (h : v < 4294967296) :
    byteAt v 0 % 256 + 256 * (byteAt v 1 % 256) + 65536 * (byteAt v 2 % 256)
      + 16777216 * (byteAt v 3 % 256) = v := by
  unfold byteAt
  norm_num
  omega

theorem readBitmap_apply (d : Disk) (addr len : Int) (j : Nat) :
    readBitmap d addr len j =
      if j < 4096 * len.toNat then d (addr + ((j / 4096 : Nat) : Int)) (j % 4096) else 0 := by
  unfold readBitmap
  have := forLoop_inv
    (fun i bitmap => memcpy bitmap (i * UFS_BLOCK_SIZE) (readBlock d (addr + i)) 0 UFS_BLOCK_SIZE)
    (fun k bm => ∀ j, bm j = if j < 4096 * k then
        d (addr + ((j / 4096 : Nat) : Int)) (j % 4096) else 0)
    len.toNat 0 (fun _ => 0) (by intro j; simp)
    (by
      intro k t _ _ ih j
      simp only [memcpy, readBlock, ih j, UFS_BLOCK_SIZE]
      split_ifs with h1 h2 h3 h4 h5
      · have e1 : j / 4096 = k := by omega
        have e2 : 0 + (j - k * 4096) = j % 4096 := by omega
        rw [e1, e2]
      all_goals first | rfl | (exfalso; omega))
  simpa using this j

theorem readInodeRegion_apply (d : Disk) (s : super_t) (h : 0 ≤ s.num_inodes) (j : Nat) :
    readInodeRegion d s j =
      if (j : Int) < s.num_inodes * 128 ∧ j / 4096 < s.inode_region_len.toNat then
        d (s.inode_region_addr + ((j / 4096 : Nat) : Int)) (j % 4096)
      else 0 := by
  unfold readInodeRegion
  have := forLoop_inv
    (fun i (st : Bytes × Int) =>
      let blockSize := min (UFS_BLOCK_SIZE : Int) (s.num_inodes * SIZEOF_INODE - st.2)
      (memcpy st.1 st.2.toNat (readBlock d (s.inode_region_addr + i)) 0 UFS_BLOCK_SIZE,
        st.2 + blockSize))
    (fun k st => st.2 = min ((k : Int) * 4096) (s.num_inodes * 128) ∧
      ∀ j : Nat, (j : Int) < s.num_inodes * 128 →
        st.1 j = if j / 4096 < k then
          d (s.inode_region_addr + ((j / 4096 : Nat) : Int)) (j % 4096) else 0)
    s.inode_region_len.toNat 0 ((fun _ => 0), 0)
    (by
      constructor
      · dsimp only; omega
      · intro j _; simp)
    (by
      intro k t _ _ ih
      obtain ⟨ih1, ih2⟩ := ih
      constructor
      · simp only [ih1, UFS_BLOCK_SIZE, SIZEOF_INODE, DIRECT_PTRS]; push_cast; omega
      · intro j hj
        obtain ⟨o, ho⟩ : ∃ o : Nat, t.2.toNat = o := ⟨_, rfl⟩
        simp only [memcpy, readBlock, ih2 j hj, ho, UFS_BLOCK_SIZE]
        have ho2 : (o : Int) = min ((k : Int) * 4096) (s.num_inodes * 128) := by omega
        split_ifs with h1 h2 h3 h4 h5
        · have e1 : j / 4096 = k := by omega
          have e2 : 0 + (j - o) = j % 4096 := by omega
          rw [e1, e2]
        all_goals first | rfl | (exfalso; omega))
  obtain ⟨_, h2⟩ := this
  simp only [SIZEOF_INODE, DIRECT_PTRS]
  by_cases hj : (j : Int) < s.num_inodes * 128
  · have := h2 j hj
    simp only [Nat.zero_add] at this
    have hj2 : (j : Int) < s.num_inodes * ((8 + 4 * 30 : Nat) : Int) := by push_cast; omega
    rw [if_pos hj2, this]
    simp [hj]
  · have hj2 : ¬ (j : Int) < s.num_inodes * ((8 + 4 * 30 : Nat) : Int) := by push_cast; omega
    rw [if_neg hj2]
    simp [hj]

theorem bitOf_eq_zero_iff (bm : Bytes) (i : Nat) :
    bitOf bm i = 0 ↔ Nat.testBit (bm (i / 8)) (i % 8) = false := by
  unfold bitOf
  rw [Nat.and_one_is_mod, Nat.shiftRight_eq_div_pow, Nat.testBit_to_div_mod]
  simp

theorem inodeAt_congr (m m2 : Bytes) (i i2 : Nat)
    (h : ∀ r, r < 128 → m (128 * i + r) = m2 (128 * i2 + r)) : inodeAt m i = inodeAt m2 i2 := by
  unfold inodeAt getS32
  simp only [SIZEOF_INODE, DIRECT_PTRS]
  have e : ∀ o, o + 4 ≤ 128 → getU32 m (128 * i + o) = getU32 m2 (128 * i2 + o) := by
    intro o ho
    unfold getU32
    rw [h o (by omega), show 128 * i + o + 1 = 128 * i + (o + 1) by omega, h (o + 1) (by omega),
      show 128 * i + o + 2 = 128 * i + (o + 2) by omega, h (o + 2) (by omega),
      show 128 * i + o + 3 = 128 * i + (o + 3) by omega, h (o + 3) (by omega)]
    rfl
  congr 1
  · have := e 0 (by omega); simpa using congrArg toS32 this
  · have := e 4 (by omega); simpa using congrArg toS32 this
  · funext k
    split_ifs with hk
    · have := e (8 + 4 * k) (by omega)
      simpa [Nat.add_assoc] using this
    · rfl

theorem stat_error (d : Disk) (inum : Int) (e : Int) (h : stat d inum = .error e) :
    e = -EINVALIDINODE := by
  unfold stat at h
  simp only at h
  split_ifs at h <;> simp_all

theorem stat_eq_ok_iff (d : Disk) (inum : Int) (ino : inode_t) :
    stat d inum = .ok ino ↔
      (0 ≤ inum ∧ inum < (readSuperBlock d).num_inodes
        ∧ bitOf (readInodeBitmap d (readSuperBlock d)) inum.toNat ≠ 0
        ∧ ino = inodeAt (readInodeRegion d (readSuperBlock d)) inum.toNat) := by
  unfold stat
  simp only
  split_ifs with h1 h2
  · simp; omega
  · simp; intro _ _ h; exact absurd h2 h
  · simp only [Except.ok.injEq]
    constructor
    · intro h; exact ⟨by omega, by omega, h2, h.symm⟩
    · intro h; exact h.2.2.2.symm

theorem readInodeBitmap_layout (d : Disk) (i : Nat) (hl : LayoutOk (readSuperBlock d))
    (hi : (i : Int) < (readSuperBlock d).num_inodes) :
    readInodeBitmap d (readSuperBlock d) (i / 8) =
      d ((readSuperBlock d).inode_bitmap_addr + ((i / 8 / 4096 : Nat) : Int)) (i / 8 % 4096) := by
  unfold readInodeBitmap
  rw [readBitmap_apply, if_pos]
  have := hl.inode_bits
  have := hl.inode_bitmap_len_nonneg
  simp only [UFS_BLOCK_SIZE] at *
  omega

theorem readInodeRegion_layout (d : Disk) (i : Nat) (hl : LayoutOk (readSuperBlock d))
    (hi : (i : Int) < (readSuperBlock d).num_inodes) :
    inodeAt (readInodeRegion d (readSuperBlock d)) i = inodeSlot d i := by
  unfold inodeSlot
  apply inodeAt_congr
  intro r hr
  have h1 := hl.inode_slots
  have h2 := hl.inode_region_len_nonneg
  have h3 := hl.num_inodes_nonneg
  simp only [UFS_BLOCK_SIZE, SIZEOF_INODE, DIRECT_PTRS] at *
  rw [readInodeRegion_apply d _ h3, if_pos (by push_cast at *; omega)]
  have e1 : (128 * i + r) / 4096 = i / (4096 / (8 + 4 * 30)) := by omega
  have e2 : (128 * i + r) % 4096 = 128 * (i % (4096 / (8 + 4 * 30))) + r := by omega
  rw [e1, e2]


theorem readLoop_inv (d : Disk) (inode : inode_t) (buffer : Bytes) (size : Int) (k : Nat) :
    let st := forLoop (readStep d inode) k 0
      { buffer := buffer, bytesToRead := size, bytesRead := 0 }
    st.bytesRead = max 0 (min ((k : Int) * 4096) size)
      ∧ st.bytesToRead = size - st.bytesRead
      ∧ ∀ j : Nat, st.buffer j = if (j : Int) < st.bytesRead then fileBytes d inode j else buffer j := by
  have := forLoop_inv (readStep d inode)
    (fun k st => st.bytesRead = max 0 (min ((k : Int) * 4096) size)
      ∧ st.bytesToRead = size - st.bytesRead
      ∧ ∀ j : Nat, st.buffer j = if (j : Int) < st.bytesRead then fileBytes d inode j else buffer j)
    k 0 { buffer := buffer, bytesToRead := size, bytesRead := 0 }
    (by
      refine ⟨?_, ?_, ?_⟩
      · dsimp only; omega
      · dsimp only; omega
      · intro j
        have : ¬ ((j : Int) < 0) := by omega
        dsimp only
        rw [if_neg this])
    (by
      intro k t _ _ ih
      obtain ⟨ih1, ih2, ih3⟩ := ih
      unfold readStep
      split_ifs with hpos
      · simp only [UFS_BLOCK_SIZE]
        refine ⟨?_, ?_, ?_⟩
        · push_cast; omega
        · push_cast; omega
        · intro j
          obtain ⟨o, ho⟩ : ∃ o : Nat, t.bytesRead.toNat = o := ⟨_, rfl⟩
          obtain ⟨n, hn⟩ : ∃ n : Nat, (min t.bytesToRead ((4096 : Nat) : Int)).toNat = n := ⟨_, rfl⟩
          simp only [memcpy, readBlock, ih3 j, ho, hn, fileBytes, UFS_BLOCK_SIZE]
          have hn2 : (n : Int) = min t.bytesToRead 4096 := by push_cast at hn; omega
          have ho2 : (o : Int) = (k : Int) * 4096 := by omega
          split_ifs with h1 h2 h3 h4 h5
          · have e1 : j / 4096 = k := by omega
            have e2 : 0 + (j - o) = j % 4096 := by omega
            rw [e1, e2]
          all_goals first | rfl | (exfalso; push_cast at *; omega)
      · refine ⟨?_, ih2, ih3⟩
        push_cast; omega)
  simpa using this

/-- The copy loop of `read` has reached its exit condition after `DIRECT_PTRS`
iterations whenever the requested size is at most `MAX_FILE_SIZE`. -/
theorem readLoop_done (d : Disk) (inode : inode_t) (buffer : Bytes) (size : Int)
    (h : size ≤ MAX_FILE_SIZE) : ¬ (readLoop d inode buffer size).bytesToRead > 0 := by
  have := readLoop_inv d inode buffer size DIRECT_PTRS
  simp only [MAX_FILE_SIZE, DIRECT_PTRS, UFS_BLOCK_SIZE] at *
  obtain ⟨h1, h2, _⟩ := this
  unfold readLoop
  simp only [DIRECT_PTRS]
  push_cast at *
  omega

theorem readLoop_buffer (d : Disk) (inode : inode_t) (buffer : Bytes) (size : Int)
    (h : size ≤ MAX_FILE_SIZE) (j : Nat) :
    (readLoop d inode buffer size).buffer j =
      if (j : Int) < size then fileBytes d inode j else buffer j := by
  have := readLoop_inv d inode buffer size DIRECT_PTRS
  simp only [MAX_FILE_SIZE, DIRECT_PTRS, UFS_BLOCK_SIZE] at *
  obtain ⟨h1, h2, h3⟩ := this
  unfold readLoop
  simp only [DIRECT_PTRS]
  rw [h3 j, h1]
  have : ((j : Int) < max 0 (min (((30 : Nat) : Int) * 4096) size)) ↔ ((j : Int) < size) := by
    push_cast at *; omega
  simp only [this]


theorem cstr_ne_zero (name : List Nat) : ∀ c ∈ cstr name, c ≠ 0 := by
  intro c hc
  unfold cstr at hc
  have := List.mem_takeWhile_imp hc
  simpa using this

theorem cstr_length_le (name : List Nat) : (cstr name).length ≤ name.length := by
  unfold cstr
  exact (List.takeWhile_sublist _).length_le

theorem cstr_eq_self (name : List Nat) (h : ∀ c ∈ name, c ≠ 0) : cstr name = name := by
  unfold cstr
  rw [List.takeWhile_eq_self_iff]
  intro c hc
  simpa using h c hc

theorem strcmpEq_iff_cstrAt (m : Bytes) (s : List Nat) (hs : ∀ c ∈ s, c ≠ 0) :
    ∀ (off n : Nat), s.length < n → (strcmpEq m off s = true ↔ cstrAt m off n = s) := by
  induction s with
  | nil =>
    intro off n hn
    obtain ⟨n, rfl⟩ : ∃ k, n = k + 1 := ⟨n - 1, by simp at hn; omega⟩
    simp only [strcmpEq, cstrAt, beq_iff_eq]
    constructor
    · intro h; simp [h]
    · intro h; by_contra hc; simp [hc] at h
  | cons c cs ih =>
    intro off n hn
    obtain ⟨n, rfl⟩ : ∃ k, n = k + 1 := ⟨n - 1, by simp at hn; omega⟩
    have hc : c ≠ 0 := hs c (by simp)
    have ih2 := ih (fun x hx => hs x (by simp [hx])) (off + 1) n (by simp at hn; omega)
    simp only [strcmpEq, cstrAt, Bool.and_eq_true, beq_iff_eq]
    constructor
    · rintro ⟨h1, h2⟩
      rw [if_neg (by omega), h1, ih2.1 h2]
    · intro h
      by_cases h0 : m off = 0
      · rw [if_pos h0] at h
        cases h
      · rw [if_neg h0, List.cons.injEq] at h
        exact ⟨h.1, ih2.2 h.2⟩

theorem lookupLoop_eq (buffer : Bytes) (name : List Nat) (n i : Nat) :
    forLoop (lookupStep buffer name) n i none =
      ((List.range' i n).find? (fun i => strcmpEq buffer (i * SIZEOF_DIR_ENT) (cstr name))).map
        (fun i => getS32 buffer (i * SIZEOF_DIR_ENT + DIR_ENT_NAME_SIZE)) := by
  have hsome : ∀ (n i : Nat) (r : Int), forLoop (lookupStep buffer name) n i (some r) = some r := by
    intro n
    induction n with
    | zero => intro i r; rfl
    | succ n ih => intro i r; rw [forLoop]; simp only [lookupStep]; exact ih _ _
  induction n generalizing i with
  | zero => simp [forLoop]
  | succ n ih =>
    rw [forLoop, List.range'_succ, List.find?_cons]
    by_cases h : strcmpEq buffer (i * SIZEOF_DIR_ENT) (cstr name) = true
    · simp only [lookupStep, h, if_true, hsome, Option.map_some']
    · simp only [lookupStep, h, if_false, Bool.false_eq_true]
      rw [ih]

theorem cstrAt_congr (m m2 : Bytes) : ∀ (n off : Nat),
    (∀ j, off ≤ j → j < off + n → m j = m2 j) → cstrAt m off n = cstrAt m2 off n := by
  intro n
  induction n with
  | zero => intro off _; rfl
  | succ n ih =>
    intro off h
    simp only [cstrAt]
    rw [h off (by omega) (by omega), ih (off + 1) (fun j h1 h2 => h j (by omega) (by omega))]

theorem find?_congr_mem {α : Type} (l : List α) (p q : α → Bool)
    (h : ∀ x ∈ l, p x = q x) : l.find? p = l.find? q := by
  induction l with
  | nil => rfl
  | cons a l ih =>
    simp only [List.find?_cons]
    rw [h a (by simp), ih (fun x hx => h x (by simp [hx]))]

theorem read_buffer_ok (d : Disk) (inum : Int) (buffer : Bytes) (inode : inode_t)
    (hs : stat d inum = .ok inode) (h0 : 0 ≤ inode.size) (h1 : inode.size ≤ MAX_FILE_SIZE)
    (j : Nat) :
    (read d inum buffer inode.size).2 j =
      if (j : Int) < inode.size then fileBytes d inode j else buffer j := by
  unfold read
  rw [if_neg (by push_neg; exact ⟨h0, h1⟩), hs]
  simp only [min_self]
  rw [readLoop_buffer d inode buffer inode.size h1]


theorem writeLoop_nonneg (super : super_t) (buffer : Bytes) (avail : List Nat) (n : Nat)
    (st : WriteState) (h1 : 0 ≤ st.bytesToWrite) (h2 : 0 ≤ st.bytesWritten) :
    0 ≤ (forLoop (writeStep super buffer avail) n 0 st).bytesToWrite
      ∧ 0 ≤ (forLoop (writeStep super buffer avail) n 0 st).bytesWritten := by
  have := forLoop_inv (writeStep super buffer avail)
    (fun _ st => 0 ≤ st.bytesToWrite ∧ 0 ≤ st.bytesWritten) n 0 st ⟨h1, h2⟩
    (by
      intro k t _ _ ih
      obtain ⟨a, b⟩ := ih
      unfold writeStep
      simp only [UFS_BLOCK_SIZE]
      constructor <;> omega)
  simpa using this

theorem inodeScan_range (bm : Bytes) (n : Nat) :
    forLoop (inodeScanStep bm) n 0 (-1) = -1 ∨ 0 ≤ forLoop (inodeScanStep bm) n 0 (-1) := by
  have := forLoop_inv (inodeScanStep bm) (fun _ r => r = -1 ∨ 0 ≤ r) n 0 (-1) (Or.inl rfl)
    (by
      intro k t _ _ ih
      unfold inodeScanStep
      split_ifs <;> omega)
  simpa using this

theorem unlinkFind_unchanged (parent : inode_t) (name : List Nat) (d : Disk) (n : Nat) :
    (forLoop (unlinkBlockStep parent name) n 0 (-1, d)).1 = -1 →
      (forLoop (unlinkBlockStep parent name) n 0 (-1, d)).2 = d := by
  have := forLoop_inv (unlinkBlockStep parent name) (fun _ st => st.1 = -1 → st.2 = d) n 0 (-1, d)
    (fun _ => rfl)
    (by
      intro k t _ _ ih
      unfold unlinkBlockStep
      by_cases h1 : t.1 ≠ -1
      · rw [if_pos h1]; exact ih
      · rw [if_neg h1]
        by_cases h2 : parent.direct k ≠ 0
        · rw [if_pos h2]
          simp only
          generalize forLoop (unlinkFindStep name k) (UFS_BLOCK_SIZE / SIZEOF_DIR_ENT) 0
            (t.1, readBlock t.2 (toS32 (parent.direct k))) = r
          by_cases h3 : r.1 ≠ -1
          · rw [if_pos h3]; intro h; exact absurd h h3
          · rw [if_neg h3]; intro _; exact ih (by push_neg at h1; exact h1)
        · rw [if_neg h2]; exact ih)
  simpa using this

theorem writeCommit_nonneg (d : Disk) (junk : Bytes) (super : super_t) (inode : inode_t)
    (inodeNumber : Int) (buffer : Bytes) (size : Int) (dataBitmap : Bytes)
    (availableBlocks : List Nat) (h : 0 ≤ size) :
    0 ≤ (writeCommit d junk super inode inodeNumber buffer size dataBitmap availableBlocks).1 := by
  simp only [writeCommit]
  exact (writeLoop_nonneg super buffer availableBlocks availableBlocks.length
    { disk := d
      inode := (forLoop (releaseStep super) DIRECT_PTRS 0 (dataBitmap, inode)).2
      dataBitmap := (forLoop (releaseStep super) DIRECT_PTRS 0 (dataBitmap, inode)).1
      blockBuffer := junk, bytesToWrite := size, bytesWritten := 0 } h (le_refl 0)).2

theorem write_error_unchanged (d : Disk) (junk : Bytes) (inodeNumber : Int) (buffer : Bytes)
    (size : Int) (h : (write d junk inodeNumber buffer size).1 < 0) :
    (write d junk inodeNumber buffer size).2 = d := by
  unfold write at h ⊢
  cases hs : stat d inodeNumber with
  | error e => rfl
  | ok inode =>
    simp only [hs] at h ⊢
    by_cases h1 : size < 0 ∨ size > MAX_FILE_SIZE
    · rw [if_pos h1]
    · rw [if_neg h1] at h ⊢
      by_cases h2 : inode.type ≠ UFS_REGULAR_FILE
      · rw [if_pos h2]
      · rw [if_neg h2] at h ⊢
        split at h
        · rename_i h3; rw [if_pos h3]
        · exfalso
          have := writeCommit_nonneg d junk (readSuperBlock d) inode inodeNumber buffer size
            (readDataBitmap d (readSuperBlock d))
            (forLoop (writeScanStep (readDataBitmap d (readSuperBlock d)))
              (readSuperBlock d).num_data.toNat 0 ([], blocksNeededFor size)).1
            (by push_neg at h1; exact h1.1)
          omega

theorem createCommit_fst (d : Disk) (junk : Bytes) (super : super_t) (parentInodeNumber : Int)
    (type : Int) (name : List Nat) (parent : inode_t) (inodeBitmap : Bytes) (inodeNumber : Int)
    (dataBitmap : Bytes) (availableBlocks : List Nat) :
    (createCommit d junk super parentInodeNumber type name parent inodeBitmap inodeNumber
      dataBitmap availableBlocks).1 = inodeNumber := rfl

theorem createFresh_error_unchanged (d : Disk) (junk : Bytes) (super : super_t)
    (parentInodeNumber type : Int) (name : List Nat) (parent : inode_t)
    (h : (createFresh d junk super parentInodeNumber type name parent).1 < 0) :
    (createFresh d junk super parentInodeNumber type name parent).2 = d := by
  have hr := inodeScan_range (readInodeBitmap d super) super.num_inodes.toNat
  unfold createFresh at h ⊢
  simp only at h ⊢
  split_ifs at h ⊢
  all_goals first | rfl | (exfalso; rw [createCommit_fst] at h; omega)

theorem create_error_unchanged (d : Disk) (junk : Bytes) (parentInodeNumber type : Int)
    (name : List Nat) (h : (create d junk parentInodeNumber type name).1 < 0) :
    (create d junk parentInodeNumber type name).2 = d := by
  unfold create at h ⊢
  by_cases h1 : name.length > DIR_ENT_NAME_SIZE ∨ name.length = 0
  · rw [if_pos h1]
  · rw [if_neg h1] at h ⊢
    cases hs : stat d parentInodeNumber with
    | error e => rfl
    | ok parent =>
      simp only [hs] at h ⊢
      by_cases h2 : parent.type ≠ UFS_DIRECTORY
      · rw [if_pos h2]
      · rw [if_neg h2] at h ⊢
        by_cases h3 : lookup d junk parentInodeNumber name ≠ -ENOTFOUND
        · rw [if_pos h3]
          cases hf : stat d (lookup d junk parentInodeNumber name) with
          | error e => rfl
          | ok inode => rfl
        · rw [if_neg h3] at h ⊢
          exact createFresh_error_unchanged d junk _ _ _ _ _ h

theorem unlinkCommit_error_unchanged (d : Disk) (junk : Bytes) (super : super_t)
    (parentInodeNumber : Int) (name : List Nat) (parent : inode_t) (inodeNumber : Int)
    (inode : inode_t)
    (h : (unlinkCommit d junk super parentInodeNumber name parent inodeNumber inode).1 < 0) :
    (unlinkCommit d junk super parentInodeNumber name parent inodeNumber inode).2 = d := by
  unfold unlinkCommit at h ⊢
  simp only at h ⊢
  by_cases h1 : (forLoop (unlinkBlockStep parent name) DIRECT_PTRS 0 (-1, d)).1 = -1
  · rw [if_pos h1]
    exact unlinkFind_unchanged parent name d _ h1
  · exfalso
    rw [if_neg h1] at h
    simp at h

theorem unlink_error_unchanged (d : Disk) (junk : Bytes) (parentInodeNumber : Int)
    (name : List Nat) (h : (unlink d junk parentInodeNumber name).1 < 0) :
    (unlink d junk parentInodeNumber name).2 = d := by
  unfold unlink at h ⊢
  by_cases h1 : name.length ≤ 0 ∨ name.length ≥ DIR_ENT_NAME_SIZE - 1
  · rw [if_pos h1]
  · rw [if_neg h1] at h ⊢
    by_cases h2 : name = [46] ∨ name = [46, 46]
    · rw [if_pos h2]
    · rw [if_neg h2] at h ⊢
      cases hs : stat d parentInodeNumber with
      | error e => rfl
      | ok parent =>
        simp only [hs] at h ⊢
        by_cases h3 : parent.type ≠ UFS_DIRECTORY
        · rw [if_pos h3]
        · rw [if_neg h3] at h ⊢
          by_cases h4 : lookup d junk parentInodeNumber name = -ENOTFOUND
          · rw [if_pos h4]
          · rw [if_neg h4] at h ⊢
            cases hf : stat d (lookup d junk parentInodeNumber name) with
            | error e => rfl
            | ok inode =>
              simp only [hf] at h ⊢
              by_cases h5 : inode.type = UFS_DIRECTORY ∧ toU64 inode.size > 2 * SIZEOF_DIR_ENT
              · rw [if_pos h5]
              · rw [if_neg h5] at h ⊢
                exact unlinkCommit_error_unchanged d junk _ _ _ _ _ _ h


theorem mkfsImage_layout : LayoutOk (readSuperBlock mkfsImage) :=
  ⟨by decide, by decide, by decide, by decide, by decide, by decide, by decide, by decide,
    by decide, by decide, by decide, by decide, by decide⟩


theorem stat_eq_error_iff (d : Disk) (inum : Int) (e : Int) :
    stat d inum = .error e ↔
      (e = -EINVALIDINODE ∧ (inum < 0 ∨ inum ≥ (readSuperBlock d).num_inodes
        ∨ bitOf (readInodeBitmap d (readSuperBlock d)) inum.toNat = 0)) := by
  unfold stat
  simp only
  by_cases h1 : inum < 0 ∨ inum ≥ (readSuperBlock d).num_inodes
  · rw [if_pos h1]
    constructor
    · intro h; injection h with h; exact ⟨h.symm, by omega⟩
    · intro h; rw [h.1]
  · rw [if_neg h1]
    by_cases h2 : bitOf (readInodeBitmap d (readSuperBlock d)) inum.toNat = 0
    · rw [if_pos h2]
      constructor
      · intro h; injection h with h; exact ⟨h.symm, Or.inr (Or.inr h2)⟩
      · intro h; rw [h.1]
    · rw [if_neg h2]
      constructor
      · intro h; cases h
      · intro h; exfalso; rcases h.2 with h | h | h
        · exact h1 (Or.inl h)
        · exact h1 (Or.inr h)
        · exact h2 h

/-- The search of `lookup` in closed form: for an allocated directory whose size
lies in `[0, MAX_FILE_SIZE]` and a name of a valid length, the result is the
inode number of the first entry whose name is the C string held by `name`. -/
theorem lookup_of_directory (d : Disk) (junk : Bytes) (parentInodeNumber : Int)
    (name : List Nat) (parent : inode_t) (hs : stat d parentInodeNumber = .ok parent)
    (ht : ¬ parent.type ≠ UFS_DIRECTORY)
    (hn : ¬ (name.length ≤ 0 ∨ name.length ≥ DIR_ENT_NAME_SIZE))
    (h0 : 0 ≤ parent.size) (h1 : parent.size ≤ MAX_FILE_SIZE) :
    lookup d junk parentInodeNumber name =
      match (List.range (parent.size.toNat / SIZEOF_DIR_ENT)).find?
          (fun i => entryName (fileBytes d parent) i = cstr name) with
      | some i => entryInum (fileBytes d parent) i
      | none => -ENOTFOUND := by
  unfold lookup
  simp only [hs]
  rw [if_neg ht, if_neg hn]
  have hlen : (cstr name).length < 28 := by
    have := cstr_length_le name
    simp only [DIR_ENT_NAME_SIZE] at hn
    omega
  have hcount : toU64 parent.size / SIZEOF_DIR_ENT = parent.size.toNat / SIZEOF_DIR_ENT := by
    unfold toU64
    simp only [MAX_FILE_SIZE, DIRECT_PTRS, UFS_BLOCK_SIZE] at h1
    push_cast at h1
    congr 1
    omega
  rw [lookupLoop_eq, hcount, List.range_eq_range']
  have hbuf : ∀ i, i ∈ List.range' 0 (parent.size.toNat / SIZEOF_DIR_ENT) →
      ∀ j, i * 32 ≤ j → j < i * 32 + 32 →
        (read d parentInodeNumber junk parent.size).2 j = fileBytes d parent j := by
    intro i hi j hj1 hj2
    rw [read_buffer_ok d _ _ _ hs h0 h1, if_pos]
    rw [List.mem_range'_1] at hi
    simp only [SIZEOF_DIR_ENT, DIR_ENT_NAME_SIZE] at hi
    omega
  have hfind : (List.range' 0 (parent.size.toNat / SIZEOF_DIR_ENT)).find?
        (fun i => strcmpEq (read d parentInodeNumber junk parent.size).2
          (i * SIZEOF_DIR_ENT) (cstr name)) =
      (List.range' 0 (parent.size.toNat / SIZEOF_DIR_ENT)).find?
        (fun i => decide (entryName (fileBytes d parent) i = cstr name)) := by
    apply find?_congr_mem
    intro i hi
    rw [Bool.eq_iff_iff, strcmpEq_iff_cstrAt _ _ (cstr_ne_zero name) _ 28 hlen,
      decide_eq_true_iff]
    unfold entryName
    simp only [SIZEOF_DIR_ENT, DIR_ENT_NAME_SIZE]
    rw [cstrAt_congr _ (fileBytes d parent) 28 (i * 32)
      (fun j h1 h2 => hbuf i hi j h1 (by omega))]
  rw [hfind]
  cases hf : (List.range' 0 (parent.size.toNat / SIZEOF_DIR_ENT)).find?
      (fun i => decide (entryName (fileBytes d parent) i = cstr name)) with
  | none => rfl
  | some i =>
    simp only [Option.map_some']
    unfold entryInum getS32
    have hi := List.mem_of_find?_eq_some hf
    rw [getU32_congr _ (fileBytes d parent) _
      (fun j h1 h2 => hbuf i hi j (by simp only [SIZEOF_DIR_ENT, DIR_ENT_NAME_SIZE] at h1; omega)
        (by simp only [SIZEOF_DIR_ENT, DIR_ENT_NAME_SIZE] at h2; omega))]

theorem mkfsImage_root : stat mkfsImage 0 = .ok (inodeSlot mkfsImage 0) :=
  (stat_eq_ok_iff _ _ _).2 ⟨by decide, by decide, by decide,
    (readInodeRegion_layout mkfsImage 0 mkfsImage_layout (by decide)).symm⟩


theorem clearBits_succ (bm : Bytes) (n : Nat) :
    clearBits bm (n + 1) = if bitOf bm n = 0 then clearBits bm n ++ [n] else clearBits bm n := by
  unfold clearBits
  rw [List.range_succ, List.filter_append]
  by_cases h : bitOf bm n = 0
  · simp [h]
  · simp [h]

theorem clearBits_mem (bm : Bytes) (n a : Nat) :
    a ∈ clearBits bm n ↔ a < n ∧ bitOf bm a = 0 := by
  unfold clearBits
  simp [List.mem_filter]

theorem clearBits_nodup (bm : Bytes) (n : Nat) : (clearBits bm n).Nodup := by
  unfold clearBits
  exact (List.nodup_range n).filter _

theorem writeScan_eq (bm : Bytes) (k : Int) (hk : 0 ≤ k) (n : Nat) :
    forLoop (writeScanStep bm) n 0 ([], k) =
      ((clearBits bm n).take k.toNat, k - ((clearBits bm n).take k.toNat).length) := by
  have := forLoop_inv (writeScanStep bm)
    (fun m st => st = ((clearBits bm m).take k.toNat,
      k - ((clearBits bm m).take k.toNat).length))
    n 0 ([], k)
    (by simp [clearBits])
    (by
      intro m t _ _ ih
      rw [ih]
      unfold writeScanStep
      simp only
      rw [clearBits_succ]
      by_cases h1 : k - ((List.take k.toNat (clearBits bm m)).length : Int) > 0
      · rw [if_pos h1]
        have hlt : (clearBits bm m).length < k.toNat := by
          rw [List.length_take] at h1
          omega
        by_cases h2 : bitOf bm m = 0
        · rw [if_pos h2, if_pos h2]
          rw [List.take_of_length_le (by omega), List.take_of_length_le (by simp; omega)]
          simp
          omega
        · rw [if_neg h2, if_neg h2]
      · rw [if_neg h1]
        have hge : k.toNat ≤ (clearBits bm m).length := by
          rw [List.length_take] at h1
          omega
        by_cases h2 : bitOf bm m = 0
        · rw [if_pos h2, List.take_append_of_le_length hge]
        · rw [if_neg h2])
  simpa using this

theorem release_inode (super : super_t) (bm : Bytes) (inode : inode_t) (n : Nat) :
    (forLoop (releaseStep super) n 0 (bm, inode)).2.type = inode.type
      ∧ (forLoop (releaseStep super) n 0 (bm, inode)).2.size = inode.size
      ∧ ∀ k, (forLoop (releaseStep super) n 0 (bm, inode)).2.direct k =
          if k < n then 0 else inode.direct k := by
  have := forLoop_inv (releaseStep super)
    (fun m st => st.2.type = inode.type ∧ st.2.size = inode.size
      ∧ ∀ k, st.2.direct k = if k < m then 0 else inode.direct k)
    n 0 (bm, inode) ⟨rfl, rfl, fun k => by simp⟩
    (by
      intro m t _ _ ih
      obtain ⟨i1, i2, i3⟩ := ih
      unfold releaseStep
      by_cases h : t.2.direct m ≠ 0
      · rw [if_pos h]
        refine ⟨i1, i2, ?_⟩
        intro k
        simp only [Function.update_apply]
        by_cases hk : k = m
        · rw [if_pos hk, if_pos (by omega)]
        · rw [if_neg hk, i3 k]
          by_cases hk2 : k < m
          · rw [if_pos hk2, if_pos (by omega)]
          · rw [if_neg hk2, if_neg (by omega)]
      · rw [if_neg h]
        refine ⟨i1, i2, ?_⟩
        intro k
        rw [i3 k]
        by_cases hk : k = m
        · subst hk
          have := i3 k
          rw [if_neg (by omega)] at this
          rw [if_neg (by omega), if_pos (by omega)]
          rw [← this]
          push_neg at h
          exact h
        · by_cases hk2 : k < m
          · rw [if_pos hk2, if_pos (by omega)]
          · rw [if_neg hk2, if_neg (by omega)])
  simpa using this

theorem writeBlock_apply (d : Disk) (addr : Int) (buf : Bytes) (a : Int) (o : Nat) :
    writeBlock d addr buf a o = if a = addr ∧ o < 4096 then buf o else d a o := by
  unfold writeBlock
  simp only [Function.update_apply, UFS_BLOCK_SIZE]
  by_cases h : a = addr
  · subst h; simp
  · simp [h]

theorem writeBlock_other (d : Disk) (addr : Int) (buf : Bytes) (a : Int) (h : a ≠ addr) :
    writeBlock d addr buf a = d a := by
  unfold writeBlock
  rw [Function.update_noteq h]

theorem writeBitmap_apply (d : Disk) (addr len : Int) (bm : Bytes) (a : Int) (o : Nat) :
    writeBitmap d addr len bm a o =
      if addr ≤ a ∧ a < addr + len.toNat ∧ o < 4096 then bm ((a - addr).toNat * 4096 + o)
      else d a o := by
  unfold writeBitmap
  have := forLoop_inv
    (fun i dk => writeBlock dk (addr + i)
      (memcpy (fun _ => 0) 0 bm (i * UFS_BLOCK_SIZE) UFS_BLOCK_SIZE))
    (fun m dk => ∀ a o, dk a o =
      if addr ≤ a ∧ a < addr + m ∧ o < 4096 then bm ((a - addr).toNat * 4096 + o) else d a o)
    len.toNat 0 d
    (by
      intro a o
      rw [if_neg]
      push_cast
      omega)
    (by
      intro m t _ _ ih a o
      show writeBlock t (addr + (m : Int))
        (memcpy (fun _ => 0) 0 bm (m * UFS_BLOCK_SIZE) UFS_BLOCK_SIZE) a o = _
      rw [writeBlock_apply, ih a o]
      simp only [memcpy, UFS_BLOCK_SIZE]
      by_cases h1 : a = addr + (m : Int) ∧ o < 4096
      · rw [if_pos h1, if_pos (by omega), if_pos (by push_cast; omega)]
        have : (a - addr).toNat = m := by omega
        rw [this, Nat.sub_zero]
      · rw [if_neg h1]
        by_cases h2 : addr ≤ a ∧ a < addr + (m : Int) ∧ o < 4096
        · rw [if_pos h2, if_pos (by push_cast; omega)]
        · rw [if_neg h2, if_neg (by push_cast; omega)])
  simpa using this a o

theorem writeLoop_spec (super : super_t) (buffer : Bytes) (avail : List Nat) (d : Disk)
    (ino0 : inode_t) (bm0 junk : Bytes) (size : Int) (hsize : 0 ≤ size) (addr : Nat → Int)
    (haddr : ∀ i, i < avail.length →
      toS32 (toU32 ((avail.getD i 0 : Int) + super.data_region_addr)) = addr i)
    (hinj : ∀ i j, i < avail.length → j < avail.length → addr i = addr j → i = j) :
    let st := forLoop (writeStep super buffer avail) avail.length 0
      { disk := d, inode := ino0, dataBitmap := bm0, blockBuffer := junk,
        bytesToWrite := size, bytesWritten := 0 }
    st.bytesWritten = min (4096 * (avail.length : Int)) size
      ∧ st.inode.type = ino0.type ∧ st.inode.size = ino0.size
      ∧ (∀ k, st.inode.direct k =
          if k < avail.length then toU32 ((avail.getD k 0 : Int) + super.data_region_addr)
          else ino0.direct k)
      ∧ (∀ a, (∀ i, i < avail.length → a ≠ addr i) → st.disk a = d a)
      ∧ (∀ (i o : Nat), i < avail.length → o < 4096 → (4096 * (i : Int) + (o : Int)) < size →
          st.disk (addr i) o = buffer (4096 * i + o))
      ∧ st.dataBitmap = avail.foldl setBit bm0 := by
  have := forLoop_inv (writeStep super buffer avail)
    (fun m st => st.bytesWritten = min (4096 * (m : Int)) size
      ∧ st.bytesToWrite = size - st.bytesWritten
      ∧ st.inode.type = ino0.type ∧ st.inode.size = ino0.size
      ∧ (∀ k, st.inode.direct k =
          if k < m then toU32 ((avail.getD k 0 : Int) + super.data_region_addr)
          else ino0.direct k)
      ∧ (∀ a, (∀ i, i < m → a ≠ addr i) → st.disk a = d a)
      ∧ (∀ (i o : Nat), i < m → o < 4096 → (4096 * (i : Int) + (o : Int)) < size →
          st.disk (addr i) o = buffer (4096 * i + o))
      ∧ st.dataBitmap = (avail.take m).foldl setBit bm0)
    avail.length 0
    { disk := d, inode := ino0, dataBitmap := bm0, blockBuffer := junk,
      bytesToWrite := size, bytesWritten := 0 }
    (by
      refine ⟨?_, ?_, rfl, rfl, ?_, ?_, ?_, ?_⟩
      · dsimp only; omega
      · dsimp only; omega
      · intro k; dsimp only; rw [if_neg (by omega)]
      · intro a _; rfl
      · intro i o hi; omega
      · rfl)
    (by
      intro m t _ hm ih
      obtain ⟨i1, i2, i3, i4, i5, i6, i7, i8⟩ := ih
      have hm2 : m < avail.length := by omega
      unfold writeStep
      simp only [Function.update_same, UFS_BLOCK_SIZE]
      refine ⟨?_, ?_, i3, i4, ?_, ?_, ?_, ?_⟩
      · push_cast; omega
      · push_cast; omega
      · intro k
        simp only [Function.update_apply]
        by_cases hk : k = m
        · rw [if_pos hk, if_pos (by omega), hk]
        · rw [if_neg hk, i5 k]
          by_cases hk2 : k < m
          · rw [if_pos hk2, if_pos (by omega)]
          · rw [if_neg hk2, if_neg (by omega)]
      · intro a ha
        rw [haddr m hm2, writeBlock_other _ _ _ _ (ha m (by omega))]
        exact i6 a (fun i hi => ha i (by omega))
      · intro i o hi ho hlt
        rw [haddr m hm2]
        by_cases him : i = m
        · subst him
          rw [writeBlock_apply, if_pos ⟨rfl, ho⟩]
          simp only [memcpy]
          rw [if_pos (by push_cast at *; omega)]
          congr 1
          omega
        · have hne : addr i ≠ addr m := fun h => him (hinj i m (by omega) hm2 h)
          rw [writeBlock_other _ _ _ _ hne]
          exact i7 i o (by omega) ho hlt
      · rw [i8, List.take_succ, List.foldl_append]
        have : avail[m]? = some (avail.getD m 0) := by
          rw [List.getD_eq_getElem?_getD, List.getElem?_eq_getElem hm2]
          simp
        rw [this]
        simp)
  obtain ⟨i1, _, i3, i4, i5, i6, i7, i8⟩ := this
  simp only [Nat.zero_add] at *
  rw [List.take_length] at i8
  exact ⟨i1, i3, i4, i5, i6, i7, i8⟩

theorem getU32_of_byteAt (m : Bytes) (off v : Nat) (h : ∀ r, r < 4 → m (off + r) = byteAt v r) :
    getU32 m off = v % 4294967296 := by
  unfold getU32
  have h0 := h 0 (by omega)
  have h1 := h 1 (by omega)
  have h2 := h 2 (by omega)
  have h3 := h 3 (by omega)
  simp only [Nat.add_zero] at h0
  rw [h0, h1, h2, h3]
  unfold byteAt
  norm_num
  omega

theorem inodeAt_of_bytes (m : Bytes) (i : Nat) (ino : inode_t)
    (h : ∀ r, r < 128 → m (128 * i + r) = inodeBytes ino r)
    (ht : -2147483648 ≤ ino.type ∧ ino.type < 2147483648)
    (hs : -2147483648 ≤ ino.size ∧ ino.size < 2147483648)
    (hd : ∀ k, k < 30 → ino.direct k < 4294967296)
    (hd2 : ∀ k, 30 ≤ k → ino.direct k = 0) : inodeAt m i = ino := by
  have e1 : getU32 m (128 * i) = toU32 ino.type := by
    rw [getU32_of_byteAt m (128 * i) (toU32 ino.type)]
    · exact Nat.mod_eq_of_lt (toU32_lt _)
    · intro r hr
      rw [h r (by omega)]
      unfold inodeBytes
      rw [if_pos hr]
  have e2 : getU32 m (128 * i + 4) = toU32 ino.size := by
    rw [getU32_of_byteAt m (128 * i + 4) (toU32 ino.size)]
    · exact Nat.mod_eq_of_lt (toU32_lt _)
    · intro r hr
      rw [show 128 * i + 4 + r = 128 * i + (4 + r) by omega, h (4 + r) (by omega)]
      unfold inodeBytes
      rw [if_neg (by omega), if_pos (by omega)]
      congr 1
      omega
  have e3 : ∀ k, k < 30 → getU32 m (128 * i + 8 + 4 * k) = ino.direct k := by
    intro k hk
    rw [getU32_of_byteAt m (128 * i + 8 + 4 * k) (ino.direct k)]
    · exact Nat.mod_eq_of_lt (hd k hk)
    · intro r hr
      rw [show 128 * i + 8 + 4 * k + r = 128 * i + (8 + 4 * k + r) by omega,
        h (8 + 4 * k + r) (by omega)]
      unfold inodeBytes
      rw [if_neg (by omega), if_neg (by omega)]
      have a1 : (8 + 4 * k + r - 8) / 4 = k := by omega
      have a2 : (8 + 4 * k + r - 8) % 4 = r := by omega
      rw [a1, a2]
  unfold inodeAt getS32
  simp only [SIZEOF_INODE, DIRECT_PTRS]
  norm_num
  rw [e1, e2, toS32_toU32 _ ht.1 ht.2, toS32_toU32 _ hs.1 hs.2]
  cases ino with
  | mk type size direct =>
    simp only [inode_t.mk.injEq, true_and]
    funext k
    by_cases hk : k < 30
    · rw [if_pos hk]; exact e3 k hk
    · rw [if_neg hk]; exact (hd2 k (by omega)).symm

theorem inodeAt_props (m : Bytes) (i : Nat) :
    (-2147483648 ≤ (inodeAt m i).type ∧ (inodeAt m i).type < 2147483648)
      ∧ (-2147483648 ≤ (inodeAt m i).size ∧ (inodeAt m i).size < 2147483648)
      ∧ (∀ k, (inodeAt m i).direct k < 4294967296)
      ∧ (∀ k, 30 ≤ k → (inodeAt m i).direct k = 0) := by
  unfold inodeAt
  refine ⟨getS32_bounds _ _, getS32_bounds _ _, ?_, ?_⟩
  · intro k
    simp only [DIRECT_PTRS]
    split_ifs
    · exact getU32_lt _ _
    · omega
  · intro k hk
    simp only [DIRECT_PTRS]
    rw [if_neg (by omega)]

theorem readSuperBlock_congr (d d2 : Disk) (h : d2 0 = d 0) :
    readSuperBlock d2 = readSuperBlock d := by
  unfold readSuperBlock readBlock
  rw [h]

theorem getD_inj_of_nodup (l : List Nat) (h : l.Nodup) (i j : Nat) (hi : i < l.length)
    (hj : j < l.length) (e : l.getD i 0 = l.getD j 0) : i = j := by
  rw [List.getD_eq_getElem _ _ hi, List.getD_eq_getElem _ _ hj] at e
  exact (List.Nodup.getElem_inj_iff h).1 e

theorem getD_mem (l : List Nat) (i : Nat) (hi : i < l.length) : l.getD i 0 ∈ l := by
  rw [List.getD_eq_getElem _ _ hi]
  exact List.getElem_mem hi

theorem writeCommit_spec (d : Disk) (junk : Bytes) (inode : inode_t) (inodeNumber : Int)
    (buffer : Bytes) (size : Int) (dataBitmap : Bytes) (avail : List Nat)
    (hl : LayoutOk (readSuperBlock d))
    (hi0 : 0 ≤ inodeNumber) (hi1 : inodeNumber < (readSuperBlock d).num_inodes)
    (hbit : bitOf (readInodeBitmap d (readSuperBlock d)) inodeNumber.toNat ≠ 0)
    (hty : -2147483648 ≤ inode.type ∧ inode.type < 2147483648)
    (hd30 : ∀ k, 30 ≤ k → inode.direct k = 0)
    (hs0 : 0 ≤ size) (hs1 : size ≤ 4096 * (avail.length : Int)) (hlen : avail.length ≤ 30)
    (hav : ∀ a ∈ avail, (a : Int) < (readSuperBlock d).num_data) (hnd : avail.Nodup)
    (r : Int × Disk)
    (hr : r = writeCommit d junk (readSuperBlock d) inode inodeNumber buffer size dataBitmap
      avail) :
    r.1 = size
      ∧ (∀ a, a < (readSuperBlock d).data_bitmap_addr → r.2 a = d a)
      ∧ stat r.2 inodeNumber = .ok (writtenInode (readSuperBlock d) inode.type size avail)
      ∧ (∀ (i o : Nat), i < avail.length → o < 4096 → 4096 * (i : Int) + (o : Int) < size →
          r.2 ((avail.getD i 0 : Int) + (readSuperBlock d).data_region_addr) o =
            buffer (4096 * i + o)) := by
  obtain ⟨l1, l2, l3, l4, l5, l6, l7, l8, l9, l10, l11, l12, l13⟩ := hl
  simp only [UFS_BLOCK_SIZE, SIZEOF_INODE, DIRECT_PTRS] at l10 l11 l12
  push_cast at l10 l11 l12
  have hrange : ∀ i, i < avail.length → (avail.getD i 0 : Int) < (readSuperBlock d).num_data :=
    fun i hi => hav _ (getD_mem avail i hi)
  have haddr : ∀ i, i < avail.length →
      toS32 (toU32 ((avail.getD i 0 : Int) + (readSuperBlock d).data_region_addr)) =
        (fun i => (avail.getD i 0 : Int) + (readSuperBlock d).data_region_addr) i := by
    intro i hi
    have := hrange i hi
    exact toS32_toU32 _ (by omega) (by omega)
  have hinj : ∀ i j, i < avail.length → j < avail.length →
      (fun i => (avail.getD i 0 : Int) + (readSuperBlock d).data_region_addr) i =
        (fun i => (avail.getD i 0 : Int) + (readSuperBlock d).data_region_addr) j → i = j := by
    intro i j hi hj e
    simp only at e
    exact getD_inj_of_nodup avail hnd i j hi hj (by omega)
  obtain ⟨r1, r2, r3⟩ := release_inode (readSuperBlock d) dataBitmap inode DIRECT_PTRS
  have L := writeLoop_spec (readSuperBlock d) buffer avail d
    (forLoop (releaseStep (readSuperBlock d)) DIRECT_PTRS 0 (dataBitmap, inode)).2
    (forLoop (releaseStep (readSuperBlock d)) DIRECT_PTRS 0 (dataBitmap, inode)).1
    junk size hs0 _ haddr hinj
  simp only at L
  simp only [writeCommit] at hr
  generalize forLoop (writeStep (readSuperBlock d) buffer avail) avail.length 0
    { disk := d
      inode := (forLoop (releaseStep (readSuperBlock d)) DIRECT_PTRS 0 (dataBitmap, inode)).2
      dataBitmap := (forLoop (releaseStep (readSuperBlock d)) DIRECT_PTRS 0 (dataBitmap, inode)).1
      blockBuffer := junk, bytesToWrite := size, bytesWritten := 0 } = st at L hr
  obtain ⟨w1, w2, w3, w4, w5, w6, w7⟩ := L
  have hib0 : (0 : Int) ≤ inodeNumber / 32 := by omega
  have hne_data : ∀ i, i < avail.length →
      (avail.getD i 0 : Int) + (readSuperBlock d).data_region_addr ≠
        (readSuperBlock d).inode_region_addr + inodeNumber / 32 := by
    intro i hi; omega
  have hino : ({ st.inode with size := size } : inode_t) =
      writtenInode (readSuperBlock d) inode.type size avail := by
    unfold writtenInode
    apply inode_t.ext
    · simp only; rw [w2, r1]
    · rfl
    · funext k
      simp only
      rw [w4 k, r3 k]
      by_cases hk : k < avail.length
      · rw [if_pos hk, if_pos hk]
      · rw [if_neg hk, if_neg hk]
        by_cases hk2 : k < DIRECT_PTRS
        · rw [if_pos hk2]
        · rw [if_neg hk2]; exact hd30 k (by simp only [DIRECT_PTRS] at hk2; omega)
  rw [hino] at hr
  simp only [UFS_BLOCK_SIZE, SIZEOF_INODE, DIRECT_PTRS, readBlock] at hr
  norm_num at hr
  have hdisk : ∀ a o, r.2 a o =
      if a = (readSuperBlock d).inode_region_addr + inodeNumber / 32 ∧ o < 4096 then
        memcpy (writeDataBitmap st.disk (readSuperBlock d) st.dataBitmap
            ((readSuperBlock d).inode_region_addr + inodeNumber / 32))
          ((inodeNumber % 32).toNat * 128)
          (inodeBytes (writtenInode (readSuperBlock d) inode.type size avail)) 0 128 o
      else writeDataBitmap st.disk (readSuperBlock d) st.dataBitmap a o := by
    intro a o
    rw [hr]
    simp only
    rw [writeBlock_apply]
  have hlow : ∀ a, a < (readSuperBlock d).data_bitmap_addr → r.2 a = d a := by
    intro a ha
    funext o
    rw [hdisk, if_neg (by omega)]
    unfold writeDataBitmap
    rw [writeBitmap_apply, if_neg (by omega), w5 a (fun i hi => by have := hrange i hi; omega)]
  refine ⟨?_, hlow, ?_, ?_⟩
  · rw [hr]; simp only; rw [w1]; omega
  · rw [stat_eq_ok_iff]
    have hsup := readSuperBlock_congr d _ (hlow 0 (by omega))
    rw [hsup]
    refine ⟨hi0, hi1, ?_, ?_⟩
    · have : readInodeBitmap r.2 (readSuperBlock d) (inodeNumber.toNat / 8)
          = readInodeBitmap d (readSuperBlock d) (inodeNumber.toNat / 8) := by
        unfold readInodeBitmap
        rw [readBitmap_apply, readBitmap_apply]
        by_cases hj : inodeNumber.toNat / 8 < 4096 * (readSuperBlock d).inode_bitmap_len.toNat
        · rw [if_pos hj, if_pos hj, hlow _ (by omega)]
        · rw [if_neg hj, if_neg hj]
      unfold bitOf at hbit ⊢
      rw [this]
      exact hbit
    · symm
      apply inodeAt_of_bytes
      · intro r0 hr0
        rw [readInodeRegion_apply _ _ l8, if_pos (by omega)]
        have e1 : (readSuperBlock d).inode_region_addr
            + (((128 * inodeNumber.toNat + r0) / 4096 : Nat) : Int)
            = (readSuperBlock d).inode_region_addr + inodeNumber / 32 := by omega
        rw [e1, hdisk, if_pos ⟨rfl, by omega⟩]
        simp only [memcpy]
        rw [if_pos (by omega)]
        refine congrArg _ ?_
        omega
      · exact hty
      · unfold writtenInode; simp only; omega
      · intro k hk
        unfold writtenInode
        simp only
        split_ifs
        · exact toU32_lt _
        · omega
      · intro k hk
        unfold writtenInode
        simp only
        rw [if_neg (by omega)]
  · intro i o hi ho hlt
    rw [hdisk, if_neg (fun h => hne_data i hi h.1)]
    unfold writeDataBitmap
    have := hrange i hi
    rw [writeBitmap_apply, if_neg (by omega)]
    exact w6 i o hi ho hlt

set_option maxRecDepth 100000 in
theorem mkfsImage_consistent : Consistent mkfsImage :=
  ⟨mkfsImage_layout, by decide, by decide⟩

theorem fileImage_layout : LayoutOk (readSuperBlock fileImage) :=
  ⟨by decide, by decide, by decide, by decide, by decide, by decide, by decide, by decide,
    by decide, by decide, by decide, by decide, by decide⟩

set_option maxRecDepth 100000 in
theorem fileImage_consistent : Consistent fileImage :=
  ⟨fileImage_layout, by decide, by decide⟩

theorem fullImage_layout : LayoutOk (readSuperBlock fullImage) :=
  ⟨by decide, by decide, by decide, by decide, by decide, by decide, by decide, by decide,
    by decide, by decide, by decide, by decide, by decide⟩

set_option maxRecDepth 100000 in
theorem fullImage_consistent : Consistent fullImage :=
  ⟨fullImage_layout, by decide, by decide⟩

theorem blocksNeededFor_eq (size : Int) : blocksNeededFor size = blocksFor size := by
  unfold blocksNeededFor blocksFor
  simp only [UFS_BLOCK_SIZE]
  split_ifs <;> push_cast <;> omega

theorem readDataBitmap_layout (d : Disk) (i : Nat) (hl : LayoutOk (readSuperBlock d))
    (hi : (i : Int) < (readSuperBlock d).num_data) :
    readDataBitmap d (readSuperBlock d) (i / 8) =
      d ((readSuperBlock d).data_bitmap_addr + ((i / 8 / 4096 : Nat) : Int)) (i / 8 % 4096) := by
  unfold readDataBitmap
  rw [readBitmap_apply, if_pos]
  have := hl.data_bits
  have := hl.data_bitmap_len_nonneg
  simp only [UFS_BLOCK_SIZE] at *
  omega

theorem clearBits_readDataBitmap (d : Disk) (hl : LayoutOk (readSuperBlock d)) :
    clearBits (readDataBitmap d (readSuperBlock d)) (readSuperBlock d).num_data.toNat =
      (List.range (readSuperBlock d).num_data.toNat).filter (fun i => dataBit d i = false) := by
  unfold clearBits
  apply List.filter_congr
  intro i hi
  rw [List.mem_range] at hi
  rw [Bool.eq_iff_iff, decide_eq_true_iff, decide_eq_true_iff, bitOf_eq_zero_iff,
    readDataBitmap_layout d i hl (by omega)]
  rfl

theorem write_of_ok (d : Disk) (junk : Bytes) (inodeNumber : Int) (buffer : Bytes) (size : Int)
    (inode : inode_t) (hs : stat d inodeNumber = .ok inode)
    (hsize : ¬ (size < 0 ∨ size > MAX_FILE_SIZE)) (ht : ¬ inode.type ≠ UFS_REGULAR_FILE) :
    write d junk inodeNumber buffer size =
      if ((clearBits (readDataBitmap d (readSuperBlock d))
          (readSuperBlock d).num_data.toNat).length : Int) < blocksFor size then
        (-ENOTENOUGHSPACE, d)
      else
        writeCommit d junk (readSuperBlock d) inode inodeNumber buffer size
          (readDataBitmap d (readSuperBlock d))
          ((clearBits (readDataBitmap d (readSuperBlock d))
            (readSuperBlock d).num_data.toNat).take (blocksFor size).toNat) := by
  have hk : 0 ≤ blocksFor size := by
    unfold blocksFor
    simp only [UFS_BLOCK_SIZE]
    push_cast
    omega
  unfold write
  simp only [hs]
  rw [if_neg hsize, if_neg ht, blocksNeededFor_eq, writeScan_eq _ _ hk]
  simp only [List.length_take]
  by_cases hc : ((clearBits (readDataBitmap d (readSuperBlock d))
      (readSuperBlock d).num_data.toNat).length : Int) < blocksFor size
  · rw [if_pos hc, if_pos (by omega)]
  · rw [if_neg hc, if_neg (by omega)]

theorem write_success (d : Disk) (junk : Bytes) (inodeNumber : Int) (buffer : Bytes)
    (size : Int) (hl : LayoutOk (readSuperBlock d))
    (hok : 0 ≤ (write d junk inodeNumber buffer size).1) :
    ∃ inode avail, stat d inodeNumber = .ok inode ∧ inode.type = UFS_REGULAR_FILE
      ∧ 0 ≤ size ∧ size ≤ MAX_FILE_SIZE
      ∧ avail = (clearBits (readDataBitmap d (readSuperBlock d))
          (readSuperBlock d).num_data.toNat).take (blocksFor size).toNat
      ∧ (avail.length : Int) = blocksFor size
      ∧ (∀ a ∈ avail, (a : Int) < (readSuperBlock d).num_data)
      ∧ (write d junk inodeNumber buffer size).1 = size
      ∧ (∀ a, a < (readSuperBlock d).data_bitmap_addr →
          (write d junk inodeNumber buffer size).2 a = d a)
      ∧ stat (write d junk inodeNumber buffer size).2 inodeNumber =
          .ok (writtenInode (readSuperBlock d) inode.type size avail)
      ∧ (∀ (i o : Nat), i < avail.length → o < 4096 → 4096 * (i : Int) + (o : Int) < size →
          (write d junk inodeNumber buffer size).2
            ((avail.getD i 0 : Int) + (readSuperBlock d).data_region_addr) o =
            buffer (4096 * i + o)) := by
  cases hs : stat d inodeNumber with
  | error e =>
    exfalso
    have he := stat_error d inodeNumber e hs
    unfold write at hok
    simp only [hs, he, EINVALIDINODE] at hok
    omega
  | ok inode =>
    by_cases hsize : size < 0 ∨ size > MAX_FILE_SIZE
    · exfalso
      unfold write at hok
      simp only [hs] at hok
      rw [if_pos hsize] at hok
      simp [EINVALIDSIZE] at hok
    · by_cases ht : inode.type ≠ UFS_REGULAR_FILE
      · exfalso
        unfold write at hok
        simp only [hs] at hok
        rw [if_neg hsize, if_pos ht] at hok
        simp [EWRITETODIR] at hok
      · rw [write_of_ok d junk inodeNumber buffer size inode hs hsize ht] at hok ⊢
        by_cases hc : ((clearBits (readDataBitmap d (readSuperBlock d))
            (readSuperBlock d).num_data.toNat).length : Int) < blocksFor size
        · exfalso
          rw [if_pos hc] at hok
          simp [ENOTENOUGHSPACE] at hok
        · rw [if_neg hc]
          push_neg at hsize ht
          obtain ⟨hs0, hs1⟩ := hsize
          simp only [MAX_FILE_SIZE, DIRECT_PTRS, UFS_BLOCK_SIZE] at hs1
          push_cast at hs1
          have hbf : blocksFor size = (size + 4095) / 4096 := by
            unfold blocksFor
            simp only [UFS_BLOCK_SIZE]
            push_cast
            rfl
          have hlenA : ((List.take (blocksFor size).toNat
              (clearBits (readDataBitmap d (readSuperBlock d))
                (readSuperBlock d).num_data.toNat)).length : Int) = blocksFor size := by
            rw [List.length_take]
            omega
          have hmem : ∀ a ∈ List.take (blocksFor size).toNat
              (clearBits (readDataBitmap d (readSuperBlock d))
                (readSuperBlock d).num_data.toNat), (a : Int) < (readSuperBlock d).num_data := by
            intro a ha
            have := (clearBits_mem _ _ _).1 (List.mem_of_mem_take ha)
            omega
          obtain ⟨hi0, hi1, hbit, hino⟩ := (stat_eq_ok_iff d inodeNumber inode).1 hs
          obtain ⟨p1, _, _, p4⟩ := inodeAt_props (readInodeRegion d (readSuperBlock d))
            inodeNumber.toNat
          rw [← hino] at p1 p4
          obtain ⟨c1, c2, c3, c4⟩ := writeCommit_spec d junk inode inodeNumber buffer size
            (readDataBitmap d (readSuperBlock d)) _ hl hi0 hi1 hbit p1 p4 hs0
            (by omega) (by omega) hmem
            ((clearBits_nodup _ _).sublist (List.take_sublist _ _)) _ rfl
          exact ⟨inode, _, rfl, ht, hs0, by
            simp only [MAX_FILE_SIZE, DIRECT_PTRS, UFS_BLOCK_SIZE]; push_cast; omega,
            rfl, hlenA, hmem, c1, c2, c3, c4⟩

theorem read_ok (d : Disk) (inum : Int) (buffer : Bytes) (size : Int) (inode : inode_t)
    (hs : stat d inum = .ok inode) (h0 : 0 ≤ size) (h1 : size ≤ MAX_FILE_SIZE) :
    read d inum buffer size =
      (min size inode.size,
        fun (j : Nat) =>
          if (j : Int) < min size inode.size then fileBytes d inode j else buffer j) := by
  unfold read
  rw [if_neg (by push_neg; exact ⟨h0, h1⟩), hs]
  simp only
  rw [Prod.mk.injEq]
  refine ⟨rfl, funext fun j => ?_⟩
  rw [readLoop_buffer d inode buffer _ (le_trans (min_le_left _ _) h1)]

theorem fileImage_file : stat fileImage 1 = .ok (inodeSlot fileImage 1) :=
  (stat_eq_ok_iff _ _ _).2 ⟨by decide, by decide, by decide,
    (readInodeRegion_layout fileImage 1 fileImage_layout (by decide)).symm⟩

theorem fullImage_file : stat fullImage 1 = .ok (inodeSlot fullImage 1) :=
  (stat_eq_ok_iff _ _ _).2 ⟨by decide, by decide, by decide,
    (readInodeRegion_layout fullImage 1 fullImage_layout (by decide)).symm⟩


theorem writeInodeRegion_apply (d : Disk) (junk : Bytes) (s : super_t) (inodes : Bytes)
    (h : 0 ≤ s.num_inodes) (a : Int) (o : Nat) :
    writeInodeRegion d junk s inodes a o =
      if s.inode_region_addr ≤ a ∧ a < s.inode_region_addr + s.inode_region_len.toNat
          ∧ o < 4096 then
        if ((min (4096 * (a - s.inode_region_addr)) (s.num_inodes * 128)).toNat + o : Int)
            < s.num_inodes * 128 then
          inodes ((min (4096 * (a - s.inode_region_addr)) (s.num_inodes * 128)).toNat + o)
        else junk ((min (4096 * (a - s.inode_region_addr)) (s.num_inodes * 128)).toNat + o)
      else d a o := by
  unfold writeInodeRegion
  have := forLoop_inv
    (fun i (st : Disk × Int) =>
      let blockSize := min (UFS_BLOCK_SIZE : Int) (s.num_inodes * SIZEOF_INODE - st.2)
      (writeBlock st.1 (s.inode_region_addr + i)
          (memcpy (fun _ => 0) 0
            (fun j => if (j : Int) < s.num_inodes * SIZEOF_INODE then inodes j else junk j)
            st.2.toNat UFS_BLOCK_SIZE),
        st.2 + blockSize))
    (fun m st => st.2 = min (4096 * (m : Int)) (s.num_inodes * 128) ∧
      ∀ a o, st.1 a o =
        if s.inode_region_addr ≤ a ∧ a < s.inode_region_addr + m ∧ o < 4096 then
          if ((min (4096 * (a - s.inode_region_addr)) (s.num_inodes * 128)).toNat + o : Int)
              < s.num_inodes * 128 then
            inodes ((min (4096 * (a - s.inode_region_addr)) (s.num_inodes * 128)).toNat + o)
          else junk ((min (4096 * (a - s.inode_region_addr)) (s.num_inodes * 128)).toNat + o)
        else d a o)
    s.inode_region_len.toNat 0 (d, 0)
    (by
      constructor
      · dsimp only; omega
      · intro a o
        rw [if_neg]
        push_cast
        omega)
    (by
      intro m t _ _ ih
      obtain ⟨ih1, ih2⟩ := ih
      constructor
      · simp only [ih1, UFS_BLOCK_SIZE, SIZEOF_INODE, DIRECT_PTRS]; push_cast; omega
      · intro a o
        simp only
        rw [writeBlock_apply, ih2 a o, ih1]
        simp only [memcpy, UFS_BLOCK_SIZE, SIZEOF_INODE, DIRECT_PTRS]
        by_cases h1 : a = s.inode_region_addr + (m : Int)
        · subst h1
          have e : s.inode_region_addr + (m : Int) - s.inode_region_addr = (m : Int) := by omega
          simp only [e, Nat.sub_zero, Nat.zero_add, true_and, Nat.zero_le]
          push_cast
          split_ifs
          all_goals first | rfl | (exfalso; omega)
        · have e2 : (a < s.inode_region_addr + ((m + 1 : Nat) : Int)) ↔
              (a < s.inode_region_addr + (m : Int)) := by push_cast; omega
          simp only [h1, false_and, if_false, e2])
  obtain ⟨_, h2⟩ := this
  simpa using h2 a o

theorem testBit_one_pos (k : Nat) (h : k ≠ 0) : Nat.testBit 1 k = false := by
  rw [Bool.eq_false_iff]
  intro hc
  exact h (Nat.testBit_one_eq_true_iff_self_eq_zero.1 hc)

theorem bitOf_eq (bm : Bytes) (j : Nat) :
    bitOf bm j = if Nat.testBit (bm (j / 8)) (j % 8) then 1 else 0 := by
  unfold bitOf
  rw [Nat.and_one_is_mod, Nat.shiftRight_eq_div_pow, Nat.testBit_to_div_mod]
  by_cases h : bm (j / 8) / 2 ^ (j % 8) % 2 = 1
  · simp [h]
  · have : bm (j / 8) / 2 ^ (j % 8) % 2 = 0 := by omega
    simp [this]

theorem bitOf_setBit (bm : Bytes) (i j : Nat) :
    bitOf (setBit bm i) j = if j = i then 1 else bitOf bm j := by
  rw [bitOf_eq, bitOf_eq]
  unfold setBit
  by_cases hb : j / 8 = i / 8
  · rw [hb, Function.update_same, Nat.testBit_or, Nat.testBit_shiftLeft]
    by_cases hji : j = i
    · subst hji
      simp
    · have hne : j % 8 ≠ i % 8 := by omega
      rw [if_neg hji]
      by_cases hge : j % 8 ≥ i % 8
      · have h1 : Nat.testBit 1 (j % 8 - i % 8) = false := testBit_one_pos _ (by omega)
        simp [h1]
      · simp [hge]
  · rw [Function.update_noteq hb]
    have hji : j ≠ i := fun h => hb (by rw [h])
    rw [if_neg hji]

theorem maskOf_eq_zero_iff (bm : Bytes) (i : Nat) : maskOf bm i = 0 ↔ bitOf bm i = 0 := by
  rw [bitOf_eq_zero_iff]
  unfold maskOf
  constructor
  · intro h
    have := congrArg (fun x => Nat.testBit x (i % 8)) h
    simp only [Nat.testBit_and, Nat.testBit_shiftLeft, Nat.zero_testBit] at this
    simpa using this
  · intro h
    apply Nat.eq_of_testBit_eq
    intro k
    rw [Nat.testBit_and, Nat.testBit_shiftLeft, Nat.zero_testBit]
    by_cases hk : k = i % 8
    · subst hk; simp [h]
    · by_cases hge : k ≥ i % 8
      · have : k - i % 8 ≠ 0 := by omega
        have h1 : Nat.testBit 1 (k - i % 8) = false := testBit_one_pos _ this
        simp [h1]
      · simp [hge]

theorem inodeScan_spec (bm : Bytes) (n : Nat) :
    forLoop (inodeScanStep bm) n 0 (-1) = -1 ∨
      (0 ≤ forLoop (inodeScanStep bm) n 0 (-1) ∧ forLoop (inodeScanStep bm) n 0 (-1) < n
        ∧ bitOf bm (forLoop (inodeScanStep bm) n 0 (-1)).toNat = 0) := by
  have := forLoop_inv (inodeScanStep bm)
    (fun m r => r = -1 ∨ (0 ≤ r ∧ r < m ∧ bitOf bm r.toNat = 0)) n 0 (-1) (Or.inl rfl)
    (by
      intro m t _ _ ih
      unfold inodeScanStep
      by_cases h1 : t ≠ -1
      · rw [if_pos h1]
        rcases ih with ih | ⟨a, b, c⟩
        · exact absurd ih h1
        · exact Or.inr ⟨a, by push_cast; omega, c⟩
      · rw [if_neg h1]
        by_cases h2 : bitOf bm m = 0
        · rw [if_pos h2]
          exact Or.inr ⟨by omega, by push_cast; omega, by simpa using h2⟩
        · rw [if_neg h2]
          push_neg at h1
          exact Or.inl h1)
  simpa using this

theorem createScan_eq (bm : Bytes) (k : Int) (hk : 0 ≤ k) (n : Nat) :
    forLoop (createScanStep bm k) n 0 [] = (clearBits bm n).take k.toNat := by
  have := forLoop_inv (createScanStep bm k)
    (fun m st => st = (clearBits bm m).take k.toNat) n 0 []
    (by simp [clearBits])
    (by
      intro m t _ _ ih
      rw [ih]
      unfold createScanStep
      rw [clearBits_succ]
      by_cases h1 : (((List.take k.toNat (clearBits bm m)).length : Nat) : Int) < k
      · rw [if_pos h1]
        have hlt : (clearBits bm m).length < k.toNat := by
          rw [List.length_take] at h1
          omega
        by_cases h2 : bitOf bm m = 0
        · rw [if_pos ((maskOf_eq_zero_iff bm m).2 h2), if_pos h2]
          rw [List.take_of_length_le (by omega), List.take_of_length_le (by simp; omega)]
        · rw [if_neg (fun h => h2 ((maskOf_eq_zero_iff bm m).1 h)), if_neg h2]
      · rw [if_neg h1]
        have hge : k.toNat ≤ (clearBits bm m).length := by
          rw [List.length_take] at h1
          omega
        by_cases h2 : bitOf bm m = 0
        · rw [if_pos h2, List.take_append_of_le_length hge]
        · rw [if_neg h2])
  simpa using this

theorem createCommit_spec (d : Disk) (junk : Bytes) (p type : Int) (name : List Nat)
    (parent : inode_t) (k : Int) (avail : List Nat)
    (hl : LayoutOk (readSuperBlock d))
    (hp0 : 0 ≤ p) (hp1 : p < (readSuperBlock d).num_inodes)
    (hpbit : bitOf (readInodeBitmap d (readSuperBlock d)) p.toNat ≠ 0)
    (hk0 : 0 ≤ k) (hk1 : k < (readSuperBlock d).num_inodes) (hkp : k ≠ p)
    (hsz0 : 0 ≤ parent.size) (hsz1 : parent.size + 32 ≤ 122880)
    (hsz32 : parent.size % 32 = 0)
    (P1 : inode_t) (hP1 : P1 = createParent (readSuperBlock d) parent avail)
    (hP1t : -2147483648 ≤ P1.type ∧ P1.type < 2147483648)
    (hP1d : ∀ i, P1.direct i < 4294967296) (hP1d30 : ∀ i, 30 ≤ i → P1.direct i = 0)
    (I : inode_t) (hI : I = createInode (readSuperBlock d) type avail)
    (hIt : -2147483648 ≤ type ∧ type < 2147483648)
    (PB : Int) (hPB : PB = toS32 (directAt P1 (parent.size / 4096)))
    (hPBr : (readSuperBlock d).data_region_addr ≤ PB
      ∧ PB < (readSuperBlock d).data_region_addr + (readSuperBlock d).num_data)
    (hCB : type = UFS_DIRECTORY →
      (readSuperBlock d).data_region_addr ≤ toS32 (I.direct 0)
        ∧ toS32 (I.direct 0) < (readSuperBlock d).data_region_addr + (readSuperBlock d).num_data
        ∧ toS32 (I.direct 0) ≠ PB)
    (r : Int × Disk)
    (hr : r = createCommit d junk (readSuperBlock d) p type name parent
      (readInodeBitmap d (readSuperBlock d)) k (readDataBitmap d (readSuperBlock d)) avail) :
    r.1 = k ∧ readSuperBlock r.2 = readSuperBlock d
      ∧ stat r.2 p = .ok { type := P1.type, size := P1.size + 32, direct := P1.direct }
      ∧ stat r.2 k = .ok I
      ∧ (∀ a, (readSuperBlock d).data_region_addr ≤ a → a ≠ PB →
          (type = UFS_DIRECTORY → a ≠ toS32 (I.direct 0)) → r.2 a = d a)
      ∧ (∀ o, o < 4096 → r.2 PB o =
          if (parent.size % 4096).toNat ≤ o ∧ o < (parent.size % 4096).toNat + 32 then
            createEntry junk k name (o - (parent.size % 4096).toNat)
          else d PB o) := by
  obtain ⟨l1, l2, l3, l4, l5, l6, l7, l8, l9, l10, l11, l12, l13⟩ := hl
  simp only [UFS_BLOCK_SIZE, SIZEOF_INODE, DIRECT_PTRS] at l10 l11 l12
  push_cast at l10 l11 l12
  simp only [createCommit] at hr
  rw [Int.tdiv_eq_ediv hsz0 (by simp), Int.tmod_eq_emod hsz0 (by simp), ← hP1, ← hI] at hr
  simp only [UFS_BLOCK_SIZE, SIZEOF_INODE, SIZEOF_DIR_ENT, DIR_ENT_NAME_SIZE, DIRECT_PTRS,
    readBlock] at hr
  norm_num at hr
  rw [← hPB] at hr
  generalize hd1 : (if type = 0 then writeBlock d (toS32 (I.direct 0)) _ else d) = d1 at hr
  have h1 : ∀ a, (type = UFS_DIRECTORY → a ≠ toS32 (I.direct 0)) → d1 a = d a := by
    intro a ha
    rw [← hd1]
    by_cases ht : type = 0
    · rw [if_pos ht, writeBlock_other _ _ _ _ (ha ht)]
    · rw [if_neg ht]
  generalize readInodeRegion _ (readSuperBlock d) = inodes0 at hr
  have hP1s : P1.size = parent.size := by
    rw [hP1]
    unfold createParent setDirectAt
    simp only
    split_ifs <;> rfl
  have hdisk : ∀ a o, r.2 a o =
      if (readSuperBlock d).inode_region_addr ≤ a
          ∧ a < (readSuperBlock d).inode_region_addr + (readSuperBlock d).inode_region_len.toNat
          ∧ o < 4096 then
        if ((min (4096 * (a - (readSuperBlock d).inode_region_addr))
            ((readSuperBlock d).num_inodes * 128)).toNat + o : Int)
            < (readSuperBlock d).num_inodes * 128 then
          putInode (putInode inodes0 p.toNat
              { type := P1.type, size := P1.size + 32, direct := P1.direct }) k.toNat I
            ((min (4096 * (a - (readSuperBlock d).inode_region_addr))
              ((readSuperBlock d).num_inodes * 128)).toNat + o)
        else junk ((min (4096 * (a - (readSuperBlock d).inode_region_addr))
              ((readSuperBlock d).num_inodes * 128)).toNat + o)
      else if (readSuperBlock d).data_bitmap_addr ≤ a
          ∧ a < (readSuperBlock d).data_bitmap_addr + (readSuperBlock d).data_bitmap_len.toNat
          ∧ o < 4096 then
        (List.foldl setBit (readDataBitmap d (readSuperBlock d)) avail)
          ((a - (readSuperBlock d).data_bitmap_addr).toNat * 4096 + o)
      else if (readSuperBlock d).inode_bitmap_addr ≤ a
          ∧ a < (readSuperBlock d).inode_bitmap_addr + (readSuperBlock d).inode_bitmap_len.toNat
          ∧ o < 4096 then
        (setBit (readInodeBitmap d (readSuperBlock d)) k.toNat)
          ((a - (readSuperBlock d).inode_bitmap_addr).toNat * 4096 + o)
      else if a = PB ∧ o < 4096 then
        memcpy (d1 PB) (parent.size % 4096).toNat (createEntry junk k name) 0 32 o
      else d1 a o := by
    intro a o
    rw [hr]
    simp only
    rw [writeInodeRegion_apply _ _ _ _ l8]
    unfold writeDataBitmap writeInodeBitmap
    rw [writeBitmap_apply, writeBitmap_apply, writeBlock_apply]
  have hlow : ∀ a, a < (readSuperBlock d).inode_bitmap_addr → r.2 a = d a := by
    intro a ha
    funext o
    rw [hdisk, if_neg (by omega), if_neg (by omega), if_neg (by omega), if_neg (by omega),
      h1 a (fun ht => by have := hCB ht; omega)]
  have hsup := readSuperBlock_congr d _ (hlow 0 (by omega))
  have hbits : ∀ x : Nat, (x : Int) < (readSuperBlock d).num_inodes →
      bitOf (readInodeBitmap r.2 (readSuperBlock d)) x =
        bitOf (setBit (readInodeBitmap d (readSuperBlock d)) k.toNat) x := by
    intro x hx
    unfold bitOf
    have : readInodeBitmap r.2 (readSuperBlock d) (x / 8) =
        setBit (readInodeBitmap d (readSuperBlock d)) k.toNat (x / 8) := by
      conv_lhs => unfold readInodeBitmap
      rw [readBitmap_apply, if_pos (by omega), hdisk, if_neg (by omega), if_neg (by omega),
        if_pos (by omega)]
      refine congrArg _ ?_
      omega
    rw [this]
  have hslot : ∀ (x r0 : Nat), (x : Int) < (readSuperBlock d).num_inodes → r0 < 128 →
      readInodeRegion r.2 (readSuperBlock d) (128 * x + r0) =
        putInode (putInode inodes0 p.toNat
          { type := P1.type, size := P1.size + 32, direct := P1.direct }) k.toNat I
          (128 * x + r0) := by
    intro x r0 hx hr0
    rw [readInodeRegion_apply _ _ l8, if_pos (by omega), hdisk, if_pos (by omega),
      if_pos (by omega)]
    refine congrArg _ ?_
    omega
  have hIprops : (-2147483648 ≤ I.size ∧ I.size < 2147483648)
      ∧ (∀ i, i < 30 → I.direct i < 4294967296) ∧ (∀ i, 30 ≤ i → I.direct i = 0)
      ∧ I.type = type := by
    rw [hI]
    unfold createInode
    simp only [SIZEOF_DIR_ENT, DIR_ENT_NAME_SIZE]
    by_cases ht : type = UFS_DIRECTORY
    · rw [if_pos ht]
      refine ⟨by simp [ht], ?_, ?_, rfl⟩
      · intro i _
        simp only [Function.update_apply]
        split_ifs
        · exact toU32_lt _
        · omega
      · intro i hi
        simp only [Function.update_apply]
        rw [if_neg (by omega)]
    · rw [if_neg ht]
      refine ⟨by simp [ht], ?_, ?_, rfl⟩
      · intro i _; simp only; omega
      · intro i _; rfl
  obtain ⟨hIs, hId, hId30, hIty⟩ := hIprops
  refine ⟨by rw [hr], hsup, ?_, ?_, ?_, ?_⟩
  · rw [stat_eq_ok_iff, hsup]
    refine ⟨hp0, hp1, ?_, ?_⟩
    · rw [hbits _ (by omega), bitOf_setBit, if_neg (by omega)]
      exact hpbit
    · symm
      apply inodeAt_of_bytes
      · intro r0 hr0
        rw [hslot _ _ (by omega) hr0]
        unfold putInode memcpy
        simp only [SIZEOF_INODE, DIRECT_PTRS]
        rw [if_neg (by omega), if_pos (by omega)]
        refine congrArg _ ?_
        omega
      · exact hP1t
      · simp only; omega
      · intro i _; exact hP1d i
      · intro i hi; exact hP1d30 i hi
  · rw [stat_eq_ok_iff, hsup]
    refine ⟨hk0, hk1, ?_, ?_⟩
    · rw [hbits _ (by omega), bitOf_setBit, if_pos rfl]
      omega
    · symm
      apply inodeAt_of_bytes
      · intro r0 hr0
        rw [hslot _ _ (by omega) hr0]
        unfold putInode memcpy
        simp only [SIZEOF_INODE, DIRECT_PTRS]
        rw [if_pos (by omega)]
        refine congrArg _ ?_
        omega
      · rw [hIty]; exact hIt
      · exact hIs
      · exact hId
      · exact hId30
  · intro a ha1 ha2 ha3
    funext o
    rw [hdisk, if_neg (by omega), if_neg (by omega), if_neg (by omega),
      if_neg (fun h => ha2 h.1), h1 a ha3]
  · intro o ho
    rw [hdisk, if_neg (by omega), if_neg (by omega), if_neg (by omega), if_pos ⟨rfl, ho⟩]
    unfold memcpy
    rw [h1 PB (fun ht => (hCB ht).2.2.symm)]
    simp only [Nat.zero_add]

theorem cstrAt_shift (m m2 : Bytes) : ∀ (n off off2 : Nat),
    (∀ r, r < n → m (off + r) = m2 (off2 + r)) → cstrAt m off n = cstrAt m2 off2 n := by
  intro n
  induction n with
  | zero => intro off off2 _; rfl
  | succ n ih =>
    intro off off2 h
    simp only [cstrAt]
    have h0 := h 0 (by omega)
    simp only [Nat.add_zero] at h0
    rw [h0, ih (off + 1) (off2 + 1) (fun r hr => by
      have := h (r + 1) (by omega)
      rw [show off + 1 + r = off + (r + 1) by omega, show off2 + 1 + r = off2 + (r + 1) by omega]
      exact this)]

theorem cstrAt_strcpy (dst : Bytes) (s : List Nat) (hs : ∀ c ∈ s, c ≠ 0) :
    ∀ (off n : Nat), s.length < n → cstrAt (strcpy dst off s) off n = s := by
  induction s with
  | nil =>
    intro off n hn
    obtain ⟨n, rfl⟩ : ∃ k, n = k + 1 := ⟨n - 1, by simp at hn; omega⟩
    simp [cstrAt, strcpy]
  | cons c cs ih =>
    intro off n hn
    obtain ⟨n, rfl⟩ : ∃ k, n = k + 1 := ⟨n - 1, by simp at hn; omega⟩
    have hc : c ≠ 0 := hs c (by simp)
    simp only [cstrAt]
    have h0 : strcpy dst off (c :: cs) off = c := by
      unfold strcpy
      rw [if_pos (by simp)]
      simp
    rw [h0, if_neg hc]
    congr 1
    refine Eq.trans ?_ (ih (fun x hx => hs x (by simp [hx])) (off + 1) n (by simp at hn; omega))
    apply cstrAt_shift
    intro r _
    unfold strcpy
    simp only [List.length_cons]
    split_ifs
    all_goals first | rfl | (exfalso; omega) | skip
    have e1 : off + 1 + r - off = (off + 1 + r - (off + 1)) + 1 := by omega
    rw [e1, List.getD_cons_succ]

theorem createEntry_name (junk : Bytes) (k : Int) (name : List Nat)
    (hlen : (cstr name).length < 28) :
    cstrAt (createEntry junk k name) 0 28 = cstr name := by
  unfold createEntry
  exact cstrAt_strcpy _ _ (cstr_ne_zero name) 0 28 hlen

theorem createEntry_inum (junk : Bytes) (k : Int) (name : List Nat)
    (hlen : (cstr name).length < 28) (hk0 : -2147483648 ≤ k) (hk1 : k < 2147483648) :
    getS32 (createEntry junk k name) 28 = k := by
  unfold getS32
  rw [getU32_of_byteAt _ 28 (toU32 k), Nat.mod_eq_of_lt (toU32_lt _), toS32_toU32 _ hk0 hk1]
  intro r hr
  unfold createEntry strcpy putU32
  simp only [DIR_ENT_NAME_SIZE]
  rw [if_neg (by omega), if_neg (by omega), if_pos (by omega)]
  congr 1
  omega

theorem find?_range_succ_last (q : Nat → Bool) (n : Nat) (h1 : ∀ i, i < n → q i = false)
    (h2 : q n = true) : (List.range (n + 1)).find? q = some n := by
  rw [List.range_succ, List.find?_append]
  have : (List.range n).find? q = none := by
    rw [List.find?_eq_none]
    intro i hi
    rw [List.mem_range] at hi
    simp [h1 i hi]
  rw [this]
  simp [h2]

theorem find?_range_none (q : Nat → Bool) (n : Nat)
    (h : (List.range n).find? q = none) : ∀ i, i < n → q i = false := by
  intro i hi
  rw [List.find?_eq_none] at h
  have := h i (List.mem_range.2 hi)
  simpa using this

theorem inodeOk_of_stat (d : Disk) (p : Int) (parent : inode_t) (hc : Consistent d)
    (hs : stat d p = .ok parent) : InodeOk d parent := by
  obtain ⟨hp0, hp1, hpbit, hpar⟩ := (stat_eq_ok_iff d p parent).1 hs
  rw [hpar, readInodeRegion_layout d _ hc.1 (by omega)]
  apply hc.2.1 p.toNat (by omega)
  unfold inodeBit bitmapBit
  rw [← readInodeBitmap_layout d _ hc.1 (by omega)]
  by_contra hcon
  rw [Bool.not_eq_true] at hcon
  exact hpbit ((bitOf_eq_zero_iff _ _).2 hcon)

theorem dataBit_of_clear (d : Disk) (a : Nat) (hl : LayoutOk (readSuperBlock d))
    (ha : (a : Int) < (readSuperBlock d).num_data)
    (h : bitOf (readDataBitmap d (readSuperBlock d)) a = 0) : dataBit d a = false := by
  unfold dataBit bitmapBit
  rw [← readDataBitmap_layout d a hl ha]
  exact (bitOf_eq_zero_iff _ _).1 h

theorem createParent_eq (s : super_t) (parent : inode_t) (avail : List Nat)
    (h0 : 0 ≤ parent.size) (h1 : parent.size < 122880) :
    (createParent s parent avail).type = parent.type
      ∧ (createParent s parent avail).size = parent.size
      ∧ ∀ i, (createParent s parent avail).direct i =
          if parent.size % 4096 = 0 ∧ i = (parent.size / 4096).toNat then
            toU32 ((avail.getD 0 0 : Int) + s.data_region_addr)
          else parent.direct i := by
  unfold createParent setDirectAt
  simp only [UFS_BLOCK_SIZE, DIRECT_PTRS]
  rw [Int.tdiv_eq_ediv h0 (by simp), Int.tmod_eq_emod h0 (by simp)]
  simp only [Nat.cast_ofNat]
  by_cases hoff : parent.size % 4096 = 0
  · rw [if_pos hoff, if_pos (by omega)]
    refine ⟨rfl, rfl, ?_⟩
    intro i
    simp only [Function.update_apply, hoff, true_and]
  · rw [if_neg hoff]
    refine ⟨rfl, rfl, ?_⟩
    intro i
    simp only [hoff, false_and, if_false]

theorem createFresh_eq (d : Disk) (junk : Bytes) (s : super_t) (p type : Int)
    (name : List Nat) (parent : inode_t) (h0 : 0 ≤ parent.size) :
    createFresh d junk s p type name parent =
      if forLoop (inodeScanStep (readInodeBitmap d s)) s.num_inodes.toNat 0 (-1) = -1 then
        (-ENOTENOUGHSPACE, d)
      else if parent.size % 4096 = 0 ∧ parent.size + 4096 > 122880 then (-ENOTENOUGHSPACE, d)
      else if ((List.take
          ((if type = UFS_DIRECTORY then 1 else 0) + (if parent.size % 4096 = 0 then 1 else 0))
          (clearBits (readDataBitmap d s) s.num_data.toNat)).length : Int) <
          (((if type = UFS_DIRECTORY then 1 else 0)
            + (if parent.size % 4096 = 0 then 1 else 0) : Nat) : Int) then
        (-ENOTENOUGHSPACE, d)
      else
        createCommit d junk s p type name parent (readInodeBitmap d s)
          (forLoop (inodeScanStep (readInodeBitmap d s)) s.num_inodes.toNat 0 (-1))
          (readDataBitmap d s)
          (List.take
            ((if type = UFS_DIRECTORY then 1 else 0) + (if parent.size % 4096 = 0 then 1 else 0))
            (clearBits (readDataBitmap d s) s.num_data.toNat)) := by
  have hbn : ((if type = UFS_DIRECTORY then 1 else 0 : Int)
      + (if Int.tmod parent.size UFS_BLOCK_SIZE = 0 then 1 else 0)) =
      (((if type = UFS_DIRECTORY then 1 else 0)
        + (if parent.size % 4096 = 0 then 1 else 0) : Nat) : Int) := by
    rw [Int.tmod_eq_emod h0 (by simp)]
    simp only [UFS_BLOCK_SIZE]
    push_cast
    split_ifs <;> rfl
  unfold createFresh
  simp only
  rw [hbn, createScan_eq _ _ (by omega), Int.tmod_eq_emod h0 (by simp)]
  simp only [UFS_BLOCK_SIZE, MAX_FILE_SIZE, DIRECT_PTRS, Int.toNat_ofNat, Nat.cast_ofNat,
    Nat.reduceMul]

theorem getLastD_eq_getD (l : List Nat) : l.getLastD 0 = l.getD (l.length - 1) 0 := by
  rw [List.getLastD_eq_getLast?, List.getLast?_eq_getElem?, List.getD_eq_getElem?_getD]

theorem createFresh_success (d : Disk) (junk : Bytes) (p type : Int) (name : List Nat)
    (parent : inode_t) (hc : Consistent d) (hs : stat d p = .ok parent)
    (htd : parent.type = UFS_DIRECTORY)
    (hty : -2147483648 ≤ type ∧ type < 2147483648)
    (hok : 0 ≤ (createFresh d junk (readSuperBlock d) p type name parent).1) :
    ∃ (k : Int) (P2 I : inode_t),
      (createFresh d junk (readSuperBlock d) p type name parent).1 = k
      ∧ 0 ≤ k ∧ k < 2147483648
      ∧ 0 ≤ parent.size ∧ parent.size % 32 = 0 ∧ parent.size + 32 ≤ 122880
      ∧ stat (createFresh d junk (readSuperBlock d) p type name parent).2 p = .ok P2
      ∧ P2.type = parent.type ∧ P2.size = parent.size + 32
      ∧ stat (createFresh d junk (readSuperBlock d) p type name parent).2 k = .ok I
      ∧ I.type = type
      ∧ (∀ j : Nat, (j : Int) < parent.size →
          fileBytes (createFresh d junk (readSuperBlock d) p type name parent).2 P2 j
            = fileBytes d parent j)
      ∧ (∀ r : Nat, r < 32 →
          fileBytes (createFresh d junk (readSuperBlock d) p type name parent).2 P2
            (parent.size.toNat + r) = createEntry junk k name r) := by
  have hl := hc.1
  obtain ⟨i0, i1, i2, i3, i4, i5⟩ := inodeOk_of_stat d p parent hc hs
  have h32 : parent.size % 32 = 0 := by
    have := i5 htd
    simp only [SIZEOF_DIR_ENT, DIR_ENT_NAME_SIZE] at this
    push_cast at this
    omega
  simp only [MAX_FILE_SIZE, DIRECT_PTRS, UFS_BLOCK_SIZE] at i1 i2 i3 i4
  push_cast at i1 i3
  obtain ⟨hp0, hp1, hpbit, hpar⟩ := (stat_eq_ok_iff d p parent).1 hs
  obtain ⟨pp1, _, pp3, pp4⟩ := inodeAt_props (readInodeRegion d (readSuperBlock d)) p.toNat
  rw [← hpar] at pp1 pp3 pp4
  obtain ⟨l1, l2, l3, l4, l5, l6, l7, l8, l9, l10, l11, l12, l13⟩ := hl
  rw [createFresh_eq d junk _ p type name parent i0] at hok ⊢
  rcases inodeScan_spec (readInodeBitmap d (readSuperBlock d))
    (readSuperBlock d).num_inodes.toNat with hk | ⟨hk0, hk1, hkbit⟩
  · exfalso
    rw [if_pos hk] at hok
    simp [ENOTENOUGHSPACE] at hok
  rw [if_neg (by omega)] at hok ⊢
  by_cases hfull : parent.size % 4096 = 0 ∧ parent.size + 4096 > 122880
  · exfalso
    rw [if_pos hfull] at hok
    simp [ENOTENOUGHSPACE] at hok
  rw [if_neg hfull] at hok ⊢
  by_cases hshort : ((List.take
      ((if type = UFS_DIRECTORY then 1 else 0) + (if parent.size % 4096 = 0 then 1 else 0))
      (clearBits (readDataBitmap d (readSuperBlock d))
        (readSuperBlock d).num_data.toNat)).length : Int) <
      (((if type = UFS_DIRECTORY then 1 else 0)
        + (if parent.size % 4096 = 0 then 1 else 0) : Nat) : Int)
  · exfalso
    rw [if_pos hshort] at hok
    simp [ENOTENOUGHSPACE] at hok
  rw [if_neg hshort]
  generalize hav : List.take
      ((if type = UFS_DIRECTORY then 1 else 0) + (if parent.size % 4096 = 0 then 1 else 0))
      (clearBits (readDataBitmap d (readSuperBlock d))
        (readSuperBlock d).num_data.toNat) = avail at hshort ⊢
  generalize hkk : forLoop (inodeScanStep (readInodeBitmap d (readSuperBlock d)))
      (readSuperBlock d).num_inodes.toNat 0 (-1) = k at hk0 hk1 hkbit ⊢
  have hlenA : avail.length =
      (if type = UFS_DIRECTORY then 1 else 0) + (if parent.size % 4096 = 0 then 1 else 0) := by
    have : avail.length ≤
        (if type = UFS_DIRECTORY then 1 else 0) + (if parent.size % 4096 = 0 then 1 else 0) := by
      rw [← hav]
      exact List.length_take_le _ _
    omega
  have hmem : ∀ a ∈ avail, (a : Int) < (readSuperBlock d).num_data
      ∧ dataBit d a = false := by
    intro a ha
    rw [← hav] at ha
    have := (clearBits_mem _ _ _).1 (List.mem_of_mem_take ha)
    exact ⟨by omega, dataBit_of_clear d a hc.1 (by omega) this.2⟩
  have hnd : avail.Nodup := by
    rw [← hav]
    exact (clearBits_nodup _ _).sublist (List.take_sublist _ _)
  have hsz1 : parent.size + 32 ≤ 122880 := by
    by_contra hcon
    apply hfull
    omega
  have hused : ∀ b, b < 30 → parent.direct b ≠ 0 → ∀ a ∈ avail,
      (a : Int) + (readSuperBlock d).data_region_addr ≠ (parent.direct b : Int) := by
    intro b hb hne a ha hcon
    have h1 := (i2 b hb hne).2.2
    have h2 := (hmem a ha).2
    have : ((parent.direct b : Int) - (readSuperBlock d).data_region_addr).toNat = a := by omega
    rw [this, h2] at h1
    cases h1
  obtain ⟨cp1, cp2, cp3⟩ := createParent_eq (readSuperBlock d) parent avail i0 (by omega)
  have hblk : (0 : Int) ≤ parent.size / 4096 ∧ parent.size / 4096 < 30 := by omega
  -- the block of the parent that receives the entry
  have hPBr : (readSuperBlock d).data_region_addr ≤
        toS32 (directAt (createParent (readSuperBlock d) parent avail) (parent.size / 4096))
      ∧ toS32 (directAt (createParent (readSuperBlock d) parent avail) (parent.size / 4096))
        < (readSuperBlock d).data_region_addr + (readSuperBlock d).num_data
      ∧ (parent.size % 4096 = 0 →
          toS32 (directAt (createParent (readSuperBlock d) parent avail) (parent.size / 4096))
            = (avail.getD 0 0 : Int) + (readSuperBlock d).data_region_addr)
      ∧ (parent.size % 4096 ≠ 0 →
          toS32 (directAt (createParent (readSuperBlock d) parent avail) (parent.size / 4096))
            = (parent.direct (parent.size / 4096).toNat : Int)) := by
    unfold directAt
    simp only [DIRECT_PTRS]
    rw [if_pos (by push_cast; omega), cp3]
    by_cases hoff : parent.size % 4096 = 0
    · rw [if_pos ⟨hoff, rfl⟩]
      have hpos : 0 < avail.length := by rw [hlenA, if_pos hoff]; omega
      have := (hmem _ (getD_mem avail 0 hpos)).1
      rw [toS32_toU32 _ (by omega) (by omega)]
      exact ⟨by omega, by omega, fun _ => rfl, fun h => absurd hoff h⟩
    · rw [if_neg (fun h => hoff h.1)]
      have hne := i3 (parent.size / 4096).toNat (by omega) (by omega)
      have := i2 (parent.size / 4096).toNat (by omega) hne
      unfold toS32
      rw [if_pos (by omega)]
      exact ⟨by omega, by omega, fun h => absurd h hoff, fun _ => rfl⟩
  have hIdir : type = UFS_DIRECTORY →
      (createInode (readSuperBlock d) type avail).direct 0 =
        toU32 ((avail.getD (avail.length - 1) 0 : Int) + (readSuperBlock d).data_region_addr) := by
    intro ht
    unfold createInode
    simp only [if_pos ht, Function.update_same, getLastD_eq_getD]
  have hItype : (createInode (readSuperBlock d) type avail).type = type := by
    unfold createInode
    simp only
    split_ifs <;> rfl
  have hCB : type = UFS_DIRECTORY →
      (readSuperBlock d).data_region_addr ≤
          toS32 ((createInode (readSuperBlock d) type avail).direct 0)
        ∧ toS32 ((createInode (readSuperBlock d) type avail).direct 0)
          < (readSuperBlock d).data_region_addr + (readSuperBlock d).num_data
        ∧ toS32 ((createInode (readSuperBlock d) type avail).direct 0) ≠
          toS32 (directAt (createParent (readSuperBlock d) parent avail) (parent.size / 4096))
        ∧ toS32 ((createInode (readSuperBlock d) type avail).direct 0) =
          (avail.getD (avail.length - 1) 0 : Int) + (readSuperBlock d).data_region_addr := by
    intro ht
    have hpos : avail.length - 1 < avail.length := by rw [hlenA, if_pos ht]; omega
    have hin := getD_mem avail _ hpos
    have := (hmem _ hin).1
    rw [hIdir ht, toS32_toU32 _ (by omega) (by omega)]
    refine ⟨by omega, by omega, ?_, rfl⟩
    by_cases hoff : parent.size % 4096 = 0
    · rw [hPBr.2.2.1 hoff]
      intro hcon
      have h01 : avail.length - 1 = 0 :=
        getD_inj_of_nodup avail hnd _ _ hpos (by omega) (by omega)
      rw [hlenA, if_pos ht, if_pos hoff] at h01
      omega
    · rw [hPBr.2.2.2 hoff]
      exact hused _ (by omega) (i3 _ (by omega) (by omega)) _ hin
  have hnum := getS32_bounds (readBlock d 0) 32
  have hnum2 : (readSuperBlock d).num_inodes = getS32 (readBlock d 0) 32 := rfl
  obtain ⟨c1, c2, c3, c4, c5, c6⟩ := createCommit_spec d junk p type name parent k avail hc.1
    hp0 hp1 hpbit hk0 (by omega)
    (by
      intro hkp
      rw [hkp] at hkbit
      exact hpbit hkbit)
    i0 hsz1 h32 _ rfl (by rw [cp1]; exact pp1)
    (by
      intro i
      rw [cp3]
      split_ifs
      · exact toU32_lt _
      · exact pp3 i)
    (by
      intro i hi
      rw [cp3, if_neg (by omega)]
      exact pp4 i hi)
    _ rfl hty _ rfl ⟨hPBr.1, hPBr.2.1⟩
    (fun ht => ⟨(hCB ht).1, (hCB ht).2.1, (hCB ht).2.2.1⟩) _ rfl
  refine ⟨k, _, _, c1, hk0, by omega, i0, h32, hsz1, c3, cp1, by simp only; rw [cp2], c4,
    hItype, ?_, ?_⟩
  · intro j hj
    unfold fileBytes
    simp only [UFS_BLOCK_SIZE]
    have hb : j / 4096 < 30 := by omega
    have hdir : (createParent (readSuperBlock d) parent avail).direct (j / 4096)
        = parent.direct (j / 4096) := by
      rw [cp3, if_neg (by omega)]
    rw [hdir]
    have hne := i3 (j / 4096) hb (by omega)
    have hrg := i2 (j / 4096) hb hne
    have hA : toS32 (parent.direct (j / 4096)) = (parent.direct (j / 4096) : Int) := by
      unfold toS32
      rw [if_pos (by omega)]
    rw [hA]
    by_cases hPB : (parent.direct (j / 4096) : Int) =
        toS32 (directAt (createParent (readSuperBlock d) parent avail) (parent.size / 4096))
    · have hoff : parent.size % 4096 ≠ 0 := by
        intro hoff
        rw [hPBr.2.2.1 hoff] at hPB
        have hpos : 0 < avail.length := by rw [hlenA, if_pos hoff]; omega
        exact hused _ hb hne _ (getD_mem avail 0 hpos) hPB.symm
      have hsame : j / 4096 = (parent.size / 4096).toNat := by
        by_contra hdiff
        rw [hPBr.2.2.2 hoff] at hPB
        exact i4 _ hb _ (by omega) hdiff hne (by omega)
      rw [hPB, c6 _ (Nat.mod_lt _ (by omega)), if_neg (by omega)]
    · rw [c5 _ (by omega) hPB (fun ht => by
        rw [(hCB ht).2.2.2]
        have hpos : avail.length - 1 < avail.length := by rw [hlenA, if_pos ht]; omega
        exact (hused _ hb hne _ (getD_mem avail _ hpos)).symm)]
  · intro r hr
    unfold fileBytes
    simp only [UFS_BLOCK_SIZE]
    have e1 : (parent.size.toNat + r) / 4096 = (parent.size / 4096).toNat := by omega
    have e2 : (parent.size.toNat + r) % 4096 = (parent.size % 4096).toNat + r := by omega
    have e3 : toS32 ((createParent (readSuperBlock d) parent avail).direct
          (parent.size / 4096).toNat) =
        toS32 (directAt (createParent (readSuperBlock d) parent avail) (parent.size / 4096)) := by
      unfold directAt
      simp only [DIRECT_PTRS]
      rw [if_pos (by push_cast; omega)]
    rw [e1, e2, e3, c6 _ (by omega), if_pos (by omega)]
    refine congrArg _ ?_
    omega

theorem getU32_shift (m m2 : Bytes) (off off2 : Nat)
    (h : ∀ r, r < 4 → m (off + r) = m2 (off2 + r)) : getU32 m off = getU32 m2 off2 := by
  have a0 := h 0 (by omega)
  have a1 := h 1 (by omega)
  have a2 := h 2 (by omega)
  have a3 := h 3 (by omega)
  simp only [Nat.add_zero] at a0
  unfold getU32
  rw [a0, a1, a2, a3]

theorem lookup_appended (d D : Disk) (junk junk2 : Bytes) (p k : Int) (name : List Nat)
    (parent P2 : inode_t)
    (hn : ¬ (name.length ≤ 0 ∨ name.length ≥ DIR_ENT_NAME_SIZE))
    (hk0 : 0 ≤ k) (hk1 : k < 2147483648)
    (h0 : 0 ≤ parent.size) (h32 : parent.size % 32 = 0) (h1 : parent.size + 32 ≤ 122880)
    (hs2 : stat D p = .ok P2) (ht2 : P2.type = UFS_DIRECTORY)
    (hsz2 : P2.size = parent.size + 32)
    (hold : ∀ j : Nat, (j : Int) < parent.size → fileBytes D P2 j = fileBytes d parent j)
    (hnew : ∀ r, r < 32 → fileBytes D P2 (parent.size.toNat + r) = createEntry junk k name r)
    (hnone : (List.range (parent.size.toNat / SIZEOF_DIR_ENT)).find?
          (fun i => entryName (fileBytes d parent) i = cstr name) = none) :
    lookup D junk2 p name = k := by
  have hlen : (cstr name).length < 28 := by
    have := cstr_length_le name
    simp only [DIR_ENT_NAME_SIZE] at hn
    omega
  have e : parent.size.toNat / 32 * 32 = parent.size.toNat := by omega
  rw [lookup_of_directory D junk2 p name P2 hs2 (by simp [ht2]) hn (by omega)
    (by simp only [MAX_FILE_SIZE, DIRECT_PTRS, UFS_BLOCK_SIZE]; omega)]
  have hN : P2.size.toNat / SIZEOF_DIR_ENT = parent.size.toNat / 32 + 1 := by
    rw [hsz2]
    simp only [SIZEOF_DIR_ENT, DIR_ENT_NAME_SIZE]
    omega
  have hq := find?_range_none _ _ hnone
  simp only [SIZEOF_DIR_ENT, DIR_ENT_NAME_SIZE] at hq
  rw [hN, find?_range_succ_last _ _ (by
      intro i hi
      have := hq i hi
      rw [← this]
      refine congrArg (fun l => decide (l = cstr name)) ?_
      unfold entryName
      simp only [SIZEOF_DIR_ENT, DIR_ENT_NAME_SIZE]
      exact cstrAt_congr _ _ _ _ (fun j _ hj => hold j (by omega))) (by
      rw [decide_eq_true_eq]
      unfold entryName
      simp only [SIZEOF_DIR_ENT, DIR_ENT_NAME_SIZE]
      rw [e, ← createEntry_name junk k name hlen]
      exact cstrAt_shift _ _ _ _ _ (fun r hr => by
        rw [hnew r (by omega), Nat.zero_add]))]
  show entryInum (fileBytes D P2) (parent.size.toNat / 32) = k
  unfold entryInum
  simp only [SIZEOF_DIR_ENT, DIR_ENT_NAME_SIZE]
  rw [e, ← createEntry_inum junk k name hlen (by omega) hk1]
  unfold getS32
  refine congrArg _ (getU32_shift _ _ _ _ (fun r hr => ?_))
  rw [Nat.add_assoc, hnew (28 + r) (by omega)]

theorem ghostImage_layout : LayoutOk (readSuperBlock ghostImage) :=
  ⟨by decide, by decide, by decide, by decide, by decide, by decide, by decide, by decide,
    by decide, by decide, by decide, by decide, by decide⟩

set_option maxRecDepth 100000 in
theorem ghostImage_consistent : Consistent ghostImage :=
  ⟨ghostImage_layout, by decide, by decide⟩

theorem create_of_directory (d : Disk) (junk : Bytes) (p type : Int) (name : List Nat)
    (parent : inode_t) (h1 : ¬ (name.length > DIR_ENT_NAME_SIZE ∨ name.length = 0))
    (hs : stat d p = .ok parent) (ht : ¬ parent.type ≠ UFS_DIRECTORY) :
    create d junk p type name =
      if lookup d junk p name ≠ -ENOTFOUND then
        match stat d (lookup d junk p name) with
        | .error _ => (-EINVALIDINODE, d)
        | .ok inode => (if inode.type = type then lookup d junk p name else -EINVALIDTYPE, d)
      else createFresh d junk (readSuperBlock d) p type name parent := by
  unfold create
  simp only [hs]
  rw [if_neg h1, if_neg ht]

theorem create_success_parent (d : Disk) (junk : Bytes) (p type : Int) (name : List Nat)
    (hok : 0 ≤ (create d junk p type name).1) :
    ∃ parent, ¬ (name.length > DIR_ENT_NAME_SIZE ∨ name.length = 0)
      ∧ stat d p = .ok parent ∧ ¬ parent.type ≠ UFS_DIRECTORY
      ∧ ¬ (name.length ≤ 0 ∨ name.length ≥ DIR_ENT_NAME_SIZE) := by
  by_cases h1 : name.length > DIR_ENT_NAME_SIZE ∨ name.length = 0
  · exfalso
    unfold create at hok
    simp only [if_pos h1] at hok
    simp [EINVALIDNAME] at hok
  · cases hs : stat d p with
    | error e =>
      exfalso
      unfold create at hok
      simp only [if_neg h1, hs] at hok
      simp [EINVALIDINODE] at hok
    | ok parent =>
      by_cases ht : parent.type ≠ UFS_DIRECTORY
      · exfalso
        unfold create at hok
        simp only [if_neg h1, hs, if_pos ht] at hok
        simp [EINVALIDINODE] at hok
      · refine ⟨parent, h1, rfl, ht, ?_⟩
        intro hn
        have hlen : name.length ≥ DIR_ENT_NAME_SIZE := by
          rcases hn with hn | hn
          · exfalso; exact h1 (Or.inr (by omega))
          · exact hn
        have hL : lookup d junk p name = -EINVALIDNAME := by
          unfold lookup
          simp only [hs]
          rw [if_neg ht, if_pos (Or.inr hlen)]
        rw [create_of_directory d junk p type name parent h1 hs ht, hL,
          if_pos (by decide)] at hok
        cases hst : stat d (-EINVALIDNAME) with
        | error e =>
          simp only [hst] at hok
          simp [EINVALIDINODE] at hok
        | ok ino =>
          have := ((stat_eq_ok_iff _ _ _).1 hst).1
          simp [EINVALIDNAME] at this

theorem createFresh_ne_allocated (d : Disk) (junk : Bytes) (s : super_t) (p type : Int)
    (name : List Nat) (parent : inode_t) (k : Int) (hk : 0 ≤ k)
    (hbit : bitOf (readInodeBitmap d s) k.toNat ≠ 0) :
    (createFresh d junk s p type name parent).1 ≠ k := by
  have hr := inodeScan_spec (readInodeBitmap d s) s.num_inodes.toNat
  unfold createFresh
  simp only
  split_ifs
  all_goals first
    | (simp only [ENOTENOUGHSPACE]; omega)
    | (rw [createCommit_fst]
       intro hcon
       rw [hcon] at hr
       rcases hr with hr | hr
       · omega
       · exact hbit hr.2.2)

theorem find?_range_hit (q : Nat → Bool) (m : Nat) (h1 : ∀ i, i < m → q i = false)
    (h2 : q m = true) : ∀ n, m < n → (List.range n).find? q = some m := by
  intro n
  induction n with
  | zero => intro h; omega
  | succ n ih =>
    intro h
    by_cases hmn : m = n
    · subst hmn
      exact find?_range_succ_last q m h1 h2
    · rw [List.range_succ, List.find?_append, ih (by omega)]
      rfl

theorem entryName_congr (m m2 : Bytes) (i : Nat)
    (h : ∀ j, j < i * 32 + 32 → m j = m2 j) : entryName m i = entryName m2 i := by
  unfold entryName
  simp only [SIZEOF_DIR_ENT, DIR_ENT_NAME_SIZE]
  exact cstrAt_congr _ _ _ _ (fun j _ hj => h j (by omega))

theorem entryInum_congr (m m2 : Bytes) (i : Nat)
    (h : ∀ j, j < i * 32 + 32 → m j = m2 j) : entryInum m i = entryInum m2 i := by
  unfold entryInum getS32
  simp only [SIZEOF_DIR_ENT, DIR_ENT_NAME_SIZE]
  exact congrArg _ (getU32_congr _ _ _ (fun j _ hj => h j (by omega)))

theorem ghostImage_root : stat ghostImage 0 = .ok (inodeSlot ghostImage 0) :=
  (stat_eq_ok_iff _ _ _).2 ⟨by decide, by decide, by decide,
    (readInodeRegion_layout ghostImage 0 ghostImage_layout (by decide)).symm⟩

theorem mkfsImage_entries (name : List Nat) (parent : inode_t)
    (hs : stat mkfsImage 0 = .ok parent) :
    ∀ i, i < parent.size.toNat / SIZEOF_DIR_ENT →
      entryName (fileBytes mkfsImage parent) i = cstr name →
      entryInum (fileBytes mkfsImage parent) i ≠ -ENOTFOUND := by
  have hr := mkfsImage_root
  rw [hs] at hr
  injection hr with hr
  subst hr
  intro i hi _
  have h2 : (inodeSlot mkfsImage 0).size.toNat / SIZEOF_DIR_ENT = 2 := by decide
  rw [h2] at hi
  interval_cases i <;> decide

theorem stat_ok_nonneg (d : Disk) (k : Int) (inode : inode_t) (h : stat d k = .ok inode) :
    0 ≤ k := ((stat_eq_ok_iff d k inode).1 h).1

theorem lookup_ok_parent (d : Disk) (junk : Bytes) (p : Int) (name : List Nat) (inode : inode_t)
    (hs : stat d (lookup d junk p name) = .ok inode) :
    ∃ parent, stat d p = .ok parent ∧ ¬ parent.type ≠ UFS_DIRECTORY
      ∧ ¬ (name.length ≤ 0 ∨ name.length ≥ DIR_ENT_NAME_SIZE) := by
  have h0 := stat_ok_nonneg _ _ _ hs
  cases hp : stat d p with
  | error e =>
    exfalso
    have he := stat_error d p e hp
    unfold lookup at h0
    simp only [hp] at h0
    rw [he] at h0
    simp [EINVALIDINODE] at h0
  | ok parent =>
    by_cases ht : parent.type ≠ UFS_DIRECTORY
    · exfalso
      unfold lookup at h0
      simp only [hp] at h0
      rw [if_pos ht] at h0
      simp [EINVALIDINODE] at h0
    · by_cases hn : name.length ≤ 0 ∨ name.length ≥ DIR_ENT_NAME_SIZE
      · exfalso
        unfold lookup at h0
        simp only [hp] at h0
        rw [if_neg ht, if_pos hn] at h0
        simp [EINVALIDNAME] at h0
      · exact ⟨parent, rfl, ht, hn⟩

theorem inodeScan_none_iff (bm : Bytes) (n : Nat) :
    forLoop (inodeScanStep bm) n 0 (-1) = -1 ↔ ∀ i, i < n → bitOf bm i ≠ 0 := by
  have := forLoop_inv (inodeScanStep bm)
    (fun m r => (r = -1 ∧ ∀ i, i < m → bitOf bm i ≠ 0)
      ∨ (0 ≤ r ∧ r < m ∧ bitOf bm r.toNat = 0)) n 0 (-1)
    (Or.inl ⟨rfl, fun i hi => absurd hi (Nat.not_lt_zero i)⟩)
    (by
      intro m t _ _ ih
      unfold inodeScanStep
      by_cases h1 : t ≠ -1
      · rw [if_pos h1]
        rcases ih with ih | ⟨a, b, c⟩
        · exact absurd ih.1 h1
        · exact Or.inr ⟨a, by push_cast; omega, c⟩
      · rw [if_neg h1]
        rcases ih with ih | ⟨a, b, c⟩
        · by_cases h2 : bitOf bm m = 0
          · rw [if_pos h2]
            exact Or.inr ⟨by omega, by push_cast; omega, by simpa using h2⟩
          · rw [if_neg h2]
            refine Or.inl ⟨ih.1, fun i hi => ?_⟩
            by_cases him : i = m
            · rw [him]; exact h2
            · exact ih.2 i (by omega)
        · exfalso; omega)
  simp only [Nat.zero_add] at this
  constructor
  · intro h
    rcases this with h1 | h1
    · exact h1.2
    · omega
  · intro h
    rcases this with h1 | h1
    · exact h1.1
    · exfalso
      exact h _ (by omega) h1.2.2

theorem inodeBit_iff (d : Disk) (i : Nat) (hl : LayoutOk (readSuperBlock d))
    (hi : (i : Int) < (readSuperBlock d).num_inodes) :
    inodeBit d i = true ↔ bitOf (readInodeBitmap d (readSuperBlock d)) i ≠ 0 := by
  unfold inodeBit bitmapBit
  simp only [UFS_BLOCK_SIZE]
  rw [← readInodeBitmap_layout d i hl hi, Ne, bitOf_eq_zero_iff, Bool.not_eq_false]

theorem dataBit_iff (d : Disk) (i : Nat) (hl : LayoutOk (readSuperBlock d))
    (hi : (i : Int) < (readSuperBlock d).num_data) :
    dataBit d i = true ↔ bitOf (readDataBitmap d (readSuperBlock d)) i ≠ 0 := by
  unfold dataBit bitmapBit
  simp only [UFS_BLOCK_SIZE]
  rw [← readDataBitmap_layout d i hl hi, Ne, bitOf_eq_zero_iff, Bool.not_eq_false]

theorem lookup_absent (d : Disk) (junk : Bytes) (p : Int) (name : List Nat) (parent : inode_t)
    (hs : stat d p = .ok parent) (ht : ¬ parent.type ≠ UFS_DIRECTORY)
    (hn : ¬ (name.length ≤ 0 ∨ name.length ≥ DIR_ENT_NAME_SIZE))
    (h0 : 0 ≤ parent.size) (h1 : parent.size ≤ MAX_FILE_SIZE)
    (habs : ∀ i, i < parent.size.toNat / SIZEOF_DIR_ENT →
      entryName (fileBytes d parent) i ≠ cstr name) :
    lookup d junk p name = -ENOTFOUND := by
  rw [lookup_of_directory d junk p name parent hs ht hn h0 h1]
  have : (List.range (parent.size.toNat / SIZEOF_DIR_ENT)).find?
      (fun i => entryName (fileBytes d parent) i = cstr name) = none := by
    rw [List.find?_eq_none]
    intro i hi
    rw [List.mem_range] at hi
    simpa using habs i hi
  rw [this]

theorem fullImage_root : stat fullImage 0 = .ok (inodeSlot fullImage 0) :=
  (stat_eq_ok_iff _ _ _).2 ⟨by decide, by decide, by decide,
    (readInodeRegion_layout fullImage 0 fullImage_layout (by decide)).symm⟩

theorem fileImage_root : stat fileImage 0 = .ok (inodeSlot fileImage 0) :=
  (stat_eq_ok_iff _ _ _).2 ⟨by decide, by decide, by decide,
    (readInodeRegion_layout fileImage 0 fileImage_layout (by decide)).symm⟩

theorem readInodeRegion_congr (d d2 : Disk) (s : super_t) (h0 : 0 ≤ s.num_inodes)
    (h : ∀ a, s.inode_region_addr ≤ a → a < s.inode_region_addr + s.inode_region_len.toNat →
      d2 a = d a) :
    readInodeRegion d2 s = readInodeRegion d s := by
  funext j
  rw [readInodeRegion_apply _ _ h0, readInodeRegion_apply _ _ h0]
  by_cases c : (j : Int) < s.num_inodes * 128 ∧ j / 4096 < s.inode_region_len.toNat
  · rw [if_pos c, if_pos c, h _ (by omega) (by omega)]
  · rw [if_neg c, if_neg c]

theorem createCommit_disk (d : Disk) (junk : Bytes) (p type : Int) (name : List Nat)
    (parent : inode_t) (k : Int) (avail : List Nat)
    (hl : LayoutOk (readSuperBlock d)) (hsz0 : 0 ≤ parent.size)
    (P1 : inode_t) (hP1 : P1 = createParent (readSuperBlock d) parent avail)
    (I : inode_t) (hI : I = createInode (readSuperBlock d) type avail)
    (PB : Int) (hPB : PB = toS32 (directAt P1 (parent.size / 4096)))
    (hPBr : (readSuperBlock d).data_region_addr ≤ PB)
    (hCB : type = UFS_DIRECTORY → (readSuperBlock d).data_region_addr ≤ toS32 (I.direct 0))
    (r : Int × Disk)
    (hr : r = createCommit d junk (readSuperBlock d) p type name parent
      (readInodeBitmap d (readSuperBlock d)) k (readDataBitmap d (readSuperBlock d)) avail) :
    ∃ d1 : Disk,
      (∀ a, (type = UFS_DIRECTORY → a ≠ toS32 (I.direct 0)) → d1 a = d a)
      ∧ (type = UFS_DIRECTORY → ∀ o, o < 4096 →
          d1 (toS32 (I.direct 0)) o =
            memcpy (memsetZero junk 0 UFS_BLOCK_SIZE) 0
              (memcpy (dirEntBytes [46] k) SIZEOF_DIR_ENT (dirEntBytes [46, 46] p) 0
                SIZEOF_DIR_ENT) 0 I.size.toNat o)
      ∧ ∀ a o, r.2 a o =
        if (readSuperBlock d).inode_region_addr ≤ a
            ∧ a < (readSuperBlock d).inode_region_addr
                + (readSuperBlock d).inode_region_len.toNat
            ∧ o < 4096 then
          if ((min (4096 * (a - (readSuperBlock d).inode_region_addr))
              ((readSuperBlock d).num_inodes * 128)).toNat + o : Int)
              < (readSuperBlock d).num_inodes * 128 then
            putInode (putInode (readInodeRegion d (readSuperBlock d)) p.toNat
                { type := P1.type, size := P1.size + 32, direct := P1.direct }) k.toNat I
              ((min (4096 * (a - (readSuperBlock d).inode_region_addr))
                ((readSuperBlock d).num_inodes * 128)).toNat + o)
          else junk ((min (4096 * (a - (readSuperBlock d).inode_region_addr))
                ((readSuperBlock d).num_inodes * 128)).toNat + o)
        else if (readSuperBlock d).data_bitmap_addr ≤ a
            ∧ a < (readSuperBlock d).data_bitmap_addr + (readSuperBlock d).data_bitmap_len.toNat
            ∧ o < 4096 then
          (List.foldl setBit (readDataBitmap d (readSuperBlock d)) avail)
            ((a - (readSuperBlock d).data_bitmap_addr).toNat * 4096 + o)
        else if (readSuperBlock d).inode_bitmap_addr ≤ a
            ∧ a < (readSuperBlock d).inode_bitmap_addr
                + (readSuperBlock d).inode_bitmap_len.toNat
            ∧ o < 4096 then
          (setBit (readInodeBitmap d (readSuperBlock d)) k.toNat)
            ((a - (readSuperBlock d).inode_bitmap_addr).toNat * 4096 + o)
        else if a = PB ∧ o < 4096 then
          memcpy (d1 PB) (parent.size % 4096).toNat (createEntry junk k name) 0 32 o
        else d1 a o := by
  obtain ⟨l1, l2, l3, l4, l5, l6, l7, l8, l9, l10, l11, l12, l13⟩ := hl
  simp only [UFS_BLOCK_SIZE, SIZEOF_INODE, DIRECT_PTRS] at l10 l11 l12
  push_cast at l10 l11 l12
  simp only [createCommit] at hr
  rw [Int.tdiv_eq_ediv hsz0 (by simp), Int.tmod_eq_emod hsz0 (by simp), ← hP1, ← hI] at hr
  generalize hd1 : (if type = UFS_DIRECTORY then writeBlock d (toS32 (I.direct 0)) _ else d)
    = d1 at hr
  have h1 : ∀ a, (type = UFS_DIRECTORY → a ≠ toS32 (I.direct 0)) → d1 a = d a := by
    intro a ha
    rw [← hd1]
    by_cases ht : type = UFS_DIRECTORY
    · rw [if_pos ht, writeBlock_other _ _ _ _ (ha ht)]
    · rw [if_neg ht]
  have h2 : type = UFS_DIRECTORY → ∀ o, o < 4096 →
      d1 (toS32 (I.direct 0)) o =
        memcpy (memsetZero junk 0 UFS_BLOCK_SIZE) 0
          (memcpy (dirEntBytes [46] k) SIZEOF_DIR_ENT (dirEntBytes [46, 46] p) 0
            SIZEOF_DIR_ENT) 0 I.size.toNat o := by
    intro ht o ho
    rw [← hd1, if_pos ht, writeBlock_apply, if_pos ⟨rfl, ho⟩]
  refine ⟨d1, h1, h2, ?_⟩
  simp only [UFS_BLOCK_SIZE, SIZEOF_INODE, SIZEOF_DIR_ENT, DIR_ENT_NAME_SIZE, DIRECT_PTRS,
    readBlock] at hr
  norm_num at hr
  rw [← hPB] at hr
  generalize hin : readInodeRegion _ (readSuperBlock d) = inodes0 at hr
  have hin2 : inodes0 = readInodeRegion d (readSuperBlock d) := by
    rw [← hin]
    apply readInodeRegion_congr _ _ _ l8
    intro a ha1 ha2
    funext o
    unfold writeDataBitmap writeInodeBitmap
    rw [writeBitmap_apply, writeBitmap_apply, writeBlock_apply, if_neg (by omega),
      if_neg (by omega), if_neg (by omega), h1 a (fun ht => by have := hCB ht; omega)]
  rw [hin2] at hr
  intro a o
  rw [hr]
  simp only
  rw [writeInodeRegion_apply _ _ _ _ l8]
  unfold writeDataBitmap writeInodeBitmap
  rw [writeBitmap_apply, writeBitmap_apply, writeBlock_apply]

theorem createFresh_detail_scan (d : Disk) (junk : Bytes) (p type : Int) (name : List Nat)
    (parent : inode_t) (hc : Consistent d) (hs : stat d p = .ok parent)
    (htd : parent.type = UFS_DIRECTORY)
    (hty : -2147483648 ≤ type ∧ type < 2147483648)
    (hok : 0 ≤ (createFresh d junk (readSuperBlock d) p type name parent).1) :
    ∃ (k : Int) (avail : List Nat) (P1 I : inode_t) (PB : Int) (D d1 : Disk),
      createFresh d junk (readSuperBlock d) p type name parent = (k, D)
      ∧ P1 = createParent (readSuperBlock d) parent avail
      ∧ I = createInode (readSuperBlock d) type avail
      ∧ PB = toS32 (directAt P1 (parent.size / 4096))
      ∧ (0 ≤ k ∧ k < (readSuperBlock d).num_inodes
          ∧ bitOf (readInodeBitmap d (readSuperBlock d)) k.toNat = 0 ∧ k ≠ p)
      ∧ (avail.length =
            (if type = UFS_DIRECTORY then 1 else 0) + (if parent.size % 4096 = 0 then 1 else 0)
          ∧ (∀ a ∈ avail, (a : Int) < (readSuperBlock d).num_data ∧ dataBit d a = false)
          ∧ avail.Nodup)
      ∧ (0 ≤ parent.size ∧ parent.size % 32 = 0 ∧ parent.size + 32 ≤ 122880)
      ∧ (P1.type = parent.type ∧ P1.size = parent.size
          ∧ ∀ i, P1.direct i =
              if parent.size % 4096 = 0 ∧ i = (parent.size / 4096).toNat then
                toU32 ((avail.getD 0 0 : Int) + (readSuperBlock d).data_region_addr)
              else parent.direct i)
      ∧ ((readSuperBlock d).data_region_addr ≤ PB
          ∧ PB < (readSuperBlock d).data_region_addr + (readSuperBlock d).num_data
          ∧ (parent.size % 4096 = 0 →
              PB = (avail.getD 0 0 : Int) + (readSuperBlock d).data_region_addr)
          ∧ (parent.size % 4096 ≠ 0 → PB = (parent.direct (parent.size / 4096).toNat : Int)))
      ∧ (type = UFS_DIRECTORY →
          toS32 (I.direct 0) =
              (avail.getD (avail.length - 1) 0 : Int) + (readSuperBlock d).data_region_addr
            ∧ toS32 (I.direct 0) ≠ PB)
      ∧ readSuperBlock D = readSuperBlock d
      ∧ stat D p = .ok { type := P1.type, size := P1.size + 32, direct := P1.direct }
      ∧ stat D k = .ok I
      ∧ (∀ a, (readSuperBlock d).data_region_addr ≤ a → a ≠ PB →
          (type = UFS_DIRECTORY → a ≠ toS32 (I.direct 0)) → D a = d a)
      ∧ (∀ o, o < 4096 → D PB o =
          if (parent.size % 4096).toNat ≤ o ∧ o < (parent.size % 4096).toNat + 32 then
            createEntry junk k name (o - (parent.size % 4096).toNat)
          else d PB o)
      ∧ (∀ a, (type = UFS_DIRECTORY → a ≠ toS32 (I.direct 0)) → d1 a = d a)
      ∧ (type = UFS_DIRECTORY → ∀ o, o < 4096 →
          d1 (toS32 (I.direct 0)) o =
            memcpy (memsetZero junk 0 UFS_BLOCK_SIZE) 0
              (memcpy (dirEntBytes [46] k) SIZEOF_DIR_ENT (dirEntBytes [46, 46] p) 0
                SIZEOF_DIR_ENT) 0 I.size.toNat o)
      ∧ (∀ a o, D a o =
        if (readSuperBlock d).inode_region_addr ≤ a
            ∧ a < (readSuperBlock d).inode_region_addr
                + (readSuperBlock d).inode_region_len.toNat
            ∧ o < 4096 then
          if ((min (4096 * (a - (readSuperBlock d).inode_region_addr))
              ((readSuperBlock d).num_inodes * 128)).toNat + o : Int)
              < (readSuperBlock d).num_inodes * 128 then
            putInode (putInode (readInodeRegion d (readSuperBlock d)) p.toNat
                { type := P1.type, size := P1.size + 32, direct := P1.direct }) k.toNat I
              ((min (4096 * (a - (readSuperBlock d).inode_region_addr))
                ((readSuperBlock d).num_inodes * 128)).toNat + o)
          else junk ((min (4096 * (a - (readSuperBlock d).inode_region_addr))
                ((readSuperBlock d).num_inodes * 128)).toNat + o)
        else if (readSuperBlock d).data_bitmap_addr ≤ a
            ∧ a < (readSuperBlock d).data_bitmap_addr + (readSuperBlock d).data_bitmap_len.toNat
            ∧ o < 4096 then
          (List.foldl setBit (readDataBitmap d (readSuperBlock d)) avail)
            ((a - (readSuperBlock d).data_bitmap_addr).toNat * 4096 + o)
        else if (readSuperBlock d).inode_bitmap_addr ≤ a
            ∧ a < (readSuperBlock d).inode_bitmap_addr
                + (readSuperBlock d).inode_bitmap_len.toNat
            ∧ o < 4096 then
          (setBit (readInodeBitmap d (readSuperBlock d)) k.toNat)
            ((a - (readSuperBlock d).inode_bitmap_addr).toNat * 4096 + o)
        else if a = PB ∧ o < 4096 then
          memcpy (d1 PB) (parent.size % 4096).toNat (createEntry junk k name) 0 32 o
        else d1 a o)
      ∧ avail = List.take
          ((if type = UFS_DIRECTORY then 1 else 0) + (if parent.size % 4096 = 0 then 1 else 0))
          (clearBits (readDataBitmap d (readSuperBlock d)) (readSuperBlock d).num_data.toNat)
      ∧ k = forLoop (inodeScanStep (readInodeBitmap d (readSuperBlock d)))
          (readSuperBlock d).num_inodes.toNat 0 (-1) := by
  have hl := hc.1
  obtain ⟨i0, i1, i2, i3, i4, i5⟩ := inodeOk_of_stat d p parent hc hs
  have h32 : parent.size % 32 = 0 := by
    have := i5 htd
    simp only [SIZEOF_DIR_ENT, DIR_ENT_NAME_SIZE] at this
    push_cast at this
    omega
  simp only [MAX_FILE_SIZE, DIRECT_PTRS, UFS_BLOCK_SIZE] at i1 i2 i3 i4
  push_cast at i1 i3
  obtain ⟨hp0, hp1, hpbit, hpar⟩ := (stat_eq_ok_iff d p parent).1 hs
  obtain ⟨pp1, _, pp3, pp4⟩ := inodeAt_props (readInodeRegion d (readSuperBlock d)) p.toNat
  rw [← hpar] at pp1 pp3 pp4
  obtain ⟨l1, l2, l3, l4, l5, l6, l7, l8, l9, l10, l11, l12, l13⟩ := hl
  rw [createFresh_eq d junk _ p type name parent i0] at hok ⊢
  rcases inodeScan_spec (readInodeBitmap d (readSuperBlock d))
    (readSuperBlock d).num_inodes.toNat with hk | ⟨hk0, hk1, hkbit⟩
  · exfalso
    rw [if_pos hk] at hok
    simp [ENOTENOUGHSPACE] at hok
  rw [if_neg (by omega)] at hok ⊢
  by_cases hfull : parent.size % 4096 = 0 ∧ parent.size + 4096 > 122880
  · exfalso
    rw [if_pos hfull] at hok
    simp [ENOTENOUGHSPACE] at hok
  rw [if_neg hfull] at hok ⊢
  by_cases hshort : ((List.take
      ((if type = UFS_DIRECTORY then 1 else 0) + (if parent.size % 4096 = 0 then 1 else 0))
      (clearBits (readDataBitmap d (readSuperBlock d))
        (readSuperBlock d).num_data.toNat)).length : Int) <
      (((if type = UFS_DIRECTORY then 1 else 0)
        + (if parent.size % 4096 = 0 then 1 else 0) : Nat) : Int)
  · exfalso
    rw [if_pos hshort] at hok
    simp [ENOTENOUGHSPACE] at hok
  rw [if_neg hshort]
  generalize hav : List.take
      ((if type = UFS_DIRECTORY then 1 else 0) + (if parent.size % 4096 = 0 then 1 else 0))
      (clearBits (readDataBitmap d (readSuperBlock d))
        (readSuperBlock d).num_data.toNat) = avail at hshort ⊢
  generalize hkk : forLoop (inodeScanStep (readInodeBitmap d (readSuperBlock d)))
      (readSuperBlock d).num_inodes.toNat 0 (-1) = k at hk0 hk1 hkbit ⊢
  have hlenA : avail.length =
      (if type = UFS_DIRECTORY then 1 else 0) + (if parent.size % 4096 = 0 then 1 else 0) := by
    have : avail.length ≤
        (if type = UFS_DIRECTORY then 1 else 0) + (if parent.size % 4096 = 0 then 1 else 0) := by
      rw [← hav]
      exact List.length_take_le _ _
    omega
  have hmem : ∀ a ∈ avail, (a : Int) < (readSuperBlock d).num_data
      ∧ dataBit d a = false := by
    intro a ha
    rw [← hav] at ha
    have := (clearBits_mem _ _ _).1 (List.mem_of_mem_take ha)
    exact ⟨by omega, dataBit_of_clear d a hc.1 (by omega) this.2⟩
  have hnd : avail.Nodup := by
    rw [← hav]
    exact (clearBits_nodup _ _).sublist (List.take_sublist _ _)
  have hsz1 : parent.size + 32 ≤ 122880 := by
    by_contra hcon
    apply hfull
    omega
  have hused : ∀ b, b < 30 → parent.direct b ≠ 0 → ∀ a ∈ avail,
      (a : Int) + (readSuperBlock d).data_region_addr ≠ (parent.direct b : Int) := by
    intro b hb hne a ha hcon
    have h1 := (i2 b hb hne).2.2
    have h2 := (hmem a ha).2
    have : ((parent.direct b : Int) - (readSuperBlock d).data_region_addr).toNat = a := by omega
    rw [this, h2] at h1
    cases h1
  obtain ⟨cp1, cp2, cp3⟩ := createParent_eq (readSuperBlock d) parent avail i0 (by omega)
  have hblk : (0 : Int) ≤ parent.size / 4096 ∧ parent.size / 4096 < 30 := by omega
  -- the block of the parent that receives the entry
  have hPBr : (readSuperBlock d).data_region_addr ≤
        toS32 (directAt (createParent (readSuperBlock d) parent avail) (parent.size / 4096))
      ∧ toS32 (directAt (createParent (readSuperBlock d) parent avail) (parent.size / 4096))
        < (readSuperBlock d).data_region_addr + (readSuperBlock d).num_data
      ∧ (parent.size % 4096 = 0 →
          toS32 (directAt (createParent (readSuperBlock d) parent avail) (parent.size / 4096))
            = (avail.getD 0 0 : Int) + (readSuperBlock d).data_region_addr)
      ∧ (parent.size % 4096 ≠ 0 →
          toS32 (directAt (createParent (readSuperBlock d) parent avail) (parent.size / 4096))
            = (parent.direct (parent.size / 4096).toNat : Int)) := by
    unfold directAt
    simp only [DIRECT_PTRS]
    rw [if_pos (by push_cast; omega), cp3]
    by_cases hoff : parent.size % 4096 = 0
    · rw [if_pos ⟨hoff, rfl⟩]
      have hpos : 0 < avail.length := by rw [hlenA, if_pos hoff]; omega
      have := (hmem _ (getD_mem avail 0 hpos)).1
      rw [toS32_toU32 _ (by omega) (by omega)]
      exact ⟨by omega, by omega, fun _ => rfl, fun h => absurd hoff h⟩
    · rw [if_neg (fun h => hoff h.1)]
      have hne := i3 (parent.size / 4096).toNat (by omega) (by omega)
      have := i2 (parent.size / 4096).toNat (by omega) hne
      unfold toS32
      rw [if_pos (by omega)]
      exact ⟨by omega, by omega, fun h => absurd h hoff, fun _ => rfl⟩
  have hIdir : type = UFS_DIRECTORY →
      (createInode (readSuperBlock d) type avail).direct 0 =
        toU32 ((avail.getD (avail.length - 1) 0 : Int) + (readSuperBlock d).data_region_addr) := by
    intro ht
    unfold createInode
    simp only [if_pos ht, Function.update_same, getLastD_eq_getD]
  have hItype : (createInode (readSuperBlock d) type avail).type = type := by
    unfold createInode
    simp only
    split_ifs <;> rfl
  have hCB : type = UFS_DIRECTORY →
      (readSuperBlock d).data_region_addr ≤
          toS32 ((createInode (readSuperBlock d) type avail).direct 0)
        ∧ toS32 ((createInode (readSuperBlock d) type avail).direct 0)
          < (readSuperBlock d).data_region_addr + (readSuperBlock d).num_data
        ∧ toS32 ((createInode (readSuperBlock d) type avail).direct 0) ≠
          toS32 (directAt (createParent (readSuperBlock d) parent avail) (parent.size / 4096))
        ∧ toS32 ((createInode (readSuperBlock d) type avail).direct 0) =
          (avail.getD (avail.length - 1) 0 : Int) + (readSuperBlock d).data_region_addr := by
    intro ht
    have hpos : avail.length - 1 < avail.length := by rw [hlenA, if_pos ht]; omega
    have hin := getD_mem avail _ hpos
    have := (hmem _ hin).1
    rw [hIdir ht, toS32_toU32 _ (by omega) (by omega)]
    refine ⟨by omega, by omega, ?_, rfl⟩
    by_cases hoff : parent.size % 4096 = 0
    · rw [hPBr.2.2.1 hoff]
      intro hcon
      have h01 : avail.length - 1 = 0 :=
        getD_inj_of_nodup avail hnd _ _ hpos (by omega) (by omega)
      rw [hlenA, if_pos ht, if_pos hoff] at h01
      omega
    · rw [hPBr.2.2.2 hoff]
      exact hused _ (by omega) (i3 _ (by omega) (by omega)) _ hin
  have hnum := getS32_bounds (readBlock d 0) 32
  have hnum2 : (readSuperBlock d).num_inodes = getS32 (readBlock d 0) 32 := rfl
  obtain ⟨c1, c2, c3, c4, c5, c6⟩ := createCommit_spec d junk p type name parent k avail hc.1
    hp0 hp1 hpbit hk0 (by omega)
    (by
      intro hkp
      rw [hkp] at hkbit
      exact hpbit hkbit)
    i0 hsz1 h32 _ rfl (by rw [cp1]; exact pp1)
    (by
      intro i
      rw [cp3]
      split_ifs
      · exact toU32_lt _
      · exact pp3 i)
    (by
      intro i hi
      rw [cp3, if_neg (by omega)]
      exact pp4 i hi)
    _ rfl hty _ rfl ⟨hPBr.1, hPBr.2.1⟩
    (fun ht => ⟨(hCB ht).1, (hCB ht).2.1, (hCB ht).2.2.1⟩) _ rfl
  obtain ⟨d1, e1, e2, e3⟩ := createCommit_disk d junk p type name parent k avail hc.1 i0
    _ rfl _ rfl _ rfl hPBr.1 (fun ht => (hCB ht).1) _ rfl
  have hkp : k ≠ p := by
    intro hkp
    rw [hkp] at hkbit
    exact hpbit hkbit
  exact ⟨k, avail, _, _, _, _, d1, Prod.ext c1 rfl, rfl, rfl, rfl, ⟨hk0, by omega, hkbit, hkp⟩,
    ⟨hlenA, hmem, hnd⟩, ⟨i0, h32, hsz1⟩, ⟨cp1, cp2, cp3⟩, hPBr,
    fun ht => ⟨(hCB ht).2.2.2, (hCB ht).2.2.1⟩, c2, c3, c4, c5, c6, e1, e2, e3, rfl, rfl⟩

theorem createFresh_detail (d : Disk) (junk : Bytes) (p type : Int) (name : List Nat)
    (parent : inode_t) (hc : Consistent d) (hs : stat d p = .ok parent)
    (htd : parent.type = UFS_DIRECTORY)
    (hty : -2147483648 ≤ type ∧ type < 2147483648)
    (hok : 0 ≤ (createFresh d junk (readSuperBlock d) p type name parent).1) :
    ∃ (k : Int) (avail : List Nat) (P1 I : inode_t) (PB : Int) (D d1 : Disk),
      createFresh d junk (readSuperBlock d) p type name parent = (k, D)
      ∧ P1 = createParent (readSuperBlock d) parent avail
      ∧ I = createInode (readSuperBlock d) type avail
      ∧ PB = toS32 (directAt P1 (parent.size / 4096))
      ∧ (0 ≤ k ∧ k < (readSuperBlock d).num_inodes
          ∧ bitOf (readInodeBitmap d (readSuperBlock d)) k.toNat = 0 ∧ k ≠ p)
      ∧ (avail.length =
            (if type = UFS_DIRECTORY then 1 else 0) + (if parent.size % 4096 = 0 then 1 else 0)
          ∧ (∀ a ∈ avail, (a : Int) < (readSuperBlock d).num_data ∧ dataBit d a = false)
          ∧ avail.Nodup)
      ∧ (0 ≤ parent.size ∧ parent.size % 32 = 0 ∧ parent.size + 32 ≤ 122880)
      ∧ (P1.type = parent.type ∧ P1.size = parent.size
          ∧ ∀ i, P1.direct i =
              if parent.size % 4096 = 0 ∧ i = (parent.size / 4096).toNat then
                toU32 ((avail.getD 0 0 : Int) + (readSuperBlock d).data_region_addr)
              else parent.direct i)
      ∧ ((readSuperBlock d).data_region_addr ≤ PB
          ∧ PB < (readSuperBlock d).data_region_addr + (readSuperBlock d).num_data
          ∧ (parent.size % 4096 = 0 →
              PB = (avail.getD 0 0 : Int) + (readSuperBlock d).data_region_addr)
          ∧ (parent.size % 4096 ≠ 0 → PB = (parent.direct (parent.size / 4096).toNat : Int)))
      ∧ (type = UFS_DIRECTORY →
          toS32 (I.direct 0) =
              (avail.getD (avail.length - 1) 0 : Int) + (readSuperBlock d).data_region_addr
            ∧ toS32 (I.direct 0) ≠ PB)
      ∧ readSuperBlock D = readSuperBlock d
      ∧ stat D p = .ok { type := P1.type, size := P1.size + 32, direct := P1.direct }
      ∧ stat D k = .ok I
      ∧ (∀ a, (readSuperBlock d).data_region_addr ≤ a → a ≠ PB →
          (type = UFS_DIRECTORY → a ≠ toS32 (I.direct 0)) → D a = d a)
      ∧ (∀ o, o < 4096 → D PB o =
          if (parent.size % 4096).toNat ≤ o ∧ o < (parent.size % 4096).toNat + 32 then
            createEntry junk k name (o - (parent.size % 4096).toNat)
          else d PB o)
      ∧ (∀ a, (type = UFS_DIRECTORY → a ≠ toS32 (I.direct 0)) → d1 a = d a)
      ∧ (type = UFS_DIRECTORY → ∀ o, o < 4096 →
          d1 (toS32 (I.direct 0)) o =
            memcpy (memsetZero junk 0 UFS_BLOCK_SIZE) 0
              (memcpy (dirEntBytes [46] k) SIZEOF_DIR_ENT (dirEntBytes [46, 46] p) 0
                SIZEOF_DIR_ENT) 0 I.size.toNat o)
      ∧ ∀ a o, D a o =
        if (readSuperBlock d).inode_region_addr ≤ a
            ∧ a < (readSuperBlock d).inode_region_addr
                + (readSuperBlock d).inode_region_len.toNat
            ∧ o < 4096 then
          if ((min (4096 * (a - (readSuperBlock d).inode_region_addr))
              ((readSuperBlock d).num_inodes * 128)).toNat + o : Int)
              < (readSuperBlock d).num_inodes * 128 then
            putInode (putInode (readInodeRegion d (readSuperBlock d)) p.toNat
                { type := P1.type, size := P1.size + 32, direct := P1.direct }) k.toNat I
              ((min (4096 * (a - (readSuperBlock d).inode_region_addr))
                ((readSuperBlock d).num_inodes * 128)).toNat + o)
          else junk ((min (4096 * (a - (readSuperBlock d).inode_region_addr))
                ((readSuperBlock d).num_inodes * 128)).toNat + o)
        else if (readSuperBlock d).data_bitmap_addr ≤ a
            ∧ a < (readSuperBlock d).data_bitmap_addr + (readSuperBlock d).data_bitmap_len.toNat
            ∧ o < 4096 then
          (List.foldl setBit (readDataBitmap d (readSuperBlock d)) avail)
            ((a - (readSuperBlock d).data_bitmap_addr).toNat * 4096 + o)
        else if (readSuperBlock d).inode_bitmap_addr ≤ a
            ∧ a < (readSuperBlock d).inode_bitmap_addr
                + (readSuperBlock d).inode_bitmap_len.toNat
            ∧ o < 4096 then
          (setBit (readInodeBitmap d (readSuperBlock d)) k.toNat)
            ((a - (readSuperBlock d).inode_bitmap_addr).toNat * 4096 + o)
        else if a = PB ∧ o < 4096 then
          memcpy (d1 PB) (parent.size % 4096).toNat (createEntry junk k name) 0 32 o
        else d1 a o := by
  obtain ⟨k, avail, P1, I, PB, D, d1, h1, h2, h3, h4, h5, h6, h7, h8, h9, h10, h11, h12, h13,
    h14, h15, h16, h17, h18, -, -⟩ :=
    createFresh_detail_scan d junk p type name parent hc hs htd hty hok
  exact ⟨k, avail, P1, I, PB, D, d1, h1, h2, h3, h4, h5, h6, h7, h8, h9, h10, h11, h12, h13,
    h14, h15, h16, h17, h18⟩

theorem entry_appended (d D : Disk) (junk : Bytes) (k : Int) (name : List Nat)
    (parent P2 : inode_t) (hlen : (cstr name).length < 28)
    (hk0 : -2147483648 ≤ k) (hk1 : k < 2147483648)
    (h32 : parent.size % 32 = 0)
    (hold : ∀ j : Nat, (j : Int) < parent.size → fileBytes D P2 j = fileBytes d parent j)
    (hnew : ∀ r, r < 32 → fileBytes D P2 (parent.size.toNat + r) = createEntry junk k name r) :
    (∀ i, i < parent.size.toNat / 32 →
        entryName (fileBytes D P2) i = entryName (fileBytes d parent) i
          ∧ entryInum (fileBytes D P2) i = entryInum (fileBytes d parent) i)
      ∧ entryName (fileBytes D P2) (parent.size.toNat / 32) = cstr name
      ∧ entryInum (fileBytes D P2) (parent.size.toNat / 32) = k := by
  have e : parent.size.toNat / 32 * 32 = parent.size.toNat := by omega
  refine ⟨fun i hi => ⟨entryName_congr _ _ i (fun j hj => hold j (by omega)),
    entryInum_congr _ _ i (fun j hj => hold j (by omega))⟩, ?_, ?_⟩
  · unfold entryName
    simp only [SIZEOF_DIR_ENT, DIR_ENT_NAME_SIZE]
    rw [e, ← createEntry_name junk k name hlen]
    exact cstrAt_shift _ _ _ _ _ (fun r hr => by
      rw [hnew r (by omega), Nat.zero_add])
  · unfold entryInum
    simp only [SIZEOF_DIR_ENT, DIR_ENT_NAME_SIZE]
    rw [e, ← createEntry_inum junk k name hlen hk0 hk1]
    unfold getS32
    refine congrArg _ (getU32_shift _ _ _ _ (fun r hr => ?_))
    rw [Nat.add_assoc, hnew (28 + r) (by omega)]

theorem dirEntries_appended (d D : Disk) (junk : Bytes) (k : Int) (name : List Nat)
    (parent P2 : inode_t) (hlen : (cstr name).length < 28)
    (hk0 : -2147483648 ≤ k) (hk1 : k < 2147483648)
    (h0 : 0 ≤ parent.size) (h32 : parent.size % 32 = 0)
    (hsz2 : P2.size = parent.size + 32)
    (hold : ∀ j : Nat, (j : Int) < parent.size → fileBytes D P2 j = fileBytes d parent j)
    (hnew : ∀ r, r < 32 → fileBytes D P2 (parent.size.toNat + r) = createEntry junk k name r) :
    dirEntries D P2 = dirEntries d parent ++ [(cstr name, k)] := by
  obtain ⟨a1, a2, a3⟩ := entry_appended d D junk k name parent P2 hlen hk0 hk1 h32 hold hnew
  unfold dirEntries
  have hN : P2.size.toNat / SIZEOF_DIR_ENT = parent.size.toNat / 32 + 1 := by
    rw [hsz2]
    simp only [SIZEOF_DIR_ENT, DIR_ENT_NAME_SIZE]
    omega
  have hM : parent.size.toNat / SIZEOF_DIR_ENT = parent.size.toNat / 32 := rfl
  rw [hN, hM, List.range_succ, List.map_append, List.map_singleton, a2, a3]
  refine congrArg (fun l => l ++ [(cstr name, k)]) ?_
  apply List.map_congr_left
  intro i hi
  rw [List.mem_range] at hi
  rw [(a1 i hi).1, (a1 i hi).2]

theorem createInode_props (s : super_t) (type : Int) (avail : List Nat) :
    (createInode s type avail).type = type
      ∧ (createInode s type avail).size = (if type = UFS_DIRECTORY then 2 * SIZEOF_DIR_ENT else 0)
      ∧ (type ≠ UFS_DIRECTORY → ∀ j, (createInode s type avail).direct j = 0)
      ∧ (∀ j, j ≠ 0 → (createInode s type avail).direct j = 0) := by
  unfold createInode
  simp only
  by_cases ht : type = UFS_DIRECTORY
  · rw [if_pos ht]
    refine ⟨rfl, by simp [ht], fun h => absurd ht h, fun j hj => ?_⟩
    simp only [Function.update_apply]
    rw [if_neg hj]
  · rw [if_neg ht]
    exact ⟨rfl, by simp [ht], fun _ _ => rfl, fun _ _ => rfl⟩

theorem dirEnt_name (s : List Nat) (inum : Int) (hs : ∀ c ∈ s, c ≠ 0) (hlen : s.length < 28) :
    cstrAt (dirEntBytes s inum) 0 28 = s := by
  refine Eq.trans ?_ (cstrAt_strcpy (fun _ => 0) s hs 0 28 hlen)
  apply cstrAt_congr
  intro j _ hj
  unfold dirEntBytes putU32
  simp only [DIR_ENT_NAME_SIZE]
  rw [if_neg (by omega)]

theorem dirEnt_inum (s : List Nat) (inum : Int) (h0 : -2147483648 ≤ inum)
    (h1 : inum < 2147483648) : getS32 (dirEntBytes s inum) 28 = inum := by
  unfold getS32
  rw [getU32_of_byteAt _ 28 (toU32 inum), Nat.mod_eq_of_lt (toU32_lt _), toS32_toU32 _ h0 h1]
  intro r hr
  unfold dirEntBytes putU32
  simp only [DIR_ENT_NAME_SIZE]
  rw [if_pos (by omega)]
  refine congrArg _ ?_
  omega

theorem childBlock_bytes (junk : Bytes) (k p : Int) (o : Nat) (ho : o < 64) :
    memcpy (memsetZero junk 0 UFS_BLOCK_SIZE) 0
        (memcpy (dirEntBytes [46] k) SIZEOF_DIR_ENT (dirEntBytes [46, 46] p) 0 SIZEOF_DIR_ENT)
        0 64 o =
      if o < 32 then dirEntBytes [46] k o else dirEntBytes [46, 46] p (o - 32) := by
  unfold memcpy
  simp only [SIZEOF_DIR_ENT, DIR_ENT_NAME_SIZE, Nat.zero_add, Nat.sub_zero]
  rw [if_pos (by omega)]
  by_cases h : o < 32
  · rw [if_pos h, if_neg (by omega)]
  · rw [if_neg h, if_pos (by omega)]

theorem selfParent_entries (content : Bytes) (junk : Bytes) (k p : Int)
    (hk : -2147483648 ≤ k ∧ k < 2147483648) (hp : -2147483648 ≤ p ∧ p < 2147483648)
    (h : ∀ o, o < 64 → content o =
      memcpy (memsetZero junk 0 UFS_BLOCK_SIZE) 0
        (memcpy (dirEntBytes [46] k) SIZEOF_DIR_ENT (dirEntBytes [46, 46] p) 0 SIZEOF_DIR_ENT)
        0 64 o) :
    entryName content 0 = [46] ∧ entryInum content 0 = k
      ∧ entryName content 1 = [46, 46] ∧ entryInum content 1 = p := by
  have h2 : ∀ o, o < 64 → content o =
      if o < 32 then dirEntBytes [46] k o else dirEntBytes [46, 46] p (o - 32) :=
    fun o ho => (h o ho).trans (childBlock_bytes junk k p o ho)
  refine ⟨?_, ?_, ?_, ?_⟩
  · unfold entryName
    simp only [SIZEOF_DIR_ENT, DIR_ENT_NAME_SIZE, Nat.zero_mul]
    rw [← dirEnt_name [46] k (by decide) (by decide)]
    apply cstrAt_congr
    intro j _ hj
    rw [h2 j (by omega), if_pos (by omega)]
  · unfold entryInum
    simp only [SIZEOF_DIR_ENT, DIR_ENT_NAME_SIZE, Nat.zero_mul, Nat.zero_add]
    rw [← dirEnt_inum [46] k hk.1 hk.2]
    unfold getS32
    refine congrArg _ (getU32_congr _ _ _ (fun j _ hj => ?_))
    rw [h2 j (by omega), if_pos (by omega)]
  · unfold entryName
    simp only [SIZEOF_DIR_ENT, DIR_ENT_NAME_SIZE, Nat.one_mul]
    rw [← dirEnt_name [46, 46] p (by decide) (by decide)]
    apply cstrAt_shift
    intro r hr
    rw [h2 (32 + r) (by omega), if_neg (by omega)]
    refine congrArg _ ?_
    omega
  · unfold entryInum
    simp only [SIZEOF_DIR_ENT, DIR_ENT_NAME_SIZE, Nat.one_mul]
    rw [← dirEnt_inum [46, 46] p hp.1 hp.2]
    unfold getS32
    refine congrArg _ (getU32_shift _ _ _ _ (fun r hr => ?_))
    rw [h2 (28 + 4 + 28 + r) (by omega), if_neg (by omega)]
    refine congrArg _ ?_
    omega

theorem testBit_255 (m : Nat) (h : m < 8) : Nat.testBit 255 m = true := by
  interval_cases m <;> rfl

theorem bitOf_clearBit (bm : Bytes) (i j : Nat) :
    bitOf (clearBit bm i) j = if j = i then 0 else bitOf bm j := by
  rw [bitOf_eq, bitOf_eq]
  unfold clearBit
  by_cases hb : j / 8 = i / 8
  · rw [hb, Function.update_same, Nat.testBit_and, Nat.testBit_xor, Nat.testBit_shiftLeft,
      testBit_255 _ (Nat.mod_lt _ (by omega))]
    by_cases hji : j = i
    · subst hji
      simp
    · have hne : j % 8 ≠ i % 8 := by omega
      rw [if_neg hji]
      by_cases hge : j % 8 ≥ i % 8
      · have h1 : Nat.testBit 1 (j % 8 - i % 8) = false := testBit_one_pos _ (by omega)
        simp [h1]
      · simp [hge]
  · rw [Function.update_noteq hb]
    have hji : j ≠ i := fun h => hb (by rw [h])
    rw [if_neg hji]

theorem bitOf_foldl_setBit (l : List Nat) : ∀ (bm : Bytes) (b : Nat),
    bitOf (l.foldl setBit bm) b = if b ∈ l then 1 else bitOf bm b := by
  induction l with
  | nil => intro bm b; simp
  | cons a l ih =>
    intro bm b
    rw [List.foldl_cons, ih, bitOf_setBit]
    by_cases h1 : b ∈ l
    · rw [if_pos h1, if_pos (List.mem_cons_of_mem _ h1)]
    · rw [if_neg h1]
      by_cases h2 : b = a
      · rw [if_pos h2, if_pos (by rw [h2]; exact List.mem_cons_self _ _)]
      · rw [if_neg h2, if_neg (by simp [h1, h2])]

theorem release_bitmap (super : super_t) (bm : Bytes) (inode : inode_t) (n : Nat) (b : Nat) :
    bitOf (forLoop (releaseStep super) n 0 (bm, inode)).1 b = 0 ↔
      (releasedBy super inode n b ∨ bitOf bm b = 0) := by
  have := forLoop_inv (releaseStep super)
    (fun m st => (∀ j, st.2.direct j = if j < m then 0 else inode.direct j)
      ∧ (bitOf st.1 b = 0 ↔ (releasedBy super inode m b ∨ bitOf bm b = 0))) n 0 (bm, inode)
    ⟨fun j => by simp, by
      constructor
      · intro h; exact Or.inr h
      · intro h
        rcases h with ⟨k, hk, -⟩ | h
        · omega
        · exact h⟩
    (by
      intro m st _ _ ih
      obtain ⟨ih1, ih2⟩ := ih
      have hm : st.2.direct m = inode.direct m := by rw [ih1 m, if_neg (by omega)]
      have hmono : releasedBy super inode m b → releasedBy super inode (m + 1) b := by
        rintro ⟨k, hk, r⟩
        exact ⟨k, by omega, r⟩
      unfold releaseStep
      by_cases h : st.2.direct m ≠ 0
      · rw [if_pos h]
        refine ⟨fun j => ?_, ?_⟩
        · simp only [Function.update_apply]
          by_cases hj : j = m
          · rw [if_pos hj, if_pos (by omega)]
          · rw [if_neg hj, ih1 j]
            by_cases hj2 : j < m
            · rw [if_pos hj2, if_pos (by omega)]
            · rw [if_neg hj2, if_neg (by omega)]
        · simp only
          rw [hm] at h ⊢
          unfold clearBitAt
          by_cases h0 : 0 ≤ toS32 (toU32 ((inode.direct m : Int) - super.data_region_addr))
          · rw [if_pos h0, bitOf_clearBit]
            by_cases hb : b = (toS32 (toU32
                ((inode.direct m : Int) - super.data_region_addr))).toNat
            · rw [if_pos hb]
              exact ⟨fun _ => Or.inl ⟨m, by omega, h, h0, hb.symm⟩, fun _ => rfl⟩
            · rw [if_neg hb, ih2]
              constructor
              · rintro (h1 | h1)
                · exact Or.inl (hmono h1)
                · exact Or.inr h1
              · rintro (⟨k, hk, r1, r2, r3⟩ | h1)
                · by_cases hkm : k = m
                  · subst hkm
                    exact absurd r3.symm hb
                  · exact Or.inl ⟨k, by omega, r1, r2, r3⟩
                · exact Or.inr h1
          · rw [if_neg h0, ih2]
            constructor
            · rintro (h1 | h1)
              · exact Or.inl (hmono h1)
              · exact Or.inr h1
            · rintro (⟨k, hk, r1, r2, r3⟩ | h1)
              · by_cases hkm : k = m
                · subst hkm
                  exact absurd r2 h0
                · exact Or.inl ⟨k, by omega, r1, r2, r3⟩
              · exact Or.inr h1
      · rw [if_neg h]
        refine ⟨fun j => ?_, ?_⟩
        · rw [ih1 j]
          by_cases hj : j = m
          · rw [hj, if_neg (by omega), if_pos (by omega)]
            rw [hm] at h
            exact not_not.1 h
          · by_cases hj2 : j < m
            · rw [if_pos hj2, if_pos (by omega)]
            · rw [if_neg hj2, if_neg (by omega)]
        · rw [ih2]
          rw [hm] at h
          constructor
          · rintro (h1 | h1)
            · exact Or.inl (hmono h1)
            · exact Or.inr h1
          · rintro (⟨k, hk, r1, r2, r3⟩ | h1)
            · by_cases hkm : k = m
              · subst hkm
                exact absurd r1 h
              · exact Or.inl ⟨k, by omega, r1, r2, r3⟩
            · exact Or.inr h1)
  simp only [Nat.zero_add] at this
  exact this.2

theorem writeCommit_bitmap (d : Disk) (junk : Bytes) (inode : inode_t) (inodeNumber : Int)
    (buffer : Bytes) (size : Int) (dataBitmap : Bytes) (avail : List Nat)
    (hl : LayoutOk (readSuperBlock d)) (hi0 : 0 ≤ inodeNumber) (hs0 : 0 ≤ size)
    (hav : ∀ a ∈ avail, (a : Int) < (readSuperBlock d).num_data) (hnd : avail.Nodup)
    (r : Int × Disk)
    (hr : r = writeCommit d junk (readSuperBlock d) inode inodeNumber buffer size dataBitmap
      avail) :
    ∀ (a : Int) (o : Nat), (readSuperBlock d).data_bitmap_addr ≤ a →
      a < (readSuperBlock d).data_bitmap_addr + (readSuperBlock d).data_bitmap_len.toNat →
      o < 4096 →
      r.2 a o =
        (avail.foldl setBit
          (forLoop (releaseStep (readSuperBlock d)) DIRECT_PTRS 0 (dataBitmap, inode)).1)
          ((a - (readSuperBlock d).data_bitmap_addr).toNat * 4096 + o) := by
  obtain ⟨l1, l2, l3, l4, l5, l6, l7, l8, l9, l10, l11, l12, l13⟩ := hl
  have hrange : ∀ i, i < avail.length → (avail.getD i 0 : Int) < (readSuperBlock d).num_data :=
    fun i hi => hav _ (getD_mem avail i hi)
  have haddr : ∀ i, i < avail.length →
      toS32 (toU32 ((avail.getD i 0 : Int) + (readSuperBlock d).data_region_addr)) =
        (fun i => (avail.getD i 0 : Int) + (readSuperBlock d).data_region_addr) i := by
    intro i hi
    have := hrange i hi
    exact toS32_toU32 _ (by omega) (by omega)
  have hinj : ∀ i j, i < avail.length → j < avail.length →
      (fun i => (avail.getD i 0 : Int) + (readSuperBlock d).data_region_addr) i =
        (fun i => (avail.getD i 0 : Int) + (readSuperBlock d).data_region_addr) j → i = j := by
    intro i j hi hj e
    simp only at e
    exact getD_inj_of_nodup avail hnd i j hi hj (by omega)
  have L := writeLoop_spec (readSuperBlock d) buffer avail d
    (forLoop (releaseStep (readSuperBlock d)) DIRECT_PTRS 0 (dataBitmap, inode)).2
    (forLoop (releaseStep (readSuperBlock d)) DIRECT_PTRS 0 (dataBitmap, inode)).1
    junk size hs0 _ haddr hinj
  simp only at L
  simp only [writeCommit] at hr
  generalize forLoop (writeStep (readSuperBlock d) buffer avail) avail.length 0
    { disk := d
      inode := (forLoop (releaseStep (readSuperBlock d)) DIRECT_PTRS 0 (dataBitmap, inode)).2
      dataBitmap := (forLoop (releaseStep (readSuperBlock d)) DIRECT_PTRS 0 (dataBitmap, inode)).1
      blockBuffer := junk, bytesToWrite := size, bytesWritten := 0 } = st at L hr
  obtain ⟨-, -, -, -, -, -, w7⟩ := L
  intro a o ha1 ha2 ho
  rw [hr]
  simp only
  rw [writeBlock_apply, if_neg (fun h => by
    have h1 := h.1
    simp only [UFS_BLOCK_SIZE, SIZEOF_INODE, DIRECT_PTRS] at h1
    norm_num at h1
    omega)]
  unfold writeDataBitmap
  rw [writeBitmap_apply, if_pos ⟨ha1, ha2, ho⟩, w7]

theorem write_success_eq (d : Disk) (junk : Bytes) (inodeNumber : Int) (buffer : Bytes)
    (size : Int) (inode : inode_t) (hs : stat d inodeNumber = .ok inode)
    (hok : 0 ≤ (write d junk inodeNumber buffer size).1) :
    write d junk inodeNumber buffer size =
      writeCommit d junk (readSuperBlock d) inode inodeNumber buffer size
        (readDataBitmap d (readSuperBlock d))
        ((clearBits (readDataBitmap d (readSuperBlock d))
          (readSuperBlock d).num_data.toNat).take (blocksFor size).toNat) := by
  by_cases hsize : size < 0 ∨ size > MAX_FILE_SIZE
  · exfalso
    unfold write at hok
    simp only [hs] at hok
    rw [if_pos hsize] at hok
    simp [EINVALIDSIZE] at hok
  · by_cases ht : inode.type ≠ UFS_REGULAR_FILE
    · exfalso
      unfold write at hok
      simp only [hs] at hok
      rw [if_neg hsize, if_pos ht] at hok
      simp [EWRITETODIR] at hok
    · rw [write_of_ok d junk inodeNumber buffer size inode hs hsize ht] at hok ⊢
      by_cases hc : ((clearBits (readDataBitmap d (readSuperBlock d))
          (readSuperBlock d).num_data.toNat).length : Int) < blocksFor size
      · exfalso
        rw [if_pos hc] at hok
        simp [ENOTENOUGHSPACE] at hok
      · rw [if_neg hc]

theorem bitmapBit_eq (d : Disk) (addr : Int) (bm : Bytes) (b : Nat)
    (h : d (addr + ((b / 8 / 4096 : Nat) : Int)) (b / 8 % 4096) = bm (b / 8)) :
    (bitmapBit d addr b = true ↔ bitOf bm b ≠ 0) := by
  unfold bitmapBit
  simp only [UFS_BLOCK_SIZE]
  rw [h, Ne, bitOf_eq_zero_iff, Bool.not_eq_false]

theorem getD_of_mem (l : List Nat) (b : Nat) (h : b ∈ l) : ∃ k, k < l.length ∧ l.getD k 0 = b := by
  obtain ⟨k, hk, e⟩ := List.getElem_of_mem h
  refine ⟨k, hk, ?_⟩
  rw [List.getD_eq_getElem?_getD, List.getElem?_eq_getElem hk]
  exact e

theorem unlinkFind_frame (parent : inode_t) (name : List Nat) (d : Disk) (n : Nat) (a : Int)
    (ha : ∀ i, i < n → parent.direct i ≠ 0 → a ≠ toS32 (parent.direct i)) :
    (forLoop (unlinkBlockStep parent name) n 0 (-1, d)).2 a = d a := by
  have := forLoop_inv (unlinkBlockStep parent name) (fun _ st => st.2 a = d a) n 0 (-1, d) rfl
    (by
      intro k t _ hk ih
      unfold unlinkBlockStep
      by_cases h1 : t.1 ≠ -1
      · rw [if_pos h1]; exact ih
      · rw [if_neg h1]
        by_cases h2 : parent.direct k ≠ 0
        · rw [if_pos h2]
          simp only
          generalize forLoop (unlinkFindStep name k) (UFS_BLOCK_SIZE / SIZEOF_DIR_ENT) 0
            (t.1, readBlock t.2 (toS32 (parent.direct k))) = r
          by_cases h3 : r.1 ≠ -1
          · rw [if_pos h3]
            simp only
            rw [writeBlock_other _ _ _ _ (ha k (by omega) h2)]
            exact ih
          · rw [if_neg h3]; exact ih
        · rw [if_neg h2]; exact ih)
  exact this

theorem unlinkShift_frame (parent : inode_t) (d : Disk) (n start : Nat) (a : Int)
    (ha : ∀ x, start ≤ x → x < start + n → a ≠ toS32 (parent.direct (x / 128))) :
    forLoop (unlinkShiftStep parent) n start d a = d a := by
  have := forLoop_inv (unlinkShiftStep parent) (fun _ st => st a = d a) n start d rfl
    (by
      intro k t hk1 hk2 ih
      unfold unlinkShiftStep
      rw [writeBlock_other _ _ _ _
        (show a ≠ toS32 (parent.direct (k / (UFS_BLOCK_SIZE / SIZEOF_DIR_ENT))) from
          ha k hk1 hk2)]
      exact ih)
  exact this

theorem unlinkCommit_disk (d : Disk) (junk : Bytes) (p : Int) (name : List Nat)
    (parent : inode_t) (k : Int) (inode : inode_t)
    (hl : LayoutOk (readSuperBlock d))
    (hptr : ∀ i, i < 30 → parent.direct i ≠ 0 →
      (readSuperBlock d).data_region_addr ≤ toS32 (parent.direct i))
    (hcover : ∀ i : Nat, i < 30 → (i : Int) * 4096 < parent.size → parent.direct i ≠ 0)
    (hsz0 : 32 ≤ parent.size) (hsz1 : parent.size ≤ 122880)
    (hpos : (forLoop (unlinkBlockStep parent name) DIRECT_PTRS 0 (-1, d)).1 ≠ -1)
    (r : Int × Disk)
    (hr : r = unlinkCommit d junk (readSuperBlock d) p name parent k inode) :
    r.1 = 0 ∧ ∃ d1 : Disk,
      (∀ a, a < (readSuperBlock d).data_region_addr → d1 a = d a)
      ∧ ∀ a o, r.2 a o =
        if (readSuperBlock d).inode_region_addr ≤ a
            ∧ a < (readSuperBlock d).inode_region_addr
                + (readSuperBlock d).inode_region_len.toNat
            ∧ o < 4096 then
          if ((min (4096 * (a - (readSuperBlock d).inode_region_addr))
              ((readSuperBlock d).num_inodes * 128)).toNat + o : Int)
              < (readSuperBlock d).num_inodes * 128 then
            putInode (memsetZero (readInodeRegion d (readSuperBlock d)) (128 * k.toNat) 128)
                p.toNat { type := parent.type, size := parent.size - 32, direct := parent.direct }
              ((min (4096 * (a - (readSuperBlock d).inode_region_addr))
                ((readSuperBlock d).num_inodes * 128)).toNat + o)
          else junk ((min (4096 * (a - (readSuperBlock d).inode_region_addr))
                ((readSuperBlock d).num_inodes * 128)).toNat + o)
        else if (readSuperBlock d).data_bitmap_addr ≤ a
            ∧ a < (readSuperBlock d).data_bitmap_addr + (readSuperBlock d).data_bitmap_len.toNat
            ∧ o < 4096 then
          (forLoop (releaseStep (readSuperBlock d)) DIRECT_PTRS 0
              (readDataBitmap d (readSuperBlock d), inode)).1
            ((a - (readSuperBlock d).data_bitmap_addr).toNat * 4096 + o)
        else if (readSuperBlock d).inode_bitmap_addr ≤ a
            ∧ a < (readSuperBlock d).inode_bitmap_addr
                + (readSuperBlock d).inode_bitmap_len.toNat
            ∧ o < 4096 then
          (clearBitAt (readInodeBitmap d (readSuperBlock d)) k)
            ((a - (readSuperBlock d).inode_bitmap_addr).toNat * 4096 + o)
        else d1 a o := by
  obtain ⟨l1, l2, l3, l4, l5, l6, l7, l8, l9, l10, l11, l12, l13⟩ := hl
  simp only [UFS_BLOCK_SIZE, SIZEOF_INODE, DIRECT_PTRS] at l10 l11 l12
  push_cast at l10 l11 l12
  simp only [unlinkCommit] at hr
  rw [if_neg hpos] at hr
  have hbound : (toU64 parent.size / SIZEOF_DIR_ENT + 18446744073709551615)
      % 18446744073709551616 = (parent.size / 32 - 1).toNat := by
    unfold toU64
    simp only [SIZEOF_DIR_ENT, DIR_ENT_NAME_SIZE]
    omega
  rw [hbound] at hr
  have hfnd : ∀ a, a < (readSuperBlock d).data_region_addr →
      (forLoop (unlinkBlockStep parent name) DIRECT_PTRS 0 (-1, d)).2 a = d a := by
    intro a ha
    apply unlinkFind_frame
    intro i hi hne
    have := hptr i hi hne
    omega
  generalize forLoop (unlinkBlockStep parent name) DIRECT_PTRS 0 (-1, d) = fnd at hr hfnd hpos
  generalize hd1 : forLoop (unlinkShiftStep parent) _ _ fnd.2 = d1 at hr
  have h1 : ∀ a, a < (readSuperBlock d).data_region_addr → d1 a = d a := by
    intro a ha
    rw [← hd1, unlinkShift_frame, hfnd a ha]
    intro x hx1 hx2
    have hx : (x : Int) < parent.size / 32 - 1 := by omega
    have := hptr (x / 128) (by omega) (hcover (x / 128) (by omega) (by omega))
    omega
  have hin : readInodeRegion d1 (readSuperBlock d) = readInodeRegion d (readSuperBlock d) :=
    readInodeRegion_congr _ _ _ l8 (fun a _ ha2 => h1 a (by omega))
  rw [hin] at hr
  refine ⟨by rw [hr], d1, h1, ?_⟩
  simp only [SIZEOF_INODE, SIZEOF_DIR_ENT, DIR_ENT_NAME_SIZE, DIRECT_PTRS] at hr
  norm_num at hr
  intro a o
  rw [hr]
  simp only
  rw [writeInodeRegion_apply _ _ _ _ l8]
  by_cases c : (readSuperBlock d).inode_region_addr ≤ a
            ∧ a < (readSuperBlock d).inode_region_addr
                + (readSuperBlock d).inode_region_len.toNat
            ∧ o < 4096
  · rw [if_pos c, if_pos c]
  · rw [if_neg c, if_neg c]
    unfold writeDataBitmap writeInodeBitmap
    rw [writeBitmap_apply, writeBitmap_apply, writeInodeRegion_apply _ _ _ _ l8, if_neg c]

theorem unlinkFindInner_found (name : List Nat) (B J : Nat) (buf : Bytes) (hJ : J < 128)
    (hin : getS32 buf (J * SIZEOF_DIR_ENT + DIR_ENT_NAME_SIZE) ≥ 0)
    (hname : stringEq buf (J * SIZEOF_DIR_ENT) name = true) :
    (forLoop (unlinkFindStep name B) (UFS_BLOCK_SIZE / SIZEOF_DIR_ENT) 0 (-1, buf)).1 ≠ -1 := by
  have := forLoop_inv (unlinkFindStep name B)
    (fun j s => s.1 ≠ -1 ∨ (s.2 = buf ∧ j ≤ J)) (UFS_BLOCK_SIZE / SIZEOF_DIR_ENT) 0 (-1, buf)
    (Or.inr ⟨rfl, Nat.zero_le _⟩)
    (by
      intro j s _ _ ih
      unfold unlinkFindStep
      by_cases h1 : s.1 ≠ -1
      · rw [if_pos h1]; exact Or.inl h1
      · rw [if_neg h1]
        rcases ih with ih | ⟨ih1, ih2⟩
        · exact absurd ih h1
        · by_cases h2 : getS32 s.2 (j * SIZEOF_DIR_ENT + DIR_ENT_NAME_SIZE) ≥ 0
              ∧ stringEq s.2 (j * SIZEOF_DIR_ENT) name = true
          · rw [if_pos h2]
            left
            simp only
            omega
          · rw [if_neg h2]
            right
            refine ⟨ih1, ?_⟩
            by_contra hcon
            have hj : j = J := by omega
            apply h2
            rw [ih1, hj]
            exact ⟨hin, hname⟩)
  rcases this with h | ⟨-, h⟩
  · exact h
  · exfalso
    have : UFS_BLOCK_SIZE / SIZEOF_DIR_ENT = 128 := rfl
    omega

theorem unlinkFind_found (parent : inode_t) (name : List Nat) (d : Disk) (B J : Nat)
    (hB : B < DIRECT_PTRS) (hJ : J < 128) (hne : parent.direct B ≠ 0)
    (hin : getS32 (d (toS32 (parent.direct B))) (J * SIZEOF_DIR_ENT + DIR_ENT_NAME_SIZE) ≥ 0)
    (hname : stringEq (d (toS32 (parent.direct B))) (J * SIZEOF_DIR_ENT) name = true) :
    (forLoop (unlinkBlockStep parent name) DIRECT_PTRS 0 (-1, d)).1 ≠ -1 := by
  have := forLoop_inv (unlinkBlockStep parent name)
    (fun m st => st.1 ≠ -1 ∨ (st.2 = d ∧ m ≤ B)) DIRECT_PTRS 0 (-1, d)
    (Or.inr ⟨rfl, Nat.zero_le _⟩)
    (by
      intro m t _ _ ih
      unfold unlinkBlockStep
      by_cases h1 : t.1 ≠ -1
      · rw [if_pos h1]; exact Or.inl h1
      · rw [if_neg h1]
        rcases ih with ih | ⟨ih1, ih2⟩
        · exact absurd ih h1
        · have ht1 : t.1 = -1 := not_not.1 h1
          by_cases h2 : parent.direct m ≠ 0
          · rw [if_pos h2]
            simp only
            generalize hr : forLoop (unlinkFindStep name m) (UFS_BLOCK_SIZE / SIZEOF_DIR_ENT) 0
              (t.1, readBlock t.2 (toS32 (parent.direct m))) = r
            by_cases h3 : r.1 ≠ -1
            · rw [if_pos h3]
              exact Or.inl h3
            · rw [if_neg h3]
              right
              refine ⟨ih1, ?_⟩
              by_contra hcon
              have hm : m = B := by omega
              apply h3
              rw [← hr, ht1, ih1, hm]
              exact unlinkFindInner_found name B J _ hJ hin hname
          · rw [if_neg h2]
            right
            refine ⟨ih1, ?_⟩
            by_contra hcon
            have hm : m = B := by omega
            rw [hm] at h2
            exact h2 hne)
  rcases this with h | ⟨-, h⟩
  · exact h
  · exfalso
    omega

theorem unlink_eq_commit (d : Disk) (junk : Bytes) (p : Int) (name : List Nat)
    (parent inode : inode_t)
    (hlen : ¬ (name.length ≤ 0 ∨ name.length ≥ DIR_ENT_NAME_SIZE - 1))
    (hdot : ¬ (name = [46] ∨ name = [46, 46]))
    (hs : stat d p = .ok parent) (ht : ¬ parent.type ≠ UFS_DIRECTORY)
    (hf : ¬ lookup d junk p name = -ENOTFOUND)
    (hk : stat d (lookup d junk p name) = .ok inode)
    (he : ¬ (inode.type = UFS_DIRECTORY ∧ toU64 inode.size > 2 * SIZEOF_DIR_ENT)) :
    unlink d junk p name =
      unlinkCommit d junk (readSuperBlock d) p name parent (lookup d junk p name) inode := by
  unfold unlink
  rw [if_neg hlen, if_neg hdot]
  simp only [hs]
  rw [if_neg ht, if_neg hf]
  simp only [hk]
  rw [if_neg he]

theorem lookup_found (d : Disk) (junk : Bytes) (p : Int) (name : List Nat)
    (parent : inode_t) (hs : stat d p = .ok parent) (ht : ¬ parent.type ≠ UFS_DIRECTORY)
    (hn : ¬ (name.length ≤ 0 ∨ name.length ≥ DIR_ENT_NAME_SIZE))
    (h0 : 0 ≤ parent.size) (h1 : parent.size ≤ MAX_FILE_SIZE)
    (hk : 0 ≤ lookup d junk p name) :
    ∃ i, i < parent.size.toNat / SIZEOF_DIR_ENT
      ∧ entryName (fileBytes d parent) i = cstr name
      ∧ entryInum (fileBytes d parent) i = lookup d junk p name := by
  have hL := lookup_of_directory d junk p name parent hs ht hn h0 h1
  cases hfind : (List.range (parent.size.toNat / SIZEOF_DIR_ENT)).find?
      (fun i => entryName (fileBytes d parent) i = cstr name) with
  | none =>
    exfalso
    rw [hfind] at hL
    simp only at hL
    rw [hL] at hk
    simp [ENOTFOUND] at hk
  | some i =>
    rw [hfind] at hL
    have hq := List.find?_some hfind
    have hi := List.mem_range.1 (List.mem_of_find?_eq_some hfind)
    rw [decide_eq_true_eq] at hq
    exact ⟨i, hi, hq, hL.symm⟩

theorem releasedBy_iff (d : Disk) (inode : inode_t) (b : Nat) (hl : LayoutOk (readSuperBlock d))
    (i2 : ∀ k, k < 30 → inode.direct k ≠ 0 →
      (readSuperBlock d).data_region_addr ≤ inode.direct k
        ∧ (inode.direct k : Int) <
          (readSuperBlock d).data_region_addr + (readSuperBlock d).num_data) :
    releasedBy (readSuperBlock d) inode DIRECT_PTRS b ↔
      ∃ k, k < 30 ∧ (inode.direct k : Int) = (b : Int) + (readSuperBlock d).data_region_addr := by
  obtain ⟨l1, l2, l3, l4, l5, l6, l7, l8, l9, l10, l11, l12, l13⟩ := hl
  constructor
  · rintro ⟨k, hk, r1, r2, r3⟩
    have := i2 k hk r1
    rw [toS32_toU32 _ (by omega) (by omega)] at r3
    exact ⟨k, hk, by omega⟩
  · rintro ⟨k, hk, r1⟩
    have hne : inode.direct k ≠ 0 := by
      intro h0
      rw [h0] at r1
      omega
    have := i2 k hk hne
    refine ⟨k, hk, hne, ?_, ?_⟩
    · rw [toS32_toU32 _ (by omega) (by omega)]; omega
    · rw [toS32_toU32 _ (by omega) (by omega)]; omega

theorem inodeBytes_zero (r : Nat) :
    inodeBytes { type := 0, size := 0, direct := fun _ => 0 } r = 0 := by
  unfold inodeBytes byteAt toU32
  simp

theorem unlinkCommit_post (d : Disk) (junk : Bytes) (p : Int) (name : List Nat)
    (parent : inode_t) (k : Int) (inode : inode_t) (hc : Consistent d)
    (hs : stat d p = .ok parent) (hk : stat d k = .ok inode)
    (hsz0 : 32 ≤ parent.size)
    (hpos : (forLoop (unlinkBlockStep parent name) DIRECT_PTRS 0 (-1, d)).1 ≠ -1)
    (r : Int × Disk)
    (hr : r = unlinkCommit d junk (readSuperBlock d) p name parent k inode) :
    r.1 = 0
      ∧ readSuperBlock r.2 = readSuperBlock d
      ∧ (∀ x : Nat, (x : Int) < (readSuperBlock d).num_inodes →
          (inodeBit r.2 x = true ↔ (x ≠ k.toNat ∧ inodeBit d x = true)))
      ∧ (∀ b : Nat, (b : Int) < (readSuperBlock d).num_data →
          (dataBit r.2 b = true ↔
            (dataBit d b = true
              ∧ ∀ j, j < 30 →
                (inode.direct j : Int) ≠ (b : Int) + (readSuperBlock d).data_region_addr)))
      ∧ stat r.2 k = .error (-EINVALIDINODE)
      ∧ (k ≠ p → inodeSlot r.2 k.toNat = { type := 0, size := 0, direct := fun _ => 0 })
      ∧ (k ≠ p → stat r.2 p =
          .ok { type := parent.type, size := parent.size - 32, direct := parent.direct }) := by
  obtain ⟨i0, i1, i2, i3, i4, i5⟩ := inodeOk_of_stat d p parent hc hs
  obtain ⟨j0, j1, j2, -⟩ := inodeOk_of_stat d k inode hc hk
  simp only [MAX_FILE_SIZE, DIRECT_PTRS, UFS_BLOCK_SIZE] at i1 i2 i3 j2
  push_cast at i1 i3
  obtain ⟨hp0, hp1, hpbit, hpar⟩ := (stat_eq_ok_iff d p parent).1 hs
  obtain ⟨hk0, hk1, hkbit, -⟩ := (stat_eq_ok_iff d k inode).1 hk
  obtain ⟨pp1, pp2, pp3, pp4⟩ := inodeAt_props (readInodeRegion d (readSuperBlock d)) p.toNat
  rw [← hpar] at pp1 pp2 pp3 pp4
  have hl := hc.1
  obtain ⟨l1, l2, l3, l4, l5, l6, l7, l8, l9, l10, l11, l12, l13⟩ := hc.1
  simp only [UFS_BLOCK_SIZE, SIZEOF_INODE, DIRECT_PTRS] at l10 l11 l12
  push_cast at l10 l11 l12
  obtain ⟨c1, d1, hd1, hdisk⟩ := unlinkCommit_disk d junk p name parent k inode hl
    (fun i hi hne => by
      have := i2 i hi hne
      unfold toS32
      rw [if_pos (by omega)]
      omega)
    (fun i hi hlt => i3 i hi hlt) hsz0 i1 hpos r hr
  have hlow : ∀ a, a < (readSuperBlock d).inode_bitmap_addr → r.2 a = d a := by
    intro a ha
    funext o
    rw [hdisk, if_neg (by omega), if_neg (by omega), if_neg (by omega), hd1 a (by omega)]
  have hsup := readSuperBlock_congr d _ (hlow 0 (by omega))
  have hlD : LayoutOk (readSuperBlock r.2) := by rw [hsup]; exact hl
  have hibit : ∀ x : Nat, (x : Int) < (readSuperBlock d).num_inodes →
      (inodeBit r.2 x = true ↔ (x ≠ k.toNat ∧ inodeBit d x = true)) := by
    intro x hx
    have h1 : inodeBit r.2 x = true ↔
        bitOf (clearBit (readInodeBitmap d (readSuperBlock d)) k.toNat) x ≠ 0 := by
      unfold inodeBit
      rw [hsup]
      apply bitmapBit_eq
      rw [hdisk, if_neg (by omega), if_neg (by omega),
        if_pos ⟨by omega, by omega, Nat.mod_lt _ (by omega)⟩]
      unfold clearBitAt
      rw [if_pos hk0]
      refine congrArg _ ?_
      omega
    rw [h1, bitOf_clearBit, inodeBit_iff d x hl hx]
    by_cases hxk : x = k.toNat
    · rw [if_pos hxk]
      exact ⟨fun h => absurd rfl h, fun h => absurd hxk h.1⟩
    · rw [if_neg hxk]
      exact ⟨fun h => ⟨hxk, h⟩, fun h => h.2⟩
  have hslot : ∀ (x r0 : Nat), (x : Int) < (readSuperBlock d).num_inodes → r0 < 128 →
      readInodeRegion r.2 (readSuperBlock d) (128 * x + r0) =
        putInode (memsetZero (readInodeRegion d (readSuperBlock d)) (128 * k.toNat) 128)
          p.toNat { type := parent.type, size := parent.size - 32, direct := parent.direct }
          (128 * x + r0) := by
    intro x r0 hx hr0
    rw [readInodeRegion_apply _ _ l8, if_pos (by omega), hdisk, if_pos (by omega),
      if_pos (by omega)]
    refine congrArg _ ?_
    omega
  refine ⟨c1, hsup, hibit, ?_, ?_, ?_, ?_⟩
  · intro b hb
    have h1 : dataBit r.2 b = true ↔
        bitOf (forLoop (releaseStep (readSuperBlock d)) DIRECT_PTRS 0
          (readDataBitmap d (readSuperBlock d), inode)).1 b ≠ 0 := by
      unfold dataBit
      rw [hsup]
      apply bitmapBit_eq
      rw [hdisk, if_neg (by omega),
        if_pos ⟨by omega, by omega, Nat.mod_lt _ (by omega)⟩]
      refine congrArg _ ?_
      omega
    rw [h1, Ne, release_bitmap, not_or, releasedBy_iff d inode b hl
      (fun i hi hne => ⟨(j2 i hi hne).1, (j2 i hi hne).2.1⟩), ← Ne, ← dataBit_iff d b hl hb]
    constructor
    · rintro ⟨h2, h3⟩
      exact ⟨h3, fun j hj e => h2 ⟨j, hj, e⟩⟩
    · rintro ⟨h2, h3⟩
      exact ⟨fun ⟨j, hj, e⟩ => h3 j hj e, h2⟩
  · rw [stat_eq_error_iff]
    refine ⟨rfl, Or.inr (Or.inr ?_)⟩
    by_contra hcon
    have := (inodeBit_iff r.2 k.toNat hlD (by rw [hsup]; omega)).2 hcon
    exact ((hibit k.toNat (by omega)).1 this).1 rfl
  · intro hkp
    rw [← readInodeRegion_layout r.2 k.toNat hlD (by rw [hsup]; omega), hsup]
    apply inodeAt_of_bytes
    · intro r0 hr0
      rw [hslot _ _ (by omega) hr0, inodeBytes_zero]
      unfold putInode memcpy memsetZero
      simp only [SIZEOF_INODE, DIRECT_PTRS]
      rw [if_neg (by omega), if_pos (by omega)]
    · decide
    · decide
    · intro _ _
      show (0 : Nat) < 4294967296
      omega
    · intro _ _; rfl
  · intro hkp
    rw [stat_eq_ok_iff, hsup]
    refine ⟨hp0, hp1, ?_, ?_⟩
    · have hb : inodeBit d p.toNat = true := (inodeBit_iff d p.toNat hl (by omega)).2 hpbit
      have := (hibit p.toNat (by omega)).2 ⟨by omega, hb⟩
      have h2 := (inodeBit_iff r.2 p.toNat hlD (by rw [hsup]; omega)).1 this
      rw [hsup] at h2
      exact h2
    · symm
      apply inodeAt_of_bytes
      · intro r0 hr0
        rw [hslot _ _ (by omega) hr0]
        unfold putInode memcpy
        simp only [SIZEOF_INODE, DIRECT_PTRS]
        rw [if_pos (by omega)]
        refine congrArg _ ?_
        omega
      · exact pp1
      · simp only; omega
      · intro i _; exact pp3 i
      · intro i hi; exact pp4 i hi

theorem unlinkCommit_fst (d : Disk) (junk : Bytes) (s : super_t) (p : Int) (name : List Nat)
    (parent : inode_t) (k : Int) (inode : inode_t) :
    ((unlinkCommit d junk s p name parent k inode).1 = 0
        ∧ (forLoop (unlinkBlockStep parent name) DIRECT_PTRS 0 (-1, d)).1 ≠ -1)
      ∨ ((unlinkCommit d junk s p name parent k inode).1 = -ENOTFOUND
        ∧ (forLoop (unlinkBlockStep parent name) DIRECT_PTRS 0 (-1, d)).1 = -1) := by
  unfold unlinkCommit
  simp only
  by_cases h : (forLoop (unlinkBlockStep parent name) DIRECT_PTRS 0 (-1, d)).1 = -1
  · rw [if_pos h]
    exact Or.inr ⟨rfl, h⟩
  · rw [if_neg h]
    exact Or.inl ⟨rfl, h⟩

theorem unlink_scan_finds (d : Disk) (name : List Nat) (parent : inode_t) (i : Nat)
    (hnul : ∀ c ∈ name, c ≠ 0) (hlen : name.length < 28)
    (hi : (i : Int) * 32 + 32 ≤ parent.size) (hsz : parent.size ≤ 122880)
    (hcover : ∀ j : Nat, j < 30 → (j : Int) * 4096 < parent.size → parent.direct j ≠ 0)
    (hname : entryName (fileBytes d parent) i = name)
    (hinum : 0 ≤ entryInum (fileBytes d parent) i) :
    (forLoop (unlinkBlockStep parent name) DIRECT_PTRS 0 (-1, d)).1 ≠ -1 := by
  have hbytes : ∀ r, r < 32 →
      d (toS32 (parent.direct (i / 128))) (i % 128 * 32 + r) = fileBytes d parent (i * 32 + r) := by
    intro r hr
    unfold fileBytes
    simp only [UFS_BLOCK_SIZE]
    rw [show (i * 32 + r) / 4096 = i / 128 by omega,
      show (i * 32 + r) % 4096 = i % 128 * 32 + r by omega]
  apply unlinkFind_found parent name d (i / 128) (i % 128) (by simp only [DIRECT_PTRS]; omega)
    (Nat.mod_lt _ (by omega)) (hcover _ (by omega) (by omega))
  · have : getS32 (d (toS32 (parent.direct (i / 128)))) (i % 128 * SIZEOF_DIR_ENT
        + DIR_ENT_NAME_SIZE) = entryInum (fileBytes d parent) i := by
      unfold entryInum getS32
      simp only [SIZEOF_DIR_ENT, DIR_ENT_NAME_SIZE]
      refine congrArg _ (getU32_shift _ _ _ _ (fun r hr => ?_))
      rw [Nat.add_assoc, Nat.add_assoc, hbytes (28 + r) (by omega)]
    rw [this]
    exact hinum
  · unfold stringEq
    rw [Bool.and_eq_true]
    refine ⟨?_, ?_⟩
    · rw [List.all_eq_true]
      intro c hc
      simpa using hnul c hc
    · rw [strcmpEq_iff_cstrAt _ name hnul _ 28 hlen, ← hname]
      unfold entryName
      simp only [SIZEOF_DIR_ENT, DIR_ENT_NAME_SIZE]
      exact cstrAt_shift _ _ _ _ _ (fun r hr => hbytes r (by omega))

theorem toU64_of_nonneg (z : Int) (h0 : 0 ≤ z) (h1 : z ≤ 122880) : toU64 z = z.toNat := by
  unfold toU64
  omega

theorem unlinkFind_nulfree (parent : inode_t) (name : List Nat) (d : Disk) (n : Nat) :
    (forLoop (unlinkBlockStep parent name) n 0 (-1, d)).1 ≠ -1 →
      ∀ c ∈ name, c ≠ 0 := by
  have := forLoop_inv (unlinkBlockStep parent name)
    (fun _ st => st.1 ≠ -1 → ∀ c ∈ name, c ≠ 0) n 0 (-1, d)
    (fun h => absurd rfl h)
    (by
      intro k t _ _ ih
      unfold unlinkBlockStep
      by_cases h1 : t.1 ≠ -1
      · rw [if_pos h1]; exact ih
      · rw [if_neg h1]
        by_cases h2 : parent.direct k ≠ 0
        · rw [if_pos h2]
          simp only
          have hin := forLoop_inv (unlinkFindStep name k)
            (fun _ s => s.1 ≠ -1 → ∀ c ∈ name, c ≠ 0) (UFS_BLOCK_SIZE / SIZEOF_DIR_ENT) 0
            (t.1, readBlock t.2 (toS32 (parent.direct k)))
            (fun h => absurd h h1)
            (by
              intro j s _ _ ihs
              unfold unlinkFindStep
              by_cases g1 : s.1 ≠ -1
              · rw [if_pos g1]; exact ihs
              · rw [if_neg g1]
                by_cases g2 : getS32 s.2 (j * SIZEOF_DIR_ENT + DIR_ENT_NAME_SIZE) ≥ 0
                    ∧ stringEq s.2 (j * SIZEOF_DIR_ENT) name = true
                · rw [if_pos g2]
                  intro _ c hc
                  have h := g2.2
                  unfold stringEq at h
                  rw [Bool.and_eq_true, List.all_eq_true] at h
                  simpa using h.1 c hc
                · rw [if_neg g2]; exact ihs)
          generalize forLoop (unlinkFindStep name k) (UFS_BLOCK_SIZE / SIZEOF_DIR_ENT) 0
            (t.1, readBlock t.2 (toS32 (parent.direct k))) = r at hin
          by_cases h3 : r.1 ≠ -1
          · rw [if_pos h3]; exact fun _ => hin h3
          · rw [if_neg h3]; exact fun h => absurd h h3
        · rw [if_neg h2]; exact ih)
  exact this

theorem unlink_zero_inv (d : Disk) (junk : Bytes) (p : Int) (name : List Nat)
    (hf : lookup d junk p name ≠ -ENOTFOUND) (hok : (unlink d junk p name).1 = 0) :
    ∃ parent inode, stat d p = .ok parent ∧ ¬ parent.type ≠ UFS_DIRECTORY
      ∧ ¬ (name.length ≤ 0 ∨ name.length ≥ DIR_ENT_NAME_SIZE - 1)
      ∧ ¬ (name = [46] ∨ name = [46, 46])
      ∧ stat d (lookup d junk p name) = .ok inode
      ∧ ¬ (inode.type = UFS_DIRECTORY ∧ toU64 inode.size > 2 * SIZEOF_DIR_ENT)
      ∧ unlink d junk p name =
          unlinkCommit d junk (readSuperBlock d) p name parent (lookup d junk p name) inode
      ∧ (forLoop (unlinkBlockStep parent name) DIRECT_PTRS 0 (-1, d)).1 ≠ -1 := by
  by_cases h1 : name.length ≤ 0 ∨ name.length ≥ DIR_ENT_NAME_SIZE - 1
  · exfalso
    unfold unlink at hok
    rw [if_pos h1] at hok
    simp [EINVALIDNAME] at hok
  · by_cases h2 : name = [46] ∨ name = [46, 46]
    · exfalso
      unfold unlink at hok
      rw [if_neg h1, if_pos h2] at hok
      simp [EUNLINKNOTALLOWED] at hok
    · cases hs : stat d p with
      | error e =>
        exfalso
        unfold unlink at hok
        rw [if_neg h1, if_neg h2] at hok
        simp only [hs] at hok
        simp [EINVALIDINODE] at hok
      | ok parent =>
        by_cases h3 : parent.type ≠ UFS_DIRECTORY
        · exfalso
          unfold unlink at hok
          rw [if_neg h1, if_neg h2] at hok
          simp only [hs] at hok
          rw [if_pos h3] at hok
          simp [EINVALIDTYPE] at hok
        · cases hk : stat d (lookup d junk p name) with
          | error e =>
            exfalso
            unfold unlink at hok
            rw [if_neg h1, if_neg h2] at hok
            simp only [hs] at hok
            rw [if_neg h3, if_neg hf] at hok
            simp only [hk] at hok
            simp [EINVALIDINODE] at hok
          | ok inode =>
            by_cases h5 : inode.type = UFS_DIRECTORY ∧ toU64 inode.size > 2 * SIZEOF_DIR_ENT
            · exfalso
              unfold unlink at hok
              rw [if_neg h1, if_neg h2] at hok
              simp only [hs] at hok
              rw [if_neg h3, if_neg hf] at hok
              simp only [hk] at hok
              rw [if_pos h5] at hok
              simp [EDIRNOTEMPTY] at hok
            · have e := unlink_eq_commit d junk p name parent inode h1 h2 hs h3 hf hk h5
              refine ⟨parent, inode, rfl, h3, h1, h2, rfl, h5, e, ?_⟩
              rw [e] at hok
              rcases unlinkCommit_fst d junk (readSuperBlock d) p name parent
                (lookup d junk p name) inode with h | h
              · exact h.2
              · rw [h.1] at hok
                simp [ENOTFOUND] at hok

set_option maxRecDepth 100000 in
theorem fullImage_self_entries (parent : inode_t) (hs : stat fullImage 0 = .ok parent) :
    2 * SIZEOF_DIR_ENT ≤ parent.size ∧ entryName (fileBytes fullImage parent) 0 = [46]
      ∧ entryName (fileBytes fullImage parent) 1 = [46, 46] := by
  have hr := fullImage_root
  rw [hs] at hr
  injection hr with hr
  subst hr
  decide

theorem stat_iff_slot (d : Disk) (hl : LayoutOk (readSuperBlock d)) (x : Int) (ino : inode_t) :
    stat d x = .ok ino ↔
      (0 ≤ x ∧ x < (readSuperBlock d).num_inodes ∧ inodeBit d x.toNat = true
        ∧ ino = inodeSlot d x.toNat) := by
  rw [stat_eq_ok_iff]
  constructor
  · rintro ⟨h0, h1, h2, h3⟩
    refine ⟨h0, h1, (inodeBit_iff d x.toNat hl (by omega)).2 h2, ?_⟩
    rw [h3, readInodeRegion_layout d x.toNat hl (by omega)]
  · rintro ⟨h0, h1, h2, h3⟩
    refine ⟨h0, h1, (inodeBit_iff d x.toNat hl (by omega)).1 h2, ?_⟩
    rw [h3, readInodeRegion_layout d x.toNat hl (by omega)]

theorem slot_of_region (D : Disk) (M : Bytes) (x : Nat)
    (h : ∀ r, r < 128 →
      D ((readSuperBlock D).inode_region_addr + ((x / 32 : Nat) : Int)) (128 * (x % 32) + r)
        = M (128 * x + r)) :
    inodeSlot D x = inodeAt M x := by
  unfold inodeSlot
  apply inodeAt_congr
  intro r hr
  exact h r hr

theorem bit_of_region (D : Disk) (addr : Int) (BM : Bytes) (b : Nat)
    (h : D (addr + ((b / 8 / 4096 : Nat) : Int)) (b / 8 % 4096) = BM (b / 8)) :
    bitmapBit D addr b = true ↔ bitOf BM b ≠ 0 := bitmapBit_eq D addr BM b h

theorem inodeAt_putInode_other (m : Bytes) (i x : Nat) (ino : inode_t) (h : x ≠ i) :
    inodeAt (putInode m i ino) x = inodeAt m x := by
  apply inodeAt_congr
  intro r hr
  unfold putInode memcpy
  simp only [SIZEOF_INODE, DIRECT_PTRS]
  rw [if_neg (by omega)]

theorem inodeAt_memsetZero_other (m : Bytes) (i x : Nat) (h : x ≠ i) :
    inodeAt (memsetZero m (128 * i) 128) x = inodeAt m x := by
  apply inodeAt_congr
  intro r hr
  unfold memsetZero
  rw [if_neg (by omega)]

theorem consistent_step (d D : Disk) (ch : Nat → Prop) (hc : Consistent d)
    (hsup : readSuperBlock D = readSuperBlock d)
    (hslot : ∀ x, x < (readSuperBlock d).num_inodes.toNat → inodeBit D x = true → ¬ ch x →
      inodeBit d x = true ∧ inodeSlot D x = inodeSlot d x)
    (hbits : ∀ x, x < (readSuperBlock d).num_inodes.toNat → inodeBit D x = true → ¬ ch x →
      ∀ k, k < DIRECT_PTRS → (inodeSlot d x).direct k ≠ 0 →
        dataBit D (((inodeSlot d x).direct k : Int) - (readSuperBlock d).data_region_addr).toNat
          = true)
    (hnew : ∀ x, x < (readSuperBlock d).num_inodes.toNat → inodeBit D x = true → ch x →
      InodeOk D (inodeSlot D x))
    (hsh : ∀ x, x < (readSuperBlock d).num_inodes.toNat → inodeBit D x = true → ch x →
      ∀ y, y < (readSuperBlock d).num_inodes.toNat → inodeBit D y = true → x ≠ y →
        SharesNoBlock (inodeSlot D x) (inodeSlot D y)
          ∧ SharesNoBlock (inodeSlot D y) (inodeSlot D x)) :
    Consistent D := by
  obtain ⟨hl, hI, hS⟩ := hc
  refine ⟨by rw [hsup]; exact hl, ?_, ?_⟩
  · intro x hx hb
    rw [hsup] at hx
    by_cases hcx : ch x
    · exact hnew x hx hb hcx
    · obtain ⟨hb0, hs0⟩ := hslot x hx hb hcx
      have hok := hI x hx hb0
      rw [hs0]
      obtain ⟨o1, o2, o3, o4, o5, o6⟩ := hok
      refine ⟨o1, o2, ?_, o4, o5, o6⟩
      intro k hk hne
      obtain ⟨p1, p2, -⟩ := o3 k hk hne
      rw [hsup]
      exact ⟨p1, p2, hbits x hx hb hcx k hk hne⟩
  · intro x hx hbx y hy hby hxy
    rw [hsup] at hx hy
    by_cases hcx : ch x
    · exact (hsh x hx hbx hcx y hy hby hxy).1
    · by_cases hcy : ch y
      · exact (hsh y hy hby hcy x hx hbx (Ne.symm hxy)).2
      · obtain ⟨hb0, hs0⟩ := hslot x hx hbx hcx
        obtain ⟨hb1, hs1⟩ := hslot y hy hby hcy
        rw [hs0, hs1]
        exact hS x hx hb0 y hy hb1 hxy

theorem toU32_cast (z : Int) (h0 : 0 ≤ z) (h1 : z < 4294967296) : ((toU32 z : Nat) : Int) = z := by
  unfold toU32
  rw [Int.emod_eq_of_lt h0 h1]
  omega

theorem createFresh_frame_scan (d : Disk) (junk : Bytes) (p type : Int) (name : List Nat)
    (parent : inode_t) (hc : Consistent d) (hs : stat d p = .ok parent)
    (htd : parent.type = UFS_DIRECTORY)
    (hty : -2147483648 ≤ type ∧ type < 2147483648)
    (hok : 0 ≤ (createFresh d junk (readSuperBlock d) p type name parent).1) :
    ∃ (k : Int) (avail : List Nat) (D : Disk),
      createFresh d junk (readSuperBlock d) p type name parent = (k, D)
      ∧ (0 ≤ k ∧ k < (readSuperBlock d).num_inodes ∧ inodeBit d k.toNat = false ∧ k ≠ p)
      ∧ (avail.length =
            (if type = UFS_DIRECTORY then 1 else 0) + (if parent.size % 4096 = 0 then 1 else 0)
          ∧ (∀ a ∈ avail, (a : Int) < (readSuperBlock d).num_data ∧ dataBit d a = false)
          ∧ avail.Nodup)
      ∧ (0 ≤ parent.size ∧ parent.size % 32 = 0 ∧ parent.size + 32 ≤ 122880)
      ∧ readSuperBlock D = readSuperBlock d
      ∧ inodeSlot D p.toNat =
          { type := parent.type, size := parent.size + 32,
            direct := fun i =>
              if parent.size % 4096 = 0 ∧ i = (parent.size / 4096).toNat then
                toU32 ((avail.getD 0 0 : Int) + (readSuperBlock d).data_region_addr)
              else parent.direct i }
      ∧ inodeSlot D k.toNat = createInode (readSuperBlock d) type avail
      ∧ (∀ x : Nat, (x : Int) < (readSuperBlock d).num_inodes →
          (inodeBit D x = true ↔ x = k.toNat ∨ inodeBit d x = true))
      ∧ (∀ b : Nat, (b : Int) < (readSuperBlock d).num_data →
          (dataBit D b = true ↔ b ∈ avail ∨ dataBit d b = true))
      ∧ (∀ x : Nat, (x : Int) < (readSuperBlock d).num_inodes → x ≠ p.toNat → x ≠ k.toNat →
          inodeSlot D x = inodeSlot d x)
      ∧ avail = List.take
          ((if type = UFS_DIRECTORY then 1 else 0) + (if parent.size % 4096 = 0 then 1 else 0))
          (clearBits (readDataBitmap d (readSuperBlock d)) (readSuperBlock d).num_data.toNat)
      ∧ k = forLoop (inodeScanStep (readInodeBitmap d (readSuperBlock d)))
          (readSuperBlock d).num_inodes.toNat 0 (-1) := by
  have hl := hc.1
  obtain ⟨k, avail, P1, I, PB, D, d1, f1, fP1, fI, fPB, ⟨hk0, hk1, hkbit, hkp⟩, hav, hsz,
    ⟨hP1t, hP1s, hP1d⟩, -, -, hsup, hsp, hsk, -, -, -, -, hdisk, havq, hkq⟩ :=
    createFresh_detail_scan d junk p type name parent hc hs htd hty hok
  have hlD : LayoutOk (readSuperBlock D) := by rw [hsup]; exact hl
  obtain ⟨l1, l2, l3, l4, l5, l6, l7, l8, l9, l10, l11, l12, l13⟩ := hl
  simp only [UFS_BLOCK_SIZE, SIZEOF_INODE, DIRECT_PTRS] at l10 l11 l12
  push_cast at l10 l11 l12
  have hp := (stat_iff_slot D hlD p _).1 hsp
  have hkk := (stat_iff_slot D hlD k _).1 hsk
  refine ⟨k, avail, D, f1, ⟨hk0, hk1, ?_, hkp⟩, hav, hsz, hsup, ?_, ?_, ?_, ?_, ?_, havq, hkq⟩
  · cases hb : inodeBit d k.toNat with
    | false => rfl
    | true => exact absurd hkbit ((inodeBit_iff d k.toNat hc.1 (by omega)).1 hb)
  · rw [← hp.2.2.2]
    apply inode_t.ext
    · exact hP1t
    · simp only; rw [hP1s]
    · funext i; exact hP1d i
  · rw [← hkk.2.2.2, fI]
  · intro x hx
    unfold inodeBit
    rw [hsup]
    have e : D ((readSuperBlock d).inode_bitmap_addr + ((x / 8 / 4096 : Nat) : Int))
        (x / 8 % 4096) = setBit (readInodeBitmap d (readSuperBlock d)) k.toNat (x / 8) := by
      rw [hdisk, if_neg (by omega), if_neg (by omega), if_pos (by omega)]
      refine congrArg _ ?_
      omega
    rw [bit_of_region D _ _ x e, bitOf_setBit]
    have h2 := inodeBit_iff d x hc.1 hx
    unfold inodeBit at h2
    rw [h2]
    by_cases hxk : x = k.toNat
    · rw [if_pos hxk]; simp [hxk]
    · rw [if_neg hxk]; simp [hxk]
  · intro b hb
    unfold dataBit
    rw [hsup]
    have e : D ((readSuperBlock d).data_bitmap_addr + ((b / 8 / 4096 : Nat) : Int))
        (b / 8 % 4096) = (List.foldl setBit (readDataBitmap d (readSuperBlock d)) avail) (b / 8) := by
      rw [hdisk, if_neg (by omega), if_pos (by omega)]
      refine congrArg _ ?_
      omega
    rw [bit_of_region D _ _ b e, bitOf_foldl_setBit]
    have h2 := dataBit_iff d b hc.1 hb
    unfold dataBit at h2
    rw [h2]
    by_cases hbm : b ∈ avail
    · rw [if_pos hbm]; simp [hbm]
    · rw [if_neg hbm]; simp [hbm]
  · intro x hx hxp hxk
    rw [slot_of_region D (putInode (putInode (readInodeRegion d (readSuperBlock d)) p.toNat
        { type := P1.type, size := P1.size + 32, direct := P1.direct }) k.toNat I) x,
      inodeAt_putInode_other _ _ _ _ hxk, inodeAt_putInode_other _ _ _ _ hxp,
      readInodeRegion_layout d x hc.1 hx]
    intro r hr
    rw [hsup, hdisk, if_pos (by omega), if_pos (by omega)]
    refine congrArg _ ?_
    omega

theorem createFresh_frame (d : Disk) (junk : Bytes) (p type : Int) (name : List Nat)
    (parent : inode_t) (hc : Consistent d) (hs : stat d p = .ok parent)
    (htd : parent.type = UFS_DIRECTORY)
    (hty : -2147483648 ≤ type ∧ type < 2147483648)
    (hok : 0 ≤ (createFresh d junk (readSuperBlock d) p type name parent).1) :
    ∃ (k : Int) (avail : List Nat) (D : Disk),
      createFresh d junk (readSuperBlock d) p type name parent = (k, D)
      ∧ (0 ≤ k ∧ k < (readSuperBlock d).num_inodes ∧ inodeBit d k.toNat = false ∧ k ≠ p)
      ∧ (avail.length =
            (if type = UFS_DIRECTORY then 1 else 0) + (if parent.size % 4096 = 0 then 1 else 0)
          ∧ (∀ a ∈ avail, (a : Int) < (readSuperBlock d).num_data ∧ dataBit d a = false)
          ∧ avail.Nodup)
      ∧ (0 ≤ parent.size ∧ parent.size % 32 = 0 ∧ parent.size + 32 ≤ 122880)
      ∧ readSuperBlock D = readSuperBlock d
      ∧ inodeSlot D p.toNat =
          { type := parent.type, size := parent.size + 32,
            direct := fun i =>
              if parent.size % 4096 = 0 ∧ i = (parent.size / 4096).toNat then
                toU32 ((avail.getD 0 0 : Int) + (readSuperBlock d).data_region_addr)
              else parent.direct i }
      ∧ inodeSlot D k.toNat = createInode (readSuperBlock d) type avail
      ∧ (∀ x : Nat, (x : Int) < (readSuperBlock d).num_inodes →
          (inodeBit D x = true ↔ x = k.toNat ∨ inodeBit d x = true))
      ∧ (∀ b : Nat, (b : Int) < (readSuperBlock d).num_data →
          (dataBit D b = true ↔ b ∈ avail ∨ dataBit d b = true))
      ∧ (∀ x : Nat, (x : Int) < (readSuperBlock d).num_inodes → x ≠ p.toNat → x ≠ k.toNat →
          inodeSlot D x = inodeSlot d x) := by
  obtain ⟨k, avail, D, h1, h2, h3, h4, h5, h6, h7, h8, h9, h10, -, -⟩ :=
    createFresh_frame_scan d junk p type name parent hc hs htd hty hok
  exact ⟨k, avail, D, h1, h2, h3, h4, h5, h6, h7, h8, h9, h10⟩

theorem ptr_ne_fresh (d : Disk) (u b : Nat) (hl : LayoutOk (readSuperBlock d))
    (hb : (b : Int) < (readSuperBlock d).num_data)
    (hset : dataBit d ((u : Int) - (readSuperBlock d).data_region_addr).toNat = true)
    (hclr : dataBit d b = false) :
    u ≠ toU32 ((b : Int) + (readSuperBlock d).data_region_addr) := by
  obtain ⟨l1, l2, l3, l4, l5, l6, l7, l8, l9, l10, l11, l12, l13⟩ := hl
  intro e
  have e2 : ((u : Nat) : Int) = (b : Int) + (readSuperBlock d).data_region_addr := by
    rw [e, toU32_cast _ (by omega) (by omega)]
  have e3 : ((u : Int) - (readSuperBlock d).data_region_addr).toNat = b := by omega
  rw [e3, hclr] at hset
  exact Bool.noConfusion hset

theorem fresh_ptr (d : Disk) (b : Nat) (hl : LayoutOk (readSuperBlock d))
    (hb : (b : Int) < (readSuperBlock d).num_data) :
    ((toU32 ((b : Int) + (readSuperBlock d).data_region_addr) : Nat) : Int)
        = (b : Int) + (readSuperBlock d).data_region_addr
      ∧ toU32 ((b : Int) + (readSuperBlock d).data_region_addr) ≠ 0 := by
  obtain ⟨l1, l2, l3, l4, l5, l6, l7, l8, l9, l10, l11, l12, l13⟩ := hl
  have e := toU32_cast ((b : Int) + (readSuperBlock d).data_region_addr) (by omega) (by omega)
  refine ⟨e, ?_⟩
  intro h0
  rw [h0] at e
  omega

theorem createInode_direct (s : super_t) (type : Int) (avail : List Nat) (i : Nat) :
    (createInode s type avail).direct i =
      if type = UFS_DIRECTORY ∧ i = 0 then
        toU32 ((avail.getD (avail.length - 1) 0 : Int) + s.data_region_addr)
      else 0 := by
  unfold createInode
  by_cases ht : type = UFS_DIRECTORY
  · simp only [if_pos ht, getLastD_eq_getD]
    by_cases hi : i = 0
    · rw [if_pos ⟨ht, hi⟩, hi, Function.update_same]
    · rw [if_neg (fun h => hi h.2), Function.update_noteq hi]
  · simp only [if_neg ht]
    rw [if_neg (fun h => ht h.1)]

theorem createFresh_consistent (d : Disk) (junk : Bytes) (p type : Int) (name : List Nat)
    (parent : inode_t) (hc : Consistent d) (hs : stat d p = .ok parent)
    (htd : parent.type = UFS_DIRECTORY)
    (hty : -2147483648 ≤ type ∧ type < 2147483648)
    (hok : 0 ≤ (createFresh d junk (readSuperBlock d) p type name parent).1) :
    Consistent (createFresh d junk (readSuperBlock d) p type name parent).2 := by
  obtain ⟨k, avail, D, f1, ⟨hk0, hk1, hkbit, hkp⟩, ⟨hlen, hav, hnd⟩, ⟨hs0, hs32, hs1⟩, hsup,
    hP, hK, hib, hdb, hsl⟩ := createFresh_frame d junk p type name parent hc hs htd hty hok
  rw [f1]
  show Consistent D
  have hl := hc.1
  obtain ⟨i0, i1, i2, i3, i4, i5⟩ := inodeOk_of_stat d p parent hc hs
  obtain ⟨hp0, hp1, hpbit, hpslot⟩ := (stat_iff_slot d hl p parent).1 hs
  have hl2 := hl
  obtain ⟨l1, l2, l3, l4, l5, l6, l7, l8, l9, l10, l11, l12, l13⟩ := hl2
  have havr : ∀ j, j < avail.length →
      (avail.getD j 0 : Int) < (readSuperBlock d).num_data
        ∧ dataBit d (avail.getD j 0) = false := fun j hj => hav _ (getD_mem avail j hj)
  have hId := createInode_direct (readSuperBlock d) type avail
  have hpk : p.toNat ≠ k.toNat := by omega
  -- the pointers of an inode that was allocated before are not those of fresh blocks
  have hold : ∀ y, y < (readSuperBlock d).num_inodes.toNat → inodeBit d y = true →
      ∀ i, i < 30 → ∀ j, j < avail.length → (inodeSlot d y).direct i ≠ 0 →
        (inodeSlot d y).direct i ≠
          toU32 ((avail.getD j 0 : Int) + (readSuperBlock d).data_region_addr) := by
    intro y hy hby i hi j hj hne
    obtain ⟨-, -, o3, -⟩ := hc.2.1 y hy hby
    obtain ⟨-, -, q3⟩ := o3 i hi hne
    exact ptr_ne_fresh d _ _ hl (havr j hj).1 q3 (havr j hj).2
  have hnew0 : ∀ j, j < avail.length →
      toU32 ((avail.getD j 0 : Int) + (readSuperBlock d).data_region_addr) ≠ 0 :=
    fun j hj => (fresh_ptr d _ hl (havr j hj).1).2
  have hinj : ∀ j j2, j < avail.length → j2 < avail.length → j ≠ j2 →
      toU32 ((avail.getD j 0 : Int) + (readSuperBlock d).data_region_addr) ≠
        toU32 ((avail.getD j2 0 : Int) + (readSuperBlock d).data_region_addr) := by
    intro j j2 hj hj2 hne e
    have e1 := (fresh_ptr d _ hl (havr j hj).1).1
    have e2 := (fresh_ptr d _ hl (havr j2 hj2).1).1
    rw [e] at e1
    exact hne (getD_inj_of_nodup avail hnd j j2 hj hj2 (by omega))
  have hparent : parent = inodeSlot d p.toNat := hpslot
  apply consistent_step d D (fun x => x = p.toNat ∨ x = k.toNat) hc hsup
  · intro x hx hb hch
    simp only [not_or] at hch
    rcases (hib x (by omega)).1 hb with h | h
    · exact absurd h hch.2
    · exact ⟨h, hsl x (by omega) hch.1 hch.2⟩
  · intro x hx hb hch i hi hne
    simp only [not_or] at hch
    have hbd : inodeBit d x = true := by
      rcases (hib x (by omega)).1 hb with h | h
      · exact absurd h hch.2
      · exact h
    obtain ⟨-, -, o3, -⟩ := hc.2.1 x hx hbd
    obtain ⟨q1, q2, q3⟩ := o3 i hi hne
    exact (hdb _ (by omega)).2 (Or.inr q3)
  · intro x hx hb hch
    rcases hch with h | h
    · rw [h, hP]
      unfold InodeOk
      rw [hsup]
      simp only [MAX_FILE_SIZE, DIRECT_PTRS, UFS_BLOCK_SIZE, SIZEOF_DIR_ENT, DIR_ENT_NAME_SIZE]
      simp only [MAX_FILE_SIZE, DIRECT_PTRS, UFS_BLOCK_SIZE, SIZEOF_DIR_ENT, DIR_ENT_NAME_SIZE]
        at i1 i2 i3 i4 i5
      refine ⟨by omega, by omega, ?_, ?_, ?_, ?_⟩
      · intro i hi hne
        by_cases hcase : parent.size % 4096 = 0 ∧ i = (parent.size / 4096).toNat
        · rw [if_pos hcase] at hne ⊢
          have hlen1 : 0 < avail.length := by rw [hlen, if_pos hcase.1]; omega
          obtain ⟨a1, a2⟩ := havr 0 hlen1
          rw [(fresh_ptr d _ hl a1).1]
          refine ⟨by omega, by omega, ?_⟩
          have e : ((avail.getD 0 0 : Int) + (readSuperBlock d).data_region_addr
              - (readSuperBlock d).data_region_addr).toNat = avail.getD 0 0 := by omega
          rw [e]
          exact (hdb _ a1).2 (Or.inl (getD_mem avail 0 hlen1))
        · rw [if_neg hcase] at hne ⊢
          obtain ⟨q1, q2, q3⟩ := i2 i hi hne
          exact ⟨q1, q2, (hdb _ (by omega)).2 (Or.inr q3)⟩
      · intro i hi hlt
        by_cases hcase : parent.size % 4096 = 0 ∧ i = (parent.size / 4096).toNat
        · rw [if_pos hcase]
          exact hnew0 0 (by rw [hlen, if_pos hcase.1]; omega)
        · rw [if_neg hcase]
          apply i3 i hi
          by_contra hge
          apply hcase
          omega
      · intro i hi j hj hij hne
        by_cases hcase : parent.size % 4096 = 0 ∧ i = (parent.size / 4096).toNat
        · have hcj : ¬ (parent.size % 4096 = 0 ∧ j = (parent.size / 4096).toNat) := by
            intro h; omega
          rw [if_pos hcase, if_neg hcj]
          have hlen1 : 0 < avail.length := by rw [hlen, if_pos hcase.1]; omega
          by_cases hz : parent.direct j = 0
          · rw [hz]; exact hnew0 0 hlen1
          · rw [hparent] at hz ⊢
            exact Ne.symm (hold p.toNat (by omega) hpbit j hj 0 hlen1 hz)
        · rw [if_neg hcase] at hne ⊢
          by_cases hcj : parent.size % 4096 = 0 ∧ j = (parent.size / 4096).toNat
          · rw [if_pos hcj]
            have hlen1 : 0 < avail.length := by rw [hlen, if_pos hcj.1]; omega
            rw [hparent] at hne ⊢
            exact hold p.toNat (by omega) hpbit i hi 0 hlen1 hne
          · rw [if_neg hcj]
            exact i4 i hi j hj hij hne
      · intro _
        omega
    · rw [h, hK]
      unfold InodeOk
      rw [hsup]
      obtain ⟨c1, c2, c3, c4⟩ := createInode_props (readSuperBlock d) type avail
      simp only [MAX_FILE_SIZE, DIRECT_PTRS, UFS_BLOCK_SIZE, SIZEOF_DIR_ENT, DIR_ENT_NAME_SIZE]
        at c2 ⊢
      rw [c2]
      refine ⟨by split_ifs <;> omega, by split_ifs <;> omega, ?_, ?_, ?_, ?_⟩
      · intro i hi hne
        rw [hId] at hne ⊢
        by_cases hcase : type = UFS_DIRECTORY ∧ i = 0
        · rw [if_pos hcase]
          have hlen1 : avail.length - 1 < avail.length := by
            rw [hlen, if_pos hcase.1]; omega
          obtain ⟨a1, a2⟩ := havr _ hlen1
          rw [(fresh_ptr d _ hl a1).1]
          refine ⟨by omega, by omega, ?_⟩
          have e : ((avail.getD (avail.length - 1) 0 : Int)
              + (readSuperBlock d).data_region_addr
              - (readSuperBlock d).data_region_addr).toNat = avail.getD (avail.length - 1) 0 := by
            omega
          rw [e]
          exact (hdb _ a1).2 (Or.inl (getD_mem avail _ hlen1))
        · rw [if_neg hcase] at hne
          exact absurd rfl hne
      · intro i hi hlt
        rw [hId]
        by_cases ht : type = UFS_DIRECTORY
        · rw [if_pos ht] at hlt
          rw [if_pos ⟨ht, by omega⟩]
          exact hnew0 _ (by rw [hlen, if_pos ht]; omega)
        · rw [if_neg ht] at hlt
          omega
      · intro i hi j hj hij hne
        rw [hId] at hne ⊢
        by_cases hcase : type = UFS_DIRECTORY ∧ i = 0
        · rw [if_pos hcase, hId j, if_neg (by intro h; omega)]
          exact hnew0 _ (by rw [hlen, if_pos hcase.1]; omega)
        · rw [if_neg hcase] at hne
          exact absurd rfl hne
      · intro ht
        rw [c1] at ht
        rw [if_pos ht]
        omega
  · intro x hx hbx hch y hy hby hxy
    -- the pointers of `y` as seen from the changed inode `x`
    have hy2 : y = p.toNat ∨ y = k.toNat ∨
        (inodeBit d y = true ∧ inodeSlot D y = inodeSlot d y ∧ y ≠ p.toNat) := by
      by_cases h1 : y = p.toNat
      · exact Or.inl h1
      · by_cases h2 : y = k.toNat
        · exact Or.inr (Or.inl h2)
        · rcases (hib y (by omega)).1 hby with h | h
          · exact absurd h h2
          · exact Or.inr (Or.inr ⟨h, hsl y (by omega) h1 h2, h1⟩)
    unfold SharesNoBlock
    simp only [DIRECT_PTRS]
    have hPK : (∀ i, i < 30 → ∀ j, j < 30 → (inodeSlot D p.toNat).direct i ≠ 0 →
          (inodeSlot D p.toNat).direct i ≠ (inodeSlot D k.toNat).direct j)
        ∧ (∀ i, i < 30 → ∀ j, j < 30 → (inodeSlot D k.toNat).direct i ≠ 0 →
          (inodeSlot D k.toNat).direct i ≠ (inodeSlot D p.toNat).direct j) := by
      rw [hP, hK]
      simp only
      constructor
      · intro i hi j hj hne
        rw [hId j]
        by_cases hcj : type = UFS_DIRECTORY ∧ j = 0
        · rw [if_pos hcj]
          by_cases hcase : parent.size % 4096 = 0 ∧ i = (parent.size / 4096).toNat
          · rw [if_pos hcase]
            exact hinj 0 _ (by rw [hlen, if_pos hcase.1]; omega)
              (by rw [hlen, if_pos hcj.1]; omega)
              (by rw [hlen, if_pos hcase.1, if_pos hcj.1]; omega)
          · rw [if_neg hcase] at hne ⊢
            rw [hparent] at hne ⊢
            exact hold p.toNat (by omega) hpbit i hi _ (by rw [hlen, if_pos hcj.1]; omega) hne
        · rw [if_neg hcj]
          exact hne
      · intro i hi j hj hne
        rw [hId i] at hne ⊢
        by_cases hci : type = UFS_DIRECTORY ∧ i = 0
        · rw [if_pos hci]
          by_cases hcase : parent.size % 4096 = 0 ∧ j = (parent.size / 4096).toNat
          · rw [if_pos hcase]
            exact hinj _ 0 (by rw [hlen, if_pos hci.1]; omega)
              (by rw [hlen, if_pos hcase.1]; omega)
              (by rw [hlen, if_pos hcase.1, if_pos hci.1]; omega)
          · rw [if_neg hcase]
            by_cases hz : parent.direct j = 0
            · rw [hz]; exact hnew0 _ (by rw [hlen, if_pos hci.1]; omega)
            · rw [hparent] at hz ⊢
              exact Ne.symm
                (hold p.toNat (by omega) hpbit j hj _ (by rw [hlen, if_pos hci.1]; omega) hz)
        · rw [if_neg hci] at hne
          exact absurd rfl hne
    have hPY : ∀ y, y < (readSuperBlock d).num_inodes.toNat → inodeBit d y = true →
        y ≠ p.toNat →
        (∀ i, i < 30 → ∀ j, j < 30 → (inodeSlot D p.toNat).direct i ≠ 0 →
          (inodeSlot D p.toNat).direct i ≠ (inodeSlot d y).direct j)
        ∧ (∀ i, i < 30 → ∀ j, j < 30 → (inodeSlot d y).direct i ≠ 0 →
          (inodeSlot d y).direct i ≠ (inodeSlot D p.toNat).direct j) := by
      intro y hy hby hyp
      have s1 := hc.2.2 p.toNat (by omega) hpbit y hy hby (Ne.symm hyp)
      have s2 := hc.2.2 y hy hby p.toNat (by omega) hpbit hyp
      unfold SharesNoBlock at s1 s2
      simp only [DIRECT_PTRS] at s1 s2
      rw [← hparent] at s1 s2
      rw [hP]
      simp only
      constructor
      · intro i hi j hj hne
        by_cases hcase : parent.size % 4096 = 0 ∧ i = (parent.size / 4096).toNat
        · rw [if_pos hcase]
          have hlen1 : 0 < avail.length := by rw [hlen, if_pos hcase.1]; omega
          by_cases hz : (inodeSlot d y).direct j = 0
          · rw [hz]; exact hnew0 0 hlen1
          · exact Ne.symm (hold y hy hby j hj 0 hlen1 hz)
        · rw [if_neg hcase] at hne ⊢
          exact s1 i hi j hj hne
      · intro i hi j hj hne
        by_cases hcase : parent.size % 4096 = 0 ∧ j = (parent.size / 4096).toNat
        · rw [if_pos hcase]
          exact hold y hy hby i hi 0 (by rw [hlen, if_pos hcase.1]; omega) hne
        · rw [if_neg hcase]
          exact s2 i hi j hj hne
    have hKY : ∀ y, y < (readSuperBlock d).num_inodes.toNat → inodeBit d y = true →
        (∀ i, i < 30 → ∀ j, j < 30 → (inodeSlot D k.toNat).direct i ≠ 0 →
          (inodeSlot D k.toNat).direct i ≠ (inodeSlot d y).direct j)
        ∧ (∀ i, i < 30 → ∀ j, j < 30 → (inodeSlot d y).direct i ≠ 0 →
          (inodeSlot d y).direct i ≠ (inodeSlot D k.toNat).direct j) := by
      intro y hy hby
      rw [hK]
      constructor
      · intro i hi j hj hne
        rw [hId i] at hne ⊢
        by_cases hci : type = UFS_DIRECTORY ∧ i = 0
        · rw [if_pos hci]
          have hlen1 : avail.length - 1 < avail.length := by rw [hlen, if_pos hci.1]; omega
          by_cases hz : (inodeSlot d y).direct j = 0
          · rw [hz]; exact hnew0 _ hlen1
          · exact Ne.symm (hold y hy hby j hj _ hlen1 hz)
        · rw [if_neg hci] at hne
          exact absurd rfl hne
      · intro i hi j hj hne
        rw [hId j]
        by_cases hcj : type = UFS_DIRECTORY ∧ j = 0
        · rw [if_pos hcj]
          exact hold y hy hby i hi _ (by rw [hlen, if_pos hcj.1]; omega) hne
        · rw [if_neg hcj]
          exact hne
    rcases hch with hx1 | hx1
    · rcases hy2 with h | h | ⟨h1, h2, h3⟩
      · exact absurd (hx1.trans h.symm) hxy
      · rw [hx1, h]; exact hPK
      · rw [hx1, h2]; exact hPY y hy h1 h3
    · rcases hy2 with h | h | ⟨h1, h2, h3⟩
      · rw [hx1, h]; exact ⟨hPK.2, hPK.1⟩
      · exact absurd (hx1.trans h.symm) hxy
      · rw [hx1, h2]; exact hKY y hy h1

theorem create_consistent (d : Disk) (junk : Bytes) (p type : Int) (name : List Nat)
    (hc : Consistent d) (hty : -2147483648 ≤ type ∧ type < 2147483648)
    (hok : 0 ≤ (create d junk p type name).1) :
    Consistent (create d junk p type name).2 := by
  obtain ⟨parent, h1, hs, ht, hn⟩ := create_success_parent d junk p type name hok
  have e1 := create_of_directory d junk p type name parent h1 hs ht
  by_cases hf : lookup d junk p name ≠ -ENOTFOUND
  · rw [if_pos hf] at e1
    rw [e1]
    cases hst : stat d (lookup d junk p name) with
    | error e => exact hc
    | ok ino => exact hc
  · rw [if_neg hf] at e1
    rw [e1] at hok ⊢
    exact createFresh_consistent d junk p type name parent hc hs (not_not.1 ht) hty hok

theorem writeCommit_slots (d : Disk) (junk : Bytes) (inode : inode_t) (inodeNumber : Int)
    (buffer : Bytes) (size : Int) (dataBitmap : Bytes) (avail : List Nat)
    (hl : LayoutOk (readSuperBlock d))
    (hi0 : 0 ≤ inodeNumber) (hi1 : inodeNumber < (readSuperBlock d).num_inodes)
    (hs0 : 0 ≤ size)
    (hav : ∀ a ∈ avail, (a : Int) < (readSuperBlock d).num_data) (hnd : avail.Nodup)
    (r : Int × Disk)
    (hr : r = writeCommit d junk (readSuperBlock d) inode inodeNumber buffer size dataBitmap
      avail) :
    ∀ x : Nat, (x : Int) < (readSuperBlock d).num_inodes → x ≠ inodeNumber.toNat →
      inodeAt (r.2 ((readSuperBlock d).inode_region_addr + ((x / 32 : Nat) : Int))) (x % 32)
        = inodeSlot d x := by
  obtain ⟨l1, l2, l3, l4, l5, l6, l7, l8, l9, l10, l11, l12, l13⟩ := hl
  simp only [UFS_BLOCK_SIZE, SIZEOF_INODE, DIRECT_PTRS] at l10 l11 l12
  push_cast at l10 l11 l12
  have hrange : ∀ i, i < avail.length → (avail.getD i 0 : Int) < (readSuperBlock d).num_data :=
    fun i hi => hav _ (getD_mem avail i hi)
  have haddr : ∀ i, i < avail.length →
      toS32 (toU32 ((avail.getD i 0 : Int) + (readSuperBlock d).data_region_addr)) =
        (fun i => (avail.getD i 0 : Int) + (readSuperBlock d).data_region_addr) i := by
    intro i hi
    have := hrange i hi
    exact toS32_toU32 _ (by omega) (by omega)
  have hinj : ∀ i j, i < avail.length → j < avail.length →
      (fun i => (avail.getD i 0 : Int) + (readSuperBlock d).data_region_addr) i =
        (fun i => (avail.getD i 0 : Int) + (readSuperBlock d).data_region_addr) j → i = j := by
    intro i j hi hj e
    simp only at e
    exact getD_inj_of_nodup avail hnd i j hi hj (by omega)
  have L := writeLoop_spec (readSuperBlock d) buffer avail d
    (forLoop (releaseStep (readSuperBlock d)) DIRECT_PTRS 0 (dataBitmap, inode)).2
    (forLoop (releaseStep (readSuperBlock d)) DIRECT_PTRS 0 (dataBitmap, inode)).1
    junk size hs0 _ haddr hinj
  simp only at L
  simp only [writeCommit] at hr
  generalize forLoop (writeStep (readSuperBlock d) buffer avail) avail.length 0
    { disk := d
      inode := (forLoop (releaseStep (readSuperBlock d)) DIRECT_PTRS 0 (dataBitmap, inode)).2
      dataBitmap := (forLoop (releaseStep (readSuperBlock d)) DIRECT_PTRS 0 (dataBitmap, inode)).1
      blockBuffer := junk, bytesToWrite := size, bytesWritten := 0 } = st at L hr
  obtain ⟨w1, w2, w3, w4, w5, w6, w7⟩ := L
  simp only [UFS_BLOCK_SIZE, SIZEOF_INODE, DIRECT_PTRS, readBlock] at hr
  norm_num at hr
  have hdisk : ∀ a o, r.2 a o =
      if a = (readSuperBlock d).inode_region_addr + inodeNumber / 32 ∧ o < 4096 then
        memcpy (writeDataBitmap st.disk (readSuperBlock d) st.dataBitmap
            ((readSuperBlock d).inode_region_addr + inodeNumber / 32))
          ((inodeNumber % 32).toNat * 128)
          (inodeBytes { type := st.inode.type, size := size, direct := st.inode.direct }) 0 128 o
      else writeDataBitmap st.disk (readSuperBlock d) st.dataBitmap a o := by
    intro a o
    rw [hr]
    simp only
    rw [writeBlock_apply]
  have hbase : ∀ (a : Int) (o : Nat), (readSuperBlock d).inode_region_addr ≤ a →
      a < (readSuperBlock d).data_region_addr →
      writeDataBitmap st.disk (readSuperBlock d) st.dataBitmap a o = d a o := by
    intro a o h1 h2
    unfold writeDataBitmap
    rw [writeBitmap_apply, if_neg (by omega), w5 a (fun i hi => by have := hrange i hi; omega)]
  intro x hx hne
  unfold inodeSlot
  simp only [UFS_BLOCK_SIZE, SIZEOF_INODE, DIRECT_PTRS]
  norm_num
  apply inodeAt_congr
  intro r0 hr0
  rw [hdisk]
  by_cases hblk : (readSuperBlock d).inode_region_addr + ((x / 32 : Nat) : Int)
      = (readSuperBlock d).inode_region_addr + inodeNumber / 32
  · rw [if_pos ⟨hblk, by omega⟩]
    unfold memcpy
    rw [if_neg (by omega), ← hblk]
    exact hbase _ _ (by omega) (by omega)
  · rw [if_neg (fun h => hblk h.1)]
    exact hbase _ _ (by omega) (by omega)

theorem fresh_blocks (d : Disk) (hc : Consistent d) (avail : List Nat)
    (hav : ∀ a ∈ avail, (a : Int) < (readSuperBlock d).num_data ∧ dataBit d a = false)
    (hnd : avail.Nodup) :
    (∀ y, y < (readSuperBlock d).num_inodes.toNat → inodeBit d y = true →
      ∀ i, i < 30 → ∀ j, j < avail.length → (inodeSlot d y).direct i ≠ 0 →
        (inodeSlot d y).direct i ≠
          toU32 ((avail.getD j 0 : Int) + (readSuperBlock d).data_region_addr))
      ∧ (∀ j, j < avail.length →
          toU32 ((avail.getD j 0 : Int) + (readSuperBlock d).data_region_addr) ≠ 0)
      ∧ (∀ j j2, j < avail.length → j2 < avail.length → j ≠ j2 →
          toU32 ((avail.getD j 0 : Int) + (readSuperBlock d).data_region_addr) ≠
            toU32 ((avail.getD j2 0 : Int) + (readSuperBlock d).data_region_addr)) := by
  have hl := hc.1
  have havr : ∀ j, j < avail.length →
      (avail.getD j 0 : Int) < (readSuperBlock d).num_data
        ∧ dataBit d (avail.getD j 0) = false := fun j hj => hav _ (getD_mem avail j hj)
  refine ⟨?_, ?_, ?_⟩
  · intro y hy hby i hi j hj hne
    obtain ⟨-, -, o3, -⟩ := hc.2.1 y hy hby
    obtain ⟨-, -, q3⟩ := o3 i hi hne
    exact ptr_ne_fresh d _ _ hl (havr j hj).1 q3 (havr j hj).2
  · exact fun j hj => (fresh_ptr d _ hl (havr j hj).1).2
  · intro j j2 hj hj2 hne e
    have e1 := (fresh_ptr d _ hl (havr j hj).1).1
    have e2 := (fresh_ptr d _ hl (havr j2 hj2).1).1
    rw [e] at e1
    exact hne (getD_inj_of_nodup avail hnd j j2 hj hj2 (by omega))

theorem released_iff (d : Disk) (inode : inode_t) (b : Nat)
    (hl : LayoutOk (readSuperBlock d)) (hi : InodeOk d inode) :
    releasedBy (readSuperBlock d) inode DIRECT_PTRS b ↔
      ∃ k, k < 30 ∧ (inode.direct k : Int) = (b : Int) + (readSuperBlock d).data_region_addr := by
  obtain ⟨l1, l2, l3, l4, l5, l6, l7, l8, l9, l10, l11, l12, l13⟩ := hl
  obtain ⟨-, -, i2, -⟩ := hi
  simp only [DIRECT_PTRS] at i2
  constructor
  · rintro ⟨k, hk, r1, r2, r3⟩
    have := i2 k hk r1
    rw [toS32_toU32 _ (by omega) (by omega)] at r3
    exact ⟨k, hk, by omega⟩
  · rintro ⟨k, hk, r1⟩
    have hne : inode.direct k ≠ 0 := by
      intro h0
      rw [h0] at r1
      omega
    have := i2 k hk hne
    refine ⟨k, hk, hne, ?_, ?_⟩
    · rw [toS32_toU32 _ (by omega) (by omega)]; omega
    · rw [toS32_toU32 _ (by omega) (by omega)]; omega

theorem write_frame (d : Disk) (junk : Bytes) (inodeNumber : Int) (buffer : Bytes)
    (size : Int) (hc : Consistent d) (hok : 0 ≤ (write d junk inodeNumber buffer size).1) :
    ∃ (inode : inode_t) (avail : List Nat),
      stat d inodeNumber = .ok inode ∧ inode.type = UFS_REGULAR_FILE
      ∧ 0 ≤ size ∧ size ≤ MAX_FILE_SIZE
      ∧ (avail.length : Int) = blocksFor size
      ∧ (∀ a ∈ avail, (a : Int) < (readSuperBlock d).num_data ∧ dataBit d a = false)
      ∧ avail.Nodup
      ∧ readSuperBlock (write d junk inodeNumber buffer size).2 = readSuperBlock d
      ∧ inodeSlot (write d junk inodeNumber buffer size).2 inodeNumber.toNat =
          writtenInode (readSuperBlock d) inode.type size avail
      ∧ (∀ x : Nat, (x : Int) < (readSuperBlock d).num_inodes →
          inodeBit (write d junk inodeNumber buffer size).2 x = inodeBit d x)
      ∧ (∀ b : Nat, (b : Int) < (readSuperBlock d).num_data →
          (dataBit (write d junk inodeNumber buffer size).2 b = true ↔
            b ∈ avail ∨ (dataBit d b = true
              ∧ ∀ k, k < 30 →
                (inode.direct k : Int) ≠ (b : Int) + (readSuperBlock d).data_region_addr)))
      ∧ (∀ x : Nat, (x : Int) < (readSuperBlock d).num_inodes → x ≠ inodeNumber.toNat →
          inodeSlot (write d junk inodeNumber buffer size).2 x = inodeSlot d x) := by
  have hl := hc.1
  obtain ⟨inode, avail, hs, htype, hs0, hs1, hav, hlen, hmem, -, hlow, hst, -⟩ :=
    write_success d junk inodeNumber buffer size hc.1 hok
  have hio := inodeOk_of_stat d inodeNumber inode hc hs
  have hnd : avail.Nodup := by
    rw [hav]
    exact (clearBits_nodup _ _).sublist (List.take_sublist _ _)
  have heq := write_success_eq d junk inodeNumber buffer size inode hs hok
  rw [← hav] at heq
  obtain ⟨hp0, hp1, hpbit, hpslot⟩ := (stat_iff_slot d hl inodeNumber inode).1 hs
  have hbm := writeCommit_bitmap d junk inode inodeNumber buffer size
    (readDataBitmap d (readSuperBlock d)) avail hc.1 hp0 hs0 hmem hnd _ heq
  have hslots := writeCommit_slots d junk inode inodeNumber buffer size
    (readDataBitmap d (readSuperBlock d)) avail hc.1 hp0 hp1 hs0 hmem hnd _ heq
  obtain ⟨l1, l2, l3, l4, l5, l6, l7, l8, l9, l10, l11, l12, l13⟩ := hc.1
  simp only [UFS_BLOCK_SIZE, DIRECT_PTRS] at l10 l11
  push_cast at l10 l11
  have hsup := readSuperBlock_congr d _ (hlow 0 (by omega))
  have hlD : LayoutOk (readSuperBlock (write d junk inodeNumber buffer size).2) := by
    rw [hsup]; exact hl
  have hclr : ∀ a ∈ avail, (a : Int) < (readSuperBlock d).num_data ∧ dataBit d a = false := by
    intro a ha
    refine ⟨hmem a ha, ?_⟩
    rw [hav] at ha
    have := (clearBits_mem _ _ _).1 (List.mem_of_mem_take ha)
    exact dataBit_of_clear d a hl (hmem a (by rw [hav]; exact ha)) this.2
  refine ⟨inode, avail, hs, htype, hs0, hs1, hlen, hclr, hnd, hsup, ?_, ?_, ?_, ?_⟩
  · exact ((stat_iff_slot _ hlD inodeNumber _).1 hst).2.2.2.symm
  · intro x hx
    unfold inodeBit bitmapBit
    simp only [UFS_BLOCK_SIZE]
    rw [hsup, hlow _ (by omega)]
  · intro b hb
    have hbit : dataBit (write d junk inodeNumber buffer size).2 b = true ↔
        bitOf (avail.foldl setBit
          (forLoop (releaseStep (readSuperBlock d)) DIRECT_PTRS 0
            (readDataBitmap d (readSuperBlock d), inode)).1) b ≠ 0 := by
      unfold dataBit
      rw [hsup]
      apply bitmapBit_eq
      rw [hbm _ _ (by omega) (by omega) (Nat.mod_lt _ (by omega))]
      refine congrArg _ ?_
      omega
    rw [hbit, bitOf_foldl_setBit]
    have hrel := released_iff d inode b hl hio
    by_cases hin : b ∈ avail
    · rw [if_pos hin]
      simp [hin]
    · rw [if_neg hin]
      have h3 := release_bitmap (readSuperBlock d) (readDataBitmap d (readSuperBlock d)) inode
        DIRECT_PTRS b
      have h4 := dataBit_iff d b hl hb
      rw [ne_eq, h3, hrel, h4]
      constructor
      · intro h
        refine Or.inr ⟨?_, ?_⟩
        · exact fun h5 => h (Or.inr h5)
        · intro k hk e
          exact h (Or.inl ⟨k, hk, e⟩)
      · rintro (h | ⟨h5, h6⟩)
        · exact absurd h hin
        · rintro (⟨k, hk, e⟩ | h7)
          · exact h6 k hk e
          · exact h5 h7
  · intro x hx hne
    unfold inodeSlot
    rw [hsup]
    exact hslots x hx hne

theorem write_consistent (d : Disk) (junk : Bytes) (inodeNumber : Int) (buffer : Bytes)
    (size : Int) (hc : Consistent d) (hok : 0 ≤ (write d junk inodeNumber buffer size).1) :
    Consistent (write d junk inodeNumber buffer size).2 := by
  obtain ⟨inode, avail, hs, htype, hs0, hs1, hlen, hav, hnd, hsup, hW, hib, hdb, hsl⟩ :=
    write_frame d junk inodeNumber buffer size hc hok
  generalize (write d junk inodeNumber buffer size).2 = D at hsup hW hib hdb hsl ⊢
  have hl := hc.1
  obtain ⟨hp0, hp1, hpbit, hpslot⟩ := (stat_iff_slot d hl inodeNumber inode).1 hs
  obtain ⟨hold, hnew0, hinj⟩ := fresh_blocks d hc avail hav hnd
  have havr : ∀ j, j < avail.length →
      (avail.getD j 0 : Int) < (readSuperBlock d).num_data
        ∧ dataBit d (avail.getD j 0) = false := fun j hj => hav _ (getD_mem avail j hj)
  have hl2 := hl
  obtain ⟨l1, l2, l3, l4, l5, l6, l7, l8, l9, l10, l11, l12, l13⟩ := hl2
  have hWd : ∀ k, (writtenInode (readSuperBlock d) inode.type size avail).direct k =
      if k < avail.length then
        toU32 ((avail.getD k 0 : Int) + (readSuperBlock d).data_region_addr)
      else 0 := fun k => rfl
  apply consistent_step d D (fun x => x = inodeNumber.toNat) hc hsup
  · intro x hx hb hch
    exact ⟨by rw [← hib x (by omega)]; exact hb, hsl x (by omega) hch⟩
  · intro x hx hb hch i hi hne
    have hbd : inodeBit d x = true := by rw [← hib x (by omega)]; exact hb
    obtain ⟨-, -, o3, -⟩ := hc.2.1 x hx hbd
    obtain ⟨q1, q2, q3⟩ := o3 i hi hne
    refine (hdb _ (by omega)).2 (Or.inr ⟨q3, ?_⟩)
    intro k hk e
    have s1 := hc.2.2 inodeNumber.toNat (by omega) hpbit x hx hbd (Ne.symm hch)
    rw [← hpslot] at s1
    have hk0 : inode.direct k ≠ 0 := by
      intro h0
      rw [h0] at e
      omega
    apply s1 k hk i hi hk0
    omega
  · intro x hx hb hch
    rw [hch, hW]
    unfold InodeOk
    rw [hsup]
    simp only [MAX_FILE_SIZE, DIRECT_PTRS, UFS_BLOCK_SIZE, SIZEOF_DIR_ENT, DIR_ENT_NAME_SIZE]
      at hs1 ⊢
    unfold blocksFor at hlen
    simp only [UFS_BLOCK_SIZE] at hlen
    push_cast at hlen
    refine ⟨hs0, hs1, ?_, ?_, ?_, ?_⟩
    · intro k hk hne
      rw [hWd] at hne ⊢
      by_cases hka : k < avail.length
      · rw [if_pos hka]
        obtain ⟨a1, a2⟩ := havr k hka
        rw [(fresh_ptr d _ hl a1).1]
        refine ⟨by omega, by omega, ?_⟩
        have e : ((avail.getD k 0 : Int) + (readSuperBlock d).data_region_addr
            - (readSuperBlock d).data_region_addr).toNat = avail.getD k 0 := by omega
        rw [e]
        exact (hdb _ a1).2 (Or.inl (getD_mem avail k hka))
      · rw [if_neg hka] at hne
        exact absurd rfl hne
    · intro k hk hlt
      have hlt2 : (k : Int) * 4096 < size := hlt
      rw [hWd, if_pos (by omega)]
      exact hnew0 k (by omega)
    · intro k hk j hj hkj hne
      rw [hWd] at hne ⊢
      by_cases hka : k < avail.length
      · rw [if_pos hka, hWd j]
        by_cases hja : j < avail.length
        · rw [if_pos hja]
          exact hinj k j hka hja hkj
        · rw [if_neg hja]
          exact hnew0 k hka
      · rw [if_neg hka] at hne
        exact absurd rfl hne
    · intro ht
      simp only [writtenInode] at ht
      rw [htype] at ht
      exact absurd ht (by decide)
  · intro x hx hbx hch y hy hby hxy
    have hyne : y ≠ inodeNumber.toNat := fun h => hxy (hch.trans h.symm)
    have hbd : inodeBit d y = true := by rw [← hib y (by omega)]; exact hby
    rw [hch, hW, hsl y (by omega) hyne]
    unfold SharesNoBlock
    simp only [DIRECT_PTRS]
    constructor
    · intro k hk j hj hne
      rw [hWd] at hne ⊢
      by_cases hka : k < avail.length
      · rw [if_pos hka]
        by_cases hz : (inodeSlot d y).direct j = 0
        · rw [hz]; exact hnew0 k hka
        · exact Ne.symm (hold y hy hbd j hj k hka hz)
      · rw [if_neg hka] at hne
        exact absurd rfl hne
    · intro k hk j hj hne
      rw [hWd j]
      by_cases hja : j < avail.length
      · rw [if_pos hja]
        exact hold y hy hbd k hk j hja hne
      · rw [if_neg hja]
        exact hne

theorem unlinkCommit_slots (d : Disk) (junk : Bytes) (p : Int) (name : List Nat)
    (parent : inode_t) (k : Int) (inode : inode_t) (hc : Consistent d)
    (hs : stat d p = .ok parent) (hsz0 : 32 ≤ parent.size)
    (hpos : (forLoop (unlinkBlockStep parent name) DIRECT_PTRS 0 (-1, d)).1 ≠ -1)
    (r : Int × Disk)
    (hr : r = unlinkCommit d junk (readSuperBlock d) p name parent k inode) :
    ∀ x : Nat, (x : Int) < (readSuperBlock d).num_inodes → x ≠ p.toNat → x ≠ k.toNat →
      inodeAt (r.2 ((readSuperBlock d).inode_region_addr + ((x / 32 : Nat) : Int))) (x % 32)
        = inodeSlot d x := by
  obtain ⟨i0, i1, i2, i3, i4, i5⟩ := inodeOk_of_stat d p parent hc hs
  simp only [MAX_FILE_SIZE, DIRECT_PTRS, UFS_BLOCK_SIZE] at i1 i2 i3
  push_cast at i1 i3
  have hl := hc.1
  obtain ⟨l1, l2, l3, l4, l5, l6, l7, l8, l9, l10, l11, l12, l13⟩ := hc.1
  simp only [UFS_BLOCK_SIZE, SIZEOF_INODE, DIRECT_PTRS] at l10 l11 l12
  push_cast at l10 l11 l12
  obtain ⟨c1, d1, hd1, hdisk⟩ := unlinkCommit_disk d junk p name parent k inode hl
    (fun i hi hne => by
      have := i2 i hi hne
      unfold toS32
      rw [if_pos (by omega)]
      omega)
    (fun i hi hlt => i3 i hi hlt) hsz0 i1 hpos r hr
  intro x hx hxp hxk
  rw [← readInodeRegion_layout d x hl hx,
    ← inodeAt_memsetZero_other (readInodeRegion d (readSuperBlock d)) k.toNat x hxk,
    ← inodeAt_putInode_other _ p.toNat x
      { type := parent.type, size := parent.size - 32, direct := parent.direct } hxp]
  apply inodeAt_congr
  intro r0 hr0
  rw [hdisk, if_pos (by omega), if_pos (by omega)]
  refine congrArg _ ?_
  omega

theorem unlink_consistent (d : Disk) (junk : Bytes) (p : Int) (name : List Nat)
    (hc : Consistent d) (hok : (unlink d junk p name).1 = 0) :
    Consistent (unlink d junk p name).2 := by
  by_cases hf : lookup d junk p name = -ENOTFOUND
  · have e : (unlink d junk p name).2 = d := by
      unfold unlink
      split_ifs
      · rfl
      · rfl
      · cases hst : stat d p with
        | error e => rfl
        | ok parent =>
          simp only
          split_ifs
          · rfl
          · rfl
    rw [e]
    exact hc
  · obtain ⟨parent, inode, hs, ht, hlen, hdot, hk, hne, heq, hpos⟩ :=
      unlink_zero_inv d junk p name hf hok
    have hl := hc.1
    obtain ⟨i0, i1, i2, i3, i4, i5⟩ := inodeOk_of_stat d p parent hc hs
    have hn : ¬ (name.length ≤ 0 ∨ name.length ≥ DIR_ENT_NAME_SIZE) := by
      simp only [DIR_ENT_NAME_SIZE] at hlen ⊢
      omega
    obtain ⟨e0, he0, -⟩ := lookup_found d junk p name parent hs ht hn i0 i1
      (stat_ok_nonneg _ _ _ hk)
    have hsz0 : 32 ≤ parent.size := by
      simp only [SIZEOF_DIR_ENT, DIR_ENT_NAME_SIZE] at he0
      omega
    obtain ⟨-, hsup, hib, hdb, -, -, hsp⟩ := unlinkCommit_post d junk p name parent _ inode hc hs
      hk hsz0 hpos _ rfl
    have hsl := unlinkCommit_slots d junk p name parent (lookup d junk p name) inode hc hs hsz0
      hpos _ rfl
    rw [heq]
    generalize (unlinkCommit d junk (readSuperBlock d) p name parent (lookup d junk p name)
      inode).2 = D at hsup hib hdb hsp hsl ⊢
    generalize lookup d junk p name = k at hk hib hdb hsp hsl
    obtain ⟨hp0, hp1, hpbit, hpslot⟩ := (stat_iff_slot d hl p parent).1 hs
    obtain ⟨hk0, hk1, hkbit, hkslot⟩ := (stat_iff_slot d hl k inode).1 hk
    have hlD : LayoutOk (readSuperBlock D) := by rw [hsup]; exact hl
    have hl2 := hl
    obtain ⟨l1, l2, l3, l4, l5, l6, l7, l8, l9, l10, l11, l12, l13⟩ := hl2
    -- a block named by an allocated inode other than `k` keeps its bit
    have hkeep : ∀ x, x < (readSuperBlock d).num_inodes.toNat → inodeBit d x = true →
        x ≠ k.toNat → ∀ i, i < 30 → (inodeSlot d x).direct i ≠ 0 →
          dataBit D (((inodeSlot d x).direct i : Int)
            - (readSuperBlock d).data_region_addr).toNat = true := by
      intro x hx hbx hxk i hi hne
      obtain ⟨-, -, o3, -⟩ := hc.2.1 x hx hbx
      obtain ⟨q1, q2, q3⟩ := o3 i hi hne
      refine (hdb _ (by omega)).2 ⟨q3, ?_⟩
      intro j hj e
      have s1 := hc.2.2 k.toNat (by omega) hkbit x hx hbx (Ne.symm hxk)
      rw [← hkslot] at s1
      have hj0 : inode.direct j ≠ 0 := by
        intro h0
        rw [h0] at e
        omega
      apply s1 j hj i hi hj0
      omega
    apply consistent_step d D (fun x => x = p.toNat) hc hsup
    · intro x hx hb hch
      obtain ⟨h1, h2⟩ := (hib x (by omega)).1 hb
      refine ⟨h2, ?_⟩
      unfold inodeSlot
      rw [hsup]
      exact hsl x (by omega) hch h1
    · intro x hx hb hch i hi hne
      obtain ⟨h1, h2⟩ := (hib x (by omega)).1 hb
      exact hkeep x hx h2 h1 i hi hne
    · intro x hx hb hch
      obtain ⟨h1, h2⟩ := (hib x (by omega)).1 hb
      have hkp : k ≠ p := by
        intro h
        apply h1
        rw [hch, h]
      have hP := ((stat_iff_slot D hlD p _).1 (hsp hkp)).2.2.2
      rw [hch, ← hP]
      unfold InodeOk
      rw [hsup]
      simp only [MAX_FILE_SIZE, DIRECT_PTRS, UFS_BLOCK_SIZE, SIZEOF_DIR_ENT, DIR_ENT_NAME_SIZE]
        at i1 i2 i3 i4 i5 ⊢
      refine ⟨by omega, by omega, ?_, ?_, i4, ?_⟩
      · intro i hi hne
        obtain ⟨q1, q2, q3⟩ := i2 i hi hne
        refine ⟨q1, q2, ?_⟩
        have := hkeep p.toNat (by omega) hpbit (by omega) i hi (by rw [← hpslot]; exact hne)
        rw [← hpslot] at this
        exact this
      · intro i hi hlt
        exact i3 i hi (by omega)
      · intro htd
        have := i5 htd
        omega
    · intro x hx hbx hch y hy hby hxy
      obtain ⟨h1, h2⟩ := (hib x (by omega)).1 hbx
      obtain ⟨h3, h4⟩ := (hib y (by omega)).1 hby
      have hkp : k ≠ p := by
        intro h
        apply h1
        rw [hch, h]
      have hyp : y ≠ p.toNat := fun h => hxy (hch.trans h.symm)
      have hP := ((stat_iff_slot D hlD p _).1 (hsp hkp)).2.2.2
      have hY : inodeSlot D y = inodeSlot d y := by
        unfold inodeSlot
        rw [hsup]
        exact hsl y (by omega) hyp h3
      rw [hch, ← hP, hY]
      have s1 := hc.2.2 p.toNat (by omega) hpbit y hy h4 (Ne.symm hyp)
      have s2 := hc.2.2 y hy h4 p.toNat (by omega) hpbit hyp
      rw [← hpslot] at s1 s2
      exact ⟨s1, s2⟩

theorem inodeAt_empty_file (m : Bytes) (s : Nat)
    (h : ∀ r, r < 128 → m (128 * s + r) = if r = 0 then 1 else 0) :
    (inodeAt m s).type = 1 ∧ (inodeAt m s).size = 0
      ∧ ∀ k, k < 30 → (inodeAt m s).direct k = 0 := by
  have hz : ∀ o, 128 * s < o → o < 128 * s + 128 → m o = 0 := by
    intro o h1 h2
    have := h (o - 128 * s) (by omega)
    rw [if_neg (by omega)] at this
    rw [← this]
    congr 1
    omega
  have h00 : m ((8 + 4 * 30) * s) = 1 := by
    have := h 0 (by omega)
    simpa using this
  refine ⟨?_, ?_, ?_⟩
  · simp only [inodeAt, getS32, getU32, SIZEOF_INODE, DIRECT_PTRS]
    rw [h00, hz _ (by omega) (by omega), hz _ (by omega) (by omega), hz _ (by omega) (by omega)]
    decide
  · simp only [inodeAt, getS32, getU32, SIZEOF_INODE, DIRECT_PTRS]
    rw [hz _ (by omega) (by omega), hz _ (by omega) (by omega), hz _ (by omega) (by omega),
      hz _ (by omega) (by omega)]
    decide
  · intro k hk
    simp only [inodeAt, getU32, SIZEOF_INODE, DIRECT_PTRS, if_pos hk]
    rw [hz _ (by omega) (by omega), hz _ (by omega) (by omega),
      hz _ (by omega) (by omega), hz _ (by omega) (by omega)]

theorem emptyFiles_consistent (d : Disk) (n : Nat) (hl : LayoutOk (readSuperBlock d))
    (hn : (readSuperBlock d).num_inodes.toNat = n)
    (h0 : InodeOk d (inodeSlot d 0))
    (hz : ∀ i, i < n → i ≠ 0 →
      (inodeSlot d i).type = 1 ∧ (inodeSlot d i).size = 0
        ∧ ∀ k, k < 30 → (inodeSlot d i).direct k = 0) :
    Consistent d := by
  refine ⟨hl, ?_, ?_⟩
  · intro i hi _
    rw [hn] at hi
    by_cases h : i = 0
    · rw [h]; exact h0
    · obtain ⟨z1, z2, z3⟩ := hz i hi h
      unfold InodeOk
      rw [z2]
      simp only [MAX_FILE_SIZE, DIRECT_PTRS, UFS_BLOCK_SIZE]
      refine ⟨le_refl _, by omega, ?_, ?_, ?_, ?_⟩
      · intro k hk hne
        exact absurd (z3 k hk) hne
      · intro k hk hlt
        omega
      · intro k hk l _ _ hne
        exact absurd (z3 k hk) hne
      · intro ht
        rw [z1] at ht
        exact absurd ht (by decide)
  · intro i hi _ j hj _ hij
    rw [hn] at hi hj
    unfold SharesNoBlock
    simp only [DIRECT_PTRS]
    intro k hk l hl2 hne
    by_cases h : i = 0
    · have hj0 : j ≠ 0 := fun e => hij (h.trans e.symm)
      rw [(hz j hj hj0).2.2 l hl2]
      exact hne
    · exact absurd ((hz i hi h).2.2 k hk) hne

theorem wideImage_slots : ∀ i, i < 128 → i ≠ 0 →
    (inodeSlot wideImage i).type = 1 ∧ (inodeSlot wideImage i).size = 0
      ∧ ∀ k, k < 30 → (inodeSlot wideImage i).direct k = 0 := by
  intro i hi h0
  have ha : (readSuperBlock wideImage).inode_region_addr = 3 := by decide
  unfold inodeSlot
  rw [ha]
  apply inodeAt_empty_file
  intro r hr
  have hq : i / (UFS_BLOCK_SIZE / SIZEOF_INODE) < 4 := by
    simp only [UFS_BLOCK_SIZE, SIZEOF_INODE, DIRECT_PTRS]; omega
  have hs : i % (UFS_BLOCK_SIZE / SIZEOF_INODE) < 32 := by
    simp only [UFS_BLOCK_SIZE, SIZEOF_INODE, DIRECT_PTRS]; omega
  have hs0 : i / (UFS_BLOCK_SIZE / SIZEOF_INODE) = 0 → 1 ≤ i % (UFS_BLOCK_SIZE / SIZEOF_INODE) := by
    simp only [UFS_BLOCK_SIZE, SIZEOF_INODE, DIRECT_PTRS]; omega
  generalize i / (UFS_BLOCK_SIZE / SIZEOF_INODE) = q at hq hs0 ⊢
  generalize i % (UFS_BLOCK_SIZE / SIZEOF_INODE) = s at hs hs0 ⊢
  interval_cases q
  · have := hs0 rfl
    show (if 128 * s + r < 128 then _ else if 128 * s + r < 4096 ∧ (128 * s + r) % 128 = 0 then 1 else 0) = _
    rw [if_neg (by omega)]
    by_cases hr0 : r = 0
    · rw [if_pos ⟨by omega, by omega⟩, if_pos hr0]
    · rw [if_neg (by omega), if_neg hr0]
  all_goals
    show (if 128 * s + r < 4096 ∧ (128 * s + r) % 128 = 0 then 1 else 0) = _
    by_cases hr0 : r = 0
    · rw [if_pos ⟨by omega, by omega⟩, if_pos hr0]
    · rw [if_neg (by omega), if_neg hr0]

set_option maxRecDepth 100000 in
theorem wideImage_consistent : Consistent wideImage :=
  emptyFiles_consistent wideImage 128
    ⟨by decide, by decide, by decide, by decide, by decide, by decide, by decide, by decide,
      by decide, by decide, by decide, by decide, by decide⟩
    (by decide) (by decide) wideImage_slots

theorem entriesOf_get (D : Disk) (p : Int) (n i : Nat) (b : Int)
    (hl : LayoutOk (readSuperBlock D))
    (hp : 0 ≤ p ∧ p < (readSuperBlock D).num_inodes ∧ inodeBit D p.toNat = true)
    (hsz : (inodeSlot D p.toNat).size = (n : Int) * 32)
    (hi : i < n) (hn : i * 32 + 32 ≤ 4096)
    (hb : toS32 ((inodeSlot D p.toNat).direct 0) = b) :
    (entriesOf D p)[i]? = some (entryName (D b) i, entryInum (D b) i) := by
  have hs : stat D p = .ok (inodeSlot D p.toNat) :=
    (stat_iff_slot D hl p _).2 ⟨hp.1, hp.2.1, hp.2.2, rfl⟩
  unfold entriesOf
  simp only [hs]
  unfold dirEntries
  rw [hsz]
  have e : ((n : Int) * 32).toNat / SIZEOF_DIR_ENT = n := by
    simp only [SIZEOF_DIR_ENT, DIR_ENT_NAME_SIZE]
    omega
  rw [e, List.getElem?_map, List.getElem?_range hi]
  simp only [Option.map_some']
  have hc : ∀ j, j < i * 32 + 32 → fileBytes D (inodeSlot D p.toNat) j = D b j := by
    intro j hj
    unfold fileBytes
    simp only [UFS_BLOCK_SIZE]
    rw [Nat.div_eq_of_lt (by omega), Nat.mod_eq_of_lt (by omega), hb]
  rw [entryName_congr _ _ i hc, entryInum_congr _ _ i hc]

theorem bitmapOk_of_consistent (d : Disk) (hc : Consistent d) : BitmapOk d :=
  ⟨fun i hi hb k hk hne => (hc.2.1 i hi hb).2.2.1 k hk hne, hc.2.2⟩

theorem entriesOf_ok (d : Disk) (p : Int) (inode : inode_t) (hs : stat d p = .ok inode) :
    entriesOf d p = dirEntries d inode := by
  unfold entriesOf
  simp only [hs]

theorem create_entries (d : Disk) (junk : Bytes) (p type : Int) (name : List Nat)
    (hc : Consistent d) (hty : -2147483648 ≤ type ∧ type < 2147483648) :
    entriesOf (create d junk p type name).2 p =
      if 0 ≤ (create d junk p type name).1 ∧ lookup d junk p name = -ENOTFOUND then
        entriesOf d p ++ [(cstr name, (create d junk p type name).1)]
      else entriesOf d p := by
  by_cases hok : 0 ≤ (create d junk p type name).1
  · obtain ⟨parent, h1, hs, ht, hn⟩ := create_success_parent d junk p type name hok
    have e1 := create_of_directory d junk p type name parent h1 hs ht
    by_cases hf : lookup d junk p name = -ENOTFOUND
    · rw [if_pos ⟨hok, hf⟩]
      rw [if_neg (not_not.2 hf)] at e1
      rw [e1] at hok ⊢
      obtain ⟨k, P2, I, c1, hk0, hk1, h0, h32, hsz1, hsp, ht2, hsz2, hsk, hIt, hold, hnew⟩ :=
        createFresh_success d junk p type name parent hc hs (not_not.1 ht) hty hok
      have hlen : (cstr name).length < 28 := by
        have := cstr_length_le name
        simp only [DIR_ENT_NAME_SIZE] at hn
        omega
      rw [entriesOf_ok _ _ _ hsp, entriesOf_ok _ _ _ hs, c1]
      exact dirEntries_appended d _ junk k name parent P2 hlen (by omega) hk1 h0 h32 hsz2
        hold hnew
    · rw [if_neg (fun h => hf h.2)]
      rw [if_pos hf] at e1
      rw [e1]
      cases hst : stat d (lookup d junk p name) with
      | error e => rfl
      | ok ino => rfl
  · rw [if_neg (fun h => hok h.1), create_error_unchanged d junk p type name (by omega)]

theorem getD_append_entry (es : List (List Nat × Int)) (e : List Nat × Int) (i : Nat)
    (hi : i < (es ++ [e]).length) :
    (i < es.length ∧ (es ++ [e]).getD i ([], 0) = es.getD i ([], 0))
      ∨ (i = es.length ∧ (es ++ [e]).getD i ([], 0) = e) := by
  rw [List.length_append, List.length_singleton] at hi
  by_cases h : i < es.length
  · left
    refine ⟨h, ?_⟩
    rw [List.getD_eq_getElem?_getD, List.getD_eq_getElem?_getD, List.getElem?_append_left h]
  · right
    have e1 : i = es.length := by omega
    refine ⟨e1, ?_⟩
    rw [List.getD_eq_getElem?_getD, e1, List.getElem?_append_right (le_refl _)]
    simp

theorem entry_name_mem (es : List (List Nat × Int)) (i : Nat) (hi : i < es.length) :
    (es.getD i ([], 0)).1 ∈ es.map Prod.fst := by
  rw [List.getD_eq_getElem?_getD, List.getElem?_eq_getElem hi]
  exact List.mem_map_of_mem _ (List.getElem_mem hi)

theorem namesOk_append (es : List (List Nat × Int)) (n : List Nat) (k : Int)
    (hok : NamesOk es) (h1 : 1 ≤ n.length) (h2 : n.length < DIR_ENT_NAME_SIZE)
    (hnew : n ∉ es.map Prod.fst)
    (hdot : [46] ∈ es.map Prod.fst) (hdd : [46, 46] ∈ es.map Prod.fst) :
    NamesOk (es ++ [(n, k)]) := by
  obtain ⟨o1, o2, o3, o4⟩ := hok
  refine ⟨?_, ?_, ?_, ?_⟩
  · intro e he
    rw [List.mem_append, List.mem_singleton] at he
    rcases he with he | he
    · exact o1 e he
    · rw [he]; exact ⟨h1, h2⟩
  · rw [List.map_append, List.map_singleton]
    exact List.Nodup.append o2 (List.nodup_singleton _)
      (by
        intro a ha hb
        rw [List.mem_singleton] at hb
        rw [hb] at ha
        exact hnew ha)
  · intro i hi he
    rcases getD_append_entry es (n, k) i hi with ⟨hlt, e⟩ | ⟨heq, e⟩
    · rw [e] at he
      exact o3 i hlt he
    · rw [e] at he
      simp only at he
      rw [he] at hnew
      exact absurd hdot hnew
  · intro i hi he
    rcases getD_append_entry es (n, k) i hi with ⟨hlt, e⟩ | ⟨heq, e⟩
    · rw [e] at he
      exact o4 i hlt he
    · rw [e] at he
      simp only at he
      rw [he] at hnew
      exact absurd hdd hnew

theorem mem_dirEntries (d : Disk) (inode : inode_t) (e : List Nat × Int) :
    e ∈ dirEntries d inode ↔
      ∃ i, i < inode.size.toNat / SIZEOF_DIR_ENT
        ∧ e = (entryName (fileBytes d inode) i, entryInum (fileBytes d inode) i) := by
  unfold dirEntries
  rw [List.mem_map]
  constructor
  · rintro ⟨i, hi, he⟩
    exact ⟨i, List.mem_range.1 hi, he.symm⟩
  · rintro ⟨i, hi, he⟩
    exact ⟨i, List.mem_range.2 hi, he.symm⟩

theorem cstr_length_pos (name : List Nat) (hne : name ≠ []) (hnul : name.head? ≠ some 0) :
    1 ≤ (cstr name).length := by
  cases name with
  | nil => exact absurd rfl hne
  | cons c rest =>
    have hc : c ≠ 0 := by
      intro h
      apply hnul
      rw [h]
      rfl
    unfold cstr
    rw [List.takeWhile_cons]
    simp [hc]

theorem forLoop_error {ε α : Type} (step : Nat → Except ε α → Except ε α)
    (h : ∀ i e, step i (.error e) = .error e) (n i : Nat) (e : ε) :
    forLoop step n i (.error e) = .error e := by
  induction n generalizing i with
  | zero => rfl
  | succ n ih =>
    show forLoop step n (i + 1) (step i (.error e)) = .error e
    rw [h, ih]

theorem delWalk_eq (d : Disk) (junk : Bytes) (components : List (List Nat)) (n : Nat) :
    ∀ (i : Nat) (cur : Int), i + n ≤ components.length →
      forLoop (delWalkStep d junk components) n i (.ok cur) =
        match resolve d junk cur ((components.drop i).take n) with
        | some k => .ok k
        | none => .error ClientError.notFound := by
  induction n with
  | zero =>
    intro i cur _
    simp [forLoop, resolve]
  | succ n ih =>
    intro i cur hi
    show forLoop (delWalkStep d junk components) n (i + 1)
      (delWalkStep d junk components i (.ok cur)) = _
    have hlt : i < components.length := by omega
    have hdrop : (components.drop i).take (n + 1)
        = components.getD i [] :: (components.drop (i + 1)).take n := by
      rw [List.drop_eq_getElem_cons hlt, List.take_succ_cons, List.getD_eq_getElem _ _ hlt]
    rw [hdrop]
    simp only [delWalkStep, resolve]
    by_cases hneg : lookup d junk cur (components.getD i []) < 0
    · rw [if_pos hneg, if_pos hneg]
      exact forLoop_error _ (fun _ _ => rfl) _ _ _
    · rw [if_neg hneg, if_neg hneg]
      exact ih (i + 1) _ (by omega)

theorem getWalkStep_eq : getWalkStep = delWalkStep := rfl

theorem beginTransaction_view (s : DiskState) : (beginTransaction s).view = s.view := rfl

theorem walkBound_of_ne (components : List (List Nat)) (hn : components ≠ []) :
    walkBound components = components.length - 1 := by
  have hpos : 0 < components.length := List.length_pos.2 hn
  unfold walkBound
  rw [if_neg (by omega)]

theorem walkBound_nil : walkBound [] = 18446744073709551614 + 1 := rfl

theorem delTry_eq (d : Disk) (junk : Bytes) (components : List (List Nat))
    (hn : components ≠ []) :
    delTry d junk components =
      match resolve d junk UFS_ROOT_DIRECTORY_INODE_NUMBER components.dropLast with
      | none => .error (ClientError.notFound, d)
      | some inode =>
        if (unlink d junk inode (components.getLastD [])).1 < 0 then
          .error (if (unlink d junk inode (components.getLastD [])).1 = -EDIRNOTEMPTY then
              ClientError.conflict else ClientError.badRequest,
            (unlink d junk inode (components.getLastD [])).2)
        else .ok (unlink d junk inode (components.getLastD [])).2 := by
  have hpos : 0 < components.length := List.length_pos.2 hn
  unfold delTry
  rw [walkBound_of_ne components hn, delWalk_eq d junk components _ 0 _ (by omega),
    List.drop_zero, ← List.dropLast_eq_take]
  cases resolve d junk UFS_ROOT_DIRECTORY_INODE_NUMBER components.dropLast with
  | none => rfl
  | some k => rfl

theorem del_eq (s : DiskState) (junk : Bytes) (components : List (List Nat)) (body : List Nat) :
    del s junk { pathComponents := ds3 :: components, body := body } =
      match delTry s.view junk components with
      | .ok d =>
        { result := .ok { status := 200, body := [] }
          disk := commit ((beginTransaction s).store d)
          calls := [DiskCall.beginTransaction, DiskCall.commit] }
      | .error e =>
        { result := .error e.1
          disk := rollback ((beginTransaction s).store e.2)
          calls := [DiskCall.beginTransaction, DiskCall.rollback] } := by
  unfold del
  simp only [List.head?_cons, List.tail_cons]
  rw [if_neg (by simp)]
  rfl

theorem forLoop_first {σ : Type} (body : Nat → σ → σ) (n i : Nat) (s : σ) :
    forLoop body (n + 1) i s = forLoop body n (i + 1) (body i s) := rfl

theorem forLoop_add {σ : Type} (body : Nat → σ → σ) (m : Nat) :
    ∀ (n i : Nat) (s : σ),
      forLoop body (n + m) i s = forLoop body m (i + n) (forLoop body n i s) := by
  intro n
  induction n with
  | zero =>
    intro i s
    simp [forLoop]
  | succ n ih =>
    intro i s
    have e : n + 1 + m = (n + m) + 1 := by omega
    rw [e, forLoop_first, forLoop_first, ih]
    have e2 : i + 1 + n = i + (n + 1) := by omega
    rw [e2]

theorem put_eq (s : DiskState) (junk : Bytes) (components : List (List Nat)) (body : List Nat) :
    put s junk { pathComponents := ds3 :: components, body := body } =
      match putTry s.view junk components body with
      | .ok d =>
        { result := .ok { status := 200, body := [] }
          disk := commit ((beginTransaction s).store d)
          calls := [DiskCall.beginTransaction, DiskCall.commit] }
      | .error e =>
        { result := .error e.1
          disk := rollback ((beginTransaction s).store e.2)
          calls := [DiskCall.beginTransaction, DiskCall.rollback] } := by
  unfold put
  simp only [List.head?_cons, List.tail_cons]
  rw [if_neg (by simp)]
  rfl

theorem put_status_of_try (s : DiskState) (junk : Bytes) (components : List (List Nat))
    (body : List Nat) :
    (put s junk { pathComponents := ds3 :: components, body := body }).status =
      match putTry s.view junk components body with
      | .ok _ => 200
      | .error e => e.1 := by
  rw [put_eq]
  cases putTry s.view junk components body with
  | ok d => rfl
  | error e => rfl

theorem putWalk_error (junk : Bytes) (components : List (List Nat)) (n i : Nat)
    (e : Nat × Disk) :
    forLoop (putWalkStep junk components) n i (.error e) = .error e :=
  forLoop_error _ (fun _ _ => rfl) n i e

theorem putWalk_status (junk : Bytes) (components : List (List Nat)) (d : Disk) (n : Nat)
    (e : Nat × Disk)
    (h : forLoop (putWalkStep junk components) n 0 (.ok (UFS_ROOT_DIRECTORY_INODE_NUMBER, d))
      = .error e) :
    e.1 = 400 ∨ e.1 = 409 := by
  have inv := forLoop_inv (putWalkStep junk components)
    (fun _ st => ∀ e, st = .error e → e.1 = 400 ∨ e.1 = 409) n 0
    (.ok (UFS_ROOT_DIRECTORY_INODE_NUMBER, d))
    (by intro e he; cases he)
    (by
      intro k t _ _ ht e he
      cases t with
      | error e0 =>
        have : putWalkStep junk components k (.error e0) = .error e0 := rfl
        rw [this] at he
        exact ht e he
      | ok st =>
        obtain ⟨cur, d1⟩ := st
        simp only [putWalkStep] at he
        by_cases h1 : lookup d1 junk cur (components.getD k []) < 0
        · rw [if_pos h1] at he
          by_cases h2 : (create d1 junk cur UFS_DIRECTORY (components.getD k [])).1 < 0
          · rw [if_pos h2] at he
            injection he with he
            rw [← he]
            exact Or.inl rfl
          · rw [if_neg h2] at he
            cases he
        · rw [if_neg h1] at he
          cases hst : stat d1 (lookup d1 junk cur (components.getD k [])) with
          | error e1 =>
            rw [hst] at he
            simp only at he
            injection he with he
            rw [← he]
            exact Or.inr rfl
          | ok ino =>
            rw [hst] at he
            simp only at he
            by_cases h3 : ino.type ≠ UFS_DIRECTORY
            · rw [if_pos h3] at he
              injection he with he
              rw [← he]
              exact Or.inr rfl
            · rw [if_neg h3] at he
              cases he)
  exact inv e h

theorem putTry_eq (d : Disk) (junk : Bytes) (components : List (List Nat)) (body : List Nat)
    (hn : components ≠ []) :
    putTry d junk components body =
      match forLoop (putWalkStep junk components) (components.length - 1) 0
          (.ok (UFS_ROOT_DIRECTORY_INODE_NUMBER, d)) with
      | .error e => .error e
      | .ok (inodeNumber, d1) =>
        if (create d1 junk inodeNumber UFS_REGULAR_FILE (components.getLastD [])).1 < 0
            ∧ (create d1 junk inodeNumber UFS_REGULAR_FILE (components.getLastD [])).1
              ≠ -EINVALIDTYPE then
          .error (ClientError.badRequest,
            (create d1 junk inodeNumber UFS_REGULAR_FILE (components.getLastD [])).2)
        else if (write (create d1 junk inodeNumber UFS_REGULAR_FILE (components.getLastD [])).2
            junk (create d1 junk inodeNumber UFS_REGULAR_FILE (components.getLastD [])).1
            (bytesOfList body) (toS32 (body.length % 4294967296))).1 < 0 then
          .error (ClientError.insufficientStorage,
            (write (create d1 junk inodeNumber UFS_REGULAR_FILE (components.getLastD [])).2
              junk (create d1 junk inodeNumber UFS_REGULAR_FILE (components.getLastD [])).1
              (bytesOfList body) (toS32 (body.length % 4294967296))).2)
        else
          .ok (write (create d1 junk inodeNumber UFS_REGULAR_FILE (components.getLastD [])).2
            junk (create d1 junk inodeNumber UFS_REGULAR_FILE (components.getLastD [])).1
            (bytesOfList body) (toS32 (body.length % 4294967296))).2 := by
  unfold putTry
  rw [walkBound_of_ne components hn]
  cases forLoop (putWalkStep junk components) (components.length - 1) 0
      (.ok (UFS_ROOT_DIRECTORY_INODE_NUMBER, d)) with
  | error e => rfl
  | ok st => rfl

theorem write_error_of_negative (d : Disk) (junk : Bytes) (i : Int) (buffer : Bytes)
    (size : Int) (hi : i < 0) :
    (write d junk i buffer size).1 < 0 ∧ (write d junk i buffer size).2 = d := by
  have hs : stat d i = .error (-EINVALIDINODE) := by
    unfold stat
    simp only
    rw [if_pos (Or.inl hi)]
  unfold write
  simp only [hs]
  exact ⟨by decide, trivial⟩

theorem write_error_of_size (d : Disk) (junk : Bytes) (i : Int) (buffer : Bytes)
    (size : Int) (hsz : size > MAX_FILE_SIZE) :
    (write d junk i buffer size).1 < 0 := by
  unfold write
  simp only
  cases hs : stat d i with
  | error e =>
    simp only
    rw [stat_error d i e hs]
    decide
  | ok ino =>
    simp only
    rw [if_pos (Or.inr hsz)]
    exact (by decide : (-EINVALIDSIZE : Int) < 0)

theorem lookup_nil_neg (d : Disk) (junk : Bytes) (p : Int) : lookup d junk p [] < 0 := by
  unfold lookup
  cases hs : stat d p with
  | error e =>
    simp only
    rw [stat_error d p e hs]
    decide
  | ok ino =>
    simp only
    by_cases ht : ino.type ≠ UFS_DIRECTORY
    · rw [if_pos ht]; decide
    · rw [if_neg ht, if_pos (Or.inl (by simp))]; decide

theorem getWalk_eq (d : Disk) (junk : Bytes) (components : List (List Nat)) :
    forLoop (getWalkStep d junk components) components.length 0
        (.ok UFS_ROOT_DIRECTORY_INODE_NUMBER) =
      match resolve d junk UFS_ROOT_DIRECTORY_INODE_NUMBER components with
      | some k => .ok k
      | none => .error ClientError.notFound := by
  rw [getWalkStep_eq, delWalk_eq d junk components _ 0 _ (by omega), List.drop_zero,
    List.take_length]

theorem get_eq (d : Disk) (junk : Bytes) (components : List (List Nat)) (body : List Nat) :
    get d junk { pathComponents := ds3 :: components, body := body } =
      match resolve d junk UFS_ROOT_DIRECTORY_INODE_NUMBER components with
      | none => .error ClientError.notFound
      | some inode =>
        if (read d inode junk
            (match stat d inode with
              | .ok i => i
              | .error _ => junkInode junk).size).1 < 0 then .error ClientError.notFound
        else if (match stat d inode with
              | .ok i => i
              | .error _ => junkInode junk).type = UFS_REGULAR_FILE then
          .ok { status := 200
                body := (List.range (read d inode junk
                    (match stat d inode with
                      | .ok i => i
                      | .error _ => junkInode junk).size).1.toNat).map
                  (read d inode junk
                    (match stat d inode with
                      | .ok i => i
                      | .error _ => junkInode junk).size).2 }
        else if (match stat d inode with
              | .ok i => i
              | .error _ => junkInode junk).type = UFS_DIRECTORY then
          .ok { status := 200
                body := (stdSort compareEntries
                  (forLoop (getListStep d junk (read d inode junk
                      (match stat d inode with
                        | .ok i => i
                        | .error _ => junkInode junk).size).2)
                    (toU64 (match stat d inode with
                        | .ok i => i
                        | .error _ => junkInode junk).size / SIZEOF_DIR_ENT) 0 [])).flatMap
                  (fun e => e.1 ++ (if e.2 then [47] else []) ++ [10]) }
        else .error ClientError.badRequest := by
  unfold get
  simp only [List.head?_cons, List.tail_cons]
  rw [if_neg (by simp), getWalk_eq]
  cases resolve d junk UFS_ROOT_DIRECTORY_INODE_NUMBER components with
  | none => rfl
  | some k => rfl

theorem getList_eq (d : Disk) (junk : Bytes) (buffer : Bytes) (n : Nat) :
    forLoop (getListStep d junk buffer) n 0 [] =
      (((List.range n).map (fun i => (entryName buffer i, entryInum buffer i))).filter
          (fun e => decide (e.1 ≠ [46] ∧ e.1 ≠ [46, 46]))).map
        (fun e => (e.1, decide ((match stat d e.2 with
          | .ok inode => inode
          | .error _ => junkInode junk).type = UFS_DIRECTORY))) := by
  induction n with
  | zero => rfl
  | succ n ih =>
    rw [forLoop_succ, ih, Nat.zero_add, List.range_succ, List.map_append, List.filter_append,
      List.map_append]
    simp only [getListStep, List.map_singleton]
    by_cases hname : cstrAt buffer (n * SIZEOF_DIR_ENT) DIR_ENT_NAME_SIZE ≠ [46]
        ∧ cstrAt buffer (n * SIZEOF_DIR_ENT) DIR_ENT_NAME_SIZE ≠ [46, 46]
    · rw [if_pos hname]
      have : List.filter (fun e : List Nat × Int => decide (e.1 ≠ [46] ∧ e.1 ≠ [46, 46]))
          [(entryName buffer n, entryInum buffer n)]
          = [(entryName buffer n, entryInum buffer n)] := by
        rw [List.filter_cons_of_pos]
        · rfl
        · exact decide_eq_true hname
      rw [this]
      rfl
    · rw [if_neg hname]
      have : List.filter (fun e : List Nat × Int => decide (e.1 ≠ [46] ∧ e.1 ≠ [46, 46]))
          [(entryName buffer n, entryInum buffer n)] = [] := by
        rw [List.filter_cons_of_neg]
        · rfl
        · intro h
          exact hname (of_decide_eq_true h)
      rw [this, List.map_nil, List.append_nil]

theorem stdSort_names {β : Type} (comp : (List Nat × β) → (List Nat × β) → Bool)
    (hcomp : ∀ a b, comp a b = decide (a.1 < b.1)) (l : List (List Nat × β)) :
    (stdSort comp l).Perm l ∧ (stdSort comp l).Sorted (fun a b => a.1 ≤ b.1) := by
  unfold stdSort
  refine ⟨List.perm_insertionSort _ l, ?_⟩
  haveI : IsTotal (List Nat × β) (fun a b => comp b a = false) :=
    ⟨by
      intro a b
      simp only [hcomp, decide_eq_false_iff_not, not_lt]
      exact le_total a.1 b.1⟩
  haveI : IsTrans (List Nat × β) (fun a b => comp b a = false) :=
    ⟨by
      intro a b c
      simp only [hcomp, decide_eq_false_iff_not, not_lt]
      exact le_trans⟩
  have h := List.sorted_insertionSort (fun a b : List Nat × β => comp b a = false) l
  refine List.Pairwise.imp ?_ h
  intro a b hab
  simpa only [hcomp, decide_eq_false_iff_not, not_lt] using hab

theorem dirEntries_of_buffer (d : Disk) (inode : inode_t) (buffer : Bytes)
    (hbuf : ∀ j : Nat, (j : Int) < inode.size → buffer j = fileBytes d inode j) :
    (List.range (inode.size.toNat / SIZEOF_DIR_ENT)).map
        (fun i => (entryName buffer i, entryInum buffer i)) = dirEntries d inode := by
  unfold dirEntries
  apply List.map_congr_left
  intro i hi
  rw [List.mem_range] at hi
  simp only [SIZEOF_DIR_ENT, DIR_ENT_NAME_SIZE] at hi
  have hc : ∀ j, j < i * 32 + 32 → buffer j = fileBytes d inode j := by
    intro j hj
    exact hbuf j (by omega)
  rw [entryName_congr _ _ i hc, entryInum_congr _ _ i hc]

theorem dirImage_root : stat dirImage 0 = .ok (inodeSlot dirImage 0) := by
  rw [stat_iff_slot dirImage
    ⟨by decide, by decide, by decide, by decide, by decide, by decide, by decide, by decide,
      by decide, by decide, by decide, by decide, by decide⟩]
  exact ⟨by decide, by decide, by decide, rfl⟩

set_option maxRecDepth 100000 in
theorem dirImage_consistent : Consistent dirImage :=
  ⟨⟨by decide, by decide, by decide, by decide, by decide, by decide, by decide, by decide,
      by decide, by decide, by decide, by decide, by decide⟩, by decide, by decide⟩

theorem rollback_store (s : DiskState) (d : Disk) :
    rollback ((beginTransaction s).store d) = { image := s.image, staged := none } := rfl

theorem commit_store (s : DiskState) (d : Disk) :
    commit ((beginTransaction s).store d) = { image := d, staged := none } := rfl

theorem del_status_of_try (s : DiskState) (junk : Bytes) (components : List (List Nat))
    (body : List Nat) :
    (del s junk { pathComponents := ds3 :: components, body := body }).status =
      match delTry s.view junk components with
      | .ok _ => 200
      | .error e => e.1 := by
  rw [del_eq]
  cases delTry s.view junk components with
  | ok d => rfl
  | error e => rfl

theorem delTry_status (d : Disk) (junk : Bytes) (components : List (List Nat))
    (e : Nat × Disk) (h : delTry d junk components = .error e) :
    e.1 = 400 ∨ e.1 = 404 ∨ e.1 = 409 := by
  unfold delTry at h
  generalize walkBound components = bound at h
  have inv := forLoop_inv (delWalkStep d junk components)
    (fun _ st => ∀ e, st = .error e → e = 404) bound 0
    (.ok UFS_ROOT_DIRECTORY_INODE_NUMBER)
    (by intro e he; cases he)
    (by
      intro k t _ _ ht e he
      cases t with
      | error e0 =>
        have : delWalkStep d junk components k (.error e0) = .error e0 := rfl
        rw [this] at he
        exact ht e he
      | ok cur =>
        simp only [delWalkStep] at he
        by_cases h1 : lookup d junk cur (components.getD k []) < 0
        · rw [if_pos h1] at he
          injection he with he
          exact he.symm
        · rw [if_neg h1] at he
          cases he)
  rw [Nat.zero_add] at inv
  cases hw : forLoop (delWalkStep d junk components) bound 0
      (.ok UFS_ROOT_DIRECTORY_INODE_NUMBER) with
  | error e0 =>
    rw [hw] at h
    simp only [delFinish] at h
    injection h with h
    rw [← h]
    exact Or.inr (Or.inl (inv e0 hw))
  | ok inode =>
    rw [hw] at h
    simp only [delFinish] at h
    by_cases h1 : (unlink d junk inode (components.getLastD [])).1 < 0
    · rw [if_pos h1] at h
      injection h with h
      rw [← h]
      simp only
      split_ifs
      · exact Or.inr (Or.inr rfl)
      · exact Or.inl rfl
    · rw [if_neg h1] at h
      cases h

theorem putTry_status (d : Disk) (junk : Bytes) (components : List (List Nat))
    (body : List Nat) (e : Nat × Disk) (h : putTry d junk components body = .error e) :
    e.1 = 400 ∨ e.1 = 409 ∨ e.1 = 507 := by
  unfold putTry at h
  generalize walkBound components = bound at h
  cases hw : forLoop (putWalkStep junk components) bound 0
      (.ok (UFS_ROOT_DIRECTORY_INODE_NUMBER, d)) with
  | error e0 =>
    rw [hw] at h
    simp only [putFinish] at h
    injection h with h
    rw [← h]
    rcases putWalk_status junk components d bound e0 hw with h2 | h2
    · exact Or.inl h2
    · exact Or.inr (Or.inl h2)
  | ok st =>
    obtain ⟨cur, d1⟩ := st
    rw [hw] at h
    simp only [putFinish] at h
    split_ifs at h
    · injection h with h
      rw [← h]
      exact Or.inl rfl
    · injection h with h
      rw [← h]
      exact Or.inr (Or.inr rfl)

theorem put_atomic (s : DiskState) (junk : Bytes) (request : HTTPRequest) :
    Atomic s (put s junk request) := by
  unfold put
  simp only
  by_cases hp : request.pathComponents = [] ∨ request.pathComponents.head? ≠ some ds3
  · rw [if_pos hp]
    exact Or.inl ⟨rfl, rfl, rfl⟩
  · rw [if_neg hp]
    cases ht : putTry (beginTransaction s).view junk request.pathComponents.tail request.body with
    | ok d => exact Or.inr (Or.inl ⟨rfl, rfl, rfl⟩)
    | error e =>
      refine Or.inr (Or.inr ⟨rfl, ?_, rfl⟩)
      show e.1 ≠ 200
      rcases putTry_status _ _ _ _ e ht with h | h | h <;> omega

theorem del_atomic (s : DiskState) (junk : Bytes) (request : HTTPRequest) :
    Atomic s (del s junk request) := by
  unfold del
  simp only
  by_cases hp : request.pathComponents = [] ∨ request.pathComponents.head? ≠ some ds3
  · rw [if_pos hp]
    exact Or.inl ⟨rfl, rfl, rfl⟩
  · rw [if_neg hp]
    cases ht : delTry (beginTransaction s).view junk request.pathComponents.tail with
    | ok d => exact Or.inr (Or.inl ⟨rfl, rfl, rfl⟩)
    | error e =>
      refine Or.inr (Or.inr ⟨rfl, ?_, rfl⟩)
      show e.1 ≠ 200
      rcases delTry_status _ _ _ e ht with h | h | h <;> omega

theorem putTry_nil (d : Disk) (junk : Bytes) (body : List Nat) :
    putTry d junk [] body = .error (ClientError.badRequest, d) := by
  have hstep : putWalkStep junk [] 0 (.ok (UFS_ROOT_DIRECTORY_INODE_NUMBER, d))
      = .error (ClientError.badRequest, d) := by
    have hc : create d junk UFS_ROOT_DIRECTORY_INODE_NUMBER UFS_DIRECTORY []
        = (-EINVALIDNAME, d) := by
      unfold create
      simp
    simp only [putWalkStep, List.getD_nil]
    rw [if_pos (lookup_nil_neg d junk _), hc, if_pos (by decide : (-EINVALIDNAME : Int) < 0)]
  unfold putTry
  rw [walkBound_nil, forLoop_first, hstep, putWalk_error]
  rfl

theorem delTry_nil (d : Disk) (junk : Bytes) :
    delTry d junk [] = .error (ClientError.notFound, d) := by
  have hstep : delWalkStep d junk [] 0 (.ok UFS_ROOT_DIRECTORY_INODE_NUMBER)
      = .error ClientError.notFound := by
    simp only [delWalkStep, List.getD_nil]
    rw [if_pos (lookup_nil_neg d junk _)]
  unfold delTry
  rw [walkBound_nil, forLoop_first, hstep, forLoop_error _ (fun _ _ => rfl)]
  rfl

theorem lsCollect_eq (buffer : Bytes) (n : Nat) :
    forLoop (lsCollectStep buffer) n 0 [] =
      (List.range n).map (fun i => (entryName buffer i, entryInum buffer i)) := by
  induction n with
  | zero => rfl
  | succ n ih =>
    rw [forLoop_succ, ih, Nat.zero_add, List.range_succ, List.map_append]
    rfl

theorem ls_fold (d : Disk) (junk : Bytes) (fuel : Nat) (path : List Nat)
    (l : List (List Nat × Int)) (hl : ∀ e ∈ l, isAllocated d e.2 = true) :
    ∀ st : inode_t × List Nat,
      (l.foldl
        (fun (st : inode_t × List Nat) e =>
          if (match stat d e.2 with
              | .ok i => i
              | .error _ => st.1).type = UFS_DIRECTORY ∧ e.1 ≠ [46] ∧ e.1 ≠ [46, 46] then
            ((match stat d e.2 with
              | .ok i => i
              | .error _ => st.1),
              st.2 ++ printDirectoryContents fuel d junk e.2 (path ++ e.1 ++ [47]))
          else
            ((match stat d e.2 with
              | .ok i => i
              | .error _ => st.1), st.2)) st).2 =
        st.2 ++ l.flatMap (fun e =>
          if isDirectory d e.2 = true ∧ e.1 ≠ [46] ∧ e.1 ≠ [46, 46] then
            printDirectoryContents fuel d junk e.2 (path ++ e.1 ++ [47])
          else []) := by
  induction l with
  | nil =>
    intro st
    simp
  | cons e rest ih =>
    intro st
    have he := hl e (List.mem_cons_self _ _)
    have hrest : ∀ x ∈ rest, isAllocated d x.2 = true :=
      fun x hx => hl x (List.mem_cons_of_mem _ hx)
    rw [List.foldl_cons, ih hrest, List.flatMap_cons]
    unfold isAllocated at he
    unfold isDirectory
    cases hst : stat d e.2 with
    | error x =>
      rw [hst] at he
      exact absurd he (by simp)
    | ok J =>
      simp only [decide_eq_true_eq]
      by_cases hcond : J.type = UFS_DIRECTORY ∧ e.1 ≠ [46] ∧ e.1 ≠ [46, 46]
      · rw [if_pos hcond, if_pos hcond, List.append_assoc]
      · rw [if_neg hcond, if_neg hcond, List.nil_append]

theorem find_congr_mem {α : Type} (p q : α → Bool) (l : List α) (h : ∀ x ∈ l, p x = q x) :
    l.find? p = l.find? q := by
  induction l with
  | nil => rfl
  | cons a t ih =>
    simp only [List.find?_cons]
    rw [h a (List.mem_cons_self _ _), ih (fun x hx => h x (List.mem_cons_of_mem _ hx))]

theorem inodeScan_find (bm : Bytes) (n : Nat) :
    forLoop (inodeScanStep bm) n 0 (-1) =
      match (List.range n).find? (fun i => decide (bitOf bm i = 0)) with
      | some i => (i : Int)
      | none => -1 := by
  induction n with
  | zero => rfl
  | succ n ih =>
    rw [forLoop_succ, ih, List.range_succ, List.find?_append]
    cases h : (List.range n).find? (fun i => decide (bitOf bm i = 0)) with
    | some i =>
      have : ((i : Nat) : Int) ≠ -1 := by omega
      simp only [inodeScanStep, if_pos this]
      rfl
    | none =>
      simp only [inodeScanStep, List.find?_cons, List.find?_nil, zero_add]
      by_cases hb : bitOf bm n = 0
      · simp [hb]
      · simp [hb]

theorem lowestClear_eq (d : Disk) (hl : LayoutOk (readSuperBlock d)) (n : Nat) :
    lowestClear d n =
      (clearBits (readDataBitmap d (readSuperBlock d)) (readSuperBlock d).num_data.toNat).take
        n := by
  unfold lowestClear clearBits
  congr 1
  apply List.filter_congr
  intro x hx
  have hx2 : (x : Int) < (readSuperBlock d).num_data := by
    have := List.mem_range.1 hx
    omega
  have := dataBit_iff d x hl hx2
  cases hb : dataBit d x with
  | false =>
    rw [hb] at this
    simp only [Bool.false_eq_true, false_iff, not_not] at this
    simp [this]
  | true =>
    rw [hb] at this
    simp only [true_iff] at this
    simp [this]

theorem firstFreeInode_eq (d : Disk) (hl : LayoutOk (readSuperBlock d)) :
    forLoop (inodeScanStep (readInodeBitmap d (readSuperBlock d)))
        (readSuperBlock d).num_inodes.toNat 0 (-1) =
      match firstFreeInode d with
      | some i => (i : Int)
      | none => -1 := by
  rw [inodeScan_find]
  unfold firstFreeInode
  rw [find_congr_mem (fun i => decide (bitOf (readInodeBitmap d (readSuperBlock d)) i = 0))
    (fun i => decide (inodeBit d i = false))]
  intro x hx
  have hx2 : (x : Int) < (readSuperBlock d).num_inodes := by
    have := List.mem_range.1 hx
    omega
  have := inodeBit_iff d x hl hx2
  cases hb : inodeBit d x with
  | false =>
    rw [hb] at this
    simp only [Bool.false_eq_true, false_iff, not_not] at this
    simp [this]
  | true =>
    rw [hb] at this
    simp only [true_iff] at this
    simp [this]

theorem lowestClear_lt (d : Disk) (n i j : Nat) (hij : i < j)
    (hj : j < (lowestClear d n).length) :
    (lowestClear d n).getD i 0 < (lowestClear d n).getD j 0 := by
  have hp : (lowestClear d n).Pairwise (fun a b => a < b) :=
    List.Pairwise.sublist (List.take_sublist _ _)
      (List.Pairwise.sublist (List.filter_sublist _) (List.pairwise_lt_range _))
  rw [List.getD_eq_getElem _ _ (by omega), List.getD_eq_getElem _ _ hj]
  exact List.pairwise_iff_getElem.1 hp i j (by omega) hj hij

theorem writeCommit_staged (d : Disk) (junk : Bytes) (super : super_t) (inode : inode_t)
    (inodeNumber : Int) (buffer : Bytes) (size : Int) (dataBitmap : Bytes)
    (avail : List Nat) :
    (writeCommit d junk super inode inodeNumber buffer size dataBitmap avail).2 =
      writeInodeBlock (writeStaged d junk super inode buffer size dataBitmap avail).1 super
        inodeNumber (writeStaged d junk super inode buffer size dataBitmap avail).2 := rfl

theorem writeCommit_frame (d : Disk) (junk : Bytes) (inode : inode_t) (inodeNumber : Int)
    (buffer : Bytes) (size : Int) (dataBitmap : Bytes) (avail : List Nat)
    (hl : LayoutOk (readSuperBlock d))
    (hi0 : 0 ≤ inodeNumber) (hi1 : inodeNumber < (readSuperBlock d).num_inodes)
    (hs0 : 0 ≤ size)
    (hav : ∀ a ∈ avail, (a : Int) < (readSuperBlock d).num_data) (hnd : avail.Nodup)
    (r : Int × Disk)
    (hr : r = writeCommit d junk (readSuperBlock d) inode inodeNumber buffer size dataBitmap
      avail) :
    ∀ a : Int, (readSuperBlock d).data_region_addr ≤ a →
      (∀ b ∈ avail, a ≠ (b : Int) + (readSuperBlock d).data_region_addr) → r.2 a = d a := by
  obtain ⟨l1, l2, l3, l4, l5, l6, l7, l8, l9, l10, l11, l12, l13⟩ := hl
  simp only [UFS_BLOCK_SIZE, SIZEOF_INODE, DIRECT_PTRS] at l10 l11 l12
  push_cast at l10 l11 l12
  have hrange : ∀ i, i < avail.length → (avail.getD i 0 : Int) < (readSuperBlock d).num_data :=
    fun i hi => hav _ (getD_mem avail i hi)
  have haddr : ∀ i, i < avail.length →
      toS32 (toU32 ((avail.getD i 0 : Int) + (readSuperBlock d).data_region_addr)) =
        (fun i => (avail.getD i 0 : Int) + (readSuperBlock d).data_region_addr) i := by
    intro i hi
    have := hrange i hi
    exact toS32_toU32 _ (by omega) (by omega)
  have hinj : ∀ i j, i < avail.length → j < avail.length →
      (fun i => (avail.getD i 0 : Int) + (readSuperBlock d).data_region_addr) i =
        (fun i => (avail.getD i 0 : Int) + (readSuperBlock d).data_region_addr) j → i = j := by
    intro i j hi hj e
    simp only at e
    exact getD_inj_of_nodup avail hnd i j hi hj (by omega)
  have L := writeLoop_spec (readSuperBlock d) buffer avail d
    (forLoop (releaseStep (readSuperBlock d)) DIRECT_PTRS 0 (dataBitmap, inode)).2
    (forLoop (releaseStep (readSuperBlock d)) DIRECT_PTRS 0 (dataBitmap, inode)).1
    junk size hs0 _ haddr hinj
  simp only at L
  simp only [writeCommit] at hr
  generalize forLoop (writeStep (readSuperBlock d) buffer avail) avail.length 0
    { disk := d
      inode := (forLoop (releaseStep (readSuperBlock d)) DIRECT_PTRS 0 (dataBitmap, inode)).2
      dataBitmap := (forLoop (releaseStep (readSuperBlock d)) DIRECT_PTRS 0 (dataBitmap, inode)).1
      blockBuffer := junk, bytesToWrite := size, bytesWritten := 0 } = st at L hr
  obtain ⟨w1, w2, w3, w4, w5, w6, w7⟩ := L
  simp only [UFS_BLOCK_SIZE, SIZEOF_INODE, DIRECT_PTRS, readBlock] at hr
  norm_num at hr
  intro a ha hne
  funext o
  rw [hr]
  simp only
  rw [writeBlock_apply, if_neg (by omega)]
  unfold writeDataBitmap
  rw [writeBitmap_apply, if_neg (by omega),
    w5 a (fun i hi => hne _ (getD_mem avail i hi))]

theorem stat_congr (d D : Disk) (hl : LayoutOk (readSuperBlock d))
    (hsup : readSuperBlock D = readSuperBlock d) (j : Int)
    (hbit : 0 ≤ j → j < (readSuperBlock d).num_inodes →
      inodeBit D j.toNat = inodeBit d j.toNat)
    (hslot : 0 ≤ j → j < (readSuperBlock d).num_inodes → inodeBit d j.toNat = true →
      inodeSlot D j.toNat = inodeSlot d j.toNat) : stat D j = stat d j := by
  have hlD : LayoutOk (readSuperBlock D) := by rw [hsup]; exact hl
  cases h : stat d j with
  | ok ino =>
    obtain ⟨a, b, c, e⟩ := (stat_iff_slot d hl j ino).1 h
    exact (stat_iff_slot D hlD j ino).2
      ⟨a, by rw [hsup]; exact b, by rw [hbit a b]; exact c, by rw [hslot a b c]; exact e⟩
  | error e =>
    cases h2 : stat D j with
    | error e2 => rw [stat_error _ _ _ h, stat_error _ _ _ h2]
    | ok ino =>
      exfalso
      obtain ⟨a, b, c, -⟩ := (stat_iff_slot D hlD j ino).1 h2
      rw [hsup] at b
      have : stat d j = .ok (inodeSlot d j.toNat) :=
        (stat_iff_slot d hl j _).2 ⟨a, b, by rw [← hbit a b]; exact c, rfl⟩
      rw [h] at this
      cases this

theorem write_layout_frame (d : Disk) (junk : Bytes) (inodeNumber : Int) (buffer : Bytes)
    (size : Int) (hl : LayoutOk (readSuperBlock d))
    (hok : 0 ≤ (write d junk inodeNumber buffer size).1) :
    ∃ (inode : inode_t) (avail : List Nat),
      stat d inodeNumber = .ok inode
      ∧ (∀ a ∈ avail, (a : Int) < (readSuperBlock d).num_data ∧ dataBit d a = false)
      ∧ write d junk inodeNumber buffer size =
          writeCommit d junk (readSuperBlock d) inode inodeNumber buffer size
            (readDataBitmap d (readSuperBlock d)) avail
      ∧ readSuperBlock (write d junk inodeNumber buffer size).2 = readSuperBlock d
      ∧ stat (write d junk inodeNumber buffer size).2 inodeNumber =
          .ok (writtenInode (readSuperBlock d) inode.type size avail)
      ∧ (∀ j, j ≠ inodeNumber → stat (write d junk inodeNumber buffer size).2 j = stat d j)
      ∧ (∀ a, a < (readSuperBlock d).data_bitmap_addr →
          (write d junk inodeNumber buffer size).2 a = d a)
      ∧ (∀ a : Int, (readSuperBlock d).data_region_addr ≤ a →
          (∀ b ∈ avail, a ≠ (b : Int) + (readSuperBlock d).data_region_addr) →
          (write d junk inodeNumber buffer size).2 a = d a) := by
  obtain ⟨inode, avail, hs, htype, hs0, hs1, hav, hlen, hmem, -, hlow, hst, -⟩ :=
    write_success d junk inodeNumber buffer size hl hok
  have hnd : avail.Nodup := by
    rw [hav]
    exact (clearBits_nodup _ _).sublist (List.take_sublist _ _)
  have heq := write_success_eq d junk inodeNumber buffer size inode hs hok
  rw [← hav] at heq
  obtain ⟨hp0, hp1, hpbit, hpslot⟩ := (stat_iff_slot d hl inodeNumber inode).1 hs
  have hslots := writeCommit_slots d junk inode inodeNumber buffer size
    (readDataBitmap d (readSuperBlock d)) avail hl hp0 hp1 hs0 hmem hnd _ heq
  have hframe := writeCommit_frame d junk inode inodeNumber buffer size
    (readDataBitmap d (readSuperBlock d)) avail hl hp0 hp1 hs0 hmem hnd _ heq
  have hl2 := hl
  obtain ⟨l1, l2, l3, l4, l5, l6, l7, l8, l9, l10, l11, l12, l13⟩ := hl2
  simp only [UFS_BLOCK_SIZE, DIRECT_PTRS] at l10 l11
  push_cast at l10 l11
  have hsup := readSuperBlock_congr d _ (hlow 0 (by omega))
  have hclr : ∀ a ∈ avail, (a : Int) < (readSuperBlock d).num_data ∧ dataBit d a = false := by
    intro a ha
    refine ⟨hmem a ha, ?_⟩
    rw [hav] at ha
    have := (clearBits_mem _ _ _).1 (List.mem_of_mem_take ha)
    exact dataBit_of_clear d a hl (hmem a (by rw [hav]; exact ha)) this.2
  refine ⟨inode, avail, hs, hclr, heq, hsup, hst, ?_, hlow, hframe⟩
  intro j hj
  apply stat_congr d _ hl hsup j
  · intro j0 j1
    unfold inodeBit bitmapBit
    simp only [UFS_BLOCK_SIZE]
    rw [hsup, hlow _ (by omega)]
  · intro j0 j1 _
    unfold inodeSlot
    rw [hsup]
    exact hslots j.toNat (by omega) (by omega)

theorem readLoopIndices_lt (fuel : Nat) : ∀ (i : Nat) (b : Int), i ≤ 30 →
    b ≤ 4096 * (30 - (i : Int)) → ∀ k ∈ readLoopIndices fuel i b, k < 30 := by
  induction fuel with
  | zero =>
    intro i b _ _ k hk
    simp [readLoopIndices] at hk
  | succ n ih =>
    intro i b hi hb k hk
    unfold readLoopIndices at hk
    by_cases hpos : b > 0
    · rw [if_pos hpos] at hk
      simp only [UFS_BLOCK_SIZE] at hk
      push_cast at hk
      rcases List.mem_cons.1 hk with h | h
      · omega
      · refine ih (i + 1) _ (by omega) ?_ k h
        push_cast
        rcases le_total b 4096 with h4 | h4
        · rw [min_eq_left h4]; omega
        · rw [min_eq_right h4]; omega
    · rw [if_neg hpos] at hk
      simp at hk

theorem readLoopIndices_fuel (fuel : Nat) : ∀ (extra i : Nat) (b : Int),
    b ≤ 4096 * (fuel : Int) →
    readLoopIndices (fuel + extra) i b = readLoopIndices fuel i b := by
  induction fuel with
  | zero =>
    intro extra i b hb
    cases extra with
    | zero => rfl
    | succ e =>
      rw [Nat.zero_add]
      unfold readLoopIndices
      rw [if_neg (by push_cast at hb; omega)]
  | succ n ih =>
    intro extra i b hb
    have e1 : n + 1 + extra = (n + extra) + 1 := by omega
    rw [e1]
    unfold readLoopIndices
    by_cases hpos : b > 0
    · rw [if_pos hpos, if_pos hpos, ih]
      simp only [UFS_BLOCK_SIZE]
      push_cast at hb ⊢
      rcases le_total b 4096 with h4 | h4
      · rw [min_eq_left h4]; omega
      · rw [min_eq_right h4]; omega
    · rw [if_neg hpos, if_neg hpos]

theorem createCommitIndices_lt (type : Int) (parent : inode_t) (z0 : 0 ≤ parent.size)
    (z1 : parent.size ≤ 122880)
    (h4 : ¬ (Int.tmod parent.size UFS_BLOCK_SIZE = 0
      ∧ parent.size + UFS_BLOCK_SIZE > MAX_FILE_SIZE)) :
    ∀ k ∈ createCommitIndices type parent, 0 ≤ k ∧ k < DIRECT_PTRS := by
  intro k hk
  rw [Int.tmod_eq_emod z0 (by simp)] at h4
  simp only [MAX_FILE_SIZE, DIRECT_PTRS, UFS_BLOCK_SIZE] at h4
  push_cast at h4
  unfold createCommitIndices at hk
  rw [Int.tdiv_eq_ediv z0 (by simp), Int.tmod_eq_emod z0 (by simp)] at hk
  simp only [DIRECT_PTRS, UFS_BLOCK_SIZE] at hk ⊢
  have hidx : 0 ≤ parent.size / ((4096 : Nat) : Int)
      ∧ parent.size / ((4096 : Nat) : Int) < ((30 : Nat) : Int) := by
    push_cast
    omega
  rcases List.mem_append.1 hk with hk | hk
  · rcases List.mem_append.1 hk with hk | hk
    · rcases List.mem_append.1 hk with hk | hk
      · split_ifs at hk
        · rw [List.mem_singleton] at hk
          rw [hk]
          exact hidx
        · exact absurd hk (List.not_mem_nil _)
      · obtain ⟨a, ha, rfl⟩ := List.mem_map.1 hk
        have := List.mem_range.1 ha
        push_cast
        omega
    · split_ifs at hk
      · simp only [List.mem_cons, List.mem_singleton, List.not_mem_nil, or_false,
          or_self] at hk
        rw [hk]
        decide
      · exact absurd hk (List.not_mem_nil _)
  · simp only [List.mem_cons, List.mem_singleton, List.not_mem_nil, or_false,
      or_self] at hk
    rw [hk]
    exact hidx

theorem sizes_of_consistent (d : Disk) (hc : Consistent d) (i : Int) (ino : inode_t)
    (hs : stat d i = .ok ino) : 0 ≤ ino.size ∧ ino.size ≤ MAX_FILE_SIZE :=
  ⟨(inodeOk_of_stat d i ino hc hs).1, (inodeOk_of_stat d i ino hc hs).2.1⟩

theorem create_fresh_chain (d : Disk) (junk junk2 : Bytes) (p type : Int) (name : List Nat)
    (parent : inode_t) (hc : Consistent d) (hs : stat d p = .ok parent)
    (htd : parent.type = UFS_DIRECTORY)
    (hty : -2147483648 ≤ type ∧ type < 2147483648)
    (habs : ∀ i, i < parent.size.toNat / SIZEOF_DIR_ENT →
      entryName (fileBytes d parent) i ≠ cstr name)
    (hok : 0 ≤ (create d junk p type name).1) :
    ∃ (k : Int) (avail : List Nat) (D : Disk) (P2 : inode_t),
      create d junk p type name = (k, D)
      ∧ Consistent D
      ∧ (0 ≤ k ∧ k < (readSuperBlock d).num_inodes ∧ inodeBit d k.toNat = false ∧ k ≠ p)
      ∧ avail = lowestClear d (createBlocks type parent)
      ∧ (avail.length =
            (if type = UFS_DIRECTORY then 1 else 0) + (if parent.size % 4096 = 0 then 1 else 0)
          ∧ (∀ a ∈ avail, (a : Int) < (readSuperBlock d).num_data ∧ dataBit d a = false)
          ∧ avail.Nodup)
      ∧ (0 ≤ parent.size ∧ parent.size % 32 = 0 ∧ parent.size + 32 ≤ 122880)
      ∧ readSuperBlock D = readSuperBlock d
      ∧ (stat D p = .ok P2 ∧ P2.type = UFS_DIRECTORY ∧ P2.size = parent.size + 32)
      ∧ stat D k = .ok (createInode (readSuperBlock d) type avail)
      ∧ lookup D junk2 p name = k
      ∧ (entryName (fileBytes D P2) (parent.size.toNat / 32) = cstr name
          ∧ entryInum (fileBytes D P2) (parent.size.toNat / 32) = k)
      ∧ (∀ x : Nat, (x : Int) < (readSuperBlock d).num_inodes →
          (inodeBit D x = true ↔ x = k.toNat ∨ inodeBit d x = true))
      ∧ (∀ b : Nat, (b : Int) < (readSuperBlock d).num_data →
          (dataBit D b = true ↔ b ∈ avail ∨ dataBit d b = true)) := by
  obtain ⟨parent2, h1, hs2, ht, hn⟩ := create_success_parent d junk p type name hok
  rw [hs] at hs2
  injection hs2 with hs2
  subst hs2
  obtain ⟨i0, i1, -⟩ := inodeOk_of_stat d p parent hc hs
  have hlk := lookup_absent d junk p name parent hs ht hn i0 i1 habs
  have e1 := create_of_directory d junk p type name parent h1 hs ht
  rw [hlk, if_neg (fun h => h rfl)] at e1
  rw [e1] at hok ⊢
  have hcD := createFresh_consistent d junk p type name parent hc hs htd hty hok
  obtain ⟨k, P2, I, c1, hk0, hk1, -, h32, hsz1, hsp, ht2, hsz2, hsk, hIt, hold, hnew⟩ :=
    createFresh_success d junk p type name parent hc hs htd hty hok
  obtain ⟨k2, avail, D, f1, hkp, hav, hsz, hsup, hP, hK, hib, hdb, -, havq, -⟩ :=
    createFresh_frame_scan d junk p type name parent hc hs htd hty hok
  have hkk : k2 = k := by
    rw [f1] at c1
    exact c1
  subst hkk
  have hD : (createFresh d junk (readSuperBlock d) p type name parent).2 = D := by rw [f1]
  rw [hD] at hsp hsk hold hnew hcD
  have hlen : (cstr name).length < 28 := by
    have := cstr_length_le name
    simp only [DIR_ENT_NAME_SIZE] at hn
    omega
  have hnone : (List.range (parent.size.toNat / SIZEOF_DIR_ENT)).find?
      (fun i => entryName (fileBytes d parent) i = cstr name) = none := by
    rw [List.find?_eq_none]
    intro i hi
    rw [List.mem_range] at hi
    simpa using habs i hi
  have hI : I = createInode (readSuperBlock d) type avail := by
    have := ((stat_iff_slot D hcD.1 k2 I).1 hsk).2.2.2
    rw [this, hK]
  have hcb : createBlocks type parent =
      (if type = UFS_DIRECTORY then 1 else 0) + (if parent.size % 4096 = 0 then 1 else 0) := by
    unfold createBlocks
    simp only [UFS_BLOCK_SIZE]
    push_cast
    rfl
  have hent := entry_appended d D junk k2 name parent P2 hlen (by omega) hk1 h32 hold hnew
  refine ⟨k2, avail, D, P2, f1, hcD, hkp, ?_, hav, hsz, hsup, ⟨hsp, ht2.trans htd, hsz2⟩, ?_, ?_,
    ⟨hent.2.1, hent.2.2⟩, hib, hdb⟩
  · rw [lowestClear_eq d hc.1, hcb, ← havq]
  · rw [← hI]; exact hsk
  · exact lookup_appended d D junk junk2 p k2 name parent P2 hn hk0 hk1 i0 h32 hsz1 hsp
      (ht2.trans htd) hsz2 hold hnew hnone

theorem create_unlink_bits (d : Disk) (junk junk2 : Bytes) (p type : Int) (name : List Nat)
    (parent : inode_t) (hc : Consistent d) (hs : stat d p = .ok parent)
    (htd : parent.type = UFS_DIRECTORY)
    (hty : -2147483648 ≤ type ∧ type < 2147483648)
    (habs : ∀ i, i < parent.size.toNat / SIZEOF_DIR_ENT →
      entryName (fileBytes d parent) i ≠ cstr name)
    (hok : 0 ≤ (create d junk p type name).1)
    (hu : (unlink (create d junk p type name).2 junk2 p name).1 = 0) :
    (∀ x : Nat, (x : Int) < (readSuperBlock d).num_inodes →
        inodeBit (unlink (create d junk p type name).2 junk2 p name).2 x = inodeBit d x)
      ∧ (∃ P, stat (unlink (create d junk p type name).2 junk2 p name).2 p = .ok P
          ∧ P.size = parent.size)
      ∧ (∀ b : Nat, (b : Int) < (readSuperBlock d).num_data →
          (dataBit (unlink (create d junk p type name).2 junk2 p name).2 b = true ↔
            (parent.size % 4096 = 0 ∧ b = (lowestClear d (createBlocks type parent)).getD 0 0)
              ∨ dataBit d b = true))
      ∧ (parent.size % 4096 = 0 →
          ((lowestClear d (createBlocks type parent)).getD 0 0 : Int) < (readSuperBlock d).num_data
            ∧ dataBit d ((lowestClear d (createBlocks type parent)).getD 0 0) = false) := by
  obtain ⟨k, avail, D, P2, f1, hcD, ⟨hk0, hk1, hkbit, hkp⟩, hlc, ⟨hlen, hmem, hnd⟩,
    ⟨hz0, hz32, hz1⟩, hsup, ⟨hsp, hP2t, hP2s⟩, hsk, hlk, -, hib, hdb⟩ :=
    create_fresh_chain d junk junk2 p type name parent hc hs htd hty habs hok
  have hD : (create d junk p type name).2 = D := by rw [f1]
  rw [hD] at hu ⊢
  rw [← hlc]
  have hf : lookup D junk2 p name ≠ -ENOTFOUND := by
    rw [hlk]
    intro h
    rw [h] at hk0
    exact absurd hk0 (by decide)
  obtain ⟨parent', inode', hs', -, -, -, hk', -, heq, hpos⟩ :=
    unlink_zero_inv D junk2 p name hf hu
  rw [hsp] at hs'
  injection hs' with hs'
  subst hs'
  rw [hlk, hsk] at hk'
  injection hk' with hk'
  subst hk'
  rw [hlk] at heq
  obtain ⟨-, -, pib, pdb, -, -, pst⟩ := unlinkCommit_post D junk2 p name P2 k _ hcD hsp hsk
    (by omega) hpos _ heq
  rw [hsup] at pib pdb
  have hl := hc.1
  obtain ⟨l1, l2, l3, l4, l5, l6, l7, l8, l9, l10, l11, l12, l13⟩ := hl
  refine ⟨?_, ⟨_, pst hkp, by simp only; omega⟩, ?_, ?_⟩
  · intro x hx
    rw [Bool.eq_iff_iff, pib x hx, hib x hx]
    constructor
    · rintro ⟨h1, h2 | h2⟩
      · exact absurd h2 h1
      · exact h2
    · intro h
      refine ⟨?_, Or.inr h⟩
      intro hxk
      rw [hxk, hkbit] at h
      exact absurd h (by decide)
  · intro b hb
    rw [pdb b hb, hdb b hb]
    have hptr : (∀ j, j < 30 →
        ((createInode (readSuperBlock d) type avail).direct j : Int)
          ≠ (b : Int) + (readSuperBlock d).data_region_addr) ↔
        ¬ (type = UFS_DIRECTORY ∧ b = avail.getD (avail.length - 1) 0) := by
      constructor
      · rintro h ⟨hdir, hb2⟩
        have h0 := h 0 (by omega)
        rw [createInode_direct, if_pos ⟨hdir, rfl⟩] at h0
        have hpos2 : avail.length - 1 < avail.length := by rw [hlen, if_pos hdir]; omega
        rw [(fresh_ptr d _ hc.1 (hmem _ (getD_mem avail _ hpos2)).1).1, ← hb2] at h0
        exact h0 rfl
      · intro h j hj
        rw [createInode_direct]
        by_cases hc2 : type = UFS_DIRECTORY ∧ j = 0
        · rw [if_pos hc2]
          have hpos2 : avail.length - 1 < avail.length := by rw [hlen, if_pos hc2.1]; omega
          rw [(fresh_ptr d _ hc.1 (hmem _ (getD_mem avail _ hpos2)).1).1]
          intro hcon
          exact h ⟨hc2.1, by omega⟩
        · rw [if_neg hc2]
          push_cast
          omega
    rw [hptr]
    by_cases hoff : parent.size % 4096 = 0
    · by_cases hdir : type = UFS_DIRECTORY
      · rw [if_pos hdir, if_pos hoff] at hlen
        have hne : avail.getD 0 0 ≠ avail.getD (avail.length - 1) 0 := by
          intro hcon
          have := getD_inj_of_nodup avail hnd 0 (avail.length - 1) (by omega) (by omega) hcon
          omega
        have hmem2 : b ∈ avail ↔ b = avail.getD 0 0 ∨ b = avail.getD (avail.length - 1) 0 := by
          constructor
          · intro hbm
            obtain ⟨i, hi, rfl⟩ := List.mem_iff_getElem.1 hbm
            rw [← List.getD_eq_getElem _ 0 hi]
            have : i = 0 ∨ i = avail.length - 1 := by omega
            rcases this with h | h
            · left; rw [h]
            · right; rw [h]
          · rintro (h | h)
            · rw [h]; exact getD_mem avail 0 (by omega)
            · rw [h]; exact getD_mem avail _ (by omega)
        have hclr := (hmem _ (getD_mem avail (avail.length - 1) (by omega))).2
        rw [hmem2]
        constructor
        · rintro ⟨(h | h) | h, h2⟩
          · exact Or.inl ⟨hoff, h⟩
          · exact absurd ⟨hdir, h⟩ h2
          · exact Or.inr h
        · rintro (⟨-, h⟩ | h)
          · refine ⟨Or.inl (Or.inl h), ?_⟩
            rintro ⟨-, h3⟩
            exact hne (h.symm.trans h3)
          · refine ⟨Or.inr h, ?_⟩
            rintro ⟨-, h3⟩
            rw [h3, hclr] at h
            exact absurd h (by decide)
      · rw [if_neg hdir, if_pos hoff] at hlen
        have hmem2 : b ∈ avail ↔ b = avail.getD 0 0 := by
          constructor
          · intro hbm
            obtain ⟨i, hi, rfl⟩ := List.mem_iff_getElem.1 hbm
            rw [← List.getD_eq_getElem _ 0 hi]
            have : i = 0 := by omega
            rw [this]
          · intro h
            rw [h]; exact getD_mem avail 0 (by omega)
        rw [hmem2]
        constructor
        · rintro ⟨h | h, -⟩
          · exact Or.inl ⟨hoff, h⟩
          · exact Or.inr h
        · rintro (⟨-, h⟩ | h)
          · exact ⟨Or.inl h, fun h3 => hdir h3.1⟩
          · exact ⟨Or.inr h, fun h3 => hdir h3.1⟩
    · by_cases hdir : type = UFS_DIRECTORY
      · rw [if_pos hdir, if_neg hoff] at hlen
        have hmem2 : b ∈ avail ↔ b = avail.getD (avail.length - 1) 0 := by
          constructor
          · intro hbm
            obtain ⟨i, hi, rfl⟩ := List.mem_iff_getElem.1 hbm
            rw [← List.getD_eq_getElem _ 0 hi]
            have : i = avail.length - 1 := by omega
            rw [this]
          · intro h
            rw [h]; exact getD_mem avail _ (by omega)
        have hclr := (hmem _ (getD_mem avail (avail.length - 1) (by omega))).2
        rw [hmem2]
        constructor
        · rintro ⟨h | h, h2⟩
          · exact absurd ⟨hdir, h⟩ h2
          · exact Or.inr h
        · rintro (⟨h, -⟩ | h)
          · exact absurd h hoff
          · refine ⟨Or.inr h, ?_⟩
            rintro ⟨-, h3⟩
            rw [h3, hclr] at h
            exact absurd h (by decide)
      · rw [if_neg hdir, if_neg hoff] at hlen
        have hnil : avail = [] := List.length_eq_zero.1 (by omega)
        rw [hnil]
        constructor
        · rintro ⟨h | h, -⟩
          · exact absurd h (List.not_mem_nil _)
          · exact Or.inr h
        · rintro (⟨h, -⟩ | h)
          · exact absurd h hoff
          · exact ⟨Or.inr h, fun h3 => hdir h3.1⟩
  · intro hoff
    have hpos2 : 0 < avail.length := by rw [hlen, if_pos hoff]; omega
    exact hmem _ (getD_mem avail 0 hpos2)

theorem unlink_created_ok (d : Disk) (junk junk2 : Bytes) (p type : Int) (name : List Nat)
    (parent : inode_t) (hc : Consistent d) (hs : stat d p = .ok parent)
    (htd : parent.type = UFS_DIRECTORY)
    (hty : -2147483648 ≤ type ∧ type < 2147483648)
    (habs : ∀ i, i < parent.size.toNat / SIZEOF_DIR_ENT →
      entryName (fileBytes d parent) i ≠ cstr name)
    (hok : 0 ≤ (create d junk p type name).1)
    (hnul : ∀ c ∈ name, c ≠ 0) (hlen27 : name.length < 27)
    (hdot : ¬ (name = [46] ∨ name = [46, 46])) :
    (unlink (create d junk p type name).2 junk2 p name).1 = 0 := by
  obtain ⟨k, avail, D, P2, f1, hcD, ⟨hk0, hk1, hkbit, hkp⟩, hlc, ⟨hlen, hmem, hnd⟩,
    ⟨hz0, hz32, hz1⟩, hsup, ⟨hsp, hP2t, hP2s⟩, hsk, hlk, ⟨hen, hei⟩, hib, hdb⟩ :=
    create_fresh_chain d junk junk2 p type name parent hc hs htd hty habs hok
  obtain ⟨-, -, -, -, hn⟩ := create_success_parent d junk p type name hok
  have hD : (create d junk p type name).2 = D := by rw [f1]
  rw [hD]
  have hf : ¬ lookup D junk2 p name = -ENOTFOUND := by
    rw [hlk]
    intro h
    rw [h] at hk0
    exact absurd hk0 (by decide)
  obtain ⟨q1, q2, -, -⟩ := createInode_props (readSuperBlock d) type avail
  have he : ¬ ((createInode (readSuperBlock d) type avail).type = UFS_DIRECTORY
      ∧ toU64 (createInode (readSuperBlock d) type avail).size > 2 * SIZEOF_DIR_ENT) := by
    rintro ⟨-, h⟩
    rw [q2] at h
    split_ifs at h
    · rw [toU64_of_nonneg _ (by decide) (by decide)] at h
      exact absurd h (by decide)
    · rw [toU64_of_nonneg _ (by decide) (by decide)] at h
      exact absurd h (by decide)
  have hlen1 : ¬ (name.length ≤ 0 ∨ name.length ≥ DIR_ENT_NAME_SIZE - 1) := by
    simp only [DIR_ENT_NAME_SIZE] at hn ⊢
    omega
  have heq := unlink_eq_commit D junk2 p name P2 _ hlen1 hdot hsp (by rw [hP2t]; simp) hf
    (by rw [hlk]; exact hsk) he
  rw [hlk] at heq
  obtain ⟨j0, j1, j2, j3, -⟩ := inodeOk_of_stat D p P2 hcD hsp
  simp only [MAX_FILE_SIZE, DIRECT_PTRS, UFS_BLOCK_SIZE] at j1 j3
  push_cast at j1 j3
  have hpos := unlink_scan_finds D name P2 (parent.size.toNat / 32) hnul (by omega)
    (by omega) j1 j3 (by rw [hen, cstr_eq_self name hnul]) (by rw [hei]; exact hk0)
  exact (unlinkCommit_post D junk2 p name P2 k _ hcD hsp hsk (by omega) hpos _ heq).1

theorem brimImage_slots : ∀ i, i < 128 → i ≠ 0 →
    (inodeSlot brimImage i).type = 1 ∧ (inodeSlot brimImage i).size = 0
      ∧ ∀ k, k < 30 → (inodeSlot brimImage i).direct k = 0 := by
  intro i hi h0
  have ha : (readSuperBlock brimImage).inode_region_addr = 3 := by decide
  unfold inodeSlot
  rw [ha]
  apply inodeAt_empty_file
  intro r hr
  have hq : i / (UFS_BLOCK_SIZE / SIZEOF_INODE) < 4 := by
    simp only [UFS_BLOCK_SIZE, SIZEOF_INODE, DIRECT_PTRS]; omega
  have hs : i % (UFS_BLOCK_SIZE / SIZEOF_INODE) < 32 := by
    simp only [UFS_BLOCK_SIZE, SIZEOF_INODE, DIRECT_PTRS]; omega
  have hs0 : i / (UFS_BLOCK_SIZE / SIZEOF_INODE) = 0 → 1 ≤ i % (UFS_BLOCK_SIZE / SIZEOF_INODE) := by
    simp only [UFS_BLOCK_SIZE, SIZEOF_INODE, DIRECT_PTRS]; omega
  generalize i / (UFS_BLOCK_SIZE / SIZEOF_INODE) = q at hq hs0 ⊢
  generalize i % (UFS_BLOCK_SIZE / SIZEOF_INODE) = s at hs hs0 ⊢
  interval_cases q
  · have := hs0 rfl
    show (if 128 * s + r < 128 then _ else if 128 * s + r < 4096 ∧ (128 * s + r) % 128 = 0 then 1 else 0) = _
    rw [if_neg (by omega)]
    by_cases hr0 : r = 0
    · rw [if_pos ⟨by omega, by omega⟩, if_pos hr0]
    · rw [if_neg (by omega), if_neg hr0]
  all_goals
    show (if 128 * s + r < 4096 ∧ (128 * s + r) % 128 = 0 then 1 else 0) = _
    by_cases hr0 : r = 0
    · rw [if_pos ⟨by omega, by omega⟩, if_pos hr0]
    · rw [if_neg (by omega), if_neg hr0]

set_option maxRecDepth 100000 in
theorem brimImage_consistent : Consistent brimImage :=
  emptyFiles_consistent brimImage 128
    ⟨by decide, by decide, by decide, by decide, by decide, by decide, by decide, by decide,
      by decide, by decide, by decide, by decide, by decide⟩
    (by decide) (by decide) brimImage_slots

set_option maxRecDepth 100000 in
theorem brimImage_root : stat brimImage 0 = .ok (inodeSlot brimImage 0) :=
  (stat_eq_ok_iff _ _ _).2 ⟨by decide, by decide, by decide,
    (readInodeRegion_layout brimImage 0 brimImage_consistent.1 (by decide)).symm⟩

set_option maxRecDepth 100000 in
theorem brimImage_absent : ∀ i, i < (inodeSlot brimImage 0).size.toNat / SIZEOF_DIR_ENT →
    entryName (fileBytes brimImage (inodeSlot brimImage 0)) i ≠ cstr [122, 122] := by
  decide

theorem catBlocks_eq (inode : inode_t) (n : Nat) (out : List Nat) :
    forLoop (catBlockStep inode) n 0 out =
      out ++ ((List.range n).filter (fun k => inode.direct k ≠ 0)).flatMap
        (fun k => showUnsigned (inode.direct k) ++ [10]) := by
  induction n with
  | zero => simp [forLoop]
  | succ n ih =>
    rw [forLoop_succ, ih, List.range_succ, List.filter_append, List.flatMap_append]
    unfold catBlockStep
    rw [Nat.zero_add]
    by_cases h : inode.direct n ≠ 0
    · rw [if_pos h]
      simp [h, List.append_assoc]
    · rw [if_neg h]
      simp [h]

theorem cstrAt_eq_cstr (m : Bytes) : ∀ (n off : Nat),
    cstrAt m off n = cstr ((List.range n).map (fun j => m (off + j))) := by
  intro n
  induction n with
  | zero =>
    intro off
    simp [cstrAt, cstr]
  | succ n ih =>
    intro off
    rw [cstrAt, ih (off + 1), List.range_succ_eq_map, List.map_cons, List.map_map]
    unfold cstr
    by_cases h : m off = 0
    · rw [if_pos h]
      simp [List.takeWhile, h]
    · rw [if_neg h]
      simp only [Nat.add_zero, List.takeWhile, h, ne_eq, not_false_eq_true, decide_True]
      congr 2
      apply List.map_congr_left
      intro a _
      simp only [Function.comp, Nat.succ_eq_add_one]
      congr 1
      omega

theorem cstr_append_nul (l : List Nat) : cstr (l ++ [0]) = cstr l := by
  unfold cstr
  induction l with
  | nil => simp [List.takeWhile]
  | cons a t ih =>
    by_cases h : a = 0
    · simp [List.takeWhile, h]
    · simp only [List.cons_append, List.takeWhile, h, ne_eq, not_false_eq_true, decide_True]
      exact congrArg _ ih

theorem ds3cat_main_spec (d : Disk) (junk : Bytes) (inodeNumber : Int) (inode : inode_t)
    (hs : stat d inodeNumber = .ok inode) (h0 : 0 ≤ inode.size)
    (h1 : inode.size ≤ MAX_FILE_SIZE) :
    ds3cat_main d junk inodeNumber =
      (0, [70, 105, 108, 101, 32, 98, 108, 111, 99, 107, 115, 10]
        ++ ((List.range (blocksFor inode.size).toNat).filter
              (fun k => inode.direct k ≠ 0)).flatMap
            (fun k => showUnsigned (inode.direct k) ++ [10])
        ++ [10]
        ++ [70, 105, 108, 101, 32, 100, 97, 116, 97, 10]
        ++ cstr ((List.range inode.size.toNat).map
            (read d inodeNumber junk inode.size).2)) := by
  unfold ds3cat_main
  simp only [hs]
  have hnb : Int.tdiv inode.size UFS_BLOCK_SIZE
      + (if Int.tmod inode.size UFS_BLOCK_SIZE ≠ 0 then 1 else 0) = blocksFor inode.size := by
    rw [Int.tdiv_eq_ediv h0 (by simp), Int.tmod_eq_emod h0 (by simp), ← blocksNeededFor_eq]
    rfl
  rw [hnb, catBlocks_eq]
  have hr : (read d inodeNumber junk inode.size).1 = inode.size := by
    rw [read_ok d inodeNumber junk _ inode hs h0 h1]
    exact min_self _
  rw [if_neg (by rw [hr]; omega)]
  by_cases hpos : inode.size > 0
  · rw [if_pos hpos, cstrAt_eq_cstr, List.range_succ, List.map_append, List.map_singleton]
    have e1 : Function.update (read d inodeNumber junk inode.size).2 inode.size.toNat 0
        (0 + inode.size.toNat) = 0 := by
      rw [Nat.zero_add, Function.update_same]
    have e2 : (List.range inode.size.toNat).map
        (fun j => Function.update (read d inodeNumber junk inode.size).2 inode.size.toNat 0
          (0 + j)) = (List.range inode.size.toNat).map (read d inodeNumber junk inode.size).2 := by
      apply List.map_congr_left
      intro a ha
      rw [Nat.zero_add, Function.update_noteq]
      have := List.mem_range.1 ha
      omega
    rw [e1, e2, cstr_append_nul]
  · rw [if_neg hpos]
    have : inode.size.toNat = 0 := by omega
    rw [this]
    simp [cstr]

/-! ## Properties of the operations -/

/-- C5. On an image with a well-formed layout, `stat(inum)` returns
`EINVALIDINODE` exactly when `inum` is outside `[0, num_inodes)` or bit `inum`
of the inode bitmap is 0, and in every other case it returns the inode record
stored at slot `inum` of the inode region. -/
theorem stat_spec (d : Disk) (inum : Int) (hl : LayoutOk (readSuperBlock d)) :
    (stat d inum = .error (-EINVALIDINODE) ↔
        (inum < 0 ∨ (readSuperBlock d).num_inodes ≤ inum ∨ inodeBit d inum.toNat = false))
      ∧ (¬ (inum < 0 ∨ (readSuperBlock d).num_inodes ≤ inum ∨ inodeBit d inum.toNat = false) →
        stat d inum = .ok (inodeSlot d inum.toNat)) := by
  have key : ∀ h1 : 0 ≤ inum, ∀ h2 : inum < (readSuperBlock d).num_inodes,
      (bitOf (readInodeBitmap d (readSuperBlock d)) inum.toNat = 0 ↔
        inodeBit d inum.toNat = false) := by
    intro h1 h2
    rw [bitOf_eq_zero_iff, readInodeBitmap_layout d _ hl (by omega)]
    rfl
  constructor
  · constructor
    · intro h
      by_contra hc
      push_neg at hc
      obtain ⟨c1, c2, c3⟩ := hc
      have hb : bitOf (readInodeBitmap d (readSuperBlock d)) inum.toNat ≠ 0 := by
        rw [Ne, key c1 c2]; exact c3
      have := (stat_eq_ok_iff d inum _).2 ⟨c1, c2, hb, rfl⟩
      rw [this] at h
      cases h
    · intro h
      unfold stat
      simp only
      split_ifs with h1 h2
      · rfl
      · rfl
      · exfalso
        rcases h with h | h | h
        · omega
        · omega
        · exact h2 ((key (by omega) (by omega)).2 h)
  · intro hc
    push_neg at hc
    obtain ⟨c1, c2, c3⟩ := hc
    have hb : bitOf (readInodeBitmap d (readSuperBlock d)) inum.toNat ≠ 0 := by
      rw [Ne, key c1 c2]; exact c3
    rw [stat_eq_ok_iff]
    exact ⟨c1, c2, hb, (readInodeRegion_layout d _ hl (by omega)).symm⟩

set_option maxRecDepth 100000 in
theorem stat_spec_witness :
    LayoutOk (readSuperBlock mkfsImage) ∧
      ((stat mkfsImage 0 = .error (-EINVALIDINODE) ↔
        ((0 : Int) < 0 ∨ (readSuperBlock mkfsImage).num_inodes ≤ 0
          ∨ inodeBit mkfsImage (0 : Int).toNat = false))
      ∧ (¬ ((0 : Int) < 0 ∨ (readSuperBlock mkfsImage).num_inodes ≤ 0
          ∨ inodeBit mkfsImage (0 : Int).toNat = false) →
        stat mkfsImage 0 = .ok (inodeSlot mkfsImage (0 : Int).toNat))) :=
  ⟨mkfsImage_layout, stat_spec mkfsImage 0 mkfsImage_layout⟩

/-- C7. `read` equals its reference definition on every image and for all
arguments: the size check comes first, then `stat`, and a successful call
returns `min(size, inode.size)` and delivers that many bytes of the
concatenated blocks `direct[0]`, `direct[1]`, ... of the inode, whatever its
type. -/
theorem read_eq_readRef (d : Disk) (inodeNumber : Int) (buffer : Bytes) (size : Int) :
    read d inodeNumber buffer size = readRef d inodeNumber buffer size := by
  unfold read readRef
  split_ifs with h1
  · rfl
  · cases hs : stat d inodeNumber with
    | error e => simp only [stat_error d inodeNumber e hs]
    | ok inode =>
      simp only
      rw [Prod.mk.injEq]
      refine ⟨rfl, funext fun j => ?_⟩
      rw [readLoop_buffer]
      have : min size inode.size ≤ size := min_le_left _ _
      push_neg at h1
      have h2 := h1.2
      simp only [MAX_FILE_SIZE, DIRECT_PTRS, UFS_BLOCK_SIZE] at *
      push_cast at *
      omega

/-- C6, as amended.  For a parent whose size (when it is an allocated inode) lies
in `[0, MAX_FILE_SIZE]`, `lookup` equals the reference definition in which the
name of an entry is compared with the C string held by `name`: the bytes of
`name` before its first NUL byte, hence `name` itself when it holds none. -/
theorem lookup_eq_lookupRefC (d : Disk) (junk : Bytes) (parentInodeNumber : Int)
    (name : List Nat)
    (hsize : ∀ parent, stat d parentInodeNumber = .ok parent →
      0 ≤ parent.size ∧ parent.size ≤ MAX_FILE_SIZE) :
    lookup d junk parentInodeNumber name = lookupRefC d parentInodeNumber name := by
  cases hs : stat d parentInodeNumber with
  | error e =>
    unfold lookup lookupRefC
    simp only [hs, stat_error d parentInodeNumber e hs]
  | ok parent =>
    obtain ⟨h0, h1⟩ := hsize parent hs
    by_cases ht : parent.type ≠ UFS_DIRECTORY
    · unfold lookup lookupRefC
      simp only [hs]
      rw [if_pos ht, if_pos ht]
    · by_cases hn : name.length ≤ 0 ∨ name.length ≥ DIR_ENT_NAME_SIZE
      · unfold lookup lookupRefC
        simp only [hs]
        rw [if_neg ht, if_neg ht, if_pos hn, if_pos (by omega)]
      · rw [lookup_of_directory d junk parentInodeNumber name parent hs ht hn h0 h1]
        unfold lookupRefC
        simp only [hs]
        rw [if_neg ht, if_neg (by omega)]

set_option maxRecDepth 100000 in
/-- C6, counterexample.  In the freshly formatted image the two-byte name made
of a dot and a NUL is the name of no entry of the root, so the reference
definition answers `ENOTFOUND`; `lookup` compares C strings and returns the
inode number 0 of the entry `.`. -/
theorem lookup_ne_lookupRef :
    lookup mkfsImage (fun _ => 0) 0 [46, 0] = 0
      ∧ lookupRef mkfsImage 0 [46, 0] = -ENOTFOUND := by
  constructor <;> decide

set_option maxRecDepth 100000 in
theorem lookup_eq_lookupRefC_witness :
    (∀ parent, stat mkfsImage 0 = .ok parent → 0 ≤ parent.size ∧ parent.size ≤ MAX_FILE_SIZE)
      ∧ lookup mkfsImage (fun _ => 0) 0 [46, 46] = lookupRefC mkfsImage 0 [46, 46] :=
  have h : ∀ parent, stat mkfsImage 0 = .ok parent →
      0 ≤ parent.size ∧ parent.size ≤ MAX_FILE_SIZE := by
    intro parent hp
    have h4 := ((stat_eq_ok_iff _ _ _).1 hp).2.2.2
    subst h4
    decide
  ⟨h, lookup_eq_lookupRefC mkfsImage (fun _ => 0) 0 [46, 46] h⟩

/-- C2. Engine-level atomicity: on every image and for all arguments, a call of
`write`, `create` or `unlink` that returns a negative value leaves the block
store as it was. -/
theorem error_leaves_disk_unchanged (d : Disk) (junk : Bytes) :
    (∀ (inodeNumber : Int) (buffer : Bytes) (size : Int),
        (write d junk inodeNumber buffer size).1 < 0 →
          (write d junk inodeNumber buffer size).2 = d)
      ∧ (∀ (parentInodeNumber type : Int) (name : List Nat),
        (create d junk parentInodeNumber type name).1 < 0 →
          (create d junk parentInodeNumber type name).2 = d)
      ∧ (∀ (parentInodeNumber : Int) (name : List Nat),
        (unlink d junk parentInodeNumber name).1 < 0 →
          (unlink d junk parentInodeNumber name).2 = d) :=
  ⟨fun i b s h => write_error_unchanged d junk i b s h,
    fun p t n h => create_error_unchanged d junk p t n h,
    fun p n h => unlink_error_unchanged d junk p n h⟩

set_option maxRecDepth 100000 in
theorem error_leaves_disk_unchanged_witness :
    ((write mkfsImage (fun _ => 0) 0 (fun _ => 0) 1).1 < 0
        ∧ (write mkfsImage (fun _ => 0) 0 (fun _ => 0) 1).2 = mkfsImage)
      ∧ ((create mkfsImage (fun _ => 0) 0 UFS_REGULAR_FILE [46]).1 < 0
        ∧ (create mkfsImage (fun _ => 0) 0 UFS_REGULAR_FILE [46]).2 = mkfsImage)
      ∧ ((unlink mkfsImage (fun _ => 0) 7 [97]).1 < 0
        ∧ (unlink mkfsImage (fun _ => 0) 7 [97]).2 = mkfsImage) :=
  ⟨⟨by decide, (error_leaves_disk_unchanged mkfsImage (fun _ => 0)).1 0 (fun _ => 0) 1 (by decide)⟩,
    ⟨by decide, (error_leaves_disk_unchanged mkfsImage (fun _ => 0)).2.1 0 UFS_REGULAR_FILE [46]
      (by decide)⟩,
    ⟨by decide, (error_leaves_disk_unchanged mkfsImage (fun _ => 0)).2.2 7 [97] (by decide)⟩⟩

/-- C8. `write` checks its preconditions in the order inode, size, type, on
every image: when `stat` fails the result is `EINVALIDINODE` whatever the size;
otherwise a size outside `[0, MAX_FILE_SIZE]` gives `EINVALIDSIZE` whatever the
type of the inode; otherwise an inode that is not a regular file gives
`EWRITETODIR`. -/
theorem write_precondition_order (d : Disk) (junk : Bytes) (inodeNumber : Int)
    (buffer : Bytes) (size : Int) :
    (∀ e, stat d inodeNumber = .error e →
        (write d junk inodeNumber buffer size).1 = -EINVALIDINODE)
      ∧ (∀ inode, stat d inodeNumber = .ok inode → (size < 0 ∨ size > MAX_FILE_SIZE) →
        (write d junk inodeNumber buffer size).1 = -EINVALIDSIZE)
      ∧ (∀ inode, stat d inodeNumber = .ok inode → ¬ (size < 0 ∨ size > MAX_FILE_SIZE) →
        inode.type ≠ UFS_REGULAR_FILE →
        (write d junk inodeNumber buffer size).1 = -EWRITETODIR) := by
  refine ⟨?_, ?_, ?_⟩
  · intro e hs
    unfold write
    simp only [hs]
    exact stat_error d inodeNumber e hs
  · intro inode hs h1
    unfold write
    simp only [hs]
    rw [if_pos h1]
  · intro inode hs h1 h2
    unfold write
    simp only [hs]
    rw [if_neg h1, if_pos h2]

set_option maxRecDepth 100000 in
theorem write_precondition_order_witness :
    (stat mkfsImage 9 = .error (-EINVALIDINODE)
        ∧ (write mkfsImage (fun _ => 0) 9 (fun _ => 0) (-1)).1 = -EINVALIDINODE)
      ∧ (stat mkfsImage 0 = .ok (inodeSlot mkfsImage 0)
        ∧ (write mkfsImage (fun _ => 0) 0 (fun _ => 0) 122881).1 = -EINVALIDSIZE)
      ∧ (stat mkfsImage 0 = .ok (inodeSlot mkfsImage 0)
        ∧ (write mkfsImage (fun _ => 0) 0 (fun _ => 0) 5).1 = -EWRITETODIR) :=
  have h9 : stat mkfsImage 9 = .error (-EINVALIDINODE) :=
    (stat_eq_error_iff _ _ _).2 (by decide)
  have h0 : stat mkfsImage 0 = .ok (inodeSlot mkfsImage 0) :=
    (stat_eq_ok_iff _ _ _).2 ⟨by decide, by decide, by decide,
      (readInodeRegion_layout mkfsImage 0 mkfsImage_layout (by decide)).symm⟩
  ⟨⟨h9, (write_precondition_order mkfsImage (fun _ => 0) 9 (fun _ => 0) (-1)).1 _ h9⟩,
    ⟨h0, (write_precondition_order mkfsImage (fun _ => 0) 0 (fun _ => 0) 122881).2.1 _ h0
      (by decide)⟩,
    ⟨h0, (write_precondition_order mkfsImage (fun _ => 0) 0 (fun _ => 0) 5).2.2 _ h0
      (by decide) (by decide)⟩⟩

set_option maxRecDepth 100000 in
/-- C4, counterexample.  In the freshly formatted image the root directory is
an allocated directory, the two-byte name made of a dot and a NUL passes the
name checks of `unlink` and is the name of neither entry of the root; yet
`unlink` returns `-ENOTFOUND` and not 0, because `lookup` compares C strings
and finds the entry `.`, which the scan of `unlink` then fails to match. -/
theorem unlink_missing_nul_name :
    stat mkfsImage 0 = .ok (inodeSlot mkfsImage 0)
      ∧ (inodeSlot mkfsImage 0).type = UFS_DIRECTORY
      ∧ (∀ i, i < (inodeSlot mkfsImage 0).size.toNat / SIZEOF_DIR_ENT →
          entryName (fileBytes mkfsImage (inodeSlot mkfsImage 0)) i ≠ [46, 0])
      ∧ (unlink mkfsImage (fun _ => 0) 0 [46, 0]).1 = -ENOTFOUND :=
  ⟨mkfsImage_root, by decide, by decide, by decide⟩

/-- C4, as amended.  For an allocated directory `p` whose size lies in
`[0, MAX_FILE_SIZE]` and a name other than `.` and `..` that passes the length
check of `unlink`: if no entry of `p` has the C string held by the name (the
bytes of the name before its first NUL byte, the name itself when it holds
none), then `unlink` returns 0 and leaves the block store unchanged. -/
theorem unlink_missing_name (d : Disk) (junk : Bytes) (parentInodeNumber : Int)
    (name : List Nat) (parent : inode_t) (hs : stat d parentInodeNumber = .ok parent)
    (ht : parent.type = UFS_DIRECTORY) (h0 : 0 ≤ parent.size)
    (h1 : parent.size ≤ MAX_FILE_SIZE)
    (hlen : ¬ (name.length ≤ 0 ∨ name.length ≥ DIR_ENT_NAME_SIZE - 1))
    (hdot : ¬ (name = [46] ∨ name = [46, 46]))
    (hmiss : ∀ i, i < parent.size.toNat / SIZEOF_DIR_ENT →
      entryName (fileBytes d parent) i ≠ cstr name) :
    unlink d junk parentInodeNumber name = (0, d) := by
  have hl : lookup d junk parentInodeNumber name = -ENOTFOUND := by
    rw [lookup_of_directory d junk parentInodeNumber name parent hs (by simp [ht])
      (by simp only [DIR_ENT_NAME_SIZE] at hlen ⊢; omega) h0 h1]
    have : (List.range (parent.size.toNat / SIZEOF_DIR_ENT)).find?
        (fun i => decide (entryName (fileBytes d parent) i = cstr name)) = none := by
      rw [List.find?_eq_none]
      intro i hi
      rw [List.mem_range] at hi
      simpa using hmiss i hi
    rw [this]
  unfold unlink
  rw [if_neg hlen, if_neg hdot]
  simp only [hs]
  rw [if_neg (by simp [ht]), if_pos hl]

set_option maxRecDepth 100000 in
theorem unlink_missing_name_witness :
    unlink mkfsImage (fun _ => 0) 0 [97] = (0, mkfsImage) :=
  unlink_missing_name mkfsImage (fun _ => 0) 0 [97] (inodeSlot mkfsImage 0) mkfsImage_root
    (by decide) (by decide) (by decide) (by decide) (by decide) (by decide)

/-- C1. Write/read round trip: on a consistent image, after a successful
`write(i, b, s)` the call `read(i, out, MAX_FILE_SIZE)` on the resulting image
returns `s` and the first `s` bytes of `out` are those of `b`. -/
theorem write_read_round_trip (d : Disk) (junk : Bytes) (inodeNumber : Int)
    (buffer out : Bytes) (size : Int) (hc : Consistent d)
    (hok : 0 ≤ (write d junk inodeNumber buffer size).1) :
    (read (write d junk inodeNumber buffer size).2 inodeNumber out MAX_FILE_SIZE).1 = size
      ∧ ∀ j : Nat, (j : Int) < size →
        (read (write d junk inodeNumber buffer size).2 inodeNumber out MAX_FILE_SIZE).2 j
          = buffer j := by
  obtain ⟨inode, avail, _, _, hs0, hs1, _, hlen, hmem, _, _, w3, w4⟩ :=
    write_success d junk inodeNumber buffer size hc.1 hok
  rw [read_ok _ _ _ _ _ w3 (by simp) (le_refl _)]
  have hmin : min (MAX_FILE_SIZE : Int)
      (writtenInode (readSuperBlock d) inode.type size avail).size = size := by
    unfold writtenInode
    simp only
    exact min_eq_right hs1
  rw [hmin]
  refine ⟨rfl, ?_⟩
  intro j hj
  simp only
  rw [if_pos hj]
  unfold fileBytes writtenInode
  simp only [UFS_BLOCK_SIZE]
  have hbf : blocksFor size = (size + 4095) / 4096 := by
    unfold blocksFor
    simp only [UFS_BLOCK_SIZE]
    push_cast
    rfl
  have hk2 : j / 4096 < avail.length := by omega
  rw [if_pos hk2]
  have h1 := hmem _ (getD_mem avail _ hk2)
  obtain ⟨l1, l2, l3, l4, l5, l6, l7, l8, l9, l10, l11, l12, l13⟩ := hc.1
  rw [toS32_toU32 _ (by omega) (by omega), w4 (j / 4096) (j % 4096) hk2 (by omega) (by omega)]
  refine congrArg _ ?_
  omega

set_option maxRecDepth 100000 in
theorem write_read_round_trip_witness :
    Consistent fileImage
      ∧ 0 ≤ (write fileImage (fun _ => 0) 1 (bytesOfList [104, 105]) 2).1
      ∧ ((read (write fileImage (fun _ => 0) 1 (bytesOfList [104, 105]) 2).2 1 (fun _ => 0)
            MAX_FILE_SIZE).1 = 2
        ∧ ∀ j : Nat, (j : Int) < 2 →
          (read (write fileImage (fun _ => 0) 1 (bytesOfList [104, 105]) 2).2 1 (fun _ => 0)
            MAX_FILE_SIZE).2 j = bytesOfList [104, 105] j) :=
  ⟨fileImage_consistent, by decide,
    write_read_round_trip fileImage (fun _ => 0) 1 (bytesOfList [104, 105]) (fun _ => 0) 2
      fileImage_consistent (by decide)⟩

/-- C10. On a consistent image a successful `write(i, buf, s)` returns exactly
`s`, and afterwards `stat(i)` reports the size `s`, a non-zero `direct[k]` for
every `k < ceil(s / UFS_BLOCK_SIZE)` and `direct[k] = 0` for every other `k`. -/
theorem write_size_and_blocks (d : Disk) (junk : Bytes) (inodeNumber : Int) (buffer : Bytes)
    (size : Int) (hc : Consistent d) (hok : 0 ≤ (write d junk inodeNumber buffer size).1) :
    (write d junk inodeNumber buffer size).1 = size
      ∧ ∃ inode, stat (write d junk inodeNumber buffer size).2 inodeNumber = .ok inode
        ∧ inode.size = size
        ∧ ∀ k : Nat, ((k : Int) < blocksFor size → inode.direct k ≠ 0)
          ∧ (blocksFor size ≤ (k : Int) → inode.direct k = 0) := by
  obtain ⟨inode, avail, _, _, _, _, _, hlen, hmem, w1, _, w3, _⟩ :=
    write_success d junk inodeNumber buffer size hc.1 hok
  refine ⟨w1, _, w3, rfl, ?_⟩
  intro k
  unfold writtenInode
  simp only
  constructor
  · intro hk
    have hk2 : k < avail.length := by omega
    rw [if_pos hk2]
    have h1 := hmem _ (getD_mem avail k hk2)
    obtain ⟨l1, l2, l3, l4, l5, l6, l7, l8, l9, l10, l11, l12, l13⟩ := hc.1
    unfold toU32
    omega
  · intro hk
    rw [if_neg (by omega)]

set_option maxRecDepth 100000 in
theorem write_size_and_blocks_witness :
    Consistent fileImage
      ∧ 0 ≤ (write fileImage (fun _ => 0) 1 (bytesOfList [104, 105]) 2).1
      ∧ ((write fileImage (fun _ => 0) 1 (bytesOfList [104, 105]) 2).1 = 2
        ∧ ∃ inode, stat (write fileImage (fun _ => 0) 1 (bytesOfList [104, 105]) 2).2 1
            = .ok inode
          ∧ inode.size = 2
          ∧ ∀ k : Nat, ((k : Int) < blocksFor 2 → inode.direct k ≠ 0)
            ∧ (blocksFor 2 ≤ (k : Int) → inode.direct k = 0)) :=
  ⟨fileImage_consistent, by decide,
    write_size_and_blocks fileImage (fun _ => 0) 1 (bytesOfList [104, 105]) 2
      fileImage_consistent (by decide)⟩


set_option maxRecDepth 100000 in
/-- C9, counterexample.  The image `fullImage` is consistent, its inode 1 is a
regular file that holds one block, and the data bitmap has no clear bit.
Overwriting the file with five bytes, one block again, returns
`ENOTENOUGHSPACE`, although the clear bits and the block the file holds
together cover the block that is needed. -/
theorem write_enospc_ignores_held_blocks :
    Consistent fullImage
      ∧ stat fullImage 1 = .ok (inodeSlot fullImage 1)
      ∧ (inodeSlot fullImage 1).type = UFS_REGULAR_FILE
      ∧ (write fullImage (fun _ => 0) 1 (bytesOfList [119, 111, 114, 108, 100]) 5).1
          = -ENOTENOUGHSPACE
      ∧ ¬ (((freeDataBlocks fullImage + heldBlocks (inodeSlot fullImage 1) : Nat) : Int)
          < blocksFor 5) :=
  ⟨fullImage_consistent, fullImage_file, by decide, by decide, by decide⟩

/-- C9, as amended.  On a consistent image, for an allocated regular-file inode
and a size in `[0, MAX_FILE_SIZE]`, `write` returns `ENOTENOUGHSPACE` exactly
when the number of clear data-bitmap bits is smaller than
`ceil(size / UFS_BLOCK_SIZE)`: the scan for free blocks precedes the release of
the blocks the file holds, which are therefore not counted. -/
theorem write_enospc_iff (d : Disk) (junk : Bytes) (inodeNumber : Int) (buffer : Bytes)
    (size : Int) (inode : inode_t) (hc : Consistent d) (hs : stat d inodeNumber = .ok inode)
    (ht : inode.type = UFS_REGULAR_FILE) (h0 : 0 ≤ size) (h1 : size ≤ MAX_FILE_SIZE) :
    (write d junk inodeNumber buffer size).1 = -ENOTENOUGHSPACE ↔
      (freeDataBlocks d : Int) < blocksFor size := by
  rw [write_of_ok d junk inodeNumber buffer size inode hs (by push_neg; exact ⟨h0, h1⟩)
    (by simp [ht])]
  have hfree : (clearBits (readDataBitmap d (readSuperBlock d))
      (readSuperBlock d).num_data.toNat).length = freeDataBlocks d := by
    rw [clearBits_readDataBitmap d hc.1]
    rfl
  rw [hfree]
  by_cases hlt : (freeDataBlocks d : Int) < blocksFor size
  · rw [if_pos hlt]
    exact ⟨fun _ => hlt, fun _ => rfl⟩
  · rw [if_neg hlt]
    constructor
    · intro h
      exfalso
      have := writeCommit_nonneg d junk (readSuperBlock d) inode inodeNumber buffer size
        (readDataBitmap d (readSuperBlock d))
        ((clearBits (readDataBitmap d (readSuperBlock d))
          (readSuperBlock d).num_data.toNat).take (blocksFor size).toNat) h0
      rw [h] at this
      simp [ENOTENOUGHSPACE] at this
    · intro h
      exact absurd h hlt

set_option maxRecDepth 100000 in
theorem write_enospc_iff_witness :
    Consistent fileImage
      ∧ stat fileImage 1 = .ok (inodeSlot fileImage 1)
      ∧ (inodeSlot fileImage 1).type = UFS_REGULAR_FILE
      ∧ ((write fileImage (fun _ => 0) 1 (fun _ => 0) 122880).1 = -ENOTENOUGHSPACE ↔
        (freeDataBlocks fileImage : Int) < blocksFor 122880) :=
  ⟨fileImage_consistent, fileImage_file, by decide,
    write_enospc_iff fileImage (fun _ => 0) 1 (fun _ => 0) 122880 (inodeSlot fileImage 1)
      fileImage_consistent fileImage_file (by decide) (by decide) (by decide)⟩

set_option maxRecDepth 100000 in
/-- C3, counterexample: the root directory of `ghostImage`, a consistent image,
holds an entry named `a` whose inode number is `-7`, the value of `-ENOTFOUND`.
The first `create(0, UFS_REGULAR_FILE, "a")` succeeds with inode 1; the second
one on the resulting image does not return 1. -/
theorem create_twice_on_stale_entry :
    Consistent ghostImage
      ∧ (create ghostImage (fun _ => 0) 0 UFS_REGULAR_FILE [97]).1 = 1
      ∧ (create (create ghostImage (fun _ => 0) 0 UFS_REGULAR_FILE [97]).2 (fun _ => 0) 0
          UFS_REGULAR_FILE [97]).1 ≠ 1 := by
  have hc1 : (create ghostImage (fun _ => 0) 0 UFS_REGULAR_FILE [97]).1 = 1 := by decide
  refine ⟨ghostImage_consistent, hc1, ?_⟩
  have hs := ghostImage_root
  have h1 : ¬ (([97] : List Nat).length > DIR_ENT_NAME_SIZE ∨ ([97] : List Nat).length = 0) := by
    decide
  have hn : ¬ (([97] : List Nat).length ≤ 0 ∨ ([97] : List Nat).length ≥ DIR_ENT_NAME_SIZE) := by
    decide
  have ht : ¬ (inodeSlot ghostImage 0).type ≠ UFS_DIRECTORY := by decide
  have hsize : (inodeSlot ghostImage 0).size = 96 := by decide
  have hlk : ¬ lookup ghostImage (fun _ => 0) 0 [97] ≠ -ENOTFOUND := by decide
  have e1 := create_of_directory ghostImage (fun _ => 0) 0 UFS_REGULAR_FILE [97] _ h1 hs ht
  rw [if_neg hlk] at e1
  rw [e1] at hc1 ⊢
  obtain ⟨k, P2, I, c1, hk0, hk1, -, h32, hsz1, hs2, ht2, hsz2, hsk, hIt, hold, hnew⟩ :=
    createFresh_success ghostImage (fun _ => 0) 0 UFS_REGULAR_FILE [97] _ ghostImage_consistent
      hs (not_not.1 ht) (by decide) (by rw [hc1]; decide)
  have hk : k = 1 := c1.symm.trans hc1
  subst hk
  rw [hsize] at hsz2 hold
  have hlk2 : lookup (createFresh ghostImage (fun _ => 0) (readSuperBlock ghostImage) 0
      UFS_REGULAR_FILE [97] (inodeSlot ghostImage 0)).2 (fun _ => 0) 0 [97] = -ENOTFOUND := by
    rw [lookup_of_directory _ (fun _ => 0) 0 [97] P2 hs2 (by rw [ht2]; exact ht) hn
      (by omega) (by simp only [MAX_FILE_SIZE, DIRECT_PTRS, UFS_BLOCK_SIZE]; omega)]
    have hN : 2 < P2.size.toNat / SIZEOF_DIR_ENT := by
      rw [hsz2]
      decide
    rw [find?_range_hit _ 2 (by
        intro i hi
        rw [entryName_congr _ (fileBytes ghostImage (inodeSlot ghostImage 0)) i
          (fun j hj => hold j (by omega))]
        interval_cases i <;> decide) (by
        rw [entryName_congr _ (fileBytes ghostImage (inodeSlot ghostImage 0)) 2
          (fun j hj => hold j (by omega))]
        decide) _ hN]
    show entryInum _ 2 = -ENOTFOUND
    rw [entryInum_congr _ (fileBytes ghostImage (inodeSlot ghostImage 0)) 2
      (fun j hj => hold j (by omega))]
    decide
  rw [create_of_directory _ (fun _ => 0) 0 UFS_REGULAR_FILE [97] P2 h1 hs2
    (by rw [ht2]; exact ht), if_neg (by rw [hlk2]; exact fun h => h rfl)]
  exact createFresh_ne_allocated _ _ _ _ _ _ _ 1 (by decide)
    ((stat_eq_ok_iff _ _ _).1 hsk).2.2.1

/-- C3, as amended: on a consistent image in which no entry of the directory
`p` named `n` holds the inode number `-ENOTFOUND`, and for a type that is an
`int`, if `create(p, t, n)` succeeds then a second `create(p, t, n)` on the
resulting image returns the same inode number and leaves the block store
unchanged. -/
theorem create_idempotent (d : Disk) (junk junk2 : Bytes) (p type : Int) (name : List Nat)
    (hc : Consistent d) (hty : -2147483648 ≤ type ∧ type < 2147483648)
    (hent : ∀ parent, stat d p = .ok parent →
      ∀ i, i < parent.size.toNat / SIZEOF_DIR_ENT →
        entryName (fileBytes d parent) i = cstr name →
        entryInum (fileBytes d parent) i ≠ -ENOTFOUND)
    (hok : 0 ≤ (create d junk p type name).1) :
    create (create d junk p type name).2 junk2 p type name = create d junk p type name := by
  obtain ⟨parent, h1, hs, ht, hn⟩ := create_success_parent d junk p type name hok
  obtain ⟨i0, i1, -⟩ := inodeOk_of_stat d p parent hc hs
  have hL := lookup_of_directory d junk p name parent hs ht hn i0 i1
  have hL2 := lookup_of_directory d junk2 p name parent hs ht hn i0 i1
  have e1 := create_of_directory d junk p type name parent h1 hs ht
  have e2 := create_of_directory d junk2 p type name parent h1 hs ht
  rw [hL2, ← hL] at e2
  by_cases hf : lookup d junk p name ≠ -ENOTFOUND
  · rw [if_pos hf] at e1 e2
    have h2 : (create d junk p type name).2 = d := by
      rw [e1]
      cases stat d (lookup d junk p name) <;> rfl
    rw [h2, e1, e2]
  · rw [if_neg hf] at e1
    rw [e1] at hok ⊢
    have hf2 : lookup d junk p name = -ENOTFOUND := not_not.1 hf
    obtain ⟨k, P2, I, c1, hk0, hk1, -, h32, hsz1, hs2, ht2, hsz2, hsk, hIt, hold, hnew⟩ :=
      createFresh_success d junk p type name parent hc hs (not_not.1 ht) hty hok
    have hnone : (List.range (parent.size.toNat / SIZEOF_DIR_ENT)).find?
          (fun i => entryName (fileBytes d parent) i = cstr name) = none := by
      cases hfind : (List.range (parent.size.toNat / SIZEOF_DIR_ENT)).find?
          (fun i => entryName (fileBytes d parent) i = cstr name) with
      | none => rfl
      | some i =>
        exfalso
        rw [hfind] at hL
        have hq := List.find?_some hfind
        have hi := List.mem_range.1 (List.mem_of_find?_eq_some hfind)
        rw [decide_eq_true_eq] at hq
        exact hent parent hs i hi hq (hL.symm.trans hf2)
    have hlk := lookup_appended d _ junk junk2 p k name parent P2 hn hk0 hk1 i0 h32 hsz1 hs2
      (ht2.trans (not_not.1 ht)) hsz2 hold hnew hnone
    rw [create_of_directory _ junk2 p type name P2 h1 hs2 (by rw [ht2]; exact ht), hlk,
      if_pos (by simp only [ENOTFOUND]; omega)]
    simp only [hsk]
    rw [if_pos hIt, ← c1]

set_option maxRecDepth 100000 in
theorem create_idempotent_witness :
    Consistent mkfsImage
      ∧ 0 ≤ (create mkfsImage (fun _ => 0) 0 UFS_REGULAR_FILE [97]).1
      ∧ create (create mkfsImage (fun _ => 0) 0 UFS_REGULAR_FILE [97]).2 (fun _ => 1) 0
          UFS_REGULAR_FILE [97] = create mkfsImage (fun _ => 0) 0 UFS_REGULAR_FILE [97] :=
  ⟨mkfsImage_consistent, by decide,
    create_idempotent mkfsImage (fun _ => 0) (fun _ => 1) 0 UFS_REGULAR_FILE [97]
      mkfsImage_consistent (by decide) (mkfsImage_entries [97]) (by decide)⟩

/-- C14. If `lookup(p, n)` returns an allocated inode number whose type is not
`t`, then `create(p, t, n)` returns `-EINVALIDTYPE` and leaves the disk as it
was, so that `stat` of that inode still yields the same type, size and direct
pointers. -/
theorem create_wrong_type (d : Disk) (junk : Bytes) (p type : Int) (name : List Nat)
    (inode : inode_t) (hs : stat d (lookup d junk p name) = .ok inode)
    (ht : inode.type ≠ type) :
    create d junk p type name = (-EINVALIDTYPE, d)
      ∧ stat (create d junk p type name).2 (lookup d junk p name) = .ok inode := by
  obtain ⟨parent, hp, hdir, hn⟩ := lookup_ok_parent d junk p name inode hs
  have h0 := stat_ok_nonneg _ _ _ hs
  have h1 : ¬ (name.length > DIR_ENT_NAME_SIZE ∨ name.length = 0) := by
    intro h
    apply hn
    rcases h with h | h
    · exact Or.inr (by omega)
    · exact Or.inl (by omega)
  have e : create d junk p type name = (-EINVALIDTYPE, d) := by
    rw [create_of_directory d junk p type name parent h1 hp hdir,
      if_pos (by simp only [ENOTFOUND]; omega)]
    simp only [hs]
    rw [if_neg ht]
  rw [e]
  exact ⟨rfl, hs⟩

set_option maxRecDepth 100000 in
theorem create_wrong_type_witness :
    stat fileImage (lookup fileImage (fun _ => 0) 0 [97]) = .ok (inodeSlot fileImage 1)
      ∧ (inodeSlot fileImage 1).type ≠ UFS_DIRECTORY
      ∧ create fileImage (fun _ => 0) 0 UFS_DIRECTORY [97] = (-EINVALIDTYPE, fileImage)
      ∧ stat (create fileImage (fun _ => 0) 0 UFS_DIRECTORY [97]).2
          (lookup fileImage (fun _ => 0) 0 [97]) = .ok (inodeSlot fileImage 1) :=
  have hl : lookup fileImage (fun _ => 0) 0 [97] = 1 := by decide
  have hs : stat fileImage (lookup fileImage (fun _ => 0) 0 [97]) = .ok (inodeSlot fileImage 1) := by
    rw [hl]; exact fileImage_file
  ⟨hs, by decide,
    create_wrong_type fileImage (fun _ => 0) 0 UFS_DIRECTORY [97] (inodeSlot fileImage 1) hs
      (by decide)⟩

/-- C17. For every image and every `p`, `unlink(p, ".")` and `unlink(p, "..")`
return `-EUNLINKNOTALLOWED`; for every other name that passes the length check
of `unlink`, the call returns `-EINVALIDINODE` when `stat(p)` fails (`p` is not
an allocated inode) and `-EINVALIDTYPE` when `p` is allocated and not a
directory.  In each case the disk is left as it was. -/
theorem unlink_precondition_order (d : Disk) (junk : Bytes) (p : Int) :
    unlink d junk p [46] = (-EUNLINKNOTALLOWED, d)
      ∧ unlink d junk p [46, 46] = (-EUNLINKNOTALLOWED, d)
      ∧ (∀ name : List Nat, ¬ (name.length ≤ 0 ∨ name.length ≥ DIR_ENT_NAME_SIZE - 1) →
          name ≠ [46] → name ≠ [46, 46] →
          (∀ e, stat d p = .error e → unlink d junk p name = (-EINVALIDINODE, d))
            ∧ (∀ parent, stat d p = .ok parent → parent.type ≠ UFS_DIRECTORY →
                unlink d junk p name = (-EINVALIDTYPE, d))) := by
  refine ⟨rfl, rfl, ?_⟩
  intro name hlen h1 h2
  have hdot : ¬ (name = [46] ∨ name = [46, 46]) := fun h => h.elim h1 h2
  constructor
  · intro e he
    unfold unlink
    rw [if_neg hlen, if_neg hdot]
    simp only [he]
  · intro parent hp ht
    unfold unlink
    rw [if_neg hlen, if_neg hdot]
    simp only [hp]
    rw [if_pos ht]

set_option maxRecDepth 100000 in
theorem unlink_precondition_order_witness :
    stat mkfsImage 9 = .error (-EINVALIDINODE)
      ∧ unlink mkfsImage (fun _ => 0) 9 [97] = (-EINVALIDINODE, mkfsImage)
      ∧ stat fileImage 1 = .ok (inodeSlot fileImage 1)
      ∧ (inodeSlot fileImage 1).type ≠ UFS_DIRECTORY
      ∧ unlink fileImage (fun _ => 0) 1 [97] = (-EINVALIDTYPE, fileImage) :=
  have h9 : stat mkfsImage 9 = .error (-EINVALIDINODE) := by
    rw [stat_eq_error_iff]; decide
  ⟨h9,
    ((unlink_precondition_order mkfsImage (fun _ => 0) 9).2.2 [97] (by decide) (by decide)
      (by decide)).1 _ h9,
    fileImage_file, by decide,
    ((unlink_precondition_order fileImage (fun _ => 0) 1).2.2 [97] (by decide) (by decide)
      (by decide)).2 _ fileImage_file (by decide)⟩

set_option maxRecDepth 100000 in
/-- C15, at the failing input.  In the freshly formatted image the root, inode
0, is an allocated directory and the name of 28 bytes `a` has the length
`DIR_ENT_NAME_SIZE`, which the length check of `create` lets through; yet
`create(0, UFS_REGULAR_FILE, name)` returns `-EINVALIDINODE`: `lookup` answers
`-EINVALIDNAME` for this name, which `create` takes for an inode number. -/
theorem create_name_max_invalid_inode :
    stat mkfsImage 0 = .ok (inodeSlot mkfsImage 0)
      ∧ (inodeSlot mkfsImage 0).type = UFS_DIRECTORY
      ∧ (List.replicate 28 97).length = DIR_ENT_NAME_SIZE
      ∧ lookup mkfsImage (fun _ => 0) 0 (List.replicate 28 97) = -EINVALIDNAME
      ∧ (create mkfsImage (fun _ => 0) 0 UFS_REGULAR_FILE (List.replicate 28 97)).1
          = -EINVALIDINODE :=
  ⟨mkfsImage_root, by decide, by decide, by decide, by decide⟩

set_option maxRecDepth 100000 in
/-- C18, at the failing input.  The name of 27 bytes `a` has a length in
`[1, DIR_ENT_NAME_SIZE)`: `lookup` accepts it (it answers `-ENOTFOUND` on the
freshly formatted image) and `create` stores an entry under it (inode 1), but
`unlink` returns `-EINVALIDNAME` for it, on the image `create` produced as on
every other image. -/
theorem unlink_rejects_name_of_27 :
    (List.replicate 27 97).length < DIR_ENT_NAME_SIZE
      ∧ lookup mkfsImage (fun _ => 0) 0 (List.replicate 27 97) = -ENOTFOUND
      ∧ (create mkfsImage (fun _ => 0) 0 UFS_REGULAR_FILE (List.replicate 27 97)).1 = 1
      ∧ (unlink (create mkfsImage (fun _ => 0) 0 UFS_REGULAR_FILE (List.replicate 27 97)).2
          (fun _ => 0) 0 (List.replicate 27 97)).1 = -EINVALIDNAME
      ∧ ∀ (d : Disk) (junk : Bytes) (p : Int),
          unlink d junk p (List.replicate 27 97) = (-EINVALIDNAME, d) := by
  have h : ∀ (d : Disk) (junk : Bytes) (p : Int),
      unlink d junk p (List.replicate 27 97) = (-EINVALIDNAME, d) := by
    intro d junk p
    unfold unlink
    rw [if_pos (by decide)]
  refine ⟨by decide, by decide, by decide, ?_, h⟩
  rw [h]

/-- C16, as amended.  On a consistent image, for an allocated directory `p`, a
name `n` of a length in `[1, DIR_ENT_NAME_SIZE)` whose C string is the name of
no entry of `p`, and any type `t`: `create(p, t, n)` returns `-ENOTENOUGHSPACE`
exactly when every bit of the inode bitmap below `num_inodes` is set, or the
size of `p` is a multiple of the block size and `p.size + UFS_BLOCK_SIZE`
exceeds `MAX_FILE_SIZE`, or the data bitmap has fewer clear bits than
`(1 if t is a directory) + (1 if p.size % UFS_BLOCK_SIZE = 0)`; in every other
case the result is a non-negative inode number. -/
theorem create_enospc_iff (d : Disk) (junk : Bytes) (p type : Int) (name : List Nat)
    (parent : inode_t) (hc : Consistent d) (hs : stat d p = .ok parent)
    (ht : parent.type = UFS_DIRECTORY)
    (hn : 1 ≤ name.length ∧ name.length < DIR_ENT_NAME_SIZE)
    (habs : ∀ i, i < parent.size.toNat / SIZEOF_DIR_ENT →
      entryName (fileBytes d parent) i ≠ cstr name) :
    ((create d junk p type name).1 = -ENOTENOUGHSPACE ↔
        ((∀ i, i < (readSuperBlock d).num_inodes.toNat → inodeBit d i = true)
          ∨ (parent.size % UFS_BLOCK_SIZE = 0 ∧ parent.size + UFS_BLOCK_SIZE > MAX_FILE_SIZE)
          ∨ freeDataBlocks d < (if type = UFS_DIRECTORY then 1 else 0)
              + (if parent.size % UFS_BLOCK_SIZE = 0 then 1 else 0)))
      ∧ ((create d junk p type name).1 ≠ -ENOTENOUGHSPACE →
          0 ≤ (create d junk p type name).1) := by
  obtain ⟨i0, i1, -⟩ := inodeOk_of_stat d p parent hc hs
  have hn2 : ¬ (name.length ≤ 0 ∨ name.length ≥ DIR_ENT_NAME_SIZE) := by omega
  have h1 : ¬ (name.length > DIR_ENT_NAME_SIZE ∨ name.length = 0) := by omega
  have hdir : ¬ parent.type ≠ UFS_DIRECTORY := by simp [ht]
  have hlk := lookup_absent d junk p name parent hs hdir hn2 i0 i1 habs
  rw [create_of_directory d junk p type name parent h1 hs hdir, hlk, if_neg (fun h => h rfl),
    createFresh_eq d junk _ p type name parent i0]
  have hfree : (clearBits (readDataBitmap d (readSuperBlock d))
      (readSuperBlock d).num_data.toNat).length = freeDataBlocks d := by
    rw [clearBits_readDataBitmap d hc.1]
    rfl
  have hscan : forLoop (inodeScanStep (readInodeBitmap d (readSuperBlock d)))
      (readSuperBlock d).num_inodes.toNat 0 (-1) = -1 ↔
      ∀ i, i < (readSuperBlock d).num_inodes.toNat → inodeBit d i = true := by
    rw [inodeScan_none_iff]
    have := hc.1.num_inodes_nonneg
    constructor
    · intro h i hi
      exact (inodeBit_iff d i hc.1 (by omega)).2 (h i hi)
    · intro h i hi
      exact (inodeBit_iff d i hc.1 (by omega)).1 (h i hi)
  have hr := inodeScan_range (readInodeBitmap d (readSuperBlock d))
    (readSuperBlock d).num_inodes.toNat
  have htake : ((List.take
      ((if type = UFS_DIRECTORY then 1 else 0) + (if parent.size % 4096 = 0 then 1 else 0))
      (clearBits (readDataBitmap d (readSuperBlock d))
        (readSuperBlock d).num_data.toNat)).length : Int) <
      (((if type = UFS_DIRECTORY then 1 else 0)
        + (if parent.size % 4096 = 0 then 1 else 0) : Nat) : Int) ↔
      freeDataBlocks d < (if type = UFS_DIRECTORY then 1 else 0)
              + (if parent.size % 4096 = 0 then 1 else 0) := by
    rw [List.length_take, hfree]
    omega
  simp only [UFS_BLOCK_SIZE, MAX_FILE_SIZE, DIRECT_PTRS, Nat.cast_ofNat]
  by_cases c1 : forLoop (inodeScanStep (readInodeBitmap d (readSuperBlock d)))
      (readSuperBlock d).num_inodes.toNat 0 (-1) = -1
  · rw [if_pos c1]
    exact ⟨⟨fun _ => Or.inl (hscan.1 c1), fun _ => rfl⟩, fun h => absurd rfl h⟩
  · rw [if_neg c1]
    by_cases c2 : parent.size % 4096 = 0 ∧ parent.size + 4096 > 122880
    · rw [if_pos c2]
      exact ⟨⟨fun _ => Or.inr (Or.inl (by simpa using c2)), fun _ => rfl⟩, fun h => absurd rfl h⟩
    · rw [if_neg c2]
      by_cases c3 : ((List.take
          ((if type = UFS_DIRECTORY then 1 else 0) + (if parent.size % 4096 = 0 then 1 else 0))
          (clearBits (readDataBitmap d (readSuperBlock d))
            (readSuperBlock d).num_data.toNat)).length : Int) <
          (((if type = UFS_DIRECTORY then 1 else 0)
            + (if parent.size % 4096 = 0 then 1 else 0) : Nat) : Int)
      · rw [if_pos c3]
        exact ⟨⟨fun _ => Or.inr (Or.inr (htake.1 c3)), fun _ => rfl⟩, fun h => absurd rfl h⟩
      · rw [if_neg c3, createCommit_fst]
        refine ⟨⟨fun h => ?_, fun h => ?_⟩, fun _ => by omega⟩
        · exfalso
          simp only [ENOTENOUGHSPACE] at h
          exact c1 h
        · exfalso
          rcases h with h | h | h
          · exact c1 (hscan.2 h)
          · exact c2 (by simpa using h)
          · exact c3 (htake.2 h)

set_option maxRecDepth 100000 in
/-- C16, counterexample.  In `fullImage` the root is an allocated directory whose
size is not a multiple of the block size, the three-byte name made of `a`, a
NUL and `b` has a valid length and is the name of no entry of the root, and the
data bitmap has no clear bit, fewer than the one block a new directory needs;
yet `create(0, UFS_DIRECTORY, name)` does not return `-ENOTENOUGHSPACE`: the
name is compared as a C string, the entry `a` is found and the result is
`-EINVALIDTYPE`. -/
theorem create_enospc_nul_name :
    Consistent fullImage
      ∧ stat fullImage 0 = .ok (inodeSlot fullImage 0)
      ∧ (inodeSlot fullImage 0).type = UFS_DIRECTORY
      ∧ (inodeSlot fullImage 0).size % UFS_BLOCK_SIZE ≠ 0
      ∧ (∀ i, i < (inodeSlot fullImage 0).size.toNat / SIZEOF_DIR_ENT →
          entryName (fileBytes fullImage (inodeSlot fullImage 0)) i ≠ [97, 0, 98])
      ∧ freeDataBlocks fullImage < 1
      ∧ (create fullImage (fun _ => 0) 0 UFS_DIRECTORY [97, 0, 98]).1 = -EINVALIDTYPE
      ∧ -EINVALIDTYPE ≠ -ENOTENOUGHSPACE :=
  ⟨fullImage_consistent, fullImage_root, by decide, by decide, by decide, by decide, by decide,
    by decide⟩

set_option maxRecDepth 100000 in
theorem create_enospc_iff_witness :
    Consistent fullImage
      ∧ stat fullImage 0 = .ok (inodeSlot fullImage 0)
      ∧ (inodeSlot fullImage 0).type = UFS_DIRECTORY
      ∧ ((create fullImage (fun _ => 0) 0 UFS_DIRECTORY [98]).1 = -ENOTENOUGHSPACE ↔
          ((∀ i, i < (readSuperBlock fullImage).num_inodes.toNat → inodeBit fullImage i = true)
            ∨ ((inodeSlot fullImage 0).size % UFS_BLOCK_SIZE = 0
              ∧ (inodeSlot fullImage 0).size + UFS_BLOCK_SIZE > MAX_FILE_SIZE)
            ∨ freeDataBlocks fullImage < (if UFS_DIRECTORY = UFS_DIRECTORY then 1 else 0)
                + (if (inodeSlot fullImage 0).size % UFS_BLOCK_SIZE = 0 then 1 else 0)))
      ∧ (create fullImage (fun _ => 0) 0 UFS_DIRECTORY [98]).1 = -ENOTENOUGHSPACE :=
  ⟨fullImage_consistent, fullImage_root, by decide,
    (create_enospc_iff fullImage (fun _ => 0) 0 UFS_DIRECTORY [98] (inodeSlot fullImage 0)
      fullImage_consistent fullImage_root (by decide) (by decide) (by decide)).1,
    by decide⟩

/-- C12, as amended.  On a consistent image, for an allocated directory `p`, a
type `t` that is `UFS_REGULAR_FILE` or `UFS_DIRECTORY` and a name `n` whose C
string (the bytes of `n` before its first NUL byte) is the name of no entry of
`p`: if `create(p, t, n)` returns `k >= 0` then bit `k` of the inode bitmap was
clear before and is set after; `stat(k)` has type `t`, the size
`2 * sizeof(dir_ent_t)` for a directory and the size 0 with all direct pointers
0 for a regular file; `lookup(p, n) = k`; the size of `p` has grown by
`sizeof(dir_ent_t)`; and the entries of `p` are the previous entries in their
previous order followed by the entry made of the C string of `n` and `k`. -/
theorem create_fresh_post (d : Disk) (junk junk2 : Bytes) (p type : Int) (name : List Nat)
    (parent : inode_t) (hc : Consistent d) (hs : stat d p = .ok parent)
    (htd : parent.type = UFS_DIRECTORY)
    (hty : type = UFS_REGULAR_FILE ∨ type = UFS_DIRECTORY)
    (habs : ∀ i, i < parent.size.toNat / SIZEOF_DIR_ENT →
      entryName (fileBytes d parent) i ≠ cstr name)
    (hok : 0 ≤ (create d junk p type name).1) :
    ∃ I P2 : inode_t,
      inodeBit d (create d junk p type name).1.toNat = false
      ∧ inodeBit (create d junk p type name).2 (create d junk p type name).1.toNat = true
      ∧ stat (create d junk p type name).2 (create d junk p type name).1 = .ok I
      ∧ I.type = type
      ∧ I.size = (if type = UFS_DIRECTORY then 2 * SIZEOF_DIR_ENT else 0)
      ∧ (type = UFS_REGULAR_FILE → ∀ j, I.direct j = 0)
      ∧ lookup (create d junk p type name).2 junk2 p name = (create d junk p type name).1
      ∧ stat (create d junk p type name).2 p = .ok P2
      ∧ P2.size = parent.size + SIZEOF_DIR_ENT
      ∧ dirEntries (create d junk p type name).2 P2 =
          dirEntries d parent ++ [(cstr name, (create d junk p type name).1)] := by
  obtain ⟨parent2, h1, hs2, ht, hn⟩ := create_success_parent d junk p type name hok
  rw [hs] at hs2
  injection hs2 with hs2
  subst hs2
  obtain ⟨i0, i1, -⟩ := inodeOk_of_stat d p parent hc hs
  have hlk := lookup_absent d junk p name parent hs ht hn i0 i1 habs
  have e1 := create_of_directory d junk p type name parent h1 hs ht
  rw [hlk, if_neg (fun h => h rfl)] at e1
  rw [e1] at hok ⊢
  have hty2 : -2147483648 ≤ type ∧ type < 2147483648 := by
    rcases hty with h | h <;> rw [h] <;> decide
  obtain ⟨k, P2, I, c1, hk0, hk1, -, h32, hsz1, hsp, ht2, hsz2, hsk, hIt, hold, hnew⟩ :=
    createFresh_success d junk p type name parent hc hs htd hty2 hok
  obtain ⟨k2, avail, P1, I2, PB, D, d1, f1, -, fI, -, ⟨-, fk1, fkbit, -⟩, -, -, -, -, -, fsup, -,
    fsk, -⟩ := createFresh_detail d junk p type name parent hc hs htd hty2 hok
  have hkk : k2 = k := by
    rw [f1] at c1
    exact c1
  subst hkk
  have hD : (createFresh d junk (readSuperBlock d) p type name parent).2 = D := by rw [f1]
  rw [c1]
  rw [hD] at hsp hsk hold hnew ⊢
  rw [hsk] at fsk
  injection fsk with fsk
  obtain ⟨q1, q2, q3, -⟩ := createInode_props (readSuperBlock d) type avail
  rw [← fI, ← fsk] at q1 q2 q3
  have hlen : (cstr name).length < 28 := by
    have := cstr_length_le name
    simp only [DIR_ENT_NAME_SIZE] at hn
    omega
  have hnone : (List.range (parent.size.toNat / SIZEOF_DIR_ENT)).find?
      (fun i => entryName (fileBytes d parent) i = cstr name) = none := by
    rw [List.find?_eq_none]
    intro i hi
    rw [List.mem_range] at hi
    simpa using habs i hi
  have hlD : LayoutOk (readSuperBlock D) := by rw [fsup]; exact hc.1
  refine ⟨I, P2, ?_, ?_, hsk, hIt, q2, ?_, ?_, hsp, ?_, ?_⟩
  · cases hb : inodeBit d k2.toNat with
    | false => rfl
    | true => exact absurd fkbit ((inodeBit_iff d k2.toNat hc.1 (by omega)).1 hb)
  · exact (inodeBit_iff D k2.toNat hlD (by rw [fsup]; omega)).2
      ((stat_eq_ok_iff _ _ _).1 hsk).2.2.1
  · intro hreg
    exact q3 (by rw [hreg]; decide)
  · exact lookup_appended d D junk junk2 p k2 name parent P2 hn hk0 hk1 i0 h32 hsz1 hsp
      (ht2.trans htd) hsz2 hold hnew hnone
  · rw [hsz2]
    rfl
  · exact dirEntries_appended d D junk k2 name parent P2 hlen (by omega) hk1 i0 h32 hsz2 hold hnew

set_option maxRecDepth 100000 in
/-- C12, counterexample.  In `fileImage` the root is an allocated directory, and
the three-byte name made of `a`, a NUL and `b` is the name of no entry of the
root; yet `create(0, UFS_REGULAR_FILE, name)` returns 1, the number of an inode
that was allocated before the call: the name is compared as a C string and the
entry `a` is found. -/
theorem create_nul_name_returns_old_inode :
    Consistent fileImage
      ∧ stat fileImage 0 = .ok (inodeSlot fileImage 0)
      ∧ (inodeSlot fileImage 0).type = UFS_DIRECTORY
      ∧ (∀ e ∈ dirEntries fileImage (inodeSlot fileImage 0), e.1 ≠ [97, 0, 98])
      ∧ (create fileImage (fun _ => 0) 0 UFS_REGULAR_FILE [97, 0, 98]).1 = 1
      ∧ inodeBit fileImage 1 = true :=
  ⟨fileImage_consistent, fileImage_root, by decide, by decide, by decide, by decide⟩

set_option maxRecDepth 100000 in
theorem create_fresh_post_witness :
    Consistent mkfsImage
      ∧ stat mkfsImage 0 = .ok (inodeSlot mkfsImage 0)
      ∧ (inodeSlot mkfsImage 0).type = UFS_DIRECTORY
      ∧ 0 ≤ (create mkfsImage (fun _ => 0) 0 UFS_REGULAR_FILE [97]).1
      ∧ ∃ I P2 : inode_t,
        inodeBit mkfsImage (create mkfsImage (fun _ => 0) 0 UFS_REGULAR_FILE [97]).1.toNat = false
        ∧ inodeBit (create mkfsImage (fun _ => 0) 0 UFS_REGULAR_FILE [97]).2
            (create mkfsImage (fun _ => 0) 0 UFS_REGULAR_FILE [97]).1.toNat = true
        ∧ stat (create mkfsImage (fun _ => 0) 0 UFS_REGULAR_FILE [97]).2
            (create mkfsImage (fun _ => 0) 0 UFS_REGULAR_FILE [97]).1 = .ok I
        ∧ I.type = UFS_REGULAR_FILE
        ∧ I.size = (if UFS_REGULAR_FILE = UFS_DIRECTORY then 2 * SIZEOF_DIR_ENT else 0)
        ∧ (UFS_REGULAR_FILE = UFS_REGULAR_FILE → ∀ j, I.direct j = 0)
        ∧ lookup (create mkfsImage (fun _ => 0) 0 UFS_REGULAR_FILE [97]).2 (fun _ => 1) 0 [97]
            = (create mkfsImage (fun _ => 0) 0 UFS_REGULAR_FILE [97]).1
        ∧ stat (create mkfsImage (fun _ => 0) 0 UFS_REGULAR_FILE [97]).2 0 = .ok P2
        ∧ P2.size = (inodeSlot mkfsImage 0).size + SIZEOF_DIR_ENT
        ∧ dirEntries (create mkfsImage (fun _ => 0) 0 UFS_REGULAR_FILE [97]).2 P2 =
            dirEntries mkfsImage (inodeSlot mkfsImage 0)
              ++ [(cstr [97], (create mkfsImage (fun _ => 0) 0 UFS_REGULAR_FILE [97]).1)] :=
  ⟨mkfsImage_consistent, mkfsImage_root, by decide, by decide,
    create_fresh_post mkfsImage (fun _ => 0) (fun _ => 1) 0 UFS_REGULAR_FILE [97]
      (inodeSlot mkfsImage 0) mkfsImage_consistent mkfsImage_root (by decide) (by decide)
      (by decide) (by decide)⟩

/-- C13.  On a consistent image, if `create(p, UFS_DIRECTORY, n)` returns a
newly allocated inode number `k` (non-negative, with bit `k` of the inode bitmap
clear before the call), then afterwards `stat(k)` is a directory of size
`2 * sizeof(dir_ent_t)` whose entries are exactly `(".", k)` followed by
`("..", p)`; they are stored in the block `direct[0]`, a block of the data
region whose data-bitmap bit was clear before the call, the other direct
pointers being 0; and `lookup(k, ".") = k`, `lookup(k, "..") = p`. -/
theorem create_directory_entries (d : Disk) (junk junk2 : Bytes) (p : Int) (name : List Nat)
    (hc : Consistent d) (hok : 0 ≤ (create d junk p UFS_DIRECTORY name).1)
    (hfresh : inodeBit d (create d junk p UFS_DIRECTORY name).1.toNat = false) :
    ∃ (I : inode_t) (b : Nat),
      stat (create d junk p UFS_DIRECTORY name).2 (create d junk p UFS_DIRECTORY name).1 = .ok I
      ∧ I.type = UFS_DIRECTORY ∧ I.size = 2 * SIZEOF_DIR_ENT
      ∧ dirEntries (create d junk p UFS_DIRECTORY name).2 I =
          [([46], (create d junk p UFS_DIRECTORY name).1), ([46, 46], p)]
      ∧ (b : Int) < (readSuperBlock d).num_data ∧ dataBit d b = false
      ∧ toS32 (I.direct 0) = (b : Int) + (readSuperBlock d).data_region_addr
      ∧ (∀ j, j ≠ 0 → I.direct j = 0)
      ∧ lookup (create d junk p UFS_DIRECTORY name).2 junk2
          (create d junk p UFS_DIRECTORY name).1 [46] = (create d junk p UFS_DIRECTORY name).1
      ∧ lookup (create d junk p UFS_DIRECTORY name).2 junk2
          (create d junk p UFS_DIRECTORY name).1 [46, 46] = p := by
  obtain ⟨parent, h1, hs, ht, hn⟩ := create_success_parent d junk p UFS_DIRECTORY name hok
  have e1 := create_of_directory d junk p UFS_DIRECTORY name parent h1 hs ht
  by_cases hf : lookup d junk p name ≠ -ENOTFOUND
  · exfalso
    rw [if_pos hf] at e1
    rw [e1] at hok hfresh
    cases hst : stat d (lookup d junk p name) with
    | error e =>
      simp only [hst] at hok
      simp [EINVALIDINODE] at hok
    | ok ino =>
      simp only [hst] at hok hfresh
      by_cases hty : ino.type = UFS_DIRECTORY
      · rw [if_pos hty] at hfresh
        obtain ⟨s1, s2, s3, -⟩ := (stat_eq_ok_iff _ _ _).1 hst
        have := (inodeBit_iff d (lookup d junk p name).toNat hc.1 (by omega)).2 s3
        rw [this] at hfresh
        cases hfresh
      · rw [if_neg hty] at hok
        simp [EINVALIDTYPE] at hok
  rw [if_neg hf] at e1
  rw [e1] at hok ⊢
  obtain ⟨k, avail, P1, I, PB, D, d1, f1, -, fI, -, ⟨fk0, fk1, -, -⟩, ⟨flen, fmem, -⟩, -, -,
    ⟨fpb0, -⟩, fcb, fsup, -, fsk, -, -, -, fchild, fdisk⟩ :=
    createFresh_detail d junk p UFS_DIRECTORY name parent hc hs (not_not.1 ht) (by decide) hok
  obtain ⟨l1, l2, l3, l4, l5, l6, l7, l8, l9, l10, l11, l12, l13⟩ := hc.1
  obtain ⟨fcb1, fcb2⟩ := fcb rfl
  obtain ⟨q1, q2, -, q4⟩ := createInode_props (readSuperBlock d) UFS_DIRECTORY avail
  rw [← fI] at q1 q2 q4
  rw [if_pos rfl] at q2
  have hpos : avail.length - 1 < avail.length := by rw [flen, if_pos rfl]; omega
  obtain ⟨m1, m2⟩ := fmem _ (getD_mem avail _ hpos)
  have hnum := getS32_bounds (readBlock d 0) 32
  have hnum2 : (readSuperBlock d).num_inodes = getS32 (readBlock d 0) 32 := rfl
  have hp0 := stat_ok_nonneg _ _ _ hs
  have hp1 := ((stat_eq_ok_iff _ _ _).1 hs).2.1
  have hIs : I.size.toNat = 64 := by rw [q2]; rfl
  have hcontent : ∀ o, o < 64 → fileBytes D I o =
      memcpy (memsetZero junk 0 UFS_BLOCK_SIZE) 0
        (memcpy (dirEntBytes [46] k) SIZEOF_DIR_ENT (dirEntBytes [46, 46] p) 0 SIZEOF_DIR_ENT)
        0 64 o := by
    intro o ho
    unfold fileBytes
    simp only [UFS_BLOCK_SIZE]
    rw [show o / 4096 = 0 by omega, show o % 4096 = o by omega, fdisk,
      if_neg (by omega), if_neg (by omega), if_neg (by omega), if_neg (fun h => fcb2 h.1),
      fchild rfl o (by omega), hIs]
  obtain ⟨n0, n1, n2, n3⟩ := selfParent_entries (fileBytes D I) junk k p
    ⟨by omega, by omega⟩ ⟨by omega, by omega⟩ hcontent
  have hD : (k, D).2 = D := rfl
  have hk : (k, D).1 = k := rfl
  rw [f1, hD, hk]
  refine ⟨I, avail.getD (avail.length - 1) 0, fsk, q1, q2, ?_, m1, m2, fcb1, q4, ?_, ?_⟩
  · unfold dirEntries
    rw [show I.size.toNat / SIZEOF_DIR_ENT = 2 by rw [hIs]; rfl]
    rw [show List.range 2 = [0, 1] by rfl]
    simp only [List.map_cons, List.map_nil]
    rw [n0, n1, n2, n3]
  · rw [lookup_of_directory D junk2 k [46] I fsk (by rw [q1]; decide) (by decide)
      (by rw [q2]; decide) (by rw [q2]; decide)]
    rw [find?_range_hit _ 0 (fun i hi => absurd hi (Nat.not_lt_zero i)) (by
      rw [n0]; decide) _ (by rw [hIs]; decide)]
    exact n1
  · rw [lookup_of_directory D junk2 k [46, 46] I fsk (by rw [q1]; decide) (by decide)
      (by rw [q2]; decide) (by rw [q2]; decide)]
    rw [find?_range_hit _ 1 (fun i hi => by
        have hi0 : i = 0 := by omega
        rw [hi0, n0]
        decide) (by
      rw [n2]; decide) _ (by rw [hIs]; decide)]
    exact n3

set_option maxRecDepth 100000 in
theorem create_directory_entries_witness :
    Consistent mkfsImage
      ∧ 0 ≤ (create mkfsImage (fun _ => 0) 0 UFS_DIRECTORY [97]).1
      ∧ inodeBit mkfsImage (create mkfsImage (fun _ => 0) 0 UFS_DIRECTORY [97]).1.toNat = false
      ∧ ∃ (I : inode_t) (b : Nat),
        stat (create mkfsImage (fun _ => 0) 0 UFS_DIRECTORY [97]).2
            (create mkfsImage (fun _ => 0) 0 UFS_DIRECTORY [97]).1 = .ok I
        ∧ I.type = UFS_DIRECTORY ∧ I.size = 2 * SIZEOF_DIR_ENT
        ∧ dirEntries (create mkfsImage (fun _ => 0) 0 UFS_DIRECTORY [97]).2 I =
            [([46], (create mkfsImage (fun _ => 0) 0 UFS_DIRECTORY [97]).1), ([46, 46], 0)]
        ∧ (b : Int) < (readSuperBlock mkfsImage).num_data ∧ dataBit mkfsImage b = false
        ∧ toS32 (I.direct 0) = (b : Int) + (readSuperBlock mkfsImage).data_region_addr
        ∧ (∀ j, j ≠ 0 → I.direct j = 0)
        ∧ lookup (create mkfsImage (fun _ => 0) 0 UFS_DIRECTORY [97]).2 (fun _ => 1)
            (create mkfsImage (fun _ => 0) 0 UFS_DIRECTORY [97]).1 [46]
              = (create mkfsImage (fun _ => 0) 0 UFS_DIRECTORY [97]).1
        ∧ lookup (create mkfsImage (fun _ => 0) 0 UFS_DIRECTORY [97]).2 (fun _ => 1)
            (create mkfsImage (fun _ => 0) 0 UFS_DIRECTORY [97]).1 [46, 46] = 0 :=
  ⟨mkfsImage_consistent, by decide, by decide,
    create_directory_entries mkfsImage (fun _ => 0) (fun _ => 1) 0 [97] mkfsImage_consistent
      (by decide) (by decide)⟩

/-- C11.  On a consistent image, after a successful `write(i, buf, s)`, for every
data block `b` below `num_data`: its data-bitmap bit is set exactly when `b` is
one of the new blocks `direct[0 .. ceil(s / UFS_BLOCK_SIZE))` of `i`, or its bit
was set before and no direct pointer of `i` named it before the call.  The bits
of the inode bitmap are unchanged. -/
theorem write_no_stranded_blocks (d : Disk) (junk : Bytes) (inodeNumber : Int)
    (buffer : Bytes) (size : Int) (hc : Consistent d)
    (hok : 0 ≤ (write d junk inodeNumber buffer size).1) :
    ∃ inode I2 : inode_t,
      stat d inodeNumber = .ok inode
      ∧ stat (write d junk inodeNumber buffer size).2 inodeNumber = .ok I2
      ∧ (∀ b : Nat, (b : Int) < (readSuperBlock d).num_data →
          (dataBit (write d junk inodeNumber buffer size).2 b = true ↔
            ((∃ k : Nat, (k : Int) < blocksFor size
                ∧ (I2.direct k : Int) = (b : Int) + (readSuperBlock d).data_region_addr)
              ∨ (dataBit d b = true
                ∧ ∀ k, k < DIRECT_PTRS →
                    (inode.direct k : Int) ≠ (b : Int) + (readSuperBlock d).data_region_addr))))
      ∧ (∀ x : Nat, (x : Int) < (readSuperBlock d).num_inodes →
          inodeBit (write d junk inodeNumber buffer size).2 x = inodeBit d x) := by
  obtain ⟨inode, avail, hs, -, hs0, -, hav, hlen, hmem, -, hlow, hst, -⟩ :=
    write_success d junk inodeNumber buffer size hc.1 hok
  obtain ⟨i0, i1, i2, -⟩ := inodeOk_of_stat d inodeNumber inode hc hs
  have hnd : avail.Nodup := by
    rw [hav]
    exact (clearBits_nodup _ _).sublist (List.take_sublist _ _)
  have heq := write_success_eq d junk inodeNumber buffer size inode hs hok
  rw [← hav] at heq
  have hbm := writeCommit_bitmap d junk inode inodeNumber buffer size
    (readDataBitmap d (readSuperBlock d)) avail hc.1 (stat_ok_nonneg _ _ _ hs) hs0 hmem hnd _ heq
  obtain ⟨l1, l2, l3, l4, l5, l6, l7, l8, l9, l10, l11, l12, l13⟩ := hc.1
  simp only [UFS_BLOCK_SIZE, DIRECT_PTRS] at l10 l11 i2
  push_cast at l10 l11
  have hsup := readSuperBlock_congr d _ (hlow 0 (by omega))
  refine ⟨inode, _, hs, hst, ?_, ?_⟩
  · intro b hb
    have hbit : dataBit (write d junk inodeNumber buffer size).2 b = true ↔
        bitOf (avail.foldl setBit
          (forLoop (releaseStep (readSuperBlock d)) DIRECT_PTRS 0
            (readDataBitmap d (readSuperBlock d), inode)).1) b ≠ 0 := by
      unfold dataBit
      rw [hsup]
      apply bitmapBit_eq
      rw [hbm _ _ (by omega) (by omega) (Nat.mod_lt _ (by omega))]
      refine congrArg _ ?_
      omega
    rw [hbit, bitOf_foldl_setBit]
    have hrel : releasedBy (readSuperBlock d) inode DIRECT_PTRS b ↔
        ∃ k, k < 30 ∧ (inode.direct k : Int) = (b : Int) + (readSuperBlock d).data_region_addr := by
      constructor
      · rintro ⟨k, hk, r1, r2, r3⟩
        have := i2 k hk r1
        rw [toS32_toU32 _ (by omega) (by omega)] at r3
        exact ⟨k, hk, by omega⟩
      · rintro ⟨k, hk, r1⟩
        have hne : inode.direct k ≠ 0 := by
          intro h0
          rw [h0] at r1
          omega
        have := i2 k hk hne
        refine ⟨k, hk, hne, ?_, ?_⟩
        · rw [toS32_toU32 _ (by omega) (by omega)]; omega
        · rw [toS32_toU32 _ (by omega) (by omega)]; omega
    have hnew : b ∈ avail ↔ ∃ k : Nat, (k : Int) < blocksFor size
        ∧ ((writtenInode (readSuperBlock d) inode.type size avail).direct k : Int)
            = (b : Int) + (readSuperBlock d).data_region_addr := by
      unfold writtenInode
      simp only
      constructor
      · intro hin
        obtain ⟨k, hk, e⟩ := getD_of_mem avail b hin
        refine ⟨k, by omega, ?_⟩
        rw [if_pos hk, e]
        unfold toU32
        have : (((b : Int) + (readSuperBlock d).data_region_addr) % 4294967296) =
            (b : Int) + (readSuperBlock d).data_region_addr := by omega
        rw [this]
        omega
      · rintro ⟨k, hk, e⟩
        have hk2 : k < avail.length := by omega
        rw [if_pos hk2] at e
        have hr := hmem _ (getD_mem avail k hk2)
        unfold toU32 at e
        have : (((avail.getD k 0 : Int) + (readSuperBlock d).data_region_addr) % 4294967296) =
            (avail.getD k 0 : Int) + (readSuperBlock d).data_region_addr := by omega
        rw [this] at e
        have e2 : avail.getD k 0 = b := by omega
        rw [← e2]
        exact getD_mem avail k hk2
    rw [← hnew]
    by_cases hin : b ∈ avail
    · rw [if_pos hin]
      exact ⟨fun _ => Or.inl hin, fun _ => by decide⟩
    · rw [if_neg hin, Ne, release_bitmap, not_or, hrel, ← Ne,
        ← dataBit_iff d b hc.1 hb]
      constructor
      · rintro ⟨h1, h2⟩
        exact Or.inr ⟨h2, fun k hk e => h1 ⟨k, hk, e⟩⟩
      · rintro (h1 | ⟨h1, h2⟩)
        · exact absurd h1 hin
        · exact ⟨fun ⟨k, hk, e⟩ => h2 k hk e, h1⟩
  · intro x hx
    unfold inodeBit bitmapBit
    simp only [UFS_BLOCK_SIZE]
    rw [hsup, hlow _ (by omega)]

set_option maxRecDepth 100000 in
theorem write_no_stranded_blocks_witness :
    Consistent fileImage
      ∧ 0 ≤ (write fileImage (fun _ => 0) 1 (bytesOfList [104, 105]) 2).1
      ∧ ∃ inode I2 : inode_t,
        stat fileImage 1 = .ok inode
        ∧ stat (write fileImage (fun _ => 0) 1 (bytesOfList [104, 105]) 2).2 1 = .ok I2
        ∧ (∀ b : Nat, (b : Int) < (readSuperBlock fileImage).num_data →
            (dataBit (write fileImage (fun _ => 0) 1 (bytesOfList [104, 105]) 2).2 b = true ↔
              ((∃ k : Nat, (k : Int) < blocksFor 2
                  ∧ (I2.direct k : Int) = (b : Int) + (readSuperBlock fileImage).data_region_addr)
                ∨ (dataBit fileImage b = true
                  ∧ ∀ k, k < DIRECT_PTRS →
                      (inode.direct k : Int)
                        ≠ (b : Int) + (readSuperBlock fileImage).data_region_addr))))
        ∧ (∀ x : Nat, (x : Int) < (readSuperBlock fileImage).num_inodes →
            inodeBit (write fileImage (fun _ => 0) 1 (bytesOfList [104, 105]) 2).2 x
              = inodeBit fileImage x) :=
  ⟨fileImage_consistent, by decide,
    write_no_stranded_blocks fileImage (fun _ => 0) 1 (bytesOfList [104, 105]) 2
      fileImage_consistent (by decide)⟩

/-- C19, as amended.  On a consistent image, for an allocated directory `p` and a
name `n` that passes the checks of `unlink` (a length in
`[1, DIR_ENT_NAME_SIZE - 1)`, neither `.` nor `..`), with `k = lookup(p, n)`:
`unlink(p, n)` returns `-EDIRNOTEMPTY` exactly when `k` is an allocated
directory whose size exceeds `2 * sizeof(dir_ent_t)`; and when `n` holds no NUL
byte and `k` is an allocated regular file or an allocated directory of a size
of at most `2 * sizeof(dir_ent_t)`, `unlink(p, n)` returns 0 and `k` is no
longer allocated afterwards. -/
theorem unlink_dir_not_empty_iff (d : Disk) (junk : Bytes) (p : Int) (name : List Nat)
    (parent : inode_t) (hc : Consistent d) (hs : stat d p = .ok parent)
    (ht : parent.type = UFS_DIRECTORY)
    (hlen : 1 ≤ name.length ∧ name.length < DIR_ENT_NAME_SIZE - 1)
    (hdot : name ≠ [46] ∧ name ≠ [46, 46]) :
    ((unlink d junk p name).1 = -EDIRNOTEMPTY ↔
        ∃ inode, stat d (lookup d junk p name) = .ok inode ∧ inode.type = UFS_DIRECTORY
          ∧ inode.size > 2 * SIZEOF_DIR_ENT)
      ∧ ((∀ c ∈ name, c ≠ 0) → ∀ inode, stat d (lookup d junk p name) = .ok inode →
          (inode.type = UFS_REGULAR_FILE
            ∨ (inode.type = UFS_DIRECTORY ∧ inode.size ≤ 2 * SIZEOF_DIR_ENT)) →
          (unlink d junk p name).1 = 0
            ∧ stat (unlink d junk p name).2 (lookup d junk p name) = .error (-EINVALIDINODE)) := by
  have hlen2 : ¬ (name.length ≤ 0 ∨ name.length ≥ DIR_ENT_NAME_SIZE - 1) := by omega
  have hdot2 : ¬ (name = [46] ∨ name = [46, 46]) := fun h => h.elim hdot.1 hdot.2
  have hdir : ¬ parent.type ≠ UFS_DIRECTORY := fun h => h ht
  have hn : ¬ (name.length ≤ 0 ∨ name.length ≥ DIR_ENT_NAME_SIZE) := by
    simp only [DIR_ENT_NAME_SIZE] at hlen ⊢
    omega
  obtain ⟨i0, i1, i2, i3, -⟩ := inodeOk_of_stat d p parent hc hs
  constructor
  · by_cases hf : lookup d junk p name = -ENOTFOUND
    · have e : unlink d junk p name = (0, d) := by
        unfold unlink
        rw [if_neg hlen2, if_neg hdot2]
        simp only [hs]
        rw [if_neg hdir, if_pos hf]
      rw [e]
      constructor
      · intro h
        have h2 : (0 : Int) = -EDIRNOTEMPTY := h
        exact absurd h2 (by decide)
      · rintro ⟨inode, h, -⟩
        have := stat_ok_nonneg _ _ _ h
        rw [hf] at this
        exact absurd this (by decide)
    · cases hk : stat d (lookup d junk p name) with
      | error e =>
        have e2 : unlink d junk p name = (-EINVALIDINODE, d) := by
          unfold unlink
          rw [if_neg hlen2, if_neg hdot2]
          simp only [hs]
          rw [if_neg hdir, if_neg hf]
          simp only [hk]
        rw [e2]
        constructor
        · intro h
          have h2 : -EINVALIDINODE = -EDIRNOTEMPTY := h
          exact absurd h2 (by decide)
        · rintro ⟨inode, h, -⟩
          cases h
      | ok inode =>
        obtain ⟨j0, j1, -⟩ := inodeOk_of_stat d _ inode hc hk
        simp only [MAX_FILE_SIZE, DIRECT_PTRS, UFS_BLOCK_SIZE] at j1
        push_cast at j1
        have hu : toU64 inode.size > 2 * SIZEOF_DIR_ENT ↔ inode.size > 2 * SIZEOF_DIR_ENT := by
          rw [toU64_of_nonneg _ j0 j1]
          simp only [SIZEOF_DIR_ENT, DIR_ENT_NAME_SIZE]
          omega
        by_cases he : inode.type = UFS_DIRECTORY ∧ toU64 inode.size > 2 * SIZEOF_DIR_ENT
        · have e2 : unlink d junk p name = (-EDIRNOTEMPTY, d) := by
            unfold unlink
            rw [if_neg hlen2, if_neg hdot2]
            simp only [hs]
            rw [if_neg hdir, if_neg hf]
            simp only [hk]
            rw [if_pos he]
          rw [e2]
          exact ⟨fun _ => ⟨inode, rfl, he.1, hu.1 he.2⟩, fun _ => rfl⟩
        · rw [unlink_eq_commit d junk p name parent inode hlen2 hdot2 hs hdir hf hk he]
          constructor
          · intro h
            exfalso
            rcases unlinkCommit_fst d junk (readSuperBlock d) p name parent
              (lookup d junk p name) inode with h1 | h1
            · rw [h1.1] at h
              exact absurd h (by decide)
            · rw [h1.1] at h
              exact absurd h (by decide)
          · rintro ⟨inode2, h, h2, h3⟩
            injection h with h
            subst h
            exact absurd ⟨h2, hu.2 h3⟩ he
  · intro hnul inode hk hty
    obtain ⟨j0, j1, -⟩ := inodeOk_of_stat d _ inode hc hk
    simp only [MAX_FILE_SIZE, DIRECT_PTRS, UFS_BLOCK_SIZE] at j1 i1 i3
    push_cast at j1 i1 i3
    have hk0 := stat_ok_nonneg _ _ _ hk
    have hf : ¬ lookup d junk p name = -ENOTFOUND := by
      intro h
      rw [h] at hk0
      exact absurd hk0 (by decide)
    have he : ¬ (inode.type = UFS_DIRECTORY ∧ toU64 inode.size > 2 * SIZEOF_DIR_ENT) := by
      rw [toU64_of_nonneg _ j0 j1]
      rintro ⟨h1, h2⟩
      rcases hty with h | h
      · rw [h1] at h
        cases h
      · have := h.2
        simp only [SIZEOF_DIR_ENT, DIR_ENT_NAME_SIZE] at this h2
        omega
    obtain ⟨i, hi, hname, hinum⟩ := lookup_found d junk p name parent hs hdir hn i0
      (by simp only [MAX_FILE_SIZE, DIRECT_PTRS, UFS_BLOCK_SIZE]; push_cast; exact i1) hk0
    simp only [SIZEOF_DIR_ENT, DIR_ENT_NAME_SIZE] at hi
    have hi2 : (i : Int) * 32 + 32 ≤ parent.size := by omega
    rw [cstr_eq_self name hnul] at hname
    have hpos := unlink_scan_finds d name parent i hnul
      (by simp only [DIR_ENT_NAME_SIZE] at hlen; omega) hi2 i1 (fun j hj h => i3 j hj h) hname
      (by rw [hinum]; exact hk0)
    rw [unlink_eq_commit d junk p name parent inode hlen2 hdot2 hs hdir hf hk he]
    obtain ⟨c1, -, -, -, c5, -⟩ := unlinkCommit_post d junk p name parent (lookup d junk p name)
      inode hc hs hk (by omega) hpos _ rfl
    exact ⟨c1, c5⟩

set_option maxRecDepth 100000 in
/-- C19, counterexample.  In `fileImage` the root is an allocated directory, the
two-byte name made of `a` and a NUL passes the checks of `unlink`, and
`lookup(0, name)` is 1, an allocated regular file; yet `unlink(0, name)` does
not return 0 but `-ENOTFOUND`: its scan of the directory compares the entry
names with the whole `std::string` and finds nothing. -/
theorem unlink_nul_name_keeps_file :
    Consistent fileImage
      ∧ stat fileImage 0 = .ok (inodeSlot fileImage 0)
      ∧ (inodeSlot fileImage 0).type = UFS_DIRECTORY
      ∧ lookup fileImage (fun _ => 0) 0 [97, 0] = 1
      ∧ stat fileImage 1 = .ok (inodeSlot fileImage 1)
      ∧ (inodeSlot fileImage 1).type = UFS_REGULAR_FILE
      ∧ (unlink fileImage (fun _ => 0) 0 [97, 0]).1 = -ENOTFOUND :=
  ⟨fileImage_consistent, fileImage_root, by decide, by decide, fileImage_file, by decide,
    by decide⟩

set_option maxRecDepth 100000 in
theorem unlink_dir_not_empty_iff_witness :
    Consistent fileImage
      ∧ stat fileImage 0 = .ok (inodeSlot fileImage 0)
      ∧ (inodeSlot fileImage 0).type = UFS_DIRECTORY
      ∧ stat fileImage (lookup fileImage (fun _ => 0) 0 [97]) = .ok (inodeSlot fileImage 1)
      ∧ (inodeSlot fileImage 1).type = UFS_REGULAR_FILE
      ∧ (unlink fileImage (fun _ => 0) 0 [97]).1 = 0
      ∧ stat (unlink fileImage (fun _ => 0) 0 [97]).2 (lookup fileImage (fun _ => 0) 0 [97])
          = .error (-EINVALIDINODE) :=
  have hl : lookup fileImage (fun _ => 0) 0 [97] = 1 := by decide
  have hk : stat fileImage (lookup fileImage (fun _ => 0) 0 [97]) = .ok (inodeSlot fileImage 1) := by
    rw [hl]; exact fileImage_file
  ⟨fileImage_consistent, fileImage_root, by decide, hk, by decide,
    (unlink_dir_not_empty_iff fileImage (fun _ => 0) 0 [97] (inodeSlot fileImage 0)
      fileImage_consistent fileImage_root (by decide) (by decide) (by decide)).2 (by decide)
      (inodeSlot fileImage 1) hk (Or.inl (by decide))⟩

/-- C20.  On a consistent image in which the directory `p` has at least two
entries, the first two named `.` and `..` (invariant 3 of the specification), if
`unlink(p, n)` returns 0 after `lookup(p, n)` found the target `k`, then with
`parent` and `inode` the records of `p` and `k` before the call: `k` is not `p`;
afterwards bit `k` of the inode bitmap is clear and `stat(k)` fails with
`-EINVALIDINODE`; the data-bitmap bit of every block named by a non-zero direct
pointer of `inode` is clear; the record at slot `k` is all zero; `stat(p)` is
`parent` with its size decreased by `sizeof(dir_ent_t)`; and every other bit
below `num_inodes` of the inode bitmap and below `num_data` of the data bitmap
is unchanged. -/
theorem unlink_release (d : Disk) (junk : Bytes) (p : Int) (name : List Nat)
    (hc : Consistent d)
    (hself : ∀ parent, stat d p = .ok parent →
      2 * SIZEOF_DIR_ENT ≤ parent.size ∧ entryName (fileBytes d parent) 0 = [46]
        ∧ entryName (fileBytes d parent) 1 = [46, 46])
    (hf : lookup d junk p name ≠ -ENOTFOUND) (hok : (unlink d junk p name).1 = 0) :
    ∃ parent inode : inode_t,
      stat d p = .ok parent ∧ stat d (lookup d junk p name) = .ok inode
      ∧ lookup d junk p name ≠ p
      ∧ inodeBit (unlink d junk p name).2 (lookup d junk p name).toNat = false
      ∧ stat (unlink d junk p name).2 (lookup d junk p name) = .error (-EINVALIDINODE)
      ∧ (∀ j, j < DIRECT_PTRS → inode.direct j ≠ 0 →
          dataBit (unlink d junk p name).2
            ((inode.direct j : Int) - (readSuperBlock d).data_region_addr).toNat = false)
      ∧ inodeSlot (unlink d junk p name).2 (lookup d junk p name).toNat
          = { type := 0, size := 0, direct := fun _ => 0 }
      ∧ stat (unlink d junk p name).2 p =
          .ok { type := parent.type, size := parent.size - SIZEOF_DIR_ENT,
                direct := parent.direct }
      ∧ (∀ x : Nat, (x : Int) < (readSuperBlock d).num_inodes →
          x ≠ (lookup d junk p name).toNat →
          inodeBit (unlink d junk p name).2 x = inodeBit d x)
      ∧ (∀ b : Nat, (b : Int) < (readSuperBlock d).num_data →
          (∀ j, j < DIRECT_PTRS →
            (inode.direct j : Int) ≠ (b : Int) + (readSuperBlock d).data_region_addr) →
          dataBit (unlink d junk p name).2 b = dataBit d b) := by
  obtain ⟨parent, inode, hs, hdir, hlen, hdot, hk, he, e, hpos⟩ :=
    unlink_zero_inv d junk p name hf hok
  obtain ⟨i0, i1, -⟩ := inodeOk_of_stat d p parent hc hs
  obtain ⟨j0, j1, j2, -⟩ := inodeOk_of_stat d _ inode hc hk
  simp only [DIRECT_PTRS] at j2
  have hk0 := stat_ok_nonneg _ _ _ hk
  have hk1 := ((stat_eq_ok_iff _ _ _).1 hk).2.1
  have hn : ¬ (name.length ≤ 0 ∨ name.length ≥ DIR_ENT_NAME_SIZE) := by
    simp only [DIR_ENT_NAME_SIZE] at hlen ⊢
    omega
  obtain ⟨i, hi, hname, -⟩ := lookup_found d junk p name parent hs hdir hn i0 i1 hk0
  simp only [SIZEOF_DIR_ENT, DIR_ENT_NAME_SIZE] at hi
  have hnul := unlinkFind_nulfree parent name d _ hpos
  rw [cstr_eq_self name hnul] at hname
  obtain ⟨-, s1, s2⟩ := hself parent hs
  have hi2 : 2 ≤ i := by
    by_contra hcon
    have h01 : i = 0 ∨ i = 1 := by omega
    rcases h01 with h | h
    · rw [h, s1] at hname
      exact hdot (Or.inl hname.symm)
    · rw [h, s2] at hname
      exact hdot (Or.inr hname.symm)
  have hkp : lookup d junk p name ≠ p := by
    intro hcon
    rw [hcon, hs] at hk
    injection hk with hk
    subst hk
    apply he
    simp only [MAX_FILE_SIZE, DIRECT_PTRS, UFS_BLOCK_SIZE] at i1
    push_cast at i1
    rw [toU64_of_nonneg _ i0 i1]
    simp only [SIZEOF_DIR_ENT, DIR_ENT_NAME_SIZE]
    exact ⟨not_not.1 hdir, by omega⟩
  rw [e]
  obtain ⟨-, -, c3, c4, c5, c6, c7⟩ := unlinkCommit_post d junk p name parent
    (lookup d junk p name) inode hc hs hk (by omega) hpos _ rfl
  refine ⟨parent, inode, hs, hk, hkp, ?_, c5, ?_, c6 hkp, c7 hkp, ?_, ?_⟩
  · rw [Bool.eq_false_iff]
    intro h
    exact ((c3 _ (by omega)).1 h).1 rfl
  · intro j hj hne
    obtain ⟨r1, r2, -⟩ := j2 j hj hne
    rw [Bool.eq_false_iff]
    intro h
    exact ((c4 _ (by omega)).1 h).2 j hj (by omega)
  · intro x hx hxk
    rw [Bool.eq_iff_iff, c3 x hx]
    exact ⟨fun h => h.2, fun h => ⟨hxk, h⟩⟩
  · intro b hb hnot
    rw [Bool.eq_iff_iff, c4 b hb]
    exact ⟨fun h => h.1, fun h => ⟨h, fun j hj => hnot j hj⟩⟩

set_option maxRecDepth 100000 in
theorem unlink_release_witness :
    Consistent fullImage
      ∧ lookup fullImage (fun _ => 0) 0 [97] ≠ -ENOTFOUND
      ∧ (unlink fullImage (fun _ => 0) 0 [97]).1 = 0
      ∧ ∃ parent inode : inode_t,
        stat fullImage 0 = .ok parent
        ∧ stat fullImage (lookup fullImage (fun _ => 0) 0 [97]) = .ok inode
        ∧ lookup fullImage (fun _ => 0) 0 [97] ≠ 0
        ∧ inodeBit (unlink fullImage (fun _ => 0) 0 [97]).2
            (lookup fullImage (fun _ => 0) 0 [97]).toNat = false
        ∧ stat (unlink fullImage (fun _ => 0) 0 [97]).2 (lookup fullImage (fun _ => 0) 0 [97])
            = .error (-EINVALIDINODE)
        ∧ (∀ j, j < DIRECT_PTRS → inode.direct j ≠ 0 →
            dataBit (unlink fullImage (fun _ => 0) 0 [97]).2
              ((inode.direct j : Int) - (readSuperBlock fullImage).data_region_addr).toNat
                = false)
        ∧ inodeSlot (unlink fullImage (fun _ => 0) 0 [97]).2
            (lookup fullImage (fun _ => 0) 0 [97]).toNat
              = { type := 0, size := 0, direct := fun _ => 0 }
        ∧ stat (unlink fullImage (fun _ => 0) 0 [97]).2 0 =
            .ok { type := parent.type, size := parent.size - SIZEOF_DIR_ENT,
                  direct := parent.direct }
        ∧ (∀ x : Nat, (x : Int) < (readSuperBlock fullImage).num_inodes →
            x ≠ (lookup fullImage (fun _ => 0) 0 [97]).toNat →
            inodeBit (unlink fullImage (fun _ => 0) 0 [97]).2 x = inodeBit fullImage x)
        ∧ (∀ b : Nat, (b : Int) < (readSuperBlock fullImage).num_data →
            (∀ j, j < DIRECT_PTRS →
              (inode.direct j : Int)
                ≠ (b : Int) + (readSuperBlock fullImage).data_region_addr) →
            dataBit (unlink fullImage (fun _ => 0) 0 [97]).2 b = dataBit fullImage b) :=
  ⟨fullImage_consistent, by decide, by decide,
    unlink_release fullImage (fun _ => 0) 0 [97] fullImage_consistent fullImage_self_entries
      (by decide) (by decide)⟩

set_option maxRecDepth 100000 in
/-- C21, the behaviour of the code on a directory of two blocks.  The image
`wideImage` is consistent and its root directory holds 129 entries;
`unlink(0, "hp")` finds the name at index 127, the last entry of the first
block, and returns 0.  The entry list
with the entry of index 127 removed has the former entry 128, `("ia", 127)`,
at index 127; the entry list read after the call has `(".", 0)` there, a copy
of the first entry of the same block: the shift loop reads the block of the
next entry and then overwrites the buffer with the current block. -/
theorem unlink_shift_stays_in_block :
    Consistent wideImage
      ∧ (unlink wideImage (fun _ => 0) 0 (wideName 127)).1 = 0
      ∧ (entriesOf wideImage 0)[127]? = some (wideName 127, 126)
      ∧ ((entriesOf wideImage 0).eraseIdx 127)[127]? = some (wideName 128, 127)
      ∧ (entriesOf (unlink wideImage (fun _ => 0) 0 (wideName 127)).2 0).length = 128
      ∧ (entriesOf (unlink wideImage (fun _ => 0) 0 (wideName 127)).2 0)[127]?
          = some ([46], 0) := by
  refine ⟨wideImage_consistent, by decide, by decide, by decide, by decide, ?_⟩
  have h := entriesOf_get (unlink wideImage (fun _ => 0) 0 (wideName 127)).2 0 128 127 7
    ⟨by decide, by decide, by decide, by decide, by decide, by decide, by decide, by decide,
      by decide, by decide, by decide, by decide, by decide⟩
    ⟨by decide, by decide, by decide⟩ (by decide) (by decide) (by decide) (by decide)
  rw [h]
  have h1 : entryName ((unlink wideImage (fun _ => 0) 0 (wideName 127)).2 7) 127 = [46] := by
    decide
  have h2 : entryInum ((unlink wideImage (fun _ => 0) 0 (wideName 127)).2 7) 127 = 0 := by
    decide
  rw [h1, h2]

/-- C22, as amended.  Consistency is an invariant of the engine: on a consistent
image (a well-formed layout; every allocated inode has a size in
`[0, MAX_FILE_SIZE]` and non-zero direct pointers that name pairwise distinct
blocks of the data region whose data-bitmap bits are set and that cover its
size; the size of a directory is a multiple of `sizeof(dir_ent_t)`; no two
allocated inodes name the same block), the image produced by a successful
`create` (with a type argument in the range of `int`), `write` or `unlink` is
consistent again; in particular every non-zero direct pointer of every
allocated inode names a data block whose data-bitmap bit is set, and no two
allocated inodes name the same block. -/
theorem consistency_invariant (d : Disk) (junk : Bytes) (hc : Consistent d) :
    (∀ (p type : Int) (name : List Nat), -2147483648 ≤ type ∧ type < 2147483648 →
        0 ≤ (create d junk p type name).1 →
          Consistent (create d junk p type name).2 ∧ BitmapOk (create d junk p type name).2)
      ∧ (∀ (inodeNumber : Int) (buffer : Bytes) (size : Int),
        0 ≤ (write d junk inodeNumber buffer size).1 →
          Consistent (write d junk inodeNumber buffer size).2
            ∧ BitmapOk (write d junk inodeNumber buffer size).2)
      ∧ (∀ (p : Int) (name : List Nat), (unlink d junk p name).1 = 0 →
          Consistent (unlink d junk p name).2 ∧ BitmapOk (unlink d junk p name).2) :=
  ⟨fun p t n ht h =>
      ⟨create_consistent d junk p t n hc ht h,
        bitmapOk_of_consistent _ (create_consistent d junk p t n hc ht h)⟩,
    fun i b s h =>
      ⟨write_consistent d junk i b s hc h,
        bitmapOk_of_consistent _ (write_consistent d junk i b s hc h)⟩,
    fun p n h =>
      ⟨unlink_consistent d junk p n hc h,
        bitmapOk_of_consistent _ (unlink_consistent d junk p n hc h)⟩⟩

set_option maxRecDepth 100000 in
theorem consistency_invariant_witness :
    (Consistent mkfsImage
        ∧ 0 ≤ (create mkfsImage (fun _ => 0) 0 UFS_DIRECTORY [97]).1
        ∧ Consistent (create mkfsImage (fun _ => 0) 0 UFS_DIRECTORY [97]).2
        ∧ BitmapOk (create mkfsImage (fun _ => 0) 0 UFS_DIRECTORY [97]).2)
      ∧ (Consistent fileImage
        ∧ 0 ≤ (write fileImage (fun _ => 0) 1 (bytesOfList [104, 105]) 2).1
        ∧ Consistent (write fileImage (fun _ => 0) 1 (bytesOfList [104, 105]) 2).2
        ∧ BitmapOk (write fileImage (fun _ => 0) 1 (bytesOfList [104, 105]) 2).2)
      ∧ (Consistent fullImage
        ∧ (unlink fullImage (fun _ => 0) 0 [97]).1 = 0
        ∧ Consistent (unlink fullImage (fun _ => 0) 0 [97]).2
        ∧ BitmapOk (unlink fullImage (fun _ => 0) 0 [97]).2) :=
  ⟨⟨mkfsImage_consistent, by decide,
      (consistency_invariant mkfsImage (fun _ => 0) mkfsImage_consistent).1 0 UFS_DIRECTORY [97]
        (by decide) (by decide)⟩,
    ⟨fileImage_consistent, by decide,
      (consistency_invariant fileImage (fun _ => 0) fileImage_consistent).2.1 1
        (bytesOfList [104, 105]) 2 (by decide)⟩,
    ⟨fullImage_consistent, by decide,
      (consistency_invariant fullImage (fun _ => 0) fullImage_consistent).2.2 0 [97]
        (by decide)⟩⟩

set_option maxRecDepth 100000 in
/-- C22, counterexample to the claim as stated.  On `gapImage` the only
allocated inode is the root directory, whose only non-zero direct pointer names
the first data block, whose bit is set: the invariant on the data bitmap holds.
`create(0, UFS_REGULAR_FILE, "aaaaaaaaaaaaaaaa")` succeeds and stores the new
entry at offset 24 of the block `direct[0] = 0`, the superblock; afterwards the
superblock gives `0x61616161` as the address of the data region, so the pointer
of the root directory names no data block. -/
theorem create_breaks_bitmap_invariant :
    BitmapOk gapImage
      ∧ 0 ≤ (create gapImage (fun _ => 0) 0 UFS_REGULAR_FILE (List.replicate 16 97)).1
      ∧ ¬ BitmapOk (create gapImage (fun _ => 0) 0 UFS_REGULAR_FILE (List.replicate 16 97)).2 := by
  refine ⟨⟨by decide, by decide⟩, by decide, ?_⟩
  intro h
  have h1 := (h.1 0 (by decide) (by decide) 1 (by decide) (by decide)).1
  exact absurd h1 (by decide)

/-- C23, as amended.  On a consistent image, let `p` be a directory whose entry
list satisfies the invariant on names (every name has a length in
`[1, DIR_ENT_NAME_SIZE)`, the names are pairwise distinct, `.` occurs at index 0
only and `..` at index 1 only), holds entries named `.` and `..`, and has no
entry that bears the C string of `n` together with the inode number
`-ENOTFOUND`.  Then for every name `n` of any length that does not begin with a
NUL byte, the entry list of `p` after `create(p, t, n)` satisfies the invariant
again; in particular no entry has a name of `DIR_ENT_NAME_SIZE` or more
bytes. -/
theorem create_keeps_names (d : Disk) (junk : Bytes) (p type : Int) (name : List Nat)
    (hc : Consistent d) (hty : -2147483648 ≤ type ∧ type < 2147483648)
    (hnames : NamesOk (entriesOf d p))
    (hdot : [46] ∈ (entriesOf d p).map Prod.fst ∧ [46, 46] ∈ (entriesOf d p).map Prod.fst)
    (hinum : ∀ e ∈ entriesOf d p, e.1 = cstr name → e.2 ≠ -ENOTFOUND)
    (hnul : name.head? ≠ some 0) :
    NamesOk (entriesOf (create d junk p type name).2 p)
      ∧ ∀ e ∈ entriesOf (create d junk p type name).2 p, e.1.length < DIR_ENT_NAME_SIZE := by
  have key : NamesOk (entriesOf (create d junk p type name).2 p) := by
    rw [create_entries d junk p type name hc hty]
    by_cases hcase : 0 ≤ (create d junk p type name).1 ∧ lookup d junk p name = -ENOTFOUND
    · rw [if_pos hcase]
      obtain ⟨hok, hf⟩ := hcase
      obtain ⟨parent, h1, hs, ht, hn⟩ := create_success_parent d junk p type name hok
      obtain ⟨i0, i1, -⟩ := inodeOk_of_stat d p parent hc hs
      have hlk := lookup_of_directory d junk p name parent hs ht hn i0 i1
      rw [hf] at hlk
      rw [entriesOf_ok _ _ _ hs] at hinum hdot hnames ⊢
      have hnone : ∀ i, i < parent.size.toNat / SIZEOF_DIR_ENT →
          entryName (fileBytes d parent) i ≠ cstr name := by
        intro i hi he
        cases hfind : (List.range (parent.size.toNat / SIZEOF_DIR_ENT)).find?
            (fun i => entryName (fileBytes d parent) i = cstr name) with
        | none =>
          have := find?_range_none _ _ hfind i hi
          simp only [decide_eq_false_iff_not] at this
          exact this he
        | some j =>
          rw [hfind] at hlk
          simp only at hlk
          have hj := List.find?_some hfind
          simp only [decide_eq_true_eq] at hj
          have hjm := List.mem_range.1 (List.mem_of_find?_eq_some hfind)
          exact hinum (entryName (fileBytes d parent) j, entryInum (fileBytes d parent) j)
            ((mem_dirEntries d parent _).2 ⟨j, hjm, rfl⟩) hj hlk.symm
      have hlen : (cstr name).length < DIR_ENT_NAME_SIZE := by
        have := cstr_length_le name
        simp only [DIR_ENT_NAME_SIZE] at hn ⊢
        omega
      have hne : name ≠ [] := by
        intro h
        rw [h] at hn
        simp at hn
      apply namesOk_append _ _ _ hnames (cstr_length_pos name hne hnul) hlen _ hdot.1 hdot.2
      intro hmem
      rw [List.mem_map] at hmem
      obtain ⟨e, he, hfst⟩ := hmem
      obtain ⟨i, hi, hei⟩ := (mem_dirEntries d parent e).1 he
      rw [hei] at hfst
      exact hnone i hi hfst
    · rw [if_neg hcase]
      exact hnames
  exact ⟨key, fun e he => (key.1 e he).2⟩

set_option maxRecDepth 100000 in
theorem create_keeps_names_witness :
    Consistent mkfsImage
      ∧ NamesOk (entriesOf mkfsImage 0)
      ∧ ([46] ∈ (entriesOf mkfsImage 0).map Prod.fst
          ∧ [46, 46] ∈ (entriesOf mkfsImage 0).map Prod.fst)
      ∧ (∀ e ∈ entriesOf mkfsImage 0, e.1 = cstr [97] → e.2 ≠ -ENOTFOUND)
      ∧ [97].head? ≠ some 0
      ∧ NamesOk (entriesOf (create mkfsImage (fun _ => 0) 0 UFS_REGULAR_FILE [97]).2 0)
      ∧ ∀ e ∈ entriesOf (create mkfsImage (fun _ => 0) 0 UFS_REGULAR_FILE [97]).2 0,
          e.1.length < DIR_ENT_NAME_SIZE :=
  ⟨mkfsImage_consistent, ⟨by decide, by decide, by decide, by decide⟩,
    ⟨by decide, by decide⟩, by decide, by decide,
    create_keeps_names mkfsImage (fun _ => 0) 0 UFS_REGULAR_FILE [97] mkfsImage_consistent
      (by decide) ⟨by decide, by decide, by decide, by decide⟩ ⟨by decide, by decide⟩
      (by decide) (by decide)⟩

set_option maxRecDepth 100000 in
/-- C23, counterexample to the claim as stated.  The root directory of the
freshly formatted image satisfies the invariant on names.  The name made of a
NUL byte followed by `a` has length 2 and passes the length check of `create`;
`lookup` and `strcpy` take its C string, the empty string: no entry matches, and
the call succeeds and appends an entry with the empty name, of length 0. -/
theorem create_stores_empty_name :
    NamesOk (entriesOf mkfsImage 0)
      ∧ (create mkfsImage (fun _ => 0) 0 UFS_REGULAR_FILE [0, 97]).1 = 1
      ∧ entriesOf (create mkfsImage (fun _ => 0) 0 UFS_REGULAR_FILE [0, 97]).2 0
          = [([46], 0), ([46, 46], 0), ([], 1)]
      ∧ ¬ NamesOk (entriesOf (create mkfsImage (fun _ => 0) 0 UFS_REGULAR_FILE [0, 97]).2 0) := by
  have h1 : (create mkfsImage (fun _ => 0) 0 UFS_REGULAR_FILE [0, 97]).1 = 1 := by decide
  have h2 : entriesOf (create mkfsImage (fun _ => 0) 0 UFS_REGULAR_FILE [0, 97]).2 0
      = [([46], 0), ([46, 46], 0), ([], 1)] := by
    rw [create_entries mkfsImage (fun _ => 0) 0 UFS_REGULAR_FILE [0, 97] mkfsImage_consistent
      (by decide), if_pos ⟨by decide, by decide⟩, h1]
    decide
  refine ⟨⟨by decide, by decide, by decide, by decide⟩, h1, h2, ?_⟩
  rw [h2]
  intro h
  exact absurd (h.1 ([], 1) (by decide)).1 (by decide)

/-- C24.  On a consistent image, for a `GET` request whose path resolves to an
allocated directory `k` in which every entry other than `.` and `..` names an
allocated inode: the status is 200 and the body is the concatenation of the
lines of the entries other than `.` and `..`, taken in ascending order of
name (the lexicographic order on bytes), the line of an entry being its name, a
`/` when the entry is a directory, and a newline. -/
theorem get_directory_listing (d : Disk) (junk : Bytes) (components : List (List Nat))
    (body : List Nat) (k : Int) (inode : inode_t) (hc : Consistent d)
    (hres : resolve d junk UFS_ROOT_DIRECTORY_INODE_NUMBER components = some k)
    (hs : stat d k = .ok inode) (ht : inode.type = UFS_DIRECTORY)
    (hent : ∀ e ∈ dirEntries d inode, e.1 ≠ [46] → e.1 ≠ [46, 46] →
      isAllocated d e.2 = true) :
    ∃ L : List (List Nat × Bool),
      L.Perm (listed d inode) ∧ L.Sorted (fun a b => a.1 ≤ b.1)
        ∧ get d junk { pathComponents := ds3 :: components, body := body }
            = .ok { status := 200, body := L.flatMap listingLine } := by
  obtain ⟨i0, i1, -⟩ := inodeOk_of_stat d k inode hc hs
  have hread := read_ok d k junk inode.size inode hs i0 i1
  rw [min_self] at hread
  have hmax : inode.size ≤ 122880 := by
    simp only [MAX_FILE_SIZE, DIRECT_PTRS, UFS_BLOCK_SIZE] at i1
    push_cast at i1
    omega
  have hlist : forLoop (getListStep d junk (read d k junk inode.size).2)
      (toU64 inode.size / SIZEOF_DIR_ENT) 0 [] = listed d inode := by
    rw [getList_eq, toU64_of_nonneg _ i0 hmax,
      dirEntries_of_buffer d inode _ (by
        intro j hj
        rw [hread]
        simp only
        rw [if_pos hj])]
    unfold listed
    apply List.map_congr_left
    intro e he
    rw [List.mem_filter] at he
    obtain ⟨hmem, hdots⟩ := he
    have hdots2 := of_decide_eq_true hdots
    have ha := hent e hmem hdots2.1 hdots2.2
    unfold isAllocated at ha
    unfold isDirectory
    cases hst : stat d e.2 with
    | error x =>
      rw [hst] at ha
      exact absurd ha (by simp)
    | ok J => rfl
  obtain ⟨hperm, hsorted⟩ := stdSort_names compareEntries (fun _ _ => rfl) (listed d inode)
  refine ⟨stdSort compareEntries (listed d inode), hperm, hsorted, ?_⟩
  rw [get_eq, hres]
  simp only [hs]
  rw [hlist, hread]
  simp only
  rw [if_neg (by omega), if_neg (by rw [ht]; decide), if_pos ht]
  rfl

set_option maxRecDepth 100000 in
theorem get_directory_listing_witness :
    Consistent dirImage
      ∧ resolve dirImage (fun _ => 0) UFS_ROOT_DIRECTORY_INODE_NUMBER [] = some 0
      ∧ stat dirImage 0 = .ok (inodeSlot dirImage 0)
      ∧ (inodeSlot dirImage 0).type = UFS_DIRECTORY
      ∧ (∀ e ∈ dirEntries dirImage (inodeSlot dirImage 0), e.1 ≠ [46] → e.1 ≠ [46, 46] →
          isAllocated dirImage e.2 = true)
      ∧ ∃ L : List (List Nat × Bool),
        L.Perm (listed dirImage (inodeSlot dirImage 0)) ∧ L.Sorted (fun a b => a.1 ≤ b.1)
          ∧ get dirImage (fun _ => 0) { pathComponents := ds3 :: [], body := [] }
              = .ok { status := 200, body := L.flatMap listingLine } :=
  ⟨dirImage_consistent, rfl, dirImage_root, by decide, by decide,
    get_directory_listing dirImage (fun _ => 0) [] [] 0 (inodeSlot dirImage 0)
      dirImage_consistent rfl dirImage_root (by decide) (by decide)⟩

/-- C25, as amended.  For a `PUT` request `/ds3/c1/.../cn` whose walk over the
intermediate components reaches the directory `parent` and for which
`create(parent, UFS_REGULAR_FILE, cn)` returns `-EINVALIDTYPE` (a directory of
that name exists): the handler does not throw on this value, calls `write` with
it as the inode number, and answers 507 when `write` fails; the transaction is
rolled back and the image is unchanged. -/
theorem put_on_directory (s : DiskState) (junk : Bytes) (components : List (List Nat))
    (body : List Nat) (parent : Int) (d1 : Disk) (hn : components ≠ [])
    (hwalk : forLoop (putWalkStep junk components) (components.length - 1) 0
      (.ok (UFS_ROOT_DIRECTORY_INODE_NUMBER, s.view)) = .ok (parent, d1))
    (hcreate : (create d1 junk parent UFS_REGULAR_FILE (components.getLastD [])).1
      = -EINVALIDTYPE) :
    (put s junk { pathComponents := ds3 :: components, body := body }).status = 507
      ∧ (put s junk { pathComponents := ds3 :: components, body := body }).disk
          = { image := s.image, staged := none }
      ∧ (put s junk { pathComponents := ds3 :: components, body := body }).calls
          = [DiskCall.beginTransaction, DiskCall.rollback] := by
  have hw := write_error_of_negative
    (create d1 junk parent UFS_REGULAR_FILE (components.getLastD [])).2 junk
    (create d1 junk parent UFS_REGULAR_FILE (components.getLastD [])).1 (bytesOfList body)
    (toS32 (body.length % 4294967296)) (by rw [hcreate]; decide)
  have ht : putTry s.view junk components body =
      .error (ClientError.insufficientStorage,
        (write (create d1 junk parent UFS_REGULAR_FILE (components.getLastD [])).2
          junk (create d1 junk parent UFS_REGULAR_FILE (components.getLastD [])).1
          (bytesOfList body) (toS32 (body.length % 4294967296))).2) := by
    rw [putTry_eq s.view junk components body hn, hwalk]
    simp only
    rw [if_neg (fun h => h.2 hcreate), if_pos hw.1]
  rw [put_eq, ht]
  exact ⟨rfl, rfl, rfl⟩

set_option maxRecDepth 100000 in
theorem put_on_directory_witness :
    ([[97]] : List (List Nat)) ≠ []
      ∧ forLoop (putWalkStep (fun _ => 0) [[97]]) (([[97]] : List (List Nat)).length - 1) 0
          (.ok (UFS_ROOT_DIRECTORY_INODE_NUMBER,
            DiskState.view { image := dirImage, staged := none })) = .ok (0, dirImage)
      ∧ (create dirImage (fun _ => 0) 0 UFS_REGULAR_FILE (([[97]] : List (List Nat)).getLastD [])).1
          = -EINVALIDTYPE
      ∧ (put { image := dirImage, staged := none } (fun _ => 0)
          { pathComponents := ds3 :: [[97]], body := [121] }).status = 507
      ∧ (put { image := dirImage, staged := none } (fun _ => 0)
          { pathComponents := ds3 :: [[97]], body := [121] }).disk
          = { image := dirImage, staged := none }
      ∧ (put { image := dirImage, staged := none } (fun _ => 0)
          { pathComponents := ds3 :: [[97]], body := [121] }).calls
          = [DiskCall.beginTransaction, DiskCall.rollback] :=
  ⟨by decide, rfl, by decide,
    put_on_directory { image := dirImage, staged := none } (fun _ => 0) [[97]] [121] 0 dirImage
      (by decide) rfl (by decide)⟩

set_option maxRecDepth 100000 in
/-- C25, counterexample to the claim as stated.  In `dirImage` the root
directory holds the directory `a`; for `PUT /ds3/a` with the body `y`,
`create(0, UFS_REGULAR_FILE, "a")` returns `-EINVALIDTYPE`, and the status is
507, not 400. -/
theorem put_on_directory_is_507 :
    Consistent dirImage
      ∧ (create dirImage (fun _ => 0) 0 UFS_REGULAR_FILE [97]).1 = -EINVALIDTYPE
      ∧ (put { image := dirImage, staged := none } (fun _ => 0)
          { pathComponents := [ds3, [97]], body := [121] }).status = 507
      ∧ (put { image := dirImage, staged := none } (fun _ => 0)
          { pathComponents := [ds3, [97]], body := [121] }).status ≠ 400 :=
  ⟨⟨⟨by decide, by decide, by decide, by decide, by decide, by decide, by decide, by decide,
      by decide, by decide, by decide, by decide, by decide⟩, by decide, by decide⟩,
    by decide, by decide, by decide⟩

/-- C26, as amended.  For a `PUT` request `/ds3/c1/.../cn` with `n >= 1`, on
every image: the status is 507 exactly when the walk over the intermediate
components went through, `create` of the file returned a non-negative value or
`-EINVALIDTYPE`, and `write` returned an error, whatever the error (so a body
longer than `MAX_FILE_SIZE`, for which `write` returns `-EINVALIDSIZE` or the
error of `stat`, yields 507); a failing `create`, of the file with an error
other than `-EINVALIDTYPE` or of an intermediate directory, yields 400 whatever
its error, `-ENOTENOUGHSPACE` included. -/
theorem put_507_iff (s : DiskState) (junk : Bytes) (components : List (List Nat))
    (body : List Nat) (hn : components ≠ []) :
    ((put s junk { pathComponents := ds3 :: components, body := body }).status = 507 ↔
        ∃ parent d1,
          forLoop (putWalkStep junk components) (components.length - 1) 0
              (.ok (UFS_ROOT_DIRECTORY_INODE_NUMBER, s.view)) = .ok (parent, d1)
            ∧ ¬ ((create d1 junk parent UFS_REGULAR_FILE (components.getLastD [])).1 < 0
                ∧ (create d1 junk parent UFS_REGULAR_FILE (components.getLastD [])).1
                  ≠ -EINVALIDTYPE)
            ∧ (write (create d1 junk parent UFS_REGULAR_FILE (components.getLastD [])).2 junk
                (create d1 junk parent UFS_REGULAR_FILE (components.getLastD [])).1
                (bytesOfList body) (toS32 (body.length % 4294967296))).1 < 0)
      ∧ (∀ parent d1,
          forLoop (putWalkStep junk components) (components.length - 1) 0
              (.ok (UFS_ROOT_DIRECTORY_INODE_NUMBER, s.view)) = .ok (parent, d1) →
          (create d1 junk parent UFS_REGULAR_FILE (components.getLastD [])).1 < 0 →
          (create d1 junk parent UFS_REGULAR_FILE (components.getLastD [])).1 ≠ -EINVALIDTYPE →
          (put s junk { pathComponents := ds3 :: components, body := body }).status = 400)
      ∧ (∀ (i : Nat) (cur : Int) (d1 : Disk), i < components.length - 1 →
          forLoop (putWalkStep junk components) i 0
              (.ok (UFS_ROOT_DIRECTORY_INODE_NUMBER, s.view)) = .ok (cur, d1) →
          lookup d1 junk cur (components.getD i []) < 0 →
          (create d1 junk cur UFS_DIRECTORY (components.getD i [])).1 < 0 →
          (put s junk { pathComponents := ds3 :: components, body := body }).status = 400)
      ∧ (∀ parent d1,
          forLoop (putWalkStep junk components) (components.length - 1) 0
              (.ok (UFS_ROOT_DIRECTORY_INODE_NUMBER, s.view)) = .ok (parent, d1) →
          ¬ ((create d1 junk parent UFS_REGULAR_FILE (components.getLastD [])).1 < 0
              ∧ (create d1 junk parent UFS_REGULAR_FILE (components.getLastD [])).1
                ≠ -EINVALIDTYPE) →
          MAX_FILE_SIZE < body.length → body.length < 2147483648 →
          (put s junk { pathComponents := ds3 :: components, body := body }).status = 507) := by
  have key := put_status_of_try s junk components body
  rw [putTry_eq s.view junk components body hn] at key
  have hok : ∀ parent d1,
      forLoop (putWalkStep junk components) (components.length - 1) 0
          (.ok (UFS_ROOT_DIRECTORY_INODE_NUMBER, s.view)) = .ok (parent, d1) →
      (put s junk { pathComponents := ds3 :: components, body := body }).status =
        if (create d1 junk parent UFS_REGULAR_FILE (components.getLastD [])).1 < 0
            ∧ (create d1 junk parent UFS_REGULAR_FILE (components.getLastD [])).1
              ≠ -EINVALIDTYPE then 400
        else if (write (create d1 junk parent UFS_REGULAR_FILE (components.getLastD [])).2
            junk (create d1 junk parent UFS_REGULAR_FILE (components.getLastD [])).1
            (bytesOfList body) (toS32 (body.length % 4294967296))).1 < 0 then 507
        else 200 := by
    intro parent d1 hw
    rw [key, hw]
    simp only
    split_ifs <;> rfl
  refine ⟨?_, ?_, ?_, ?_⟩
  · constructor
    · intro h507
      cases hw : forLoop (putWalkStep junk components) (components.length - 1) 0
          (.ok (UFS_ROOT_DIRECTORY_INODE_NUMBER, s.view)) with
      | error e =>
        rw [key, hw] at h507
        simp only at h507
        rcases putWalk_status junk components s.view _ e hw with h | h <;> omega
      | ok st =>
        obtain ⟨parent, d1⟩ := st
        rw [hok parent d1 hw] at h507
        refine ⟨parent, d1, rfl, ?_, ?_⟩
        · intro hc
          rw [if_pos hc] at h507
          omega
        · by_contra hwr
          by_cases hc : (create d1 junk parent UFS_REGULAR_FILE (components.getLastD [])).1 < 0
              ∧ (create d1 junk parent UFS_REGULAR_FILE (components.getLastD [])).1
                ≠ -EINVALIDTYPE
          · rw [if_pos hc] at h507
            omega
          · rw [if_neg hc, if_neg hwr] at h507
            omega
    · rintro ⟨parent, d1, hw, hc, hwr⟩
      rw [hok parent d1 hw, if_neg hc, if_pos hwr]
  · intro parent d1 hw h1 h2
    rw [hok parent d1 hw, if_pos ⟨h1, h2⟩]
  · intro i cur d1 hi hw hlk hcr
    obtain ⟨m, hm⟩ : ∃ m, components.length - 1 = i + (m + 1) := ⟨components.length - 1 - i - 1, by omega⟩
    have hwalk : forLoop (putWalkStep junk components) (components.length - 1) 0
        (.ok (UFS_ROOT_DIRECTORY_INODE_NUMBER, s.view))
        = .error (ClientError.badRequest,
            (create d1 junk cur UFS_DIRECTORY (components.getD i [])).2) := by
      rw [hm, forLoop_add, hw, forLoop_first]
      have hstep : putWalkStep junk components (0 + i) (.ok (cur, d1))
          = .error (ClientError.badRequest,
              (create d1 junk cur UFS_DIRECTORY (components.getD i [])).2) := by
        rw [Nat.zero_add]
        simp only [putWalkStep]
        rw [if_pos hlk, if_pos hcr]
      rw [hstep, putWalk_error]
    rw [key, hwalk]
  · intro parent d1 hw hc h1 h2
    have hsize : toS32 (body.length % 4294967296) = (body.length : Int) := by
      unfold toS32
      rw [Nat.mod_eq_of_lt (by omega), if_pos (by omega)]
    have hwr := write_error_of_size
      (create d1 junk parent UFS_REGULAR_FILE (components.getLastD [])).2 junk
      (create d1 junk parent UFS_REGULAR_FILE (components.getLastD [])).1 (bytesOfList body)
      (toS32 (body.length % 4294967296)) (by rw [hsize]; exact_mod_cast h1)
    rw [hok parent d1 hw, if_neg hc, if_pos hwr]

set_option maxRecDepth 100000 in
theorem put_507_iff_witness :
    ([[98]] : List (List Nat)) ≠ []
      ∧ (put { image := fullImage, staged := none } (fun _ => 0)
          { pathComponents := ds3 :: [[98]], body := [104, 105] }).status = 507 :=
  ⟨by decide,
    (put_507_iff { image := fullImage, staged := none } (fun _ => 0) [[98]] [104, 105]
      (by decide)).1.2 ⟨0, fullImage, rfl, by decide, by decide⟩⟩

set_option maxRecDepth 100000 in
/-- C26, counterexample to the claim as stated.  In `fullImage` no data block
is free.  For `PUT /ds3/x/y`, `lookup(0, "x")` fails and
`create(0, UFS_DIRECTORY, "x")`, the engine call that fails, returns
`-ENOTENOUGHSPACE`; the status is 400, not 507. -/
theorem put_enospc_is_400 :
    Consistent fullImage
      ∧ lookup fullImage (fun _ => 0) 0 [120] < 0
      ∧ (create fullImage (fun _ => 0) 0 UFS_DIRECTORY [120]).1 = -ENOTENOUGHSPACE
      ∧ (put { image := fullImage, staged := none } (fun _ => 0)
          { pathComponents := [ds3, [120], [121]], body := [104, 105] }).status = 400 :=
  ⟨fullImage_consistent, by decide, by decide, by decide⟩

/-- C27.  For a `DELETE` request `/ds3/c1/.../cn` with `n >= 1`, on every image:
the status is 404 if the lookup of one of the intermediate components
`c1 .. c(n-1)` fails; otherwise, with `parent` the directory they lead to, it
is 409 if `unlink(parent, cn)` returns `-EDIRNOTEMPTY`, 400 if it returns
another error, and 200 if it returns no error, which is the case when `cn` is
a name that passes the checks of `unlink` and that `lookup(parent, cn)` does
not find. -/
theorem del_status (s : DiskState) (junk : Bytes) (components : List (List Nat))
    (body : List Nat) (hn : components ≠ []) :
    (resolve s.view junk UFS_ROOT_DIRECTORY_INODE_NUMBER components.dropLast = none →
        (del s junk { pathComponents := ds3 :: components, body := body }).status = 404)
      ∧ ∀ parent,
        resolve s.view junk UFS_ROOT_DIRECTORY_INODE_NUMBER components.dropLast = some parent →
          ((unlink s.view junk parent (components.getLastD [])).1 = -EDIRNOTEMPTY →
              (del s junk { pathComponents := ds3 :: components, body := body }).status = 409)
            ∧ ((unlink s.view junk parent (components.getLastD [])).1 < 0 →
              (unlink s.view junk parent (components.getLastD [])).1 ≠ -EDIRNOTEMPTY →
              (del s junk { pathComponents := ds3 :: components, body := body }).status = 400)
            ∧ (0 ≤ (unlink s.view junk parent (components.getLastD [])).1 →
              (del s junk { pathComponents := ds3 :: components, body := body }).status = 200)
            ∧ (lookup s.view junk parent (components.getLastD []) = -ENOTFOUND →
              (components.getLastD []).length < DIR_ENT_NAME_SIZE - 1 →
              components.getLastD [] ≠ [46] → components.getLastD [] ≠ [46, 46] →
              (del s junk { pathComponents := ds3 :: components, body := body }).status
                = 200) := by
  have key := del_status_of_try s junk components body
  rw [delTry_eq s.view junk components hn] at key
  refine ⟨?_, ?_⟩
  · intro h
    rw [key, h]
  · intro parent h
    rw [h] at key
    simp only at key
    have h200 : 0 ≤ (unlink s.view junk parent (components.getLastD [])).1 →
        (del s junk { pathComponents := ds3 :: components, body := body }).status = 200 := by
      intro h0
      rw [key, if_neg (by omega)]
    refine ⟨?_, ?_, h200, ?_⟩
    · intro he
      rw [key, if_pos (by rw [he]; decide), if_pos he]
    · intro hlt hne
      rw [key, if_pos hlt, if_neg hne]
    · intro hlk hlen hd1 hd2
      apply h200
      have hlen0 : 0 < (components.getLastD []).length := by
        by_contra h0
        have hnil : (components.getLastD []).length ≤ 0 := by omega
        unfold lookup at hlk
        cases hst : stat s.view parent with
        | error e =>
          rw [hst] at hlk
          simp only at hlk
          have := stat_error _ _ _ hst
          rw [hlk] at this
          exact absurd this (by decide)
        | ok ino =>
          rw [hst] at hlk
          simp only at hlk
          by_cases ht : ino.type ≠ UFS_DIRECTORY
          · rw [if_pos ht] at hlk
            exact absurd hlk (by decide)
          · rw [if_neg ht, if_pos (Or.inl hnil)] at hlk
            exact absurd hlk (by decide)
      unfold unlink
      rw [if_neg (by omega), if_neg (by intro h; exact h.elim hd1 hd2)]
      simp only
      cases hst : stat s.view parent with
      | error e =>
        unfold lookup at hlk
        rw [hst] at hlk
        simp only at hlk
        have := stat_error _ _ _ hst
        rw [hlk] at this
        exact absurd this (by decide)
      | ok ino =>
        simp only
        by_cases ht : ino.type ≠ UFS_DIRECTORY
        · unfold lookup at hlk
          rw [hst] at hlk
          simp only at hlk
          rw [if_pos ht] at hlk
          exact absurd hlk (by decide)
        · rw [if_neg ht, if_pos hlk]

set_option maxRecDepth 100000 in
theorem del_status_witness :
    ([[97]] : List (List Nat)) ≠ []
      ∧ resolve (DiskState.view { image := fullImage, staged := none }) (fun _ => 0)
          UFS_ROOT_DIRECTORY_INODE_NUMBER ([[97]] : List (List Nat)).dropLast = some 0
      ∧ 0 ≤ (unlink (DiskState.view { image := fullImage, staged := none }) (fun _ => 0) 0
          (([[97]] : List (List Nat)).getLastD [])).1
      ∧ (del { image := fullImage, staged := none } (fun _ => 0)
          { pathComponents := ds3 :: [[97]], body := [] }).status = 200 :=
  ⟨by decide, by decide, by decide,
    ((del_status { image := fullImage, staged := none } (fun _ => 0) [[97]] [] (by decide)).2 0
      (by decide)).2.2.1 (by decide)⟩

/-- C28.  Every `PUT` and every `DELETE`, on every state of the disk: either the
handler opens no transaction (it answers 404 and leaves the state alone), or
it calls `beginTransaction` and then exactly one of `commit`, with the status
200, and `rollback`, with the status of an error; and with the block device of
the specification the image after a request that is answered with a status
other than 200 is the image before the request.  For the request whose path is
only `/ds3` the reading of the embedding applies: the read of `components[0]`
outside the empty vector yields the empty string. -/
theorem request_atomicity (s : DiskState) (junk : Bytes) (request : HTTPRequest) :
    Atomic s (put s junk request) ∧ Atomic s (del s junk request)
      ∧ ((put s junk request).status ≠ 200 → (put s junk request).disk.image = s.image)
      ∧ ((del s junk request).status ≠ 200 → (del s junk request).disk.image = s.image) := by
  have h1 := put_atomic s junk request
  have h2 := del_atomic s junk request
  refine ⟨h1, h2, ?_, ?_⟩
  · intro hne
    rcases h1 with ⟨-, -, h⟩ | ⟨-, h, -⟩ | ⟨-, -, h⟩
    · rw [h]
    · exact absurd h hne
    · rw [h]
  · intro hne
    rcases h2 with ⟨-, -, h⟩ | ⟨-, h, -⟩ | ⟨-, -, h⟩
    · rw [h]
    · exact absurd h hne
    · rw [h]

set_option maxRecDepth 100000 in
theorem request_atomicity_witness :
    ((put { image := dirImage, staged := none } (fun _ => 0)
          { pathComponents := [ds3, [97]], body := [121] }).status ≠ 200
        ∧ (put { image := dirImage, staged := none } (fun _ => 0)
          { pathComponents := [ds3, [97]], body := [121] }).disk.image = dirImage)
      ∧ ((del { image := dirImage, staged := none } (fun _ => 0)
          { pathComponents := [ds3, [120], [121]], body := [] }).status ≠ 200
        ∧ (del { image := dirImage, staged := none } (fun _ => 0)
          { pathComponents := [ds3, [120], [121]], body := [] }).disk.image = dirImage) :=
  ⟨⟨by decide,
      (request_atomicity { image := dirImage, staged := none } (fun _ => 0)
        { pathComponents := [ds3, [97]], body := [121] }).2.2.1 (by decide)⟩,
    ⟨by decide,
      (request_atomicity { image := dirImage, staged := none } (fun _ => 0)
        { pathComponents := [ds3, [120], [121]], body := [] }).2.2.2 (by decide)⟩⟩

/-- C29, the behaviour of the code.  A request whose component list is empty or
does not start with `ds3` is answered with 404 before any call on the disk.
For the component list `["ds3"]` there is no such check: the handlers open a
transaction and enter the loop over the intermediate components with the bound
`components.size() - 1`, which wraps around for the vector emptied by `erase`,
and read `components[0]`.  With that read yielding the empty string, `lookup`
fails; `put` then calls `create`, which fails, and answers 400, not 404; `del`
answers 404 after `beginTransaction` and `rollback`. -/
theorem bare_prefix_request (s : DiskState) (junk : Bytes) (body : List Nat) :
    (∀ request : HTTPRequest,
        request.pathComponents = [] ∨ request.pathComponents.head? ≠ some ds3 →
        ((put s junk request).status = 404 ∧ (put s junk request).calls = []
            ∧ (put s junk request).disk = s)
          ∧ ((del s junk request).status = 404 ∧ (del s junk request).calls = []
            ∧ (del s junk request).disk = s))
      ∧ (put s junk { pathComponents := [ds3], body := body }).status = 400
      ∧ (put s junk { pathComponents := [ds3], body := body }).calls
          = [DiskCall.beginTransaction, DiskCall.rollback]
      ∧ (del s junk { pathComponents := [ds3], body := body }).status = 404
      ∧ (del s junk { pathComponents := [ds3], body := body }).calls
          = [DiskCall.beginTransaction, DiskCall.rollback] := by
  refine ⟨?_, ?_, ?_, ?_, ?_⟩
  · intro request h
    unfold put del
    simp only
    rw [if_pos h, if_pos h]
    exact ⟨⟨rfl, rfl, rfl⟩, ⟨rfl, rfl, rfl⟩⟩
  · rw [put_eq, putTry_nil]; rfl
  · rw [put_eq, putTry_nil]
  · rw [del_eq, delTry_nil]; rfl
  · rw [del_eq, delTry_nil]

theorem bare_prefix_request_witness :
    (({ pathComponents := [[97]], body := [] } : HTTPRequest).pathComponents = []
        ∨ ({ pathComponents := [[97]], body := [] } : HTTPRequest).pathComponents.head?
          ≠ some ds3)
      ∧ ((put { image := mkfsImage, staged := none } (fun _ => 0)
            { pathComponents := [[97]], body := [] }).status = 404
          ∧ (put { image := mkfsImage, staged := none } (fun _ => 0)
            { pathComponents := [[97]], body := [] }).calls = []
          ∧ (put { image := mkfsImage, staged := none } (fun _ => 0)
            { pathComponents := [[97]], body := [] }).disk
              = { image := mkfsImage, staged := none })
      ∧ ((del { image := mkfsImage, staged := none } (fun _ => 0)
            { pathComponents := [[97]], body := [] }).status = 404
          ∧ (del { image := mkfsImage, staged := none } (fun _ => 0)
            { pathComponents := [[97]], body := [] }).calls = []
          ∧ (del { image := mkfsImage, staged := none } (fun _ => 0)
            { pathComponents := [[97]], body := [] }).disk
              = { image := mkfsImage, staged := none }) :=
  ⟨by decide,
    (bare_prefix_request { image := mkfsImage, staged := none } (fun _ => 0) []).1
      { pathComponents := [[97]], body := [] } (by decide)⟩

/-- C30, as amended.  On a consistent image, for an allocated directory `k`
all of whose entries name allocated inodes, `printDirectoryContents` prints the
header `Directory <path>`, then the line `<inum>\t<name>` of every entry of the
directory, the entries `.` and `..` included, in ascending order of name (the
lexicographic order on bytes), then an empty line; after that it visits, in the
same order, the entries that are directories and are not named `.` or `..`,
with the path `<path><name>/`. -/
theorem ls_directory (fuel : Nat) (d : Disk) (junk : Bytes) (k : Int) (path : List Nat)
    (inode : inode_t) (hc : Consistent d) (hs : stat d k = .ok inode)
    (hent : ∀ e ∈ dirEntries d inode, isAllocated d e.2 = true) :
    ∃ L : List (List Nat × Int),
      L.Perm (dirEntries d inode) ∧ L.Sorted (fun a b => a.1 ≤ b.1)
        ∧ printDirectoryContents (fuel + 1) d junk k path =
          [68, 105, 114, 101, 99, 116, 111, 114, 121, 32] ++ path ++ [10]
            ++ L.flatMap (fun e => showInt e.2 ++ [9] ++ e.1 ++ [10]) ++ [10]
            ++ L.flatMap (fun e =>
              if isDirectory d e.2 = true ∧ e.1 ≠ [46] ∧ e.1 ≠ [46, 46] then
                printDirectoryContents fuel d junk e.2 (path ++ e.1 ++ [47])
              else []) := by
  obtain ⟨i0, i1, -⟩ := inodeOk_of_stat d k inode hc hs
  have hread := read_ok d k junk inode.size inode hs i0 i1
  rw [min_self] at hread
  have hmax : inode.size ≤ 122880 := by
    simp only [MAX_FILE_SIZE, DIRECT_PTRS, UFS_BLOCK_SIZE] at i1
    push_cast at i1
    omega
  have hlist : forLoop (lsCollectStep (read d k junk inode.size).2)
      (toU64 inode.size / SIZEOF_DIR_ENT) 0 [] = dirEntries d inode := by
    rw [lsCollect_eq, toU64_of_nonneg _ i0 hmax,
      dirEntries_of_buffer d inode _ (by
        intro j hj
        rw [hread]
        simp only
        rw [if_pos hj])]
  obtain ⟨hperm, hsorted⟩ :=
    stdSort_names compareEntryNames (fun _ _ => rfl) (dirEntries d inode)
  refine ⟨stdSort compareEntryNames (dirEntries d inode), hperm, hsorted, ?_⟩
  have hall : ∀ e ∈ stdSort compareEntryNames (dirEntries d inode),
      isAllocated d e.2 = true := fun e he => hent e (hperm.mem_iff.1 he)
  show (match stat d k with
    | .error e => _
    | .ok inode => _) = _
  rw [hs]
  simp only
  rw [hlist]
  exact ls_fold d junk fuel path _ hall _

set_option maxRecDepth 100000 in
theorem ls_directory_witness :
    Consistent dirImage
      ∧ stat dirImage 0 = .ok (inodeSlot dirImage 0)
      ∧ (∀ e ∈ dirEntries dirImage (inodeSlot dirImage 0), isAllocated dirImage e.2 = true)
      ∧ ∃ L : List (List Nat × Int),
        L.Perm (dirEntries dirImage (inodeSlot dirImage 0)) ∧ L.Sorted (fun a b => a.1 ≤ b.1)
          ∧ printDirectoryContents (1 + 1) dirImage (fun _ => 0) 0 [47] =
            [68, 105, 114, 101, 99, 116, 111, 114, 121, 32] ++ [47] ++ [10]
              ++ L.flatMap (fun e => showInt e.2 ++ [9] ++ e.1 ++ [10]) ++ [10]
              ++ L.flatMap (fun e =>
                if isDirectory dirImage e.2 = true ∧ e.1 ≠ [46] ∧ e.1 ≠ [46, 46] then
                  printDirectoryContents 1 dirImage (fun _ => 0) e.2 ([47] ++ e.1 ++ [47])
                else []) :=
  ⟨dirImage_consistent, dirImage_root, by decide,
    ls_directory 1 dirImage (fun _ => 0) 0 [47] (inodeSlot dirImage 0) dirImage_consistent
      dirImage_root (by decide)⟩

set_option maxRecDepth 100000 in
/-- C30, counterexample to the claim as stated.  The root directory of the
freshly formatted image has no entry other than `.` and `..`; the listing
nevertheless holds the two lines `0\t.` and `0\t..` between the header
`Directory /` and the empty line. -/
theorem ls_prints_dot_entries :
    Consistent mkfsImage
      ∧ (dirEntries mkfsImage (inodeSlot mkfsImage 0)).filter
          (fun e => decide (e.1 ≠ [46] ∧ e.1 ≠ [46, 46])) = []
      ∧ printDirectoryContents 1 mkfsImage (fun _ => 0) 0 [47]
          = [68, 105, 114, 101, 99, 116, 111, 114, 121, 32, 47, 10]
            ++ ([48, 9, 46, 10] ++ [48, 9, 46, 46, 10]) ++ [10] :=
  ⟨mkfsImage_consistent, by decide, by decide⟩

/-- C36.  First-fit allocation, on a consistent image.  A `create` (with a type
argument in the range of `int`) that returns an inode number `k` whose
inode-bitmap bit was clear returns the smallest index below `num_inodes` whose
inode-bitmap bit is clear; the data blocks it allocates are the
`createBlocks type parent` lowest-numbered clear bits of the data bitmap as it
was before the call: the first of them is the new block of the parent (when
the size of the parent is a multiple of the block size), the last the block of
the new directory, and when both are allocated the block of the parent is the
lower one.  A successful `write(i, buf, s)` stores in `direct[0 ..
ceil(s / UFS_BLOCK_SIZE))` the `ceil(s / UFS_BLOCK_SIZE)` lowest-numbered clear
bits of the data bitmap as it was before the call, in increasing order. -/
theorem first_fit_allocation (d : Disk) (junk : Bytes) (hc : Consistent d) :
    (∀ (p type : Int) (name : List Nat) (k : Int) (D : Disk),
        -2147483648 ≤ type ∧ type < 2147483648 →
        create d junk p type name = (k, D) → 0 ≤ k → inodeBit d k.toNat = false →
        ∃ parent, stat d p = .ok parent
          ∧ firstFreeInode d = some k.toNat
          ∧ (lowestClear d (createBlocks type parent)).length = createBlocks type parent
          ∧ (∀ b : Nat, (b : Int) < (readSuperBlock d).num_data →
              (dataBit D b = true ↔
                b ∈ lowestClear d (createBlocks type parent) ∨ dataBit d b = true))
          ∧ (parent.size % UFS_BLOCK_SIZE = 0 →
              ((inodeSlot D p.toNat).direct (parent.size / UFS_BLOCK_SIZE).toNat : Int) =
                ((lowestClear d (createBlocks type parent)).getD 0 0 : Int)
                  + (readSuperBlock d).data_region_addr)
          ∧ (type = UFS_DIRECTORY →
              ((inodeSlot D k.toNat).direct 0 : Int) =
                ((lowestClear d (createBlocks type parent)).getD
                    (createBlocks type parent - 1) 0 : Int)
                  + (readSuperBlock d).data_region_addr)
          ∧ (parent.size % UFS_BLOCK_SIZE = 0 → type = UFS_DIRECTORY →
              (lowestClear d (createBlocks type parent)).getD 0 0 <
                (lowestClear d (createBlocks type parent)).getD
                  (createBlocks type parent - 1) 0))
      ∧ (∀ (inodeNumber : Int) (buffer : Bytes) (size : Int),
          0 ≤ (write d junk inodeNumber buffer size).1 →
          ∃ inode, stat d inodeNumber = .ok inode
            ∧ ((lowestClear d (blocksFor size).toNat).length : Int) = blocksFor size
            ∧ stat (write d junk inodeNumber buffer size).2 inodeNumber =
                .ok (writtenInode (readSuperBlock d) inode.type size
                  (lowestClear d (blocksFor size).toNat))) := by
  have hl := hc.1
  constructor
  · intro p type name k D hty hcr hk0 hnew
    have hk : (create d junk p type name).1 = k := by rw [hcr]
    have hD : (create d junk p type name).2 = D := by rw [hcr]
    have hok : 0 ≤ (create d junk p type name).1 := by rw [hk]; exact hk0
    obtain ⟨parent, h1, hs, ht, hn⟩ := create_success_parent d junk p type name hok
    have e1 := create_of_directory d junk p type name parent h1 hs ht
    by_cases hf : lookup d junk p name ≠ -ENOTFOUND
    · exfalso
      rw [if_pos hf] at e1
      cases hst : stat d (lookup d junk p name) with
      | error e =>
        rw [hst] at e1
        simp only at e1
        rw [e1] at hok
        exact absurd hok (by decide : ¬ (0 : Int) ≤ -EINVALIDINODE)
      | ok ino =>
        rw [hst] at e1
        simp only at e1
        by_cases hty2 : ino.type = type
        · rw [if_pos hty2] at e1
          rw [e1] at hk
          simp only at hk
          have := (stat_iff_slot d hl _ _).1 hst
          rw [hk, hnew] at this
          exact absurd this.2.2.1 (by decide)
        · rw [if_neg hty2] at e1
          rw [e1] at hok
          exact absurd hok (by decide : ¬ (0 : Int) ≤ -EINVALIDTYPE)
    · rw [if_neg hf] at e1
      rw [e1] at hok hk hD
      obtain ⟨k2, avail, D2, f1, ⟨g0, g1, g2, g3⟩, ⟨hlen, hmem, hnd⟩, ⟨hz0, hz32, hz1⟩, hsup,
        hP, hK, hib, hdb, hsl, hav, hkq⟩ :=
        createFresh_frame_scan d junk p type name parent hc hs (not_not.1 ht) hty hok
      rw [f1] at hk hD
      simp only at hk hD
      subst hk
      subst hD
      have hcb : createBlocks type parent =
          (if type = UFS_DIRECTORY then 1 else 0) + (if parent.size % 4096 = 0 then 1 else 0) := by
        unfold createBlocks
        simp only [UFS_BLOCK_SIZE]
        push_cast
        rfl
      have hlc : lowestClear d (createBlocks type parent) = avail := by
        rw [lowestClear_eq d hl, hcb, ← hav]
      have hfirst : firstFreeInode d = some k2.toNat := by
        have := firstFreeInode_eq d hl
        rw [← hkq] at this
        cases hfi : firstFreeInode d with
        | none =>
          rw [hfi] at this
          simp only at this
          omega
        | some i =>
          rw [hfi] at this
          simp only at this
          rw [this]
          rfl
      have hsz : (parent.size % (UFS_BLOCK_SIZE : Nat) = 0) = (parent.size % 4096 = 0) := by
        simp only [UFS_BLOCK_SIZE]
        push_cast
        rfl
      refine ⟨parent, hs, hfirst, ?_, ?_, ?_, ?_, ?_⟩
      · rw [hlc, hlen, hcb]
      · intro b hb
        rw [hlc]
        exact hdb b hb
      · intro hoff
        rw [hsz] at hoff
        rw [hlc, hP]
        simp only [UFS_BLOCK_SIZE]
        push_cast
        rw [if_pos ⟨hoff, rfl⟩]
        have hpos : 0 < avail.length := by rw [hlen, if_pos hoff]; omega
        exact (fresh_ptr d _ hl (hmem _ (getD_mem avail 0 hpos)).1).1
      · intro hdir
        rw [hlc, hK, createInode_direct, if_pos ⟨hdir, rfl⟩, hcb, ← hlen]
        have hpos : avail.length - 1 < avail.length := by rw [hlen, if_pos hdir]; omega
        exact (fresh_ptr d _ hl (hmem _ (getD_mem avail _ hpos)).1).1
      · intro hoff hdir
        rw [hsz] at hoff
        have h2 : createBlocks type parent = 2 := by rw [hcb, if_pos hoff, if_pos hdir]
        have := lowestClear_lt d (createBlocks type parent) 0 (createBlocks type parent - 1)
          (by omega) (by rw [hlc, hlen, ← hcb]; omega)
        exact this
  · intro inodeNumber buffer size hok
    obtain ⟨inode, avail, hs, -, hs0, -, hav, hlen, -, -, -, hst, -⟩ :=
      write_success d junk inodeNumber buffer size hl hok
    refine ⟨inode, hs, ?_, ?_⟩
    · rw [lowestClear_eq d hl, ← hav, hlen]
    · rw [lowestClear_eq d hl, ← hav]
      exact hst

set_option maxRecDepth 100000 in
theorem first_fit_allocation_witness :
    Consistent mkfsImage
      ∧ ((-2147483648 : Int) ≤ UFS_DIRECTORY ∧ (UFS_DIRECTORY : Int) < 2147483648)
      ∧ 0 ≤ (create mkfsImage (fun _ => 0) 0 UFS_DIRECTORY [97]).1
      ∧ inodeBit mkfsImage (create mkfsImage (fun _ => 0) 0 UFS_DIRECTORY [97]).1.toNat = false
      ∧ (∃ parent, stat mkfsImage 0 = .ok parent
          ∧ firstFreeInode mkfsImage
              = some (create mkfsImage (fun _ => 0) 0 UFS_DIRECTORY [97]).1.toNat
          ∧ (lowestClear mkfsImage (createBlocks UFS_DIRECTORY parent)).length
              = createBlocks UFS_DIRECTORY parent
          ∧ (∀ b : Nat, (b : Int) < (readSuperBlock mkfsImage).num_data →
              (dataBit (create mkfsImage (fun _ => 0) 0 UFS_DIRECTORY [97]).2 b = true ↔
                b ∈ lowestClear mkfsImage (createBlocks UFS_DIRECTORY parent)
                  ∨ dataBit mkfsImage b = true))
          ∧ (parent.size % UFS_BLOCK_SIZE = 0 →
              ((inodeSlot (create mkfsImage (fun _ => 0) 0 UFS_DIRECTORY [97]).2
                  (0 : Int).toNat).direct (parent.size / UFS_BLOCK_SIZE).toNat : Int) =
                ((lowestClear mkfsImage (createBlocks UFS_DIRECTORY parent)).getD 0 0 : Int)
                  + (readSuperBlock mkfsImage).data_region_addr)
          ∧ ((UFS_DIRECTORY : Int) = UFS_DIRECTORY →
              ((inodeSlot (create mkfsImage (fun _ => 0) 0 UFS_DIRECTORY [97]).2
                  (create mkfsImage (fun _ => 0) 0 UFS_DIRECTORY [97]).1.toNat).direct 0 : Int) =
                ((lowestClear mkfsImage (createBlocks UFS_DIRECTORY parent)).getD
                    (createBlocks UFS_DIRECTORY parent - 1) 0 : Int)
                  + (readSuperBlock mkfsImage).data_region_addr)
          ∧ (parent.size % UFS_BLOCK_SIZE = 0 → (UFS_DIRECTORY : Int) = UFS_DIRECTORY →
              (lowestClear mkfsImage (createBlocks UFS_DIRECTORY parent)).getD 0 0 <
                (lowestClear mkfsImage (createBlocks UFS_DIRECTORY parent)).getD
                  (createBlocks UFS_DIRECTORY parent - 1) 0))
      ∧ Consistent fileImage
      ∧ 0 ≤ (write fileImage (fun _ => 0) 1 (bytesOfList [104, 105]) 2).1
      ∧ (∃ inode, stat fileImage 1 = .ok inode
          ∧ ((lowestClear fileImage (blocksFor 2).toNat).length : Int) = blocksFor 2
          ∧ stat (write fileImage (fun _ => 0) 1 (bytesOfList [104, 105]) 2).2 1 =
              .ok (writtenInode (readSuperBlock fileImage) inode.type 2
                (lowestClear fileImage (blocksFor 2).toNat))) :=
  ⟨mkfsImage_consistent, by decide, by decide, by decide,
    (first_fit_allocation mkfsImage (fun _ => 0) mkfsImage_consistent).1 0 UFS_DIRECTORY [97]
      _ _ (by decide) rfl (by decide) (by decide),
    fileImage_consistent, by decide,
    (first_fit_allocation fileImage (fun _ => 0) fileImage_consistent).2 1
      (bytesOfList [104, 105]) 2 (by decide)⟩

/-- C33.  On every image whose superblock describes a well-formed layout and
that satisfies the bitmap-consistency invariant (every non-zero direct pointer
of every allocated inode names a data block whose data-bitmap bit is set, and
no two allocated inodes name the same block), after a successful
`write(i, buf, s)`, for every other allocated inode `j`: `stat(j)` returns the
same record as before, and `read(j, ., MAX_FILE_SIZE)` returns the same value
and leaves the same bytes in the buffer of the caller as before. -/
theorem write_frame_other_files (d : Disk) (junk : Bytes) (inodeNumber : Int)
    (buffer : Bytes) (size : Int) (hl : LayoutOk (readSuperBlock d)) (hb : BitmapOk d)
    (hok : 0 ≤ (write d junk inodeNumber buffer size).1)
    (j : Int) (hj : j ≠ inodeNumber) (ino : inode_t) (hs : stat d j = .ok ino) :
    stat (write d junk inodeNumber buffer size).2 j = .ok ino
      ∧ ∀ buf : Bytes,
        read (write d junk inodeNumber buffer size).2 j buf MAX_FILE_SIZE =
          read d j buf MAX_FILE_SIZE := by
  obtain ⟨inode, avail, -, hclr, -, hsup, -, hoth, hlow, hframe⟩ :=
    write_layout_frame d junk inodeNumber buffer size hl hok
  have hsj : stat (write d junk inodeNumber buffer size).2 j = .ok ino := by
    rw [hoth j hj, hs]
  refine ⟨hsj, fun buf => ?_⟩
  rw [read_ok _ j buf _ ino hsj (by decide) (le_refl _),
    read_ok d j buf _ ino hs (by decide) (le_refl _)]
  rw [Prod.mk.injEq]
  refine ⟨rfl, funext fun x => ?_⟩
  by_cases hx : (x : Int) < min (MAX_FILE_SIZE : Int) ino.size
  · rw [if_pos hx, if_pos hx]
    unfold fileBytes
    have hx30 : x / 4096 < 30 := by
      have := lt_of_lt_of_le hx (min_le_left _ _)
      simp only [MAX_FILE_SIZE, DIRECT_PTRS, UFS_BLOCK_SIZE] at this
      push_cast at this
      omega
    obtain ⟨j0, j1, jbit, jslot⟩ := (stat_iff_slot d hl j ino).1 hs
    obtain ⟨l1, l2, l3, l4, l5, l6, l7, l8, l9, l10, l11, l12, l13⟩ := hl
    simp only [UFS_BLOCK_SIZE]
    by_cases hz : ino.direct (x / 4096) = 0
    · rw [hz]
      have : toS32 0 = 0 := by decide
      rw [this, hlow 0 (by omega)]
    · have h3 := hb.1 j.toNat (by omega) jbit (x / 4096) hx30 (by rw [← jslot]; exact hz)
      rw [← jslot] at h3
      have hs32 : toS32 (ino.direct (x / 4096)) = (ino.direct (x / 4096) : Int) := by
        unfold toS32
        rw [if_pos (by omega)]
      rw [hs32, hframe _ h3.1]
      intro b hbm hcon
      have h4 := (hclr b hbm).2
      have : ((ino.direct (x / 4096) : Int) - (readSuperBlock d).data_region_addr).toNat = b := by
        omega
      rw [this, h4] at h3
      exact absurd h3.2.2 (by decide)
  · rw [if_neg hx, if_neg hx]

set_option maxRecDepth 100000 in
theorem write_frame_other_files_witness :
    LayoutOk (readSuperBlock fileImage) ∧ BitmapOk fileImage
      ∧ 0 ≤ (write fileImage (fun _ => 0) 1 (bytesOfList [104, 105]) 2).1
      ∧ (0 : Int) ≠ 1
      ∧ stat fileImage 0 = .ok (inodeSlot fileImage 0)
      ∧ stat (write fileImage (fun _ => 0) 1 (bytesOfList [104, 105]) 2).2 0
          = .ok (inodeSlot fileImage 0)
      ∧ ∀ buf : Bytes,
        read (write fileImage (fun _ => 0) 1 (bytesOfList [104, 105]) 2).2 0 buf MAX_FILE_SIZE =
          read fileImage 0 buf MAX_FILE_SIZE :=
  ⟨fileImage_layout, bitmapOk_of_consistent _ fileImage_consistent, by decide, by decide,
    fileImage_root,
    write_frame_other_files fileImage (fun _ => 0) 1 (bytesOfList [104, 105]) 2 fileImage_layout
      (bitmapOk_of_consistent _ fileImage_consistent) (by decide) 0 (by decide) _ fileImage_root⟩

/-- C35.  On every image in which every allocated inode has a size in
`[0, MAX_FILE_SIZE]`: every index into `inode.direct[]` made by `read`, for
every number of iterations of its loop that is followed, is smaller than
`DIRECT_PTRS`, and the loop has ended after `DIRECT_PTRS` iterations; every
index made by `write` is smaller than `DIRECT_PTRS`; and every index made by
`create` (`parent.direct[parent.size / UFS_BLOCK_SIZE]`, the indices of the
loop that clears the new inode, and `direct[0]` of the new inode) lies in
`[0, DIRECT_PTRS)`.  No index is made on arguments for which the operation
returns an error before the access. -/
theorem direct_index_in_bounds (d : Disk) (junk : Bytes)
    (hsz : ∀ (i : Int) (ino : inode_t), stat d i = .ok ino →
      0 ≤ ino.size ∧ ino.size ≤ MAX_FILE_SIZE) :
    (∀ (fuel : Nat) (inodeNumber size : Int),
        (∀ k ∈ readIndices fuel d inodeNumber size, k < DIRECT_PTRS)
        ∧ (DIRECT_PTRS ≤ fuel →
            readIndices fuel d inodeNumber size = readIndices DIRECT_PTRS d inodeNumber size))
      ∧ (∀ (inodeNumber size : Int), ∀ k ∈ writeIndices d inodeNumber size, k < DIRECT_PTRS)
      ∧ (∀ (p type : Int) (name : List Nat), ∀ k ∈ createIndices d junk p type name,
          0 ≤ k ∧ k < DIRECT_PTRS) := by
  refine ⟨?_, ?_, ?_⟩
  · intro fuel inodeNumber size
    unfold readIndices
    by_cases hsize : size < 0 ∨ size > MAX_FILE_SIZE
    · rw [if_pos hsize, if_pos hsize]
      exact ⟨fun k hk => by simp at hk, fun _ => rfl⟩
    · rw [if_neg hsize, if_neg hsize]
      cases hs : stat d inodeNumber with
      | error e => exact ⟨fun k hk => by simp at hk, fun _ => rfl⟩
      | ok inode =>
        simp only
        have hb : min size inode.size ≤ 4096 * 30 := by
          have := min_le_left size inode.size
          simp only [MAX_FILE_SIZE, DIRECT_PTRS, UFS_BLOCK_SIZE] at hsize
          push_cast at hsize
          omega
        refine ⟨fun k hk => ?_, fun hf => ?_⟩
        · exact readLoopIndices_lt fuel 0 _ (by omega) (by push_cast; omega) k hk
        · obtain ⟨e, rfl⟩ : ∃ e, fuel = DIRECT_PTRS + e := ⟨fuel - DIRECT_PTRS, by omega⟩
          exact readLoopIndices_fuel DIRECT_PTRS e 0 _ (by simp only [DIRECT_PTRS]; push_cast; omega)
  · intro inodeNumber size k hk
    unfold writeIndices at hk
    cases hs : stat d inodeNumber with
    | error e =>
      rw [hs] at hk
      simp at hk
    | ok inode =>
      rw [hs] at hk
      simp only at hk
      by_cases hsize : size < 0 ∨ size > MAX_FILE_SIZE
      · rw [if_pos hsize] at hk
        simp at hk
      · rw [if_neg hsize] at hk
        by_cases hty : inode.type ≠ UFS_REGULAR_FILE
        · rw [if_pos hty] at hk
          simp at hk
        · rw [if_neg hty] at hk
          have hbn : 0 ≤ blocksNeededFor size ∧ blocksNeededFor size ≤ 30 := by
            unfold blocksNeededFor
            simp only [MAX_FILE_SIZE, DIRECT_PTRS, UFS_BLOCK_SIZE] at hsize ⊢
            push_cast at hsize ⊢
            split_ifs <;> omega
          rw [writeScan_eq _ _ hbn.1] at hk
          simp only at hk
          split_ifs at hk with h1
          · simp at hk
          · rcases List.mem_append.1 hk with h | h
            · exact List.mem_range.1 h
            · have h2 := List.mem_range.1 h
              have h3 := List.length_take_le (blocksNeededFor size).toNat
                (clearBits (readDataBitmap d (readSuperBlock d))
                  (readSuperBlock d).num_data.toNat)
              simp only [DIRECT_PTRS]
              omega
  · intro p type name k hk
    unfold createIndices at hk
    by_cases hn : name.length > DIR_ENT_NAME_SIZE ∨ name.length = 0
    · rw [if_pos hn] at hk
      simp at hk
    · rw [if_neg hn] at hk
      cases hs : stat d p with
      | error e =>
        rw [hs] at hk
        simp at hk
      | ok parent =>
        rw [hs] at hk
        simp only at hk
        obtain ⟨z0, z1⟩ := hsz p parent hs
        simp only [MAX_FILE_SIZE, DIRECT_PTRS, UFS_BLOCK_SIZE] at z1
        push_cast at z1
        split_ifs at hk with h1 h2 h3 h4
        all_goals first
          | (exfalso; exact List.not_mem_nil _ hk)
          | exact createCommitIndices_lt type parent z0 z1 h4 k hk

set_option maxRecDepth 100000 in
theorem direct_index_in_bounds_witness :
    (∀ (i : Int) (ino : inode_t), stat fileImage i = .ok ino →
        0 ≤ ino.size ∧ ino.size ≤ MAX_FILE_SIZE)
      ∧ (0 ∈ readIndices 31 fileImage 0 96 ∧ 0 < DIRECT_PTRS)
      ∧ (DIRECT_PTRS ≤ 31 ∧ readIndices 31 fileImage 0 96 = readIndices DIRECT_PTRS fileImage 0 96)
      ∧ (29 ∈ writeIndices fileImage 1 2 ∧ 29 < DIRECT_PTRS)
      ∧ (0 ∈ createIndices fileImage (fun _ => 0) 0 UFS_DIRECTORY [98]
          ∧ (0 : Int) ≤ 0 ∧ (0 : Int) < DIRECT_PTRS) :=
  ⟨sizes_of_consistent fileImage fileImage_consistent,
    ⟨by decide,
      ((direct_index_in_bounds fileImage (fun _ => 0)
        (sizes_of_consistent fileImage fileImage_consistent)).1 31 0 96).1 0 (by decide)⟩,
    ⟨by decide,
      ((direct_index_in_bounds fileImage (fun _ => 0)
        (sizes_of_consistent fileImage fileImage_consistent)).1 31 0 96).2 (by decide)⟩,
    ⟨by decide,
      (direct_index_in_bounds fileImage (fun _ => 0)
        (sizes_of_consistent fileImage fileImage_consistent)).2.1 1 2 29 (by decide)⟩,
    ⟨by decide,
      (direct_index_in_bounds fileImage (fun _ => 0)
        (sizes_of_consistent fileImage fileImage_consistent)).2.2 0 UFS_DIRECTORY [98] 0
        (by decide)⟩⟩

/-- C32, as amended.  On a consistent image, for an allocated directory `p`, a
type `t` in the range of `int` and a name `n` whose C string is the name of no
entry of `p`: if `create(p, t, n)` returns an inode number and the following
`unlink(p, n)` returns 0, then the inode bitmap and `stat(p).size` are equal to
their values before the `create`; when `p.size % UFS_BLOCK_SIZE` was not 0 the
data bitmap is equal to its value before the `create` as well; and when
`p.size % UFS_BLOCK_SIZE` was 0 the data bitmap differs from its value before
the `create` in exactly one bit, which was clear and is set: the bit of the
block that `create` gave to `p`, the lowest-numbered free block. -/
theorem create_unlink_restores (d : Disk) (junk junk2 : Bytes) (p type : Int)
    (name : List Nat) (parent : inode_t) (hc : Consistent d) (hs : stat d p = .ok parent)
    (htd : parent.type = UFS_DIRECTORY)
    (hty : -2147483648 ≤ type ∧ type < 2147483648)
    (habs : ∀ i, i < parent.size.toNat / SIZEOF_DIR_ENT →
      entryName (fileBytes d parent) i ≠ cstr name)
    (hok : 0 ≤ (create d junk p type name).1)
    (hu : (unlink (create d junk p type name).2 junk2 p name).1 = 0) :
    (∀ x : Nat, (x : Int) < (readSuperBlock d).num_inodes →
        inodeBit (unlink (create d junk p type name).2 junk2 p name).2 x = inodeBit d x)
      ∧ (∃ P, stat (unlink (create d junk p type name).2 junk2 p name).2 p = .ok P
          ∧ P.size = parent.size)
      ∧ (parent.size % UFS_BLOCK_SIZE ≠ 0 →
          ∀ b : Nat, (b : Int) < (readSuperBlock d).num_data →
            dataBit (unlink (create d junk p type name).2 junk2 p name).2 b = dataBit d b)
      ∧ (parent.size % UFS_BLOCK_SIZE = 0 →
          ((lowestClear d (createBlocks type parent)).getD 0 0 : Int) < (readSuperBlock d).num_data
            ∧ dataBit d ((lowestClear d (createBlocks type parent)).getD 0 0) = false
            ∧ dataBit (unlink (create d junk p type name).2 junk2 p name).2
                ((lowestClear d (createBlocks type parent)).getD 0 0) = true
            ∧ ∀ b : Nat, (b : Int) < (readSuperBlock d).num_data →
                b ≠ (lowestClear d (createBlocks type parent)).getD 0 0 →
                dataBit (unlink (create d junk p type name).2 junk2 p name).2 b =
                  dataBit d b) := by
  obtain ⟨h1, h2, h3, h4⟩ :=
    create_unlink_bits d junk junk2 p type name parent hc hs htd hty habs hok hu
  have hsz : (parent.size % (UFS_BLOCK_SIZE : Nat) = 0) = (parent.size % 4096 = 0) := by
    simp only [UFS_BLOCK_SIZE]
    push_cast
    rfl
  refine ⟨h1, h2, ?_, ?_⟩
  · intro hoff b hb
    rw [ne_eq, hsz] at hoff
    rw [Bool.eq_iff_iff, h3 b hb]
    constructor
    · rintro (⟨h, -⟩ | h)
      · exact absurd h hoff
      · exact h
    · exact fun h => Or.inr h
  · intro hoff
    rw [hsz] at hoff
    refine ⟨(h4 hoff).1, (h4 hoff).2, ?_, ?_⟩
    · exact (h3 _ (h4 hoff).1).2 (Or.inl ⟨hoff, rfl⟩)
    · intro b hb hne
      rw [Bool.eq_iff_iff, h3 b hb]
      constructor
      · rintro (⟨-, h⟩ | h)
        · exact absurd h hne
        · exact h
      · exact fun h => Or.inr h

set_option maxRecDepth 100000 in
theorem create_unlink_restores_witness :
    Consistent fileImage
      ∧ stat fileImage 0 = .ok (inodeSlot fileImage 0)
      ∧ (inodeSlot fileImage 0).type = UFS_DIRECTORY
      ∧ ((-2147483648 : Int) ≤ UFS_DIRECTORY ∧ (UFS_DIRECTORY : Int) < 2147483648)
      ∧ (∀ i, i < (inodeSlot fileImage 0).size.toNat / SIZEOF_DIR_ENT →
          entryName (fileBytes fileImage (inodeSlot fileImage 0)) i ≠ cstr [98])
      ∧ 0 ≤ (create fileImage (fun _ => 0) 0 UFS_DIRECTORY [98]).1
      ∧ (unlink (create fileImage (fun _ => 0) 0 UFS_DIRECTORY [98]).2 (fun _ => 0) 0 [98]).1 = 0
      ∧ (∀ x : Nat, (x : Int) < (readSuperBlock fileImage).num_inodes →
          inodeBit (unlink (create fileImage (fun _ => 0) 0 UFS_DIRECTORY [98]).2
            (fun _ => 0) 0 [98]).2 x = inodeBit fileImage x)
      ∧ (∃ P, stat (unlink (create fileImage (fun _ => 0) 0 UFS_DIRECTORY [98]).2
            (fun _ => 0) 0 [98]).2 0 = .ok P
          ∧ P.size = (inodeSlot fileImage 0).size)
      ∧ (inodeSlot fileImage 0).size % UFS_BLOCK_SIZE ≠ 0
      ∧ (∀ b : Nat, (b : Int) < (readSuperBlock fileImage).num_data →
          dataBit (unlink (create fileImage (fun _ => 0) 0 UFS_DIRECTORY [98]).2
            (fun _ => 0) 0 [98]).2 b = dataBit fileImage b) :=
  ⟨fileImage_consistent, fileImage_root, by decide, by decide, by decide, by decide,
    unlink_created_ok fileImage (fun _ => 0) (fun _ => 0) 0 UFS_DIRECTORY [98] _
      fileImage_consistent fileImage_root (by decide) (by decide) (by decide) (by decide)
      (by decide) (by decide) (by decide),
    (create_unlink_restores fileImage (fun _ => 0) (fun _ => 0) 0 UFS_DIRECTORY [98] _
      fileImage_consistent fileImage_root (by decide) (by decide) (by decide) (by decide)
      (unlink_created_ok fileImage (fun _ => 0) (fun _ => 0) 0 UFS_DIRECTORY [98] _
        fileImage_consistent fileImage_root (by decide) (by decide) (by decide) (by decide)
        (by decide) (by decide) (by decide))).1,
    (create_unlink_restores fileImage (fun _ => 0) (fun _ => 0) 0 UFS_DIRECTORY [98] _
      fileImage_consistent fileImage_root (by decide) (by decide) (by decide) (by decide)
      (unlink_created_ok fileImage (fun _ => 0) (fun _ => 0) 0 UFS_DIRECTORY [98] _
        fileImage_consistent fileImage_root (by decide) (by decide) (by decide) (by decide)
        (by decide) (by decide) (by decide))).2.1,
    by decide,
    (create_unlink_restores fileImage (fun _ => 0) (fun _ => 0) 0 UFS_DIRECTORY [98] _
      fileImage_consistent fileImage_root (by decide) (by decide) (by decide) (by decide)
      (unlink_created_ok fileImage (fun _ => 0) (fun _ => 0) 0 UFS_DIRECTORY [98] _
        fileImage_consistent fileImage_root (by decide) (by decide) (by decide) (by decide)
        (by decide) (by decide) (by decide))).2.2.1 (by decide)⟩

set_option maxRecDepth 100000 in
/-- C32, counterexample to the claim as stated.  `brimImage` is consistent; its
root directory has the size 4096, a multiple of the block size, and no entry
named `zz`.  `create(0, UFS_REGULAR_FILE, "zz")` returns 127, the number of an
inode that was free, and gives the free data block 1 to the root; the
following `unlink(0, "zz")` returns 0.  Bit 1 of the data bitmap was clear
before the `create` and is set after the `unlink`: `unlink` does not give the
block of the directory back. -/
theorem create_unlink_keeps_parent_block :
    Consistent brimImage
      ∧ stat brimImage 0 = .ok (inodeSlot brimImage 0)
      ∧ (inodeSlot brimImage 0).type = UFS_DIRECTORY
      ∧ (inodeSlot brimImage 0).size = 4096
      ∧ (∀ e ∈ dirEntries brimImage (inodeSlot brimImage 0), e.1 ≠ [122, 122])
      ∧ (create brimImage (fun _ => 0) 0 UFS_REGULAR_FILE [122, 122]).1 = 127
      ∧ inodeBit brimImage 127 = false
      ∧ (unlink (create brimImage (fun _ => 0) 0 UFS_REGULAR_FILE [122, 122]).2
          (fun _ => 0) 0 [122, 122]).1 = 0
      ∧ dataBit brimImage 1 = false
      ∧ dataBit (unlink (create brimImage (fun _ => 0) 0 UFS_REGULAR_FILE [122, 122]).2
          (fun _ => 0) 0 [122, 122]).2 1 = true := by
  have hok : 0 ≤ (create brimImage (fun _ => 0) 0 UFS_REGULAR_FILE [122, 122]).1 := by decide
  have hu := unlink_created_ok brimImage (fun _ => 0) (fun _ => 0) 0 UFS_REGULAR_FILE
    [122, 122] _ brimImage_consistent brimImage_root (by decide) (by decide) brimImage_absent
    hok (by decide) (by decide) (by decide)
  have hb := (create_unlink_bits brimImage (fun _ => 0) (fun _ => 0) 0 UFS_REGULAR_FILE
    [122, 122] _ brimImage_consistent brimImage_root (by decide) (by decide) brimImage_absent
    hok hu).2.2.1 1 (by decide)
  refine ⟨brimImage_consistent, brimImage_root, by decide, by decide, ?_, by decide, by decide,
    hu, by decide, ?_⟩
  · intro e he
    obtain ⟨i, hi, rfl⟩ := (mem_dirEntries _ _ _).1 he
    exact brimImage_absent i hi
  · exact hb.2 (Or.inl ⟨by decide, by decide⟩)

set_option maxRecDepth 100000 in
/-- C31, at the failing input.  `nulImage` is consistent and inode 1 is an
allocated regular file of size 3 whose bytes, as `read` returns them, are `h`,
NUL and `i`.  What is asked is `File blocks`, the line `6`, an empty line,
`File data` and these three bytes; `main` of `ds3cat` returns 0 and prints
`File blocks`, the line `6`, an empty line, `File data` and the single byte
`h`: the data is printed as a C string and stops at the NUL byte. -/
theorem catdump_stops_at_nul :
    Consistent nulImage
      ∧ stat nulImage 1 = .ok (inodeSlot nulImage 1)
      ∧ (inodeSlot nulImage 1).size = 3
      ∧ (read nulImage 1 (fun _ => 0) 3).1 = 3
      ∧ (List.range 3).map (read nulImage 1 (fun _ => 0) 3).2 = [104, 0, 105]
      ∧ catdumpRef nulImage (fun _ => 0) 1 (inodeSlot nulImage 1)
          = [70, 105, 108, 101, 32, 98, 108, 111, 99, 107, 115, 10] ++ [54, 10] ++ [10]
            ++ [70, 105, 108, 101, 32, 100, 97, 116, 97, 10] ++ [104, 0, 105]
      ∧ ds3cat_main nulImage (fun _ => 0) 1
          = (0, [70, 105, 108, 101, 32, 98, 108, 111, 99, 107, 115, 10] ++ [54, 10] ++ [10]
            ++ [70, 105, 108, 101, 32, 100, 97, 116, 97, 10] ++ [104]) := by
  have hl : LayoutOk (readSuperBlock nulImage) :=
    ⟨by decide, by decide, by decide, by decide, by decide, by decide, by decide, by decide,
      by decide, by decide, by decide, by decide, by decide⟩
  refine ⟨⟨hl, by decide, by decide⟩,
    (stat_eq_ok_iff _ _ _).2 ⟨by decide, by decide, by decide,
      (readInodeRegion_layout nulImage 1 hl (by decide)).symm⟩,
    by decide, by decide, by decide, by decide, ?_⟩
  exact Prod.ext (by decide) (by decide)

end LocalFileSystem
